import Mathlib

/-!
netscreen-to-mikrotik: object store, service catalog and rule compiler.

A shallow embedding of `objects.go`, `services.go`, `policy.go`, `build_mtk.go`
and the directive handlers of `parse.go`, followed by theorems about them.

Conventions of the embedding
* A Go map with string keys is a function `String → Option α`; `none` is an
  absent key.
* A `*net.IPNet` is an `Option IPNet`; `none` is the nil pointer.
* A Go `[]byte` (`net.IP`, `net.IPMask`) is a `List Nat`; the nil slice is `[]`.
* A computation that can panic, or recurse without bound, returns a `Res`:
  `Res.panic` is a Go panic, `Res.outOfFuel` says that the recursion budget given
  to `Objects.Lookup` did not suffice.
* Go iterates over a map in an unspecified order; the order is supplied by a
  `MapOrder`.
* `net.ParseIP` and `net.ResolveIPAddr` are supplied by a `NetEnv`.
-/

namespace Netscreen

/-! ## Results of fallible computations -/

/-- Outcome of a computation: a value, a Go panic, or an exhausted recursion budget. -/
inductive Res (α : Type) where
  | ok (a : α) : Res α
  | panic (msg : String) : Res α
  | outOfFuel : Res α
  deriving DecidableEq, Repr

namespace Res

/-- Sequencing: the first panic or budget exhaustion ends the computation. -/
def bind {α β : Type} (r : Res α) (f : α → Res β) : Res β :=
  match r with
  | ok a => f a
  | panic m => panic m
  | outOfFuel => outOfFuel

instance : Monad Res where
  pure := Res.ok
  bind := Res.bind

/-- The computation returned a value. -/
def isOk {α : Type} : Res α → Bool
  | ok _ => true
  | _ => false

/-- The computation ended in a Go panic. -/
def isPanic {α : Type} : Res α → Bool
  | panic _ => true
  | _ => false

end Res

/-- Message of Go's nil pointer dereference panic. -/
def nilDeref : String := "runtime error: invalid memory address or nil pointer dereference"

/-- Message of Go's index-out-of-range panic. -/
def indexOutOfRange : String := "runtime error: index out of range"

/-! ## Strings -/

/-- Go `strings.ToLower`, on the characters of the string: the letters `A` to
`Z` are lowered. The program only compares the result with "any", and no
character outside `A` to `Z` is lowered by Go to one of `a`, `n`, `y`. -/
def toLower (s : String) : String := ⟨s.data.map Char.toLower⟩

/-- Go `strings.HasPrefix`. -/
def startsWith (s p : String) : Bool := p.data.isPrefixOf s.data

/-- Go `strings.ReplaceAll` on character lists, for a non-empty `old`:
occurrences are replaced from left to right without overlap. The counter is
the number of characters of the current occurrence still to be skipped. -/
def replaceAllChars (old new : List Char) : Nat → List Char → List Char
  | _, [] => []
  | skip + 1, _ :: cs => replaceAllChars old new skip cs
  | 0, c :: cs =>
    if old.isPrefixOf (c :: cs) && !old.isEmpty then
      new ++ replaceAllChars old new (old.length - 1) cs
    else c :: replaceAllChars old new 0 cs

/-- Go `strings.ReplaceAll` (for a non-empty `old`). -/
def replaceAll (s old new : String) : String := ⟨replaceAllChars old.data new.data 0 s.data⟩

/-- Decimal digits of a natural number, most significant first. -/
def natDigits : Nat → Nat → List Char
  | 0, _ => []
  | fuel + 1, n =>
    if n < 10 then [Char.ofNat (48 + n)]
    else natDigits fuel (n / 10) ++ [Char.ofNat (48 + n % 10)]

/-- Go `strconv.Itoa` / the `%d` verb. -/
def itoa (i : Int) : String :=
  match i with
  | Int.ofNat n => ⟨natDigits (n + 1) n⟩
  | Int.negSucc n => ⟨'-' :: natDigits (n + 2) (n + 1)⟩

/-- Go `strings.Join`. -/
def join (xs : List String) (sep : String) : String := sep.intercalate xs

/-! ## Go's `net` package: addresses, masks and their text -/

/-- Go `net.IP`: a byte slice, nil being `[]`. -/
abbrev IP := List Nat

/-- Go `net.IPMask`. -/
abbrev IPMask := List Nat

/-- Go `net.IPNet`. -/
structure IPNet where
  IP : IP
  Mask : IPMask
  deriving DecidableEq, Repr

/-- Go `v4InV6Prefix`. -/
def v4InV6Prefix : List Nat := [0, 0, 0, 0, 0, 0, 0, 0, 0, 0, 255, 255]

/-- Go `net.IPv4`: the 16-byte form of an IPv4 address. -/
def IPv4 (a b c d : Nat) : IP := v4InV6Prefix ++ [a, b, c, d]

/-- Go `net.IPv4zero`. -/
def IPv4zero : IP := IPv4 0 0 0 0

/-- Go `net.IPv4bcast`. -/
def IPv4bcast : IP := IPv4 255 255 255 255

/-- Go `IP.Equal`: an IPv4 address and its 16-byte form are equal. -/
def ipEqual (ip x : IP) : Bool :=
  if ip.length = x.length then ip == x
  else if ip.length = 4 ∧ x.length = 16 then x.take 12 == v4InV6Prefix && ip == x.drop 12
  else if ip.length = 16 ∧ x.length = 4 then ip.take 12 == v4InV6Prefix && ip.drop 12 == x
  else false

/-- Go `IP.To4`; nil is `[]`. -/
def To4 (ip : IP) : IP :=
  if ip.length = 4 then ip
  else if ip.length = 16 ∧ ip.take 12 = v4InV6Prefix then ip.drop 12
  else []

/-- One lower-case hexadecimal digit. -/
def hexDigit (n : Nat) : Char :=
  if n < 10 then Char.ofNat (48 + n) else Char.ofNat (87 + n)

/-- Go `hexString`: two hexadecimal digits per byte. -/
def hexString (b : List Nat) : String :=
  ⟨b.flatMap fun v => [hexDigit (v / 16 % 16), hexDigit (v % 16)]⟩

/-- Go `IPMask.String`. -/
def maskString (m : IPMask) : String :=
  if m.length = 0 then "<nil>" else hexString m

/-- Number of leading one bits of a byte (the inner loop of `simpleMaskLength`). -/
def leadingOnes : Nat → Nat → Nat
  | 0, _ => 0
  | fuel + 1, v => if v / 128 % 2 = 1 then 1 + leadingOnes fuel (v * 2 % 256) else 0

/-- Go `simpleMaskLength`; `none` is the result -1. -/
def simpleMaskLength : IPMask → Option Nat
  | [] => some 0
  | v :: rest =>
    if v = 255 then (simpleMaskLength rest).map (· + 8)
    else
      let n := leadingOnes 8 v
      if v * 2 ^ n % 256 ≠ 0 then none
      else if rest.all (· == 0) then some n else none

/-- Hexadecimal digits of a 16-bit group without leading zeros (`appendHex`). -/
def hexGroup (g : Nat) : List Char :=
  if g ≥ 4096 then [hexDigit (g / 4096 % 16), hexDigit (g / 256 % 16), hexDigit (g / 16 % 16), hexDigit (g % 16)]
  else if g ≥ 256 then [hexDigit (g / 256 % 16), hexDigit (g / 16 % 16), hexDigit (g % 16)]
  else if g ≥ 16 then [hexDigit (g / 16 % 16), hexDigit (g % 16)]
  else [hexDigit g]

/-- The eight 16-bit groups of a 16-byte address. -/
def groups16 : List Nat → List Nat
  | hi :: lo :: rest => (hi * 256 + lo) :: groups16 rest
  | _ => []

/-- Number of zero groups at the head of a list of groups. -/
def zeroRun : List Nat → Nat
  | 0 :: rest => 1 + zeroRun rest
  | _ => 0

/-- The first longest run of at least two zero groups, as (start, end); (255, 255) when there is none. -/
def bestZeroRun : List Nat → Nat → Nat × Nat → Nat × Nat
  | [], _, best => best
  | g :: rest, i, best =>
    let l := zeroRun (g :: rest)
    bestZeroRun rest (i + 1) (if l ≥ 2 ∧ l > best.2 - best.1 then (i, i + l) else best)

/-- The output loop of Go `netip.Addr.AppendTo` for an IPv6 address. -/
def render6 (gs : List Nat) (zs ze : Nat) : Nat → Nat → List Char
  | 0, _ => []
  | fuel + 1, i =>
    if i ≥ 8 then []
    else if i = zs then
      ':' :: ':' :: (if ze ≥ 8 then [] else hexGroup (gs.getD ze 0) ++ render6 gs zs ze fuel (ze + 1))
    else (if i > 0 then [':'] else []) ++ hexGroup (gs.getD i 0) ++ render6 gs zs ze fuel (i + 1)

/-- Go `IP.String`. -/
def ipString (ip : IP) : String :=
  if ip.length = 0 then "<nil>"
  else if ip.length ≠ 4 ∧ ip.length ≠ 16 then "?" ++ hexString ip
  else
    match To4 ip with
    | [a, b, c, d] => itoa a ++ "." ++ itoa b ++ "." ++ itoa c ++ "." ++ itoa d
    | _ =>
      let gs := groups16 ip
      let z := bestZeroRun gs 0 (255, 255)
      ⟨render6 gs z.1 z.2 9 0⟩

/-- Go `networkNumberAndMask`; `none` is the result (nil, nil). -/
def networkNumberAndMask (n : IPNet) : Option (IP × IPMask) :=
  let ip4 := To4 n.IP
  if ip4 = [] ∧ n.IP.length ≠ 16 then none
  else
    let ip := if ip4 = [] then n.IP else ip4
    if n.Mask.length = 4 then (if ip.length ≠ 4 then none else some (ip, n.Mask))
    else if n.Mask.length = 16 then (if ip.length = 4 then some (ip, n.Mask.drop 12) else some (ip, n.Mask))
    else none

/-- Go `(*IPNet).String` on a non-nil receiver. -/
def IPNet.String (n : IPNet) : String :=
  match networkNumberAndMask n with
  | none => "<nil>"
  | some (nn, m) =>
    match simpleMaskLength m with
    | none => ipString nn ++ "/" ++ maskString m
    | some l => ipString nn ++ "/" ++ itoa l

/-- Go `(*IPNet).String`, which prints a nil receiver as `<nil>`. -/
def ipNetString : Option IPNet → String
  | none => "<nil>"
  | some n => n.String

/-- The functions of Go's `net` package whose result depends on text parsing or on
the resolver: `net.ParseIP` (nil is `[]`) and `net.ResolveIPAddr("ip", host)`
(`none` is an error). -/
structure NetEnv where
  ParseIP : String → IP
  ResolveIPAddr : String → Option IP

/-! ## objects.go -/

/-- Go `PolicyObject`. -/
structure PolicyObject where
  Address : Option IPNet
  GroupMembers : List String
  deriving DecidableEq, Repr

/-- A Go map with string keys. -/
abbrev GoMap (α : Type) := String → Option α

/-- The empty Go map. -/
def GoMap.empty {α : Type} : GoMap α := fun _ => none

/-- Go `m[k] = v`. -/
def GoMap.set {α : Type} (m : GoMap α) (k : String) (v : α) : GoMap α :=
  fun x => if x = k then some v else m x

/-- Go `Objects`: zone name, then object name. -/
abbrev Objects := GoMap (GoMap PolicyObject)

/-- Go `Objects.Add`. -/
def Objects.Add (o : Objects) (zone name : String) (address : Option IPNet) : Objects :=
  match o zone with
  | none => o.set zone ((GoMap.empty.set name ⟨none, []⟩).set name ⟨address, []⟩)
  | some tbl => o.set zone (tbl.set name ⟨address, []⟩)

/-- Go `Objects.AddToGroup`. -/
def Objects.AddToGroup (o : Objects) (zone name objectToAdd : String) : Objects :=
  let tbl : GoMap PolicyObject :=
    match o zone with
    | none => GoMap.empty.set name ⟨none, []⟩
    | some tbl => tbl
  let tbl := match tbl name with
    | none => tbl.set name ⟨none, []⟩
    | some _ => tbl
  match tbl name with
  | none => o.set zone tbl
  | some obj => o.set zone (tbl.set name ⟨obj.Address, obj.GroupMembers ++ [objectToAdd]⟩)

/-- What `Objects.Lookup` returns: the names and, in parallel, the addresses. -/
abbrev LookupResult := List String × List (Option IPNet)

/-- The comparison of the deduplication loop of `Objects.Lookup`:
`ip.IP.Equal(newip.IP) && ip.Mask.String() == newip.Mask.String()`. -/
def sameNet (ip newip : IPNet) : Bool :=
  ipEqual ip.IP newip.IP && maskString ip.Mask == maskString newip.Mask

/-- The inner loop `for _, newip := range dedup` of `Objects.Lookup`; both
pointers are dereferenced at every iteration. -/
def dedupFound (ip : Option IPNet) : List (Option IPNet) → Bool → Res Bool
  | [], found => .ok found
  | newip :: rest, found =>
    match ip, newip with
    | some a, some b => dedupFound ip rest (if sameNet a b then true else found)
    | _, _ => .panic nilDeref

/-- The loop `for idx, ip := range ret` of `Objects.Lookup`, from index `idx` on. -/
def dedupLoop (names : List String) :
    List (Option IPNet) → Nat → List (Option IPNet) → List String → Res LookupResult
  | [], _, dedup, dedupNames => .ok (dedupNames, dedup)
  | ip :: rest, idx, dedup, dedupNames =>
    match dedupFound ip dedup false with
    | .ok found =>
      if !found then
        match names[idx]? with
        | some n => dedupLoop names rest (idx + 1) (dedup ++ [ip]) (dedupNames ++ [n])
        | none => .panic indexOutOfRange
      else dedupLoop names rest (idx + 1) dedup dedupNames
    | .panic m => .panic m
    | .outOfFuel => .outOfFuel

/-- The loop `for _, obj := range o[zone][name].GroupMembers` of `Objects.Lookup`;
`rec` is the recursive call `o.Lookup(zone, obj)`. -/
def lookupMembers (rec : String → Res LookupResult) :
    List String → List String → List (Option IPNet) → Res LookupResult
  | [], names, ret => .ok (names, ret)
  | obj :: rest, names, ret =>
    match rec obj with
    | .ok (n, addresses) => lookupMembers rec rest (names ++ n) (ret ++ addresses)
    | .panic m => .panic m
    | .outOfFuel => .outOfFuel

/-- The name is resolved without consulting the table: the wildcard, or one of
the bracketed forms `MIP(` and `VIP(`. -/
def isReserved (name : String) : Bool :=
  toLower name == "any" || startsWith name "MIP(" || startsWith name "VIP("

/-- The body of Go `Objects.Lookup`, with the recursive call as a parameter. -/
def lookupBody (net : NetEnv) (o : Objects) (zone : String)
    (rec : String → Res LookupResult) (name : String) : Res LookupResult :=
  if toLower name = "any" then .ok ([name], [some ⟨IPv4zero, IPv4zero⟩])
  else if startsWith name "MIP(" then
    .ok ([name], [some ⟨net.ParseIP (replaceAll (replaceAll name ")" "") "MIP(" ""), IPv4bcast⟩])
  else if startsWith name "VIP(" then
    .ok ([name], [some ⟨net.ParseIP (replaceAll (replaceAll name ")" "") "VIP(" ""), IPv4bcast⟩])
  else
    match o zone with
    | none => .ok ([], [])
    | some tbl =>
      match tbl name with
      | none => .ok ([], [])
      | some obj =>
        if obj.GroupMembers.length > 0 then
          match lookupMembers rec obj.GroupMembers [] [] with
          | .ok (names, ret) => dedupLoop names ret 0 [] []
          | .panic m => .panic m
          | .outOfFuel => .outOfFuel
        else .ok ([name], [obj.Address])

/-- Go `Objects.Lookup`. The first argument bounds the depth of the recursion
through group members: a call that would need a deeper recursion yields
`Res.outOfFuel`. -/
def Objects.Lookup (net : NetEnv) : Nat → Objects → String → String → Res LookupResult
  | 0, o, zone, name => lookupBody net o zone (fun _ => .outOfFuel) name
  | fuel + 1, o, zone, name => lookupBody net o zone (fun m => Objects.Lookup net fuel o zone m) name

/-! ## services.go -/

/-- Go `Service`. -/
structure Service where
  Protocol : String
  IcmpType : Int
  SrcPortStart : Int
  SrcPortEnd : Int
  DstPortStart : Int
  DstPortEnd : Int
  deriving DecidableEq, Repr

/-- Go `ServiceList`. -/
abbrev ServiceList := List Service

/-- Go `Services`: the service catalog. -/
abbrev Services := GoMap ServiceList

/-- Go `Services.Add`. -/
def Services.Add (s : Services) (name : String) (service : Service) : Services :=
  match s name with
  | none => s.set name [service]
  | some l => s.set name (l ++ [service])

/-- The order in which Go iterates over the keys of a map: some permutation of them. -/
structure MapOrder where
  iter : List String → List String
  perm : ∀ l, (iter l).Perm l

/-- The map order that visits the keys as listed. -/
def MapOrder.asListed : MapOrder := ⟨fun l => l, fun l => List.Perm.refl l⟩

/-- The map order that visits the keys in reverse. -/
def MapOrder.reversed : MapOrder := ⟨fun l => l.reverse, fun l => List.reverse_perm l⟩

/-- Go `ServiceList.AllProtocols`: the keys of the map `protos`, which are the
distinct protocol values of the list, in the order of a map iteration. -/
def ServiceList.AllProtocols (ord : MapOrder) (sl : ServiceList) : List String :=
  ord.iter ((sl.map (·.Protocol)).dedup)

/-! ## policy.go -/

/-- Go `ActionPermit`. -/
def ActionPermit : String := "permit"
/-- Go `ActionReject`. -/
def ActionReject : String := "reject"
/-- Go `ActionDeny`. -/
def ActionDeny : String := "deny"
/-- Go `NatSrc`. -/
def NatSrc : String := "nat src"
/-- Go `NatDst`. -/
def NatDst : String := "nat dst"

/-- Go `Policy`. -/
structure Policy where
  ID : Int
  Name : String
  Disabled : Bool
  From : String
  To : String
  Sources : List String
  Destinations : List String
  Services : List String
  Application : String
  NAT : String
  NATAddress : String
  NATPort : Int
  Action : String
  Log : Bool
  LogInit : Bool
  deriving DecidableEq, Repr

/-- Go `Policy.IsValid`. -/
def Policy.IsValid (p : Policy) : Bool :=
  decide (p.ID > 0) &&
    decide (p.From.length > 0) &&
    decide (p.To.length > 0) &&
    decide (p.Sources.length > 0) &&
    decide (p.Destinations.length > 0) &&
    decide (p.Services.length > 0) &&
    (p.Action == ActionPermit || p.Action == ActionReject || p.Action == ActionDeny) &&
    (p.NAT == "" || p.NAT == NatSrc || p.NAT == NatDst)

/-- How Go's `fmt.Sprint` prints a boolean. -/
def fmtBool (b : Bool) : String := if b then "true" else "false"

/-- How Go's `fmt.Sprint` prints a slice of strings. -/
def fmtStrings (l : List String) : String := "[" ++ join l " " ++ "]"

/-- Go `Policy.String`. -/
def Policy.String (p : Policy) : String :=
  "ID: " ++ itoa p.ID ++ " Name: " ++ p.Name ++ " Disabled: " ++ fmtBool p.Disabled ++
    " From: " ++ p.From ++ " To: " ++ p.To ++
    " Sources: " ++ fmtStrings p.Sources ++ " Destinations: " ++ fmtStrings p.Destinations ++
    " Services: " ++ fmtStrings p.Services ++ " Application: " ++ p.Application ++
    " NAT: " ++ p.NAT ++ " NATAddress: " ++ p.NATAddress ++ " NATPort: " ++ itoa p.NATPort ++
    " Action: " ++ p.Action ++ " Log: " ++ fmtBool p.Log ++ " LogInit: " ++ fmtBool p.LogInit

/-- Go `Policy.IsZonePolicy`; indexing an empty list panics. -/
def Policy.IsZonePolicy (p : Policy) : Res Bool :=
  match p.Sources with
  | [] => .panic indexOutOfRange
  | s0 :: _ =>
    if toLower s0 = "any" then
      match p.Destinations with
      | [] => .panic indexOutOfRange
      | d0 :: _ =>
        .ok (toLower d0 == "any" && (p.Action == ActionReject || p.Action == ActionDeny))
    else .ok false

/-! ## parse.go: the built-in service catalog -/

/-- The assignments `services[name] = ServiceList{...}` of Go `defaultServices`, in source order. -/
def defaultServiceTable : List (String × ServiceList) := [
  ("ANY", [⟨"", 0, 0, 65535, 0, 65535⟩]),
  ("HTTP", [⟨"tcp", 0, 0, 65535, 80, 80⟩]),
  ("HTTPS", [⟨"tcp", 0, 0, 65535, 443, 443⟩]),
  ("TELNET", [⟨"tcp", 0, 0, 65535, 23, 23⟩]),
  ("SSH", [⟨"tcp", 0, 0, 65535, 22, 22⟩]),
  ("SYSLOG", [⟨"udp", 0, 0, 65535, 514, 514⟩]),
  ("FTP", [⟨"tcp", 0, 0, 65535, 20, 21⟩]),
  ("CIFS", [⟨"udp", 0, 0, 65535, 137, 138⟩, ⟨"tcp", 0, 0, 65535, 139, 139⟩,
      ⟨"tcp", 0, 0, 65535, 445, 445⟩]),
  ("MS-SQL", [⟨"tcp", 0, 0, 65535, 1433, 1433⟩, ⟨"udp", 0, 0, 65535, 1434, 1434⟩]),
  ("SQL Monitor", [⟨"udp", 0, 0, 65535, 1434, 1434⟩]),
  ("RADIUS", [⟨"udp", 0, 0, 65535, 1812, 1813⟩]),
  ("VNC", [⟨"tcp", 0, 0, 65535, 5900, 5900⟩]),
  ("PING", [⟨"icmp", 8, 0, 0, 0, 0⟩]),
  ("MAIL", [⟨"tcp", 0, 0, 65535, 25, 25⟩, ⟨"tcp", 0, 0, 65535, 465, 465⟩,
      ⟨"tcp", 0, 0, 65535, 587, 587⟩]),
  ("H.323", [⟨"udp", 0, 0, 65535, 1719, 1719⟩, ⟨"tcp", 0, 0, 65535, 1720, 1720⟩,
      ⟨"tcp", 0, 0, 65535, 1731, 1731⟩, ⟨"tcp", 0, 0, 65535, 1024, 65535⟩]),
  ("SCCP", [⟨"tcp", 0, 0, 65535, 2000, 2000⟩]),
  ("SIP", [⟨"tcp", 0, 0, 65535, 5060, 5061⟩, ⟨"udp", 0, 0, 65535, 5060, 5061⟩]),
  ("TFTP", [⟨"udp", 0, 0, 65535, 69, 69⟩, ⟨"udp", 0, 0, 65535, 1024, 65535⟩]),
  ("SMTP", [⟨"tcp", 0, 0, 65535, 25, 25⟩, ⟨"tcp", 0, 0, 65535, 465, 465⟩,
      ⟨"tcp", 0, 0, 65535, 587, 587⟩]),
  ("PPTP", [⟨"tcp", 0, 0, 65535, 1723, 1723⟩, ⟨"47", 0, 0, 0, 0, 0⟩]),
  ("HTTP-EXT", [⟨"tcp", 0, 0, 65535, 8080, 8080⟩]),
  ("ICMP-ANY", [⟨"icmp", 0, 0, 0, 0, 0⟩]),
  ("UDP-ANY", [⟨"udp", 0, 0, 65535, 0, 65535⟩]),
  ("TCP-ANY", [⟨"tcp", 0, 0, 65535, 0, 65535⟩]),
  ("DHCP-Relay", [⟨"udp", 0, 0, 65535, 67, 68⟩]),
  ("DHCP-Relay", [⟨"udp", 0, 0, 65535, 67, 68⟩]),
  ("NBDS", [⟨"udp", 0, 0, 65535, 137, 137⟩]),
  ("NBNAME", [⟨"udp", 0, 0, 65535, 138, 138⟩]),
  ("SMB", [⟨"tcp", 0, 0, 65535, 445, 445⟩]),
  ("SNMP", [⟨"udp", 0, 0, 65535, 161, 161⟩]),
  ("NFS", [⟨"tcp", 0, 0, 65535, 111, 111⟩, ⟨"udp", 0, 0, 65535, 111, 111⟩,
      ⟨"tcp", 0, 0, 65535, 2049, 2049⟩, ⟨"udp", 0, 0, 65535, 2049, 2049⟩]),
  ("IMAP", [⟨"tcp", 0, 0, 65535, 143, 143⟩]),
  ("POP3", [⟨"tcp", 0, 0, 65535, 110, 110⟩]),
  ("DNS", [⟨"tcp", 0, 0, 65535, 53, 53⟩, ⟨"udp", 0, 0, 65535, 53, 53⟩]),
  ("LDAP", [⟨"tcp", 0, 0, 65535, 389, 389⟩]),
  ("NTP", [⟨"udp", 0, 0, 65535, 123, 123⟩]),
  ("MS-AD-BR", []),
  ("MS-AD-DRSUAPI", []),
  ("MS-AD-DSROLE", []),
  ("MS-AD-DSSETUP", []),
  ("MS-RPC-ANY", []),
  ("MS-RPC-EPM", []),
  ("MS-WIN-DNS", []),
  ("MS-WINS", []),
  ("MS-AD", []),
  ("WHOIS", []),
  ("MS-NETLOGON", [⟨"udp", 0, 0, 65535, 137, 138⟩, ⟨"tcp", 0, 0, 65535, 139, 139⟩,
      ⟨"tcp", 0, 0, 65535, 445, 445⟩, ⟨"tcp", 0, 0, 65535, 1024, 5000⟩,
      ⟨"tcp", 0, 0, 65535, 49152, 65535⟩])]

/-- Go `defaultServices`. -/
def defaultServices : Services :=
  defaultServiceTable.foldl (fun m e => m.set e.1 e.2) GoMap.empty

/-! ## build_mtk.go -/

/-- A loop `for _, a := range l` whose body updates a state and may panic. -/
def foldRes {σ α : Type} (f : σ → α → Res σ) : σ → List α → Res σ
  | s, [] => .ok s
  | s, a :: rest =>
    match f s a with
    | .ok s1 => foldRes f s1 rest
    | .panic m => .panic m
    | .outOfFuel => .outOfFuel

/-- A loop `for _, a := range l` that produces one output per element and may panic. -/
def mapRes {α β : Type} (f : α → Res β) : List α → Res (List β)
  | [] => .ok []
  | a :: rest =>
    match f a with
    | .ok b =>
      match mapRes f rest with
      | .ok bs => .ok (b :: bs)
      | .panic m => .panic m
      | .outOfFuel => .outOfFuel
    | .panic m => .panic m
    | .outOfFuel => .outOfFuel

/-- The arguments of one call of `mikrotikRule` after the policy and the chain. -/
structure RuleArgs where
  srcName : String
  src : Option IPNet
  srcList : String
  dstName : String
  dst : Option IPNet
  dstList : String
  proto : String
  svc : ServiceList
  deriving DecidableEq, Repr

/-- The source field of a rule: `src-address=`, `src-address-list=` or nothing. -/
def srcField (src : Option IPNet) (srcList : String) : Res (List String) :=
  if srcList = "" then
    match src with
    | none => .panic nilDeref
    | some n => if !ipEqual n.IP IPv4zero then .ok [" src-address=" ++ n.String] else .ok []
  else .ok [" src-address-list=" ++ srcList]

/-- The destination field of a rule: `dst-address=`, `dst-address-list=` or nothing. -/
def dstField (dst : Option IPNet) (dstList : String) : Res (List String) :=
  if dstList = "" then
    match dst with
    | none => .panic nilDeref
    | some n => if !ipEqual n.IP IPv4zero then .ok [" dst-address=" ++ n.String] else .ok []
  else .ok [" dst-address-list=" ++ dstList]

/-- The slice `srcPorts` that `mikrotikRule` collects for a protocol. -/
def srcPorts (proto : String) (svc : ServiceList) : List String :=
  svc.filterMap fun s =>
    if s.Protocol = proto ∧ s.SrcPortStart ≠ 0 ∧ s.SrcPortEnd ≠ 65535 then
      some (itoa s.SrcPortStart ++ "-" ++ itoa s.SrcPortEnd)
    else none

/-- The slice `dstPorts` that `mikrotikRule` collects for a protocol. -/
def dstPorts (proto : String) (svc : ServiceList) : List String :=
  svc.filterMap fun s =>
    if s.Protocol = proto ∧ s.DstPortStart ≠ 0 ∧ s.DstPortEnd ≠ 65535 then
      some (itoa s.DstPortStart ++ "-" ++ itoa s.DstPortEnd)
    else none

/-- The protocol, port and ICMP fields of a rule. -/
def protoFields (proto : String) (svc : ServiceList) : List String :=
  (if proto ≠ "" then [" protocol=" ++ proto] else []) ++
    (if proto = "tcp" ∨ proto = "udp" then
      (if (srcPorts proto svc).length > 0 then [" src-port=" ++ join (srcPorts proto svc) ","] else []) ++
      (if (dstPorts proto svc).length > 0 then [" dst-port=" ++ join (dstPorts proto svc) ","] else [])
    else if proto = "icmp" then [" icmp-options=8:0-255"]
    else [])

/-- The action field of a rule. -/
def actionField (p : Policy) : List String :=
  if p.Action = ActionPermit then [" action=accept"]
  else if p.Action = ActionReject then [" action=reject"]
  else if p.Action = ActionDeny then [" action=drop"]
  else []

/-- The log field of a rule. -/
def logField (p : Policy) : List String := if p.Log then [" log=yes"] else []

/-- The trailing comment of a rule, with the line end. -/
def commentField (p : Policy) (a : RuleArgs) : String :=
  " comment=\"ID: " ++ itoa p.ID ++
    (if p.Name.length > 0 then " - " ++ replaceAll p.Name "\"" "" else "") ++
    " - " ++ (if a.srcName.length > 0 then a.srcName else a.srcList) ++
    " -> " ++ (if a.dstName.length > 0 then a.dstName else a.dstList) ++ "\"\n"

/-- The pieces Go `mikrotikRule` writes, one per field, in the order written. -/
def mikrotikRuleFields (p : Policy) (chain : String) (a : RuleArgs) : Res (List String) :=
  match srcField a.src a.srcList with
  | .ok sf =>
    match dstField a.dst a.dstList with
    | .ok df =>
      .ok (["add chain=" ++ chain] ++ sf ++ df ++ protoFields a.proto a.svc ++
        actionField p ++ logField p ++ [commentField p a])
    | .panic m => .panic m
    | .outOfFuel => .outOfFuel
  | .panic m => .panic m
  | .outOfFuel => .outOfFuel

/-- Go `mikrotikRule`: the text of one rule. -/
def mikrotikRule (p : Policy) (chain : String) (a : RuleArgs) : Res String :=
  match mikrotikRuleFields p chain a with
  | .ok fields => .ok (String.join fields)
  | .panic m => .panic m
  | .outOfFuel => .outOfFuel

/-- One statement of the address-list section. -/
structure AddressListEntry where
  list : String
  address : String
  comment : String
  deriving DecidableEq, Repr

/-- The text `buildMikrotik` writes for one address-list statement. -/
def AddressListEntry.text (e : AddressListEntry) : String :=
  "add list=" ++ e.list ++ " address=" ++ e.address ++ " comment=\"" ++ e.comment ++ "\"\n"

/-- The loop `for idx, l := range lookup` that writes the statements of one list, from index `idx` on. -/
def listBlock (listName : String) (names : List String) :
    List (Option IPNet) → Nat → Res (List AddressListEntry)
  | [], _ => .ok []
  | l :: rest, idx =>
    match names[idx]? with
    | none => .panic indexOutOfRange
    | some n =>
      match listBlock listName names rest (idx + 1) with
      | .ok es => .ok (⟨listName, ipNetString l, n⟩ :: es)
      | .panic m => .panic m
      | .outOfFuel => .outOfFuel

/-- State of the first loop of `buildMikrotik`: the keys of `iplists` and the statements written. -/
structure ListState where
  iplists : List String
  out : List AddressListEntry
  deriving DecidableEq, Repr

/-- The body of `for _, src := range p.Sources` in the address-list loop. -/
def addressListSource (net : NetEnv) (fuel : Nat) (o : Objects) (p : Policy)
    (st : ListState) (src : String) : Res ListState :=
  match Objects.Lookup net fuel o p.From src with
  | .ok (names, lookup) =>
    if lookup.length = 0 then .ok st
    else
      let listName := p.From ++ "__" ++ src
      if !st.iplists.contains listName && decide (lookup.length > 1) then
        match listBlock listName names lookup 0 with
        | .ok block => .ok ⟨listName :: st.iplists, st.out ++ block⟩
        | .panic m => .panic m
        | .outOfFuel => .outOfFuel
      else .ok st
  | .panic m => .panic m
  | .outOfFuel => .outOfFuel

/-- The body of `for _, dst := range p.Destinations` in the address-list loop;
the list name is recorded in `iplists` whether or not statements were written. -/
def addressListDestination (net : NetEnv) (fuel : Nat) (o : Objects) (p : Policy)
    (st : ListState) (dst : String) : Res ListState :=
  match Objects.Lookup net fuel o p.To dst with
  | .ok (names, lookup) =>
    if lookup.length = 0 then .ok st
    else
      let listName := p.To ++ "__" ++ dst
      if !st.iplists.contains listName && decide (lookup.length > 1) then
        match listBlock listName names lookup 0 with
        | .ok block => .ok ⟨listName :: st.iplists, st.out ++ block⟩
        | .panic m => .panic m
        | .outOfFuel => .outOfFuel
      else .ok ⟨listName :: st.iplists, st.out⟩
  | .panic m => .panic m
  | .outOfFuel => .outOfFuel

/-- The body of the first `for _, p := range policies` of `buildMikrotik`. -/
def addressListPolicy (net : NetEnv) (fuel : Nat) (o : Objects)
    (st : ListState) (p : Policy) : Res ListState :=
  if p.Disabled then .ok st
  else
    match p.IsZonePolicy with
    | .ok true => .ok st
    | .ok false =>
      match foldRes (addressListSource net fuel o p) st p.Sources with
      | .ok st1 => foldRes (addressListDestination net fuel o p) st1 p.Destinations
      | .panic m => .panic m
      | .outOfFuel => .outOfFuel
    | .panic m => .panic m
    | .outOfFuel => .outOfFuel

/-- The statements of the address-list section of `buildMikrotik`. -/
def addressListSection (net : NetEnv) (fuel : Nat) (policies : List Policy) (o : Objects) :
    Res (List AddressListEntry) :=
  match foldRes (addressListPolicy net fuel o) ⟨[], []⟩ policies with
  | .ok st => .ok st.out
  | .panic m => .panic m
  | .outOfFuel => .outOfFuel

/-- The references of one side of a policy as the filter loop keeps them: the
parallel slices of names and single addresses (`srcNames`, `src`), and the
address-list names (`srcAddressLists`). -/
structure Endpoints where
  singles : List (String × Option IPNet)
  lists : List String
  deriving DecidableEq, Repr

/-- The body of `for _, srcAddress := range p.Sources` (and of the loop over
the destinations) in the filter loop. -/
def classifyReference (net : NetEnv) (fuel : Nat) (o : Objects) (zone : String)
    (e : Endpoints) (name : String) : Res Endpoints :=
  match Objects.Lookup net fuel o zone name with
  | .ok (_, lookup) =>
    if lookup.length > 1 then .ok ⟨e.singles, e.lists ++ [zone ++ "__" ++ name]⟩
    else if lookup.length = 1 then .ok ⟨e.singles ++ lookup.map (fun l => (name, l)), e.lists⟩
    else .ok e
  | .panic m => .panic m
  | .outOfFuel => .outOfFuel

/-- The calls of `mikrotikRule` made by the four nested loops for one protocol, in order. -/
def ruleArgs (src dst : Endpoints) (proto : String) (svc : ServiceList) : List RuleArgs :=
  (src.singles.flatMap fun s =>
      dst.singles.map (fun d => ⟨s.1, s.2, "", d.1, d.2, "", proto, svc⟩) ++
      dst.lists.map (fun dl => ⟨s.1, s.2, "", "", none, dl, proto, svc⟩)) ++
    (src.lists.flatMap fun sl =>
      dst.singles.map (fun d => ⟨"", none, sl, d.1, d.2, "", proto, svc⟩) ++
      dst.lists.map (fun dl => ⟨"", none, sl, "", none, dl, proto, svc⟩))

/-- The calls of `mikrotikRule` made for one service name of a policy, in
order; a name that is neither "ANY" nor in the catalog panics. -/
def serviceCalls (net : NetEnv) (ord : MapOrder) (fuel : Nat) (p : Policy) (o : Objects)
    (services : Services) (serviceName : String) : Res (List RuleArgs) :=
  match foldRes (classifyReference net fuel o p.From) ⟨[], []⟩ p.Sources with
  | .ok src =>
    match foldRes (classifyReference net fuel o p.To) ⟨[], []⟩ p.Destinations with
    | .ok dst =>
      if serviceName = "ANY" then .ok (ruleArgs src dst "" [])
      else
        match services serviceName with
        | none => .panic ("services not found: " ++ serviceName)
        | some svc =>
          .ok ((ServiceList.AllProtocols ord svc).flatMap fun proto => ruleArgs src dst proto svc)
    | .panic m => .panic m
    | .outOfFuel => .outOfFuel
  | .panic m => .panic m
  | .outOfFuel => .outOfFuel

/-- The rules written for one service name of a policy: the body of
`for _, serviceName := range p.Services`. Each rule is the list of its fields. -/
def serviceRules (net : NetEnv) (ord : MapOrder) (fuel : Nat) (p : Policy) (o : Objects)
    (services : Services) (serviceName : String) : Res (List (List String)) :=
  match serviceCalls net ord fuel p o services serviceName with
  | .ok calls => mapRes (mikrotikRuleFields p (p.From ++ "__" ++ p.To)) calls
  | .panic m => .panic m
  | .outOfFuel => .outOfFuel

/-- What the filter loop writes for one policy: the header comment and the rules. -/
structure PolicyBlock where
  header : String
  rules : List (List String)
  deriving DecidableEq, Repr

/-- The text of a policy block: `# ` header, the rules, an empty line. -/
def PolicyBlock.text (b : PolicyBlock) : String :=
  "# " ++ b.header ++ "\n" ++ String.join (b.rules.map String.join) ++ "\n"

/-- The body of the second `for _, p := range policies` of `buildMikrotik`. -/
def filterPolicy (net : NetEnv) (ord : MapOrder) (fuel : Nat) (o : Objects) (services : Services)
    (blocks : List PolicyBlock) (p : Policy) : Res (List PolicyBlock) :=
  if p.Disabled then .ok blocks
  else
    match p.IsZonePolicy with
    | .ok true => .ok blocks
    | .ok false =>
      match mapRes (serviceRules net ord fuel p o services) p.Services with
      | .ok rules => .ok (blocks ++ [⟨p.String, rules.flatten⟩])
      | .panic m => .panic m
      | .outOfFuel => .outOfFuel
    | .panic m => .panic m
    | .outOfFuel => .outOfFuel

/-- The policy blocks of the filter section of `buildMikrotik`. -/
def filterSection (net : NetEnv) (ord : MapOrder) (fuel : Nat) (policies : List Policy)
    (o : Objects) (services : Services) : Res (List PolicyBlock) :=
  foldRes (filterPolicy net ord fuel o services) [] policies

/-- Go `buildMikrotik`. Diagnostics written to standard error are not part of the result. -/
def buildMikrotik (net : NetEnv) (ord : MapOrder) (fuel : Nat) (policies : List Policy)
    (o : Objects) (services : Services) : Res String :=
  match addressListSection net fuel policies o with
  | .ok entries =>
    match filterSection net ord fuel policies o services with
    | .ok blocks =>
      .ok ("/ip firewall address-list\n" ++ String.join (entries.map AddressListEntry.text) ++
        "\n\n/ip firewall filter\n" ++ String.join (blocks.map PolicyBlock.text))
    | .panic m => .panic m
    | .outOfFuel => .outOfFuel
  | .panic m => .panic m
  | .outOfFuel => .outOfFuel

/-! ## parse.go

The parser is embedded at the level of directives: a `Directive` is an input
line together with the outcome of the `switch` that classifies it, that is, the
first regular expression (or recognised beginning) it matches and the captured
groups. A policy block (`set policy id N` followed by the lines up to `exit`)
is one directive. A decimal capture is carried as its value. -/

/-- A line inside a policy block, as the inner `switch` classifies it. -/
inductive BlockLine where
  /-- The line `set service "X"`. -/
  | service (name : String)
  /-- The line `set src-address "X"`. -/
  | srcAddress (name : String)
  /-- The line `set dst-address "X"`. -/
  | dstAddress (name : String)
  /-- The line `set log X`. -/
  | log (option : String)
  /-- Any other line. -/
  | other (line : String)
  deriving DecidableEq, Repr

/-- A line (or policy block) of the input, as the outer `switch` classifies it. -/
inductive Directive where
  /-- Matches `setServiceContinueRx`. -/
  | serviceContinue (name proto : String) (srcStart srcEnd dstStart dstEnd : Nat)
  /-- Matches `setServiceRx`. -/
  | serviceDefine (name proto : String) (srcStart srcEnd dstStart dstEnd : Nat)
  /-- Matches `setServiceTimeoutRx`. -/
  | serviceTimeout
  /-- Begins with `set service` and matches none of the service expressions. -/
  | serviceMalformed (line : String)
  /-- Matches `setAddressRx`; `mask` is empty when the fourth group is. -/
  | address (zone name addr mask : String)
  /-- Begins with `set address` without matching `setAddressRx`. -/
  | addressMalformed (line : String)
  /-- Matches `setGroupAddressRx`. -/
  | groupAdd (zone group member : String)
  /-- Matches `setGroupAddressCreateRx`. -/
  | groupCreate
  /-- Begins with `set group address` and matches neither group expression. -/
  | groupMalformed (line : String)
  /-- Matches `setPolicyCreateRx`; `natPort` is `none` when the group is empty. -/
  | policyCreate (id : Nat) (name zoneFrom zoneTo src dst service nat natAddress : String)
      (natPort : Option Nat) (action : String) (log : Bool)
  /-- Matches `setPolicyRx`, with the lines read up to `exit` or the end of the input. -/
  | policyBlock (id : Nat) (body : List BlockLine)
  /-- Matches `setPolicyFlagsRx`. -/
  | policyFlag (id : Nat) (flag value : String)
  /-- Begins with `set policy id` and matches none of the policy expressions. -/
  | policyMalformed (line : String)
  /-- Matches nothing. -/
  | ignored
  deriving DecidableEq, Repr

/-- Go `strconv.Atoi` on a string of decimal digits of the given value. -/
def atoi (n : Nat) : Res Int :=
  if n < 2 ^ 63 then .ok (Int.ofNat n) else .panic "strconv.Atoi: value out of range"

/-- Go `mustInt`. -/
def mustInt (n : Nat) : Res Int := atoi n

/-- The variables of Go `parse`. -/
structure ParseState where
  policies : List Policy
  objects : Objects
  services : Services
  lastService : String

/-- The loop that looks a policy up by ID: the index of the last policy with that ID. -/
def findPolicy (id : Int) : List Policy → Nat → Option Nat → Option Nat
  | [], _, found => found
  | p :: rest, idx, found => findPolicy id rest (idx + 1) (if p.ID = id then some idx else found)

/-- Go `policies[idx] = f(policies[idx])`. -/
def updatePolicy (f : Policy → Policy) : List Policy → Nat → List Policy
  | [], _ => []
  | p :: rest, 0 => f p :: rest
  | p :: rest, idx + 1 => p :: updatePolicy f rest idx

/-- The body of the inner loop of a policy block. -/
def parseBlockLine (policy : Nat) (policies : List Policy) (l : BlockLine) : Res (List Policy) :=
  match l with
  | .service name => .ok (updatePolicy (fun p => { p with Services := p.Services ++ [name] }) policies policy)
  | .srcAddress name => .ok (updatePolicy (fun p => { p with Sources := p.Sources ++ [name] }) policies policy)
  | .dstAddress name =>
    .ok (updatePolicy (fun p => { p with Destinations := p.Destinations ++ [name] }) policies policy)
  | .log option =>
    if option = "session-init" then .ok (updatePolicy (fun p => { p with LogInit := true }) policies policy)
    else .panic ("set log " ++ option)
  | .other line => .panic line

/-- The service tuple of a service directive. -/
def serviceOf (proto : String) (srcStart srcEnd dstStart dstEnd : Nat) : Res Service :=
  match mustInt srcStart with
  | .ok a =>
    match mustInt srcEnd with
    | .ok b =>
      match mustInt dstStart with
      | .ok c =>
        match mustInt dstEnd with
        | .ok d => .ok ⟨proto, 0, a, b, c, d⟩
        | .panic m => .panic m
        | .outOfFuel => .outOfFuel
      | .panic m => .panic m
      | .outOfFuel => .outOfFuel
    | .panic m => .panic m
    | .outOfFuel => .outOfFuel
  | .panic m => .panic m
  | .outOfFuel => .outOfFuel

/-- The body of the loop of Go `parse` for one directive. -/
def parseDirective (net : NetEnv) (st : ParseState) (d : Directive) : Res ParseState :=
  match d with
  | .serviceContinue _ proto a b c e =>
    match serviceOf proto a b c e with
    | .ok svc => .ok { st with services := st.services.Add st.lastService svc }
    | .panic m => .panic m
    | .outOfFuel => .outOfFuel
  | .serviceDefine name proto a b c e =>
    match serviceOf proto a b c e with
    | .ok svc => .ok { st with lastService := name, services := st.services.Add name svc }
    | .panic m => .panic m
    | .outOfFuel => .outOfFuel
  | .serviceTimeout => .ok st
  | .serviceMalformed line => .panic line
  | .address zone name addr mask =>
    if mask = "" then
      match net.ResolveIPAddr addr with
      | none => .ok st
      | some ip =>
        if ip = [] then .panic "set address"
        else .ok { st with objects := st.objects.Add zone name (some ⟨ip, IPv4bcast⟩) }
    else
      if net.ParseIP addr = [] ∨ net.ParseIP mask = [] then .panic "set address"
      else .ok { st with objects := st.objects.Add zone name (some ⟨net.ParseIP addr, net.ParseIP mask⟩) }
  | .addressMalformed line => .panic line
  | .groupAdd zone group member => .ok { st with objects := st.objects.AddToGroup zone group member }
  | .groupCreate => .ok st
  | .groupMalformed line => .panic line
  | .policyCreate id name zoneFrom zoneTo src dst service nat natAddress natPort action log =>
    match atoi id with
    | .ok id =>
      match (match natPort with
        | none => Res.ok (0 : Int)
        | some n => atoi n) with
      | .ok natPort =>
        let p : Policy :=
          { ID := id, Name := name, From := zoneFrom, To := zoneTo, Sources := [src],
            Destinations := [dst], Services := [service], Application := "", NAT := nat,
            NATAddress := natAddress, NATPort := natPort, Action := action, Log := log,
            LogInit := false, Disabled := false }
        if !p.IsValid then .panic "not valid"
        else .ok { st with policies := st.policies ++ [p] }
      | .panic m => .panic m
      | .outOfFuel => .outOfFuel
    | .panic m => .panic m
    | .outOfFuel => .outOfFuel
  | .policyBlock id body =>
    match atoi id with
    | .ok id =>
      match findPolicy id st.policies 0 none with
      | none => .panic "policy not found"
      | some policy =>
        match foldRes (parseBlockLine policy) st.policies body with
        | .ok ps => .ok { st with policies := ps }
        | .panic m => .panic m
        | .outOfFuel => .outOfFuel
    | .panic m => .panic m
    | .outOfFuel => .outOfFuel
  | .policyFlag id flag value =>
    match atoi id with
    | .ok id =>
      match findPolicy id st.policies 0 none with
      | none => .panic "policy not found"
      | some policy =>
        if flag = "disable" then
          .ok { st with policies := updatePolicy (fun p => { p with Disabled := true }) st.policies policy }
        else if flag = "application" then
          .ok { st with
            policies := updatePolicy (fun p => { p with Application := value }) st.policies policy }
        else .panic "set policy id"
    | .panic m => .panic m
    | .outOfFuel => .outOfFuel
  | .policyMalformed line => .panic line
  | .ignored => .ok st

/-- Go `parse`, on classified input. -/
def parse (net : NetEnv) (input : List Directive) : Res (List Policy × Objects × Services) :=
  match foldRes (parseDirective net) ⟨[], GoMap.empty, defaultServices, ""⟩ input with
  | .ok st => .ok (st.policies, st.objects, st.services)
  | .panic m => .panic m
  | .outOfFuel => .outOfFuel

/-- Go `parse` followed by the filter loop of `buildMikrotik` on the parsed model. -/
def parseThenFilter (net : NetEnv) (ord : MapOrder) (fuel : Nat) (input : List Directive) :
    Res (List PolicyBlock) :=
  match parse net input with
  | .ok (policies, objects, services) => filterSection net ord fuel policies objects services
  | .panic m => .panic m
  | .outOfFuel => .outOfFuel

/-! ## Specification-side definitions for group resolution -/

/-- Equality of two resolved addresses by (IP, mask), as the store compares them. -/
def sameAddr : Option IPNet → Option IPNet → Bool
  | some a, some b => sameNet a b
  | none, none => true
  | _, _ => false

/-- Entries of a list that are not equal by (IP, mask) to an entry before them,
in their original order; `earlier` holds the entries already passed. -/
def firstOccurrences :
    List (String × Option IPNet) → List (String × Option IPNet) → List (String × Option IPNet)
  | _, [] => []
  | earlier, e :: rest =>
    if earlier.any (fun x => sameAddr e.2 x.2) then firstOccurrences (earlier ++ [e]) rest
    else e :: firstOccurrences (earlier ++ [e]) rest

/-- A list of (name, address) entries with every entry removed whose (IP, mask)
equals that of an earlier entry. -/
def dedupSpec (l : List (String × Option IPNet)) : List (String × Option IPNet) :=
  firstOccurrences [] l

/-- The entries (name, address) of a resolution. -/
def LookupResult.entries (r : LookupResult) : List (String × Option IPNet) := r.1.zip r.2

/-- The resolution made of the given entries. -/
def LookupResult.ofEntries (es : List (String × Option IPNet)) : LookupResult :=
  (es.map Prod.fst, es.map Prod.snd)

/-- `Objects.Lookup` returns `r` for `(zone, name)`: every large enough recursion budget yields it. -/
def Returns (net : NetEnv) (o : Objects) (zone name : String) (r : LookupResult) : Prop :=
  ∃ N, ∀ fuel, N ≤ fuel → Objects.Lookup net fuel o zone name = .ok r

/-- `m` is a member of the group `g` of the zone, `g` being a name that
`Objects.Lookup` resolves through the table. -/
def memberOf (o : Objects) (zone : String) (m g : String) : Prop :=
  isReserved g = false ∧ ∃ tbl obj, o zone = some tbl ∧ tbl g = some obj ∧ m ∈ obj.GroupMembers

/-- The member graph of the zone is acyclic: membership is well-founded. -/
def Acyclic (o : Objects) (zone : String) : Prop := WellFounded (memberOf o zone)

/-- Every object of the store that has no members carries an address. -/
def PlainHaveAddress (o : Objects) : Prop :=
  ∀ zone tbl name obj, o zone = some tbl → tbl name = some obj →
    obj.GroupMembers = [] → obj.Address ≠ none

/-! ## Auxiliary definitions: comparison keys of addresses and the pure deduplication loop -/

/-- The 16-byte form of a 4-byte address; other addresses are unchanged. -/
def canonIP (ip : IP) : IP := if ip.length = 4 then v4InV6Prefix ++ ip else ip

/-- The key by which `sameNet` compares two networks. -/
def netKey (n : IPNet) : IP × String := (canonIP n.IP, maskString n.Mask)

/-- The deduplication loop of `Objects.Lookup` on (name, address) entries:
an entry is kept when no entry kept so far has its (IP, mask). -/
def codeDedup :
    List (String × Option IPNet) → List (String × Option IPNet) → List (String × Option IPNet)
  | acc, [] => acc
  | acc, e :: rest =>
    if acc.any (fun d => sameAddr e.2 d.2) then codeDedup acc rest
    else codeDedup (acc ++ [e]) rest

/-! ## Auxiliary definitions for `Objects.Lookup` -/

/-- A resolution whose two sequences have the same length and hold no nil address. -/
def GoodResult (r : LookupResult) : Prop := r.1.length = r.2.length ∧ ∀ a ∈ r.2, a ≠ none

/-- The recursive call available to `Objects.Lookup` at a given recursion budget. -/
def lookupRec (net : NetEnv) (o : Objects) (zone : String) : Nat → String → Res LookupResult
  | 0 => fun _ => .outOfFuel
  | fuel + 1 => fun m => Objects.Lookup net fuel o zone m

/-! ## A concrete environment and a concrete store -/

/-- Fields of a character list separated by `sep`. -/
def splitOnChar (sep : Char) : List Char → List (List Char)
  | [] => [[]]
  | c :: cs =>
    if c = sep then [] :: splitOnChar sep cs
    else
      match splitOnChar sep cs with
      | [] => [[c]]
      | f :: fs => (c :: f) :: fs

/-- One field of a dotted-decimal address: decimal digits, no leading zero, at most 255. -/
def parseOctet (cs : List Char) : Option Nat :=
  if cs.isEmpty || !cs.all Char.isDigit then none
  else if cs.length > 1 && cs.head? == some '0' then none
  else
    let v := cs.foldl (fun acc c => acc * 10 + (c.toNat - 48)) 0
    if v > 255 then none else some v

/-- Go `net.ParseIP` on dotted-decimal text; nil (`[]`) for any other text. -/
def parseDottedDecimal (s : String) : IP :=
  match (splitOnChar '.' s.data).map parseOctet with
  | [some a, some b, some c, some d] => IPv4 a b c d
  | _ => []

/-- An environment that parses dotted-decimal IPv4 text as Go does, knows no
IPv6 text, and resolves a host name only when it is an IPv4 literal. -/
def dottedDecimalEnv : NetEnv where
  ParseIP := parseDottedDecimal
  ResolveIPAddr := fun host =>
    match parseDottedDecimal host with
    | [] => none
    | ip => some ip

/-- The host network 10.0.0.1/32 as `set address` stores it. -/
def net10_0_0_1 : IPNet := ⟨IPv4 10 0 0 1, IPv4 255 255 255 255⟩

/-- The host network 10.0.0.2/32 as `set address` stores it. -/
def net10_0_0_2 : IPNet := ⟨IPv4 10 0 0 2, IPv4 255 255 255 255⟩

/-- The table of zone "Trust" of `demoStore`: two hosts and a group listing the first host twice. -/
def demoTable : GoMap PolicyObject := fun n =>
  if n = "Server1" then some ⟨some net10_0_0_1, []⟩
  else if n = "Server2" then some ⟨some net10_0_0_2, []⟩
  else if n = "Servers" then some ⟨none, ["Server1", "Server2", "Server1"]⟩
  else none

/-- A store with the single zone "Trust". -/
def demoStore : Objects := fun z => if z = "Trust" then some demoTable else none

/-- The table of zone "Trust" of `shadowStore`: two hosts and a group whose name is the wildcard. -/
def shadowTable : GoMap PolicyObject := fun n =>
  if n = "Server1" then some ⟨some net10_0_0_1, []⟩
  else if n = "Server2" then some ⟨some net10_0_0_2, []⟩
  else if n = "any" then some ⟨none, ["Server1", "Server2"]⟩
  else none

/-- A store in which a group is named "any". -/
def shadowStore : Objects := fun z => if z = "Trust" then some shadowTable else none

/-- The table of zone "Trust" of `nilStore`: a host, an object without address
and without members, and a group of the two. -/
def nilTable : GoMap PolicyObject := fun n =>
  if n = "Server1" then some ⟨some net10_0_0_1, []⟩
  else if n = "empty" then some ⟨none, []⟩
  else if n = "G" then some ⟨none, ["empty", "Server1"]⟩
  else none

/-- A store in which a member-less object carries no address. -/
def nilStore : Objects := fun z => if z = "Trust" then some nilTable else none

/-- A deny policy whose source list is the wildcard followed by a further name. -/
def wildcardPlusPolicy : Policy :=
  { ID := 7, Name := "", Disabled := false, From := "Trust", To := "Untrust",
    Sources := ["any", "Server1"], Destinations := ["any"], Services := ["ANY"],
    Application := "", NAT := "", NATAddress := "", NATPort := 0, Action := "deny",
    Log := false, LogInit := false }

/-! ## Sample policies -/

/-- A permit policy from "Trust" to "Untrust" with one source, one destination and one service. -/
def simplePolicy (id : Int) (src dst service : String) : Policy :=
  { ID := id, Name := "", Disabled := false, From := "Trust", To := "Untrust",
    Sources := [src], Destinations := [dst], Services := [service],
    Application := "", NAT := "", NATAddress := "", NATPort := 0, Action := "permit",
    Log := false, LogInit := false }

/-! ## The HTTPS scenario -/

/-- The input of the scenario: the address directive for "Server1" in "Trust"
and one permit policy from "Trust" to "Untrust" with source "Server1",
destination "any" and service "HTTPS". -/
def scenarioInput (id : Nat) (name : String) (log : Bool) : List Directive :=
  [.address "Trust" "Server1" "10.0.0.1" "255.255.255.255",
   .policyCreate id name "Trust" "Untrust" "Server1" "any" "HTTPS" "" "" none "permit" log]

/-- What the scenario says of the filter section, with the port token as a
parameter: exactly one rule, which carries `src-address=10.0.0.1/32`, no
`dst-address=` and no `dst-address-list=` field, `protocol=tcp`, the port
token, and `action=accept`. -/
def ScenarioHolds (portToken : String) (r : Res (List PolicyBlock)) : Prop :=
  ∃ header fields, r = .ok [⟨header, [fields]⟩] ∧
    " src-address=10.0.0.1/32" ∈ fields ∧
    (∀ f ∈ fields, startsWith f " dst-address=" = false ∧ startsWith f " dst-address-list=" = false) ∧
    " protocol=tcp" ∈ fields ∧ portToken ∈ fields ∧ " action=accept" ∈ fields

/-- The policy the scenario's policy directive creates. -/
def scenarioPolicy (id : Nat) (name : String) (log : Bool) : Policy :=
  { ID := Int.ofNat id, Name := name, From := "Trust", To := "Untrust", Sources := ["Server1"],
    Destinations := ["any"], Services := ["HTTPS"], Application := "", NAT := "",
    NATAddress := "", NATPort := 0, Action := "permit", Log := log,
    LogInit := false, Disabled := false }

/-- The store the scenario's address directive creates. -/
def scenarioStore : Objects :=
  Objects.Add GoMap.empty "Trust" "Server1" (some net10_0_0_1)

/-- The fields of the one rule of the scenario. -/
def scenarioFields (id : Nat) (name : String) (log : Bool) : List String :=
  ["add chain=Trust__Untrust", " src-address=10.0.0.1/32", " protocol=tcp", " dst-port=443-443",
    " action=accept"] ++ (if log then [" log=yes"] else []) ++
    [commentField (scenarioPolicy id name log)
      ⟨"Server1", some net10_0_0_1, "", "any", some ⟨IPv4zero, IPv4zero⟩, "", "tcp",
        [⟨"tcp", 0, 0, 65535, 443, 443⟩]⟩]

/-! ## Policies passed over, address-list blocks and their invariant -/

/-- The policy is passed over by both loops of `buildMikrotik`: it is
disabled, or `IsZonePolicy` returns true for it. -/
def Policy.skipped (p : Policy) : Bool := p.Disabled || p.IsZonePolicy == .ok true

/-- A deny policy from the wildcard to the wildcard. -/
def wildcardDenyPolicy : Policy :=
  { ID := 9, Name := "default", Disabled := false, From := "Trust", To := "Untrust",
    Sources := ["any"], Destinations := ["any"], Services := ["ANY"],
    Application := "", NAT := "", NATAddress := "", NATPort := 0, Action := "deny",
    Log := false, LogInit := false }

/-- The statements of the address list of a reference `(zone, name)` that
resolves to `r`: one per resolved address, in resolution order. -/
def listStatements (zone name : String) (r : LookupResult) : List AddressListEntry :=
  List.zipWith (fun n a => ⟨zone ++ "__" ++ name, ipNetString a, n⟩) r.1 r.2

/-- The block is the address list of the reference `(zone, name)` resolved to
`r`: as many statements as `r` has addresses, the statement at index `i` being
`add list=<zone>__<name> address=<r.2[i]> comment="<r.1[i]>"`. -/
def IsBlockOf (zone name : String) (r : LookupResult) (block : List AddressListEntry) : Prop :=
  block.length = r.2.length ∧
    ∀ (i : Nat) (h1 : i < r.1.length) (h2 : i < r.2.length),
      (block[i]?).map AddressListEntry.text
        = some ("add list=" ++ zone ++ "__" ++ name ++ " address=" ++ ipNetString r.2[i] ++
            " comment=\"" ++ r.1[i] ++ "\"\n")

/-- A policy from "Trust" to "Trust" whose source is the group "Servers" of `demoStore`. -/
def groupPolicy : Policy :=
  { ID := 3, Name := "", Disabled := false, From := "Trust", To := "Trust",
    Sources := ["Servers"], Destinations := ["Servers", "Server2"], Services := ["ANY"],
    Application := "", NAT := "", NATAddress := "", NATPort := 0, Action := "permit",
    Log := false, LogInit := false }

/-- The references `(zone, name)` that the loops of `buildMikrotik` resolve:
for each policy not passed over, its sources in the from-zone and then its
destinations in the to-zone. -/
def references (ps : List Policy) : List (String × String) :=
  ps.flatMap fun p =>
    if p.skipped then []
    else p.Sources.map (fun s => (p.From, s)) ++ p.Destinations.map (fun d => (p.To, d))

/-- The statements of the output that carry the list name `listName`. -/
def statementsOf (listName : String) (out : List AddressListEntry) : List AddressListEntry :=
  out.filter (fun e => e.list == listName)

/-- Invariant of the address-list loop for the list name of `(zone, name)`
resolved to `r`: the output holds the statements of that list exactly when the
name is in `iplists`, and holds none of that name otherwise. -/
def ListInv (zone name : String) (r : LookupResult) (st : ListState) : Prop :=
  (zone ++ "__" ++ name ∈ st.iplists →
      statementsOf (zone ++ "__" ++ name) st.out = listStatements zone name r) ∧
    (zone ++ "__" ++ name ∉ st.iplists → statementsOf (zone ++ "__" ++ name) st.out = [])

/-- What a loop body must do for the invariant of the list name of
`(zone, name)`: keep the invariant, keep the name in `iplists` once it is
there, and put it there when it processes a reference with that list name. -/
def StepKeeps (zone name : String) (r : LookupResult) (z : String)
    (f : ListState → String → Res ListState) : Prop :=
  ∀ (st st1 : ListState) (n : String),
    (z ++ "__" ++ n = zone ++ "__" ++ name → (z, n) = (zone, name)) →
    ListInv zone name r st → f st n = .ok st1 →
    ListInv zone name r st1 ∧
      (zone ++ "__" ++ name ∈ st.iplists → zone ++ "__" ++ name ∈ st1.iplists) ∧
      (z ++ "__" ++ n = zone ++ "__" ++ name → zone ++ "__" ++ name ∈ st1.iplists)

/-- The policy is not passed over and has `(zone, name)` among its references. -/
def RefersTo (zone name : String) (p : Policy) : Prop :=
  p.skipped = false ∧
    ((∃ n ∈ p.Sources, p.From ++ "__" ++ n = zone ++ "__" ++ name) ∨
      (∃ n ∈ p.Destinations, p.To ++ "__" ++ n = zone ++ "__" ++ name))

/-- No reference of the policy other than `(zone, name)` has the list name of `(zone, name)`. -/
def NoClash (zone name : String) (p : Policy) : Prop :=
  p.skipped = false →
    (∀ n ∈ p.Sources, p.From ++ "__" ++ n = zone ++ "__" ++ name → (p.From, n) = (zone, name)) ∧
    (∀ n ∈ p.Destinations, p.To ++ "__" ++ n = zone ++ "__" ++ name → (p.To, n) = (zone, name))

/-- A store with two zones whose list names clash: the group "__x" of zone
"Trust" and the group "x" of zone "Trust__" both have the list name
"Trust____x". -/
def clashStore : Objects := fun z =>
  if z = "Trust" then
    some fun n =>
      if n = "h1" then some ⟨some net10_0_0_1, []⟩
      else if n = "h2" then some ⟨some net10_0_0_2, []⟩
      else if n = "__x" then some ⟨none, ["h1", "h2"]⟩
      else none
  else if z = "Trust__" then
    some fun n =>
      if n = "h3" then some ⟨some ⟨IPv4 10 0 0 3, IPv4 255 255 255 255⟩, []⟩
      else if n = "h4" then some ⟨some ⟨IPv4 10 0 0 4, IPv4 255 255 255 255⟩, []⟩
      else if n = "x" then some ⟨none, ["h3", "h4"]⟩
      else none
  else none

/-- A policy from "Trust" to "Trust__" between the two groups of `clashStore`. -/
def clashPolicy : Policy :=
  { ID := 4, Name := "", Disabled := false, From := "Trust", To := "Trust__",
    Sources := ["__x"], Destinations := ["x"], Services := ["ANY"],
    Application := "", NAT := "", NATAddress := "", NATPort := 0, Action := "permit",
    Log := false, LogInit := false }

/-! ## Classification and counting of the references of a policy -/

/-- What a source or destination reference adds to the single addresses of its side. -/
def singlesOf (net : NetEnv) (fuel : Nat) (o : Objects) (zone name : String) :
    List (String × Option IPNet) :=
  match Objects.Lookup net fuel o zone name with
  | .ok r => if r.2.length = 1 then r.2.map (fun l => (name, l)) else []
  | _ => []

/-- What a source or destination reference adds to the address-list names of its side. -/
def listsOf (net : NetEnv) (fuel : Nat) (o : Objects) (zone name : String) : List String :=
  match Objects.Lookup net fuel o zone name with
  | .ok r => if r.2.length > 1 then [zone ++ "__" ++ name] else []
  | _ => []

/-- Number of addresses a reference resolves to (0 when the resolution does not return). -/
def resolvedCount (net : NetEnv) (fuel : Nat) (o : Objects) (zone name : String) : Nat :=
  match Objects.Lookup net fuel o zone name with
  | .ok r => r.2.length
  | _ => 0

/-- Number of references that resolve to exactly one address. -/
def singleCount (net : NetEnv) (fuel : Nat) (o : Objects) (zone : String) (names : List String) :
    Nat :=
  names.countP fun n => resolvedCount net fuel o zone n == 1

/-- Number of references that resolve to more than one address. -/
def listCount (net : NetEnv) (fuel : Nat) (o : Objects) (zone : String) (names : List String) :
    Nat :=
  names.countP fun n => decide (1 < resolvedCount net fuel o zone n)

/-- Number of distinct protocol values among the definitions of a service. -/
def distinctProtocols (svc : ServiceList) : Nat := ((svc.map (·.Protocol)).dedup).length

/-! ## The calls of `mikrotikRule` for one service -/

/-- The classified references of one side of a policy. -/
def endpointsOf (net : NetEnv) (fuel : Nat) (o : Objects) (zone : String) (names : List String) :
    Endpoints :=
  ⟨names.flatMap (singlesOf net fuel o zone), names.flatMap (listsOf net fuel o zone)⟩

/-- Every reference of the list resolves, at this recursion budget, without a nil address. -/
def Resolves (net : NetEnv) (fuel : Nat) (o : Objects) (zone : String) (names : List String) :
    Prop :=
  ∀ n ∈ names, ∃ r, Objects.Lookup net fuel o zone n = .ok r ∧ ∀ a ∈ r.2, a ≠ none

/-- The calls of `mikrotikRule` for a service name, once the references are classified. -/
def callsFor (ord : MapOrder) (services : Services) (serviceName : String)
    (src dst : Endpoints) : Res (List RuleArgs) :=
  if serviceName = "ANY" then .ok (ruleArgs src dst "" [])
  else
    match services serviceName with
    | none => .panic ("services not found: " ++ serviceName)
    | some svc =>
      .ok ((ServiceList.AllProtocols ord svc).flatMap fun proto => ruleArgs src dst proto svc)

/-- The number of combinations of a source item and a destination item of a
policy: `N*M + N*D + S*M + S*D`. -/
def combinations (net : NetEnv) (fuel : Nat) (p : Policy) (o : Objects) : Nat :=
  singleCount net fuel o p.From p.Sources * singleCount net fuel o p.To p.Destinations +
    singleCount net fuel o p.From p.Sources * listCount net fuel o p.To p.Destinations +
    listCount net fuel o p.From p.Sources * singleCount net fuel o p.To p.Destinations +
    listCount net fuel o p.From p.Sources * listCount net fuel o p.To p.Destinations

/-- The single addresses of a side are not nil and its list names are not empty. -/
def GoodEndpoints (e : Endpoints) : Prop :=
  (∀ s ∈ e.singles, s.2 ≠ none) ∧ (∀ l ∈ e.lists, l ≠ "")

/-- The number of passes of the four nested loops for a service name: one for
the sentinel "ANY", and one per distinct protocol of the catalog entry
otherwise. -/
def protocolPasses (services : Services) (serviceName : String) : Nat :=
  if serviceName = "ANY" then 1 else distinctProtocols ((services serviceName).getD [])

/-! ## The address fields of a rule, unknown services, a cyclic store -/

/-- No field of the rule begins with `kind`. -/
def NoField (kind : String) (fields : List String) : Prop :=
  ∀ f ∈ fields, startsWith f kind = false

/-- The four beginnings of an address field. -/
def addressKinds : List String :=
  [" src-address=", " src-address-list=", " dst-address=", " dst-address-list="]

/-- The call of `mikrotikRule` was made for the source reference `s`: with `s`
as the source name and no list, or with the list name of `s`. -/
def ForSource (p : Policy) (s : String) (a : RuleArgs) : Prop :=
  (a.srcList = "" ∧ a.srcName = s) ∨ a.srcList = p.From ++ "__" ++ s

/-- The call of `mikrotikRule` was made for the destination reference `d`. -/
def ForDestination (p : Policy) (d : String) (a : RuleArgs) : Prop :=
  (a.dstList = "" ∧ a.dstName = d) ∨ a.dstList = p.To ++ "__" ++ d

/-- The source fields a rule must have for a reference resolved to `r`: the
list field and no address field when `r` has more than one address; for
exactly one address, the address field and no list field, or neither field
when the address is 0.0.0.0. -/
def SourceFields (p : Policy) (s : String) (r : LookupResult) (fields : List String) : Prop :=
  (1 < r.2.length ∧ " src-address-list=" ++ (p.From ++ "__" ++ s) ∈ fields ∧
      NoField " src-address=" fields) ∨
    ∃ n, r.2 = [some n] ∧
      (if ipEqual n.IP IPv4zero then
        NoField " src-address=" fields ∧ NoField " src-address-list=" fields
      else " src-address=" ++ n.String ∈ fields ∧ NoField " src-address-list=" fields)

/-- The destination fields a rule must have for a reference resolved to `r`. -/
def DestinationFields (p : Policy) (d : String) (r : LookupResult) (fields : List String) : Prop :=
  (1 < r.2.length ∧ " dst-address-list=" ++ (p.To ++ "__" ++ d) ∈ fields ∧
      NoField " dst-address=" fields) ∨
    ∃ n, r.2 = [some n] ∧
      (if ipEqual n.IP IPv4zero then
        NoField " dst-address=" fields ∧ NoField " dst-address-list=" fields
      else " dst-address=" ++ n.String ∈ fields ∧ NoField " dst-address-list=" fields)

/-- The policy is enabled, not zone-wide, and references a service name that
is neither "ANY" nor a key of the catalog. -/
def BadPolicy (services : Services) (p : Policy) : Prop :=
  p.Disabled = false ∧ p.IsZonePolicy = .ok false ∧
    ∃ s ∈ p.Services, s ≠ "ANY" ∧ services s = none

/-- Some enabled, non-zone-wide policy references an unknown service name. -/
def UnknownService (services : Services) (ps : List Policy) : Prop :=
  ∃ p ∈ ps, BadPolicy services p

/-- The table of zone "Trust" of `loopStore`: the group "G" lists itself. -/
def loopTable : GoMap PolicyObject := fun n =>
  if n = "G" then some ⟨some net10_0_0_1, ["G"]⟩ else none

/-- A store whose only object is a group that is its own member; the object
carries an address. -/
def loopStore : Objects := fun z => if z = "Trust" then some loopTable else none

/-! ## Auxiliary definitions: termination and leaves of `Objects.Lookup` -/

/-- `Objects.Lookup` terminates for `(zone, name)`: every large enough recursion
budget yields the same outcome, a result or a panic. -/
def Terminates (net : NetEnv) (o : Objects) (zone name : String) : Prop :=
  ∃ (N : Nat) (res : Res LookupResult), res ≠ .outOfFuel ∧
    ∀ fuel, N ≤ fuel → Objects.Lookup net fuel o zone name = res

/-- The address `a` is what the name `n` resolves to by itself: `Objects.Lookup`
on `n` returns the single entry `(n, a)`, whatever the recursion budget. -/
def ResolvesAlone (net : NetEnv) (o : Objects) (zone : String) (n : String) (a : Option IPNet) : Prop :=
  ∀ fuel, Objects.Lookup net fuel o zone n = .ok ([n], [a])

/-- The name `n` is `name` or is reached from it through group members. -/
def ReachedFrom (o : Objects) (zone : String) (name n : String) : Prop :=
  Relation.ReflTransGen (memberOf o zone) n name

/-- The arguments of a tcp rule for a service list with the definitions
1024-2000 → 443-443 and 0-65535 → 0-65535. -/
def portsArgs : RuleArgs :=
  ⟨"Server1", some net10_0_0_1, "", "any", some ⟨IPv4zero, IPv4zero⟩, "", "tcp",
    [⟨"tcp", 0, 1024, 2000, 443, 443⟩, ⟨"tcp", 0, 0, 65535, 0, 65535⟩]⟩

/-! ## Auxiliary definitions for the parser -/

/-- The variables of Go `parse` before the first line. -/
def ParseState.initial : ParseState := ⟨[], GoMap.empty, defaultServices, ""⟩

/-- The variables of Go `parse` after the lines of `input`. -/
def parseState (net : NetEnv) (input : List Directive) : Res ParseState :=
  foldRes (parseDirective net) ParseState.initial input

/-- The NAT port of a creation directive: zero when the capture is empty. -/
def natPortOf : Option Nat → Int
  | none => 0
  | some n => Int.ofNat n

/-- The policy that the creation directive with these captures builds. -/
def createdPolicy (id : Nat) (name zoneFrom zoneTo src dst service nat natAddress : String)
    (natPort : Option Nat) (action : String) (log : Bool) : Policy :=
  { ID := Int.ofNat id, Name := name, From := zoneFrom, To := zoneTo, Sources := [src],
    Destinations := [dst], Services := [service], Application := "", NAT := nat,
    NATAddress := natAddress,
    NATPort := natPortOf natPort,
    Action := action, Log := log, LogInit := false, Disabled := false }

/-- The ID of a policy-creation directive. -/
def Directive.createdID : Directive → Option Nat
  | .policyCreate id _ _ _ _ _ _ _ _ _ _ _ => some id
  | _ => none

/-- The IDs of the policy-creation directives of an input, in input order. -/
def createdIDs (input : List Directive) : List Nat := input.filterMap Directive.createdID

/-- The lines of a policy block that the inner `switch` does not panic on. -/
def BlockLine.accepted : BlockLine → Bool
  | .service _ => true
  | .srcAddress _ => true
  | .dstAddress _ => true
  | .log option => decide (option = "session-init")
  | .other _ => false

/-- What an accepted line of a policy block does to the policy of the block. -/
def lineEffect : BlockLine → Policy → Policy
  | .service name, p => { p with Services := p.Services ++ [name] }
  | .srcAddress name, p => { p with Sources := p.Sources ++ [name] }
  | .dstAddress name, p => { p with Destinations := p.Destinations ++ [name] }
  | .log _, p => { p with LogInit := true }
  | .other _, p => p

/-- The names of the `set src-address "X"` lines of a block, in line order. -/
def srcNames (body : List BlockLine) : List String :=
  body.filterMap fun l =>
    match l with
    | .srcAddress name => some name
    | _ => none

/-- The names of the `set dst-address "X"` lines of a block, in line order. -/
def dstNames (body : List BlockLine) : List String :=
  body.filterMap fun l =>
    match l with
    | .dstAddress name => some name
    | _ => none

/-- The names of the `set service "X"` lines of a block, in line order. -/
def serviceNames (body : List BlockLine) : List String :=
  body.filterMap fun l =>
    match l with
    | .service name => some name
    | _ => none

/-- A `set log session-init` line occurs in the block. -/
def sessionInit (body : List BlockLine) : Bool :=
  body.any fun l =>
    match l with
    | .log option => decide (option = "session-init")
    | _ => false

/-- What the specification says a block does to the policy it names: the
names of its lines appended to the three lists, `LogInit` set when a
`set log session-init` line occurs, the other fields unchanged. -/
def blockEffect (body : List BlockLine) (p : Policy) : Policy :=
  { p with
    Sources := p.Sources ++ srcNames body,
    Destinations := p.Destinations ++ dstNames body,
    Services := p.Services ++ serviceNames body,
    LogInit := p.LogInit || sessionInit body }

/-- A sample input: two policy creations, a block for the first policy and a
flag line for the second. -/
def blockInput : List Directive :=
  [.policyCreate 5 "web" "Trust" "Untrust" "Server1" "any" "HTTP" "" "" none "permit" true,
   .policyCreate 6 "" "Trust" "Untrust" "any" "any" "ANY" "" "" none "deny" false,
   .policyBlock 5 [.srcAddress "Server2", .service "HTTPS", .log "session-init",
     .dstAddress "Server3", .service "SSH"],
   .policyFlag 6 "disable" ""]

/-- The policies that `parse` returns for `blockInput`. -/
def blockPolicies : List Policy :=
  [{ ID := 5, Name := "web", Disabled := false, From := "Trust", To := "Untrust",
     Sources := ["Server1", "Server2"], Destinations := ["any", "Server3"],
     Services := ["HTTP", "HTTPS", "SSH"], Application := "", NAT := "", NATAddress := "",
     NATPort := 0, Action := "permit", Log := true, LogInit := true },
   { ID := 6, Name := "", Disabled := true, From := "Trust", To := "Untrust",
     Sources := ["any"], Destinations := ["any"], Services := ["ANY"], Application := "",
     NAT := "", NATAddress := "", NATPort := 0, Action := "deny", Log := false, LogInit := false }]

/-- An input whose two policy creations carry the same ID. -/
def repeatedIDInput : List Directive :=
  [.policyCreate 5 "web" "Trust" "Untrust" "Server1" "any" "HTTP" "" "" none "permit" true,
   .policyCreate 5 "" "Trust" "Untrust" "any" "any" "ANY" "" "" none "deny" false]

/-- An input of two policy creations, with the IDs 5 and 6. -/
def createInput : List Directive :=
  [.policyCreate 5 "web" "Trust" "Untrust" "Server1" "any" "HTTP" "" "" none "permit" true,
   .policyCreate 6 "" "Trust" "Untrust" "any" "any" "ANY" "" "" none "deny" false]

/-- The variables of `parse` after `createInput`. -/
def createState : ParseState :=
  ⟨[createdPolicy 5 "web" "Trust" "Untrust" "Server1" "any" "HTTP" "" "" none "permit" true,
    createdPolicy 6 "" "Trust" "Untrust" "any" "any" "ANY" "" "" none "deny" false],
    GoMap.empty, defaultServices, ""⟩

/-! ## Auxiliary definitions for the service directives -/

/-- The name of the most recent service-definition directive, `acc` when the
input has none. -/
def lastDefinedFrom (acc : Option String) : List Directive → Option String
  | [] => acc
  | .serviceDefine name _ _ _ _ _ :: rest => lastDefinedFrom (some name) rest
  | _ :: rest => lastDefinedFrom acc rest

/-- The name of the most recent service-definition directive of an input, if it has one. -/
def lastDefined (input : List Directive) : Option String := lastDefinedFrom none input

/-- An input that defines the service "WEB". -/
def webInput : List Directive := [.serviceDefine "WEB" "tcp" 0 65535 8080 8080]

/-- The variables of `parse` after `webInput`. -/
def webState : ParseState :=
  ⟨[], GoMap.empty, Services.Add defaultServices "WEB" ⟨"tcp", 0, 0, 65535, 8080, 8080⟩, "WEB"⟩

/-- The table entry of the pair `(zone, name)`: Go `o[zone][name]`, absent
when the zone or the name is. -/
def Objects.entry (o : Objects) (zone name : String) : Option PolicyObject :=
  match o zone with
  | none => none
  | some tbl => tbl name

/-- A permit policy from "Trust" to "Untrust" for the built-in service "DNS",
whose definitions are one for tcp and one for udp. -/
def dnsPolicy : Policy := simplePolicy 1 "Server1" "any" "DNS"

/-- The tcp rule of `dnsPolicy`. -/
def dnsTcpRule : List String :=
  ["add chain=Trust__Untrust", " src-address=10.0.0.1/32", " protocol=tcp", " dst-port=53-53",
    " action=accept", " comment=\"ID: 1 - Server1 -> any\"\n"]

/-- The udp rule of `dnsPolicy`. -/
def dnsUdpRule : List String :=
  ["add chain=Trust__Untrust", " src-address=10.0.0.1/32", " protocol=udp", " dst-port=53-53",
    " action=accept", " comment=\"ID: 1 - Server1 -> any\"\n"]

/-! ## parse.go: the lines of the input as text

`parse` reads the input line by line. A line read by the outer loop is trimmed
and then classified by the outer `switch`, which is a parameter here
(`classify`, from the trimmed line to its `Directive`; for a line that matches
`setPolicyRx` the body of the directive is read from the following lines). A
line read by the inner loop of a policy block is compared with `exit` and
matched against `setPolicyServiceRx` and `setLogOptionsRx` as it is. -/

/-- Go `unicode.IsSpace`. -/
def isSpace (c : Char) : Bool :=
  c = '\t' || c = '\n' || c.toNat = 0x0B || c.toNat = 0x0C || c = '\r' || c = ' ' ||
    c.toNat = 0x85 || c.toNat = 0xA0 || c.toNat = 0x1680 ||
    (0x2000 ≤ c.toNat && c.toNat ≤ 0x200A) || c.toNat = 0x2028 || c.toNat = 0x2029 ||
    c.toNat = 0x202F || c.toNat = 0x205F || c.toNat = 0x3000

/-- Go `strings.TrimSpace`. -/
def trimSpace (s : String) : String :=
  ⟨((s.data.dropWhile isSpace).reverse.dropWhile isSpace).reverse⟩

/-- The rest of the characters after the beginning `p`, when they begin with it. -/
def stripStart : List Char → List Char → Option (List Char)
  | [], cs => some cs
  | _ :: _, [] => none
  | p :: ps, c :: cs => if p = c then stripStart ps cs else none

/-- The expression `"([^"]+)"$` on the rest of a line: the captured name. -/
def quotedName (cs : List Char) : Option String :=
  match cs with
  | '"' :: rest =>
    match rest.reverse with
    | '"' :: revName =>
      if revName ≠ [] ∧ '"' ∉ revName then some ⟨revName.reverse⟩ else none
    | _ => none
  | _ => none

/-- The name captured by `^set KIND "([^"]+)"$` on a line, for one of the
three kinds of `setPolicyServiceRx`. -/
def matchKind (kind : String) (line : String) : Option String :=
  match stripStart ("set " ++ kind ++ " ").data line.data with
  | some rest => quotedName rest
  | none => none

/-- The inner `switch` of a policy block on a line, which is not trimmed:
`setPolicyServiceRx` with its three kinds, then `setLogOptionsRx`
(`^set log (.*)$`), then the default case. -/
def classifyBlockText (line : String) : BlockLine :=
  match matchKind "service" line with
  | some name => .service name
  | none =>
    match matchKind "dst-address" line with
    | some name => .dstAddress name
    | none =>
      match matchKind "src-address" line with
      | some name => .srcAddress name
      | none =>
        match stripStart ("set log " : String).data line.data with
        | some option => .log ⟨option⟩
        | none => .other line

/-- The directives of the lines of an input. Outside a block (`none`) a line
is trimmed and classified; a line that opens a block for `id` starts the
collection of its body (`some (id, body)`), which ends at the line that is
exactly `exit`, or at the end of the input. -/
def directivesOf (classify : String → Directive) :
    Option (Nat × List BlockLine) → List String → List Directive
  | none, [] => []
  | some (id, body), [] => [.policyBlock id body]
  | none, raw :: rest =>
    match classify (trimSpace raw) with
    | .policyBlock id _ => directivesOf classify (some (id, [])) rest
    | d => d :: directivesOf classify none rest
  | some (id, body), raw :: rest =>
    if raw = "exit" then .policyBlock id body :: directivesOf classify none rest
    else directivesOf classify (some (id, body ++ [classifyBlockText raw])) rest

/-- Go `parse` on the lines of the input. -/
def parseText (net : NetEnv) (classify : String → Directive) (lines : List String) :
    Res (List Policy × Objects × Services) :=
  parse net (directivesOf classify none lines)

/-- The first line of the sample input: the creation of the policy 5. -/
def sampleCreateLine : String :=
  "set policy id 5 from \"Trust\" to \"Untrust\"  \"Server1\" \"any\" \"HTTP\" permit"

/-- The outcome of the outer `switch` on the two outer lines of the sample
input: `sampleCreateLine` matches `setPolicyCreateRx`, and `set policy id 5`
matches `setPolicyRx`. -/
def sampleClassify (line : String) : Directive :=
  if line = sampleCreateLine then
    .policyCreate 5 "" "Trust" "Untrust" "Server1" "any" "HTTP" "" "" none "permit" false
  else if line = "set policy id 5" then .policyBlock 5 []
  else .ignored

/-- The sample input, with a given line inside the block and a given
terminator line: the creation of the policy 5, the block line
`set policy id 5`, one line of the block, and the terminator. -/
def sampleLines (blockLine terminator : String) : List String :=
  [sampleCreateLine, "set policy id 5", blockLine, terminator]

/-! ## The tokens of an emitted rule

`mikrotikRule` writes the chain, the list names and the protocol as they are,
without quoting; only the comment is written between quotes. The tokens of a
rule are the pieces, separated by spaces, of its text before the comment. -/

/-- The text has no space character. -/
def NoSpace (s : String) : Prop := ' ' ∉ s.data

instance (s : String) : Decidable (NoSpace s) := inferInstanceAs (Decidable (' ' ∉ s.data))

/-- The characters `comment="`, which follow the space before the comment of a rule. -/
def commentStart : List Char := ("comment=\"" : String).data

/-- The characters of a text before its first occurrence of ` comment="`. -/
def beforeComment : List Char → List Char
  | [] => []
  | c :: cs =>
    if c = ' ' ∧ commentStart.isPrefixOf cs = true then [] else c :: beforeComment cs

/-- Pieces written one after the other, separated by the character `sep`. -/
def joinWith (sep : Char) : List (List Char) → List Char
  | [] => []
  | [t] => t
  | t :: rest => t ++ sep :: joinWith sep rest

/-- The tokens of an emitted rule: its text before the comment, cut at the spaces. -/
def ruleTokens (text : String) : List String :=
  (splitOnChar ' ' (beforeComment text.data)).map String.mk

/-- The to-zone of `injectPolicy`: a zone name, which `setPolicyCreateRx`
captures with `[^"]+`, that holds spaces and text shaped like fields of a rule. -/
def injectZone : String := "U log=yes action=drop dst-port=0-65535 src-address=6.6.6.6"

/-- A permit policy without logging, from "Trust" to `injectZone`, whose source
is the group "Servers" of `demoStore`. -/
def injectPolicy : Policy :=
  { ID := 8, Name := "", Disabled := false, From := "Trust", To := injectZone,
    Sources := ["Servers"], Destinations := ["any"], Services := ["HTTPS"],
    Application := "", NAT := "", NATAddress := "", NATPort := 0, Action := "permit",
    Log := false, LogInit := false }

/-- The fields of the one rule written for `injectPolicy` on `demoStore`. -/
def injectFields : List String :=
  ["add chain=Trust__U log=yes action=drop dst-port=0-65535 src-address=6.6.6.6",
    " src-address-list=Trust__Servers", " protocol=tcp", " dst-port=443-443", " action=accept",
    " comment=\"ID: 8 - Trust__Servers -> any\"\n"]

/-- The beginnings of the fields that `mikrotikRule` writes between the chain
and the comment, without the space before them. -/
def bodyKinds : List String :=
  ["src-address", "dst-address", "protocol=", "src-port=", "dst-port=", "icmp-options=",
    "action=", "log="]

/-- The arguments of the call of `mikrotikRule` for `injectPolicy` on
`demoStore`: the source list of the group "Servers", the wildcard destination
and the protocol tcp of "HTTPS". -/
def injectArgs : RuleArgs :=
  ⟨"", none, "Trust__Servers", "any", some ⟨IPv4zero, IPv4zero⟩, "", "tcp",
    [⟨"tcp", 0, 0, 65535, 443, 443⟩]⟩

/-- The text of the rule that `mikrotikRule` writes for `wildcardDenyPolicy`
with the arguments `portsArgs`. -/
def portsRuleText : String :=
  "add chain=Trust__Untrust src-address=10.0.0.1/32 protocol=tcp src-port=1024-2000" ++
    " dst-port=443-443 action=drop comment=\"ID: 9 - default - Server1 -> any\"\n"

/-- No token of the rule begins with `kind`. -/
def NoToken (kind : String) (tokens : List String) : Prop :=
  ∀ t ∈ tokens, startsWith t kind = false

/-- The source tokens a rule must have for a reference resolved to `r`: the
list token and no address token when `r` has more than one address; for
exactly one address, the address token and no list token, or neither token
when the address is 0.0.0.0. -/
def SourceTokens (p : Policy) (s : String) (r : LookupResult) (tokens : List String) : Prop :=
  (1 < r.2.length ∧ "src-address-list=" ++ (p.From ++ "__" ++ s) ∈ tokens ∧
      NoToken "src-address=" tokens) ∨
    ∃ n, r.2 = [some n] ∧
      (if ipEqual n.IP IPv4zero then
        NoToken "src-address=" tokens ∧ NoToken "src-address-list=" tokens
      else "src-address=" ++ n.String ∈ tokens ∧ NoToken "src-address-list=" tokens)

/-- The destination tokens a rule must have for a reference resolved to `r`. -/
def DestinationTokens (p : Policy) (d : String) (r : LookupResult) (tokens : List String) :
    Prop :=
  (1 < r.2.length ∧ "dst-address-list=" ++ (p.To ++ "__" ++ d) ∈ tokens ∧
      NoToken "dst-address=" tokens) ∨
    ∃ n, r.2 = [some n] ∧
      (if ipEqual n.IP IPv4zero then
        NoToken "dst-address=" tokens ∧ NoToken "dst-address-list=" tokens
      else "dst-address=" ++ n.String ∈ tokens ∧ NoToken "dst-address-list=" tokens)

/-- The two rules written for `groupPolicy` on `demoStore` and the service "HTTPS". -/
def groupRules : List (List String) :=
  [["add chain=Trust__Trust", " src-address-list=Trust__Servers", " dst-address=10.0.0.2/32",
      " protocol=tcp", " dst-port=443-443", " action=accept",
      " comment=\"ID: 3 - Trust__Servers -> Server2\"\n"],
    ["add chain=Trust__Trust", " src-address-list=Trust__Servers",
      " dst-address-list=Trust__Servers", " protocol=tcp", " dst-port=443-443", " action=accept",
      " comment=\"ID: 3 - Trust__Servers -> Trust__Servers\"\n"]]

/-- The first rule of `groupRules`. -/
def groupFields : List String :=
  ["add chain=Trust__Trust", " src-address-list=Trust__Servers", " dst-address=10.0.0.2/32",
    " protocol=tcp", " dst-port=443-443", " action=accept",
    " comment=\"ID: 3 - Trust__Servers -> Server2\"\n"]

theorem ipEqual_eq_canon (a b : IP) : ipEqual a b = decide (canonIP a = canonIP b) := by
  unfold ipEqual canonIP
  by_cases hab : a.length = b.length
  · simp only [hab, if_true]
    by_cases hb : b.length = 4
    · rw [Bool.eq_iff_iff]; simp [hb]
    · rw [Bool.eq_iff_iff]; simp [hb]
  · simp only [hab, if_false]
    by_cases ha : a.length = 4
    · have hb : b.length ≠ 4 := fun h => hab (ha.trans h.symm)
      simp only [ha, hb, if_true, if_false, true_and]
      by_cases hb16 : b.length = 16
      · simp only [hb16, if_true]
        have hsplit : b = b.take 12 ++ b.drop 12 := (List.take_append_drop 12 b).symm
        have hl : (b.take 12).length = 12 := by simp [hb16]
        rw [Bool.eq_iff_iff]
        simp only [Bool.and_eq_true, beq_iff_eq, decide_eq_true_eq]
        constructor
        · rintro ⟨h1, h2⟩
          rw [hsplit, h1, h2]
        · intro h
          rw [hsplit] at h
          have := List.append_inj h (by simp [v4InV6Prefix, hl])
          exact ⟨this.1.symm, this.2⟩
      · simp only [hb16, if_false]
        have : v4InV6Prefix ++ a ≠ b := by
          intro h
          apply hb16
          rw [← h]
          simp [v4InV6Prefix, ha]
        simp [this, ha]
    · simp only [ha, if_false, false_and]
      by_cases hb : b.length = 4
      · simp only [hb, if_true, and_true]
        by_cases ha16 : a.length = 16
        · simp only [ha16, if_true]
          have hsplit : a = a.take 12 ++ a.drop 12 := (List.take_append_drop 12 a).symm
          have hl : (a.take 12).length = 12 := by simp [ha16]
          rw [Bool.eq_iff_iff]
          simp only [Bool.and_eq_true, beq_iff_eq, decide_eq_true_eq]
          constructor
          · rintro ⟨h1, h2⟩
            rw [hsplit, h1, h2]
          · intro h
            rw [hsplit] at h
            have := List.append_inj h (by simp [v4InV6Prefix, hl])
            exact ⟨this.1, this.2⟩
        · simp only [ha16, if_false]
          have : a ≠ v4InV6Prefix ++ b := by
            intro h
            apply ha16
            rw [h]
            simp [v4InV6Prefix, hb]
          simp [this]
      · simp only [hb, if_false, and_false]
        have : a ≠ b := fun h => hab (by rw [h])
        simp [this]

theorem sameNet_eq_key (a b : IPNet) : sameNet a b = decide (netKey a = netKey b) := by
  unfold sameNet netKey
  rw [ipEqual_eq_canon, Bool.eq_iff_iff]
  simp [Prod.ext_iff]

theorem sameNet_refl (a : IPNet) : sameNet a a = true := by
  simp [sameNet_eq_key]

theorem sameNet_symm (a b : IPNet) : sameNet a b = sameNet b a := by
  simp only [sameNet_eq_key]
  exact decide_eq_decide.mpr eq_comm

theorem sameNet_trans {a b c : IPNet} (h1 : sameNet a b = true) (h2 : sameNet b c = true) :
    sameNet a c = true := by
  simp only [sameNet_eq_key, decide_eq_true_eq] at *
  exact h1.trans h2

/-! ## Lemmas on the deduplication loop -/

theorem sameAddr_eq_key (a b : Option IPNet) :
    sameAddr a b = decide (a.map netKey = b.map netKey) := by
  cases a <;> cases b <;> simp [sameAddr, sameNet_eq_key]

theorem dedupFound_some (a : IPNet) :
    ∀ (dedup : List (Option IPNet)) (found : Bool), (∀ d ∈ dedup, d ≠ none) →
      dedupFound (some a) dedup found = .ok (found || dedup.any (fun d => sameAddr (some a) d)) := by
  intro dedup
  induction dedup with
  | nil => intro found _; simp [dedupFound]
  | cons d rest ih =>
    intro found h
    cases d with
    | none => exact absurd rfl (h none (List.mem_cons_self _ _))
    | some b =>
      have hrest : ∀ d ∈ rest, d ≠ none := fun d hd => h d (List.mem_cons_of_mem _ hd)
      simp only [dedupFound, ih _ hrest, List.any_cons, sameAddr]
      cases sameNet a b <;> cases found <;> simp

theorem dedupLoop_eq_codeDedup (names : List String) :
    ∀ (rest : List (String × Option IPNet)) (pre : List String)
      (acc : List (String × Option IPNet)),
      names = pre ++ rest.map Prod.fst →
      (∀ e ∈ rest, e.2 ≠ none) → (∀ e ∈ acc, e.2 ≠ none) →
      dedupLoop names (rest.map Prod.snd) pre.length (acc.map Prod.snd) (acc.map Prod.fst)
        = .ok (LookupResult.ofEntries (codeDedup acc rest)) := by
  intro rest
  induction rest with
  | nil => intro pre acc _ _ _; simp [dedupLoop, codeDedup, LookupResult.ofEntries]
  | cons e rest ih =>
    intro pre acc hn hrest hacc
    obtain ⟨n, a⟩ := e
    cases a with
    | none => exact absurd rfl (hrest (n, none) (List.mem_cons_self _ _))
    | some a =>
      have hrest2 : ∀ e ∈ rest, e.2 ≠ none := fun e he => hrest e (List.mem_cons_of_mem _ he)
      have hidx : names[pre.length]? = some n := by
        rw [hn, List.map_cons, List.getElem?_append_right (le_refl _)]; simp
      have hfound : dedupFound (some a) (acc.map Prod.snd) false
          = .ok (acc.any (fun d => sameAddr (some a) d.2)) := by
        rw [dedupFound_some a _ false (by
          intro d hd
          obtain ⟨e, he, rfl⟩ := List.mem_map.mp hd
          exact hacc e he)]
        rw [Bool.false_or]
        congr 1
        induction acc with
        | nil => rfl
        | cons x xs ihx =>
          simp only [List.map_cons, List.any_cons]
          rw [ihx (fun e he => hacc e (List.mem_cons_of_mem _ he))]
      have hn2 : names = (pre ++ [n]) ++ rest.map Prod.fst := by
        rw [hn]; simp
      simp only [List.map_cons, dedupLoop, hfound, codeDedup, hidx]
      by_cases hf : acc.any (fun d => sameAddr (some a) d.2) = true
      · simp only [hf, Bool.not_true, if_true]
        have := ih (pre ++ [n]) acc hn2 hrest2 hacc
        simpa using this
      · simp only [hf, Bool.not_false, if_true, if_false]
        have hacc2 : ∀ e ∈ acc ++ [(n, some a)], e.2 ≠ none := by
          intro e he
          rcases List.mem_append.mp he with h | h
          · exact hacc e h
          · simp at h; subst h; simp
        have := ih (pre ++ [n]) (acc ++ [(n, some a)]) hn2 hrest2 hacc2
        simpa using this

theorem codeDedup_eq_firstOccurrences :
    ∀ (rest earlier acc : List (String × Option IPNet)),
      (∀ x ∈ earlier, ∃ d ∈ acc, sameAddr x.2 d.2 = true) → (∀ d ∈ acc, d ∈ earlier) →
      codeDedup acc rest = acc ++ firstOccurrences earlier rest := by
  intro rest
  induction rest with
  | nil => intro earlier acc _ _; simp [codeDedup, firstOccurrences]
  | cons e rest ih =>
    intro earlier acc h1 h2
    have hany : acc.any (fun d => sameAddr e.2 d.2) = earlier.any (fun x => sameAddr e.2 x.2) := by
      rw [Bool.eq_iff_iff]
      simp only [List.any_eq_true]
      constructor
      · rintro ⟨d, hd, hs⟩
        exact ⟨d, h2 d hd, hs⟩
      · rintro ⟨x, hx, hs⟩
        obtain ⟨d, hd, hxd⟩ := h1 x hx
        refine ⟨d, hd, ?_⟩
        simp only [sameAddr_eq_key, decide_eq_true_eq] at *
        exact hs.trans hxd
    simp only [codeDedup, firstOccurrences, hany]
    by_cases hf : earlier.any (fun x => sameAddr e.2 x.2) = true
    · simp only [hf, if_true]
      apply ih
      · intro x hx
        rcases List.mem_append.mp hx with h | h
        · exact h1 x h
        · simp at h; subst h
          rw [← hany] at hf
          simpa [List.any_eq_true] using hf
      · intro d hd
        exact List.mem_append_left _ (h2 d hd)
    · simp only [hf, if_false]
      rw [ih (earlier ++ [e]) (acc ++ [e])]
      · simp
      · intro x hx
        rcases List.mem_append.mp hx with h | h
        · obtain ⟨d, hd, hs⟩ := h1 x h
          exact ⟨d, List.mem_append_left _ hd, hs⟩
        · simp at h; subst h
          exact ⟨x, by simp, by simp [sameAddr_eq_key]⟩
      · intro d hd
        rcases List.mem_append.mp hd with h | h
        · exact List.mem_append_left _ (h2 d h)
        · exact List.mem_append_right _ h

theorem codeDedup_eq_dedupSpec (l : List (String × Option IPNet)) :
    codeDedup [] l = dedupSpec l := by
  rw [codeDedup_eq_firstOccurrences l [] [] (by simp) (by simp)]
  simp [dedupSpec]

theorem firstOccurrences_subset :
    ∀ (rest earlier : List (String × Option IPNet)), ∀ e ∈ firstOccurrences earlier rest, e ∈ rest := by
  intro rest
  induction rest with
  | nil => intro earlier e he; simp [firstOccurrences] at he
  | cons x rest ih =>
    intro earlier e he
    simp only [firstOccurrences] at he
    split at he
    · exact List.mem_cons_of_mem _ (ih _ e he)
    · rcases List.mem_cons.mp he with h | h
      · subst h; exact List.mem_cons_self _ _
      · exact List.mem_cons_of_mem _ (ih _ e h)

/-! ## Theorems: `Objects.Lookup` and group resolution (C1) -/

theorem Lookup_eq (net : NetEnv) (fuel : Nat) (o : Objects) (zone name : String) :
    Objects.Lookup net fuel o zone name = lookupBody net o zone (lookupRec net o zone fuel) name := by
  cases fuel <;> rfl

theorem isReserved_false {name : String} (h : isReserved name = false) :
    toLower name ≠ "any" ∧ startsWith name "MIP(" = false ∧ startsWith name "VIP(" = false := by
  simp only [isReserved, Bool.or_eq_false_iff, beq_eq_false_iff_ne] at h
  exact ⟨h.1.1, h.1.2, h.2⟩

theorem lookupMembers_ok (rec : String → Res LookupResult) :
    ∀ (ms : List String) (rs : List LookupResult) (names : List String) (ret : List (Option IPNet)),
      List.Forall₂ (fun m r => rec m = .ok r) ms rs →
      lookupMembers rec ms names ret
        = .ok (names ++ rs.flatMap Prod.fst, ret ++ rs.flatMap Prod.snd) := by
  intro ms
  induction ms with
  | nil =>
    intro rs names ret h
    cases h
    simp [lookupMembers]
  | cons m ms ih =>
    intro rs names ret h
    cases h with
    | cons hm hrest =>
      rename_i r rs
      obtain ⟨n, a⟩ := r
      simp only [lookupMembers, hm, ih _ _ _ hrest, List.flatMap_cons, List.append_assoc]

theorem zip_flatMap_entries (rs : List LookupResult) (h : ∀ r ∈ rs, r.1.length = r.2.length) :
    (rs.flatMap Prod.fst).zip (rs.flatMap Prod.snd) = rs.flatMap LookupResult.entries := by
  induction rs with
  | nil => rfl
  | cons r rs ih =>
    simp only [List.flatMap_cons]
    rw [List.zip_append (h r (List.mem_cons_self _ _)),
      ih (fun r hr => h r (List.mem_cons_of_mem _ hr))]
    rfl

theorem length_flatMap_eq (rs : List LookupResult) (h : ∀ r ∈ rs, r.1.length = r.2.length) :
    (rs.flatMap Prod.fst).length = (rs.flatMap Prod.snd).length := by
  induction rs with
  | nil => rfl
  | cons r rs ih =>
    simp only [List.flatMap_cons, List.length_append]
    rw [h r (List.mem_cons_self _ _), ih (fun r hr => h r (List.mem_cons_of_mem _ hr))]

theorem goodResult_ofEntries_dedupSpec (es : List (String × Option IPNet))
    (h : ∀ e ∈ es, e.2 ≠ none) : GoodResult (LookupResult.ofEntries (dedupSpec es)) := by
  constructor
  · simp [LookupResult.ofEntries]
  · intro a ha
    simp only [LookupResult.ofEntries, List.mem_map] at ha
    obtain ⟨e, he, rfl⟩ := ha
    exact h e (firstOccurrences_subset _ _ e he)

theorem entries_flatMap_good (rs : List LookupResult) (h : ∀ r ∈ rs, GoodResult r) :
    ∀ e ∈ rs.flatMap LookupResult.entries, e.2 ≠ none := by
  intro e he
  obtain ⟨r, hr, her⟩ := List.mem_flatMap.mp he
  obtain ⟨n, a⟩ := e
  exact (h r hr).2 a (List.of_mem_zip her).2

/-- The group branch of `Objects.Lookup`: when every member resolves without a
nil address, the group resolves to the deduplicated concatenation. -/
theorem lookupBody_group (net : NetEnv) (o : Objects) (zone name : String)
    (rec : String → Res LookupResult) (tbl : GoMap PolicyObject) (obj : PolicyObject)
    (rs : List LookupResult)
    (hres : isReserved name = false) (hz : o zone = some tbl) (hn : tbl name = some obj)
    (hmem : obj.GroupMembers ≠ [])
    (hrs : List.Forall₂ (fun m r => rec m = .ok r) obj.GroupMembers rs)
    (hgood : ∀ r ∈ rs, GoodResult r) :
    lookupBody net o zone rec name
      = .ok (LookupResult.ofEntries (dedupSpec (rs.flatMap LookupResult.entries))) := by
  obtain ⟨h1, h2, h3⟩ := isReserved_false hres
  have hlen : obj.GroupMembers.length > 0 := List.length_pos.mpr hmem
  have hl : ∀ r ∈ rs, r.1.length = r.2.length := fun r hr => (hgood r hr).1
  have hzip := zip_flatMap_entries rs hl
  have hlen2 := length_flatMap_eq rs hl
  have hloop := dedupLoop_eq_codeDedup (rs.flatMap Prod.fst) (rs.flatMap LookupResult.entries) [] []
    (by rw [← hzip, List.map_fst_zip _ _ hlen2.le]; simp)
    (entries_flatMap_good rs hgood) (by simp)
  rw [← hzip, List.map_snd_zip _ _ hlen2.ge] at hloop
  simp only [lookupBody, h1, h2, h3, hz, hn, hlen, if_true, if_false,
    lookupMembers_ok rec _ rs [] [] hrs, List.nil_append]
  rw [← codeDedup_eq_dedupSpec, ← hzip]
  simpa using hloop

theorem returns_members (net : NetEnv) (o : Objects) (zone : String) :
    ∀ ms : List String, (∀ m ∈ ms, ∃ r, Returns net o zone m r ∧ GoodResult r) →
      ∃ (rs : List LookupResult) (N : Nat),
        List.Forall₂ (fun m r => Returns net o zone m r) ms rs ∧ (∀ r ∈ rs, GoodResult r) ∧
        ∀ fuel, N ≤ fuel → List.Forall₂ (fun m r => Objects.Lookup net fuel o zone m = .ok r) ms rs := by
  intro ms
  induction ms with
  | nil => intro _; exact ⟨[], 0, List.Forall₂.nil, by simp, fun _ _ => List.Forall₂.nil⟩
  | cons m ms ih =>
    intro h
    obtain ⟨rs, N, h1, h2, h3⟩ := ih (fun x hx => h x (List.mem_cons_of_mem _ hx))
    obtain ⟨r, ⟨M, hM⟩, hr⟩ := h m (List.mem_cons_self _ _)
    refine ⟨r :: rs, max M N, List.Forall₂.cons ⟨M, hM⟩ h1, ?_, ?_⟩
    · intro x hx
      rcases List.mem_cons.mp hx with hx | hx
      · subst hx; exact hr
      · exact h2 x hx
    · intro fuel hf
      exact List.Forall₂.cons (hM fuel (le_trans (le_max_left _ _) hf))
        (h3 fuel (le_trans (le_max_right _ _) hf))

theorem isReserved_of_not {name : String} (h1 : toLower name ≠ "any")
    (h2 : startsWith name "MIP(" = false) (h3 : startsWith name "VIP(" = false) :
    isReserved name = false := by
  simp [isReserved, h1, h2, h3]

/-- On a store with acyclic groups whose member-less objects carry an address,
`Objects.Lookup` returns for every name, and what it returns has two sequences
of the same length without a nil address. -/
theorem lookup_total (net : NetEnv) (o : Objects) (zone : String)
    (hacyc : Acyclic o zone) (hplain : PlainHaveAddress o) :
    ∀ name, ∃ r, Returns net o zone name r ∧ GoodResult r := by
  intro name
  induction name using hacyc.induction with
  | _ name ih =>
  by_cases h1 : toLower name = "any"
  · refine ⟨([name], [some ⟨IPv4zero, IPv4zero⟩]), ⟨0, fun fuel _ => ?_⟩, by simp [GoodResult]⟩
    rw [Lookup_eq]; simp [lookupBody, h1]
  by_cases h2 : startsWith name "MIP(" = true
  · refine ⟨([name], [some ⟨net.ParseIP (replaceAll (replaceAll name ")" "") "MIP(" ""), IPv4bcast⟩]),
      ⟨0, fun fuel _ => ?_⟩, by simp [GoodResult]⟩
    rw [Lookup_eq]; simp [lookupBody, h1, h2]
  by_cases h3 : startsWith name "VIP(" = true
  · refine ⟨([name], [some ⟨net.ParseIP (replaceAll (replaceAll name ")" "") "VIP(" ""), IPv4bcast⟩]),
      ⟨0, fun fuel _ => ?_⟩, by simp [GoodResult]⟩
    rw [Lookup_eq]; simp [lookupBody, h1, h2, h3]
  have h2f : startsWith name "MIP(" = false := by simpa using h2
  have h3f : startsWith name "VIP(" = false := by simpa using h3
  cases hz : o zone with
  | none =>
    refine ⟨([], []), ⟨0, fun fuel _ => ?_⟩, by simp [GoodResult]⟩
    rw [Lookup_eq]; simp [lookupBody, h1, h2f, h3f, hz]
  | some tbl =>
    cases hn : tbl name with
    | none =>
      refine ⟨([], []), ⟨0, fun fuel _ => ?_⟩, by simp [GoodResult]⟩
      rw [Lookup_eq]; simp [lookupBody, h1, h2f, h3f, hz, hn]
    | some obj =>
      by_cases hmem : obj.GroupMembers = []
      · refine ⟨([name], [obj.Address]), ⟨0, fun fuel _ => ?_⟩, ?_⟩
        · rw [Lookup_eq]; simp [lookupBody, h1, h2f, h3f, hz, hn, hmem]
        · refine ⟨rfl, ?_⟩
          intro a ha
          simp only [List.mem_singleton] at ha
          subst ha
          exact hplain zone tbl name obj hz hn hmem
      · have hres := isReserved_of_not h1 h2f h3f
        obtain ⟨rs, N, _, hgood, hN⟩ := returns_members net o zone obj.GroupMembers
          (fun m hm => ih m ⟨hres, tbl, obj, hz, hn, hm⟩)
        refine ⟨LookupResult.ofEntries (dedupSpec (rs.flatMap LookupResult.entries)),
          ⟨N + 1, fun fuel hf => ?_⟩,
          goodResult_ofEntries_dedupSpec _ (entries_flatMap_good rs hgood)⟩
        obtain ⟨k, rfl⟩ : ∃ k, fuel = k + 1 := ⟨fuel - 1, by omega⟩
        rw [Lookup_eq]
        exact lookupBody_group net o zone name _ tbl obj rs hres hz hn hmem
          (hN k (by omega)) hgood

/-- C1, amended. For a store whose member-less objects carry an address, and a group `G`
of a zone whose member graph is acyclic (`G` being a name that `Objects.Lookup`
resolves through the table, with a non-empty member list): every member `m_i`
resolves to some `r_i`, and `Objects.Lookup(zone, G)` returns the concatenation
of the entries of `r_1 .. r_k`, in member order, with every entry removed whose
(IP, mask) equals that of an earlier entry; the surviving (name, address)
entries keep their order and their own name, which is that of the first
occurrence. -/
theorem lookup_group_is_dedup_concat (net : NetEnv) (o : Objects) (zone G : String)
    (tbl : GoMap PolicyObject) (obj : PolicyObject)
    (hacyc : Acyclic o zone) (hplain : PlainHaveAddress o)
    (hres : isReserved G = false) (hz : o zone = some tbl) (hG : tbl G = some obj)
    (hmem : obj.GroupMembers ≠ []) :
    ∃ rs : List LookupResult,
      List.Forall₂ (fun m r => Returns net o zone m r) obj.GroupMembers rs ∧
      Returns net o zone G
        (LookupResult.ofEntries (dedupSpec (rs.flatMap LookupResult.entries))) := by
  obtain ⟨rs, N, hret, hgood, hN⟩ := returns_members net o zone obj.GroupMembers
    (fun m _ => lookup_total net o zone hacyc hplain m)
  refine ⟨rs, hret, N + 1, fun fuel hf => ?_⟩
  obtain ⟨k, rfl⟩ : ∃ k, fuel = k + 1 := ⟨fuel - 1, by omega⟩
  rw [Lookup_eq]
  exact lookupBody_group net o zone G _ tbl obj rs hres hz hG hmem (hN k (by omega)) hgood

/-! ## Theorems: the concrete store -/

/-- A rank that decreases from a group to its members shows the member graph acyclic. -/
theorem acyclic_of_rank (o : Objects) (zone : String) (rank : String → Nat)
    (h : ∀ m g, memberOf o zone m g → rank m < rank g) : Acyclic o zone :=
  Subrelation.wf (fun {m g} hmg => h m g hmg) (InvImage.wf rank Nat.lt_wfRel.wf)

theorem demoStore_plain : PlainHaveAddress demoStore := by
  intro zone tbl name obj hz hn hm
  simp only [demoStore] at hz
  split at hz
  · cases hz
    simp only [demoTable] at hn
    split_ifs at hn <;> simp only [Option.some.injEq, reduceCtorEq] at hn <;> subst hn <;> simp at hm ⊢
  · cases hz

theorem demoStore_acyclic (zone : String) : Acyclic demoStore zone := by
  apply acyclic_of_rank demoStore zone (fun n => if n = "Servers" then 1 else 0)
  rintro m g ⟨_, tbl, obj, hz, hn, hm⟩
  simp only [demoStore] at hz
  split at hz
  · cases hz
    simp only [demoTable] at hn
    split_ifs at hn with h1 h2 h3
    · cases hn; simp at hm
    · cases hn; simp at hm
    · cases hn
      subst h3
      simp only [List.mem_cons, List.mem_singleton, List.not_mem_nil, or_false] at hm
      rcases hm with h | h | h <;> subst h <;> decide
  · cases hz

theorem shadowStore_acyclic : Acyclic shadowStore "Trust" := by
  apply acyclic_of_rank shadowStore "Trust" (fun _ => 0)
  rintro m g ⟨hres, tbl, obj, hz, hn, hm⟩
  exfalso
  simp only [shadowStore, if_true, Option.some.injEq] at hz
  subst hz
  simp only [shadowTable] at hn
  split_ifs at hn with h1 h2 h3
  · cases hn; simp at hm
  · cases hn; simp at hm
  · subst h3
    exact absurd hres (by decide)

theorem nilStore_acyclic : Acyclic nilStore "Trust" := by
  apply acyclic_of_rank nilStore "Trust" (fun n => if n = "G" then 1 else 0)
  rintro m g ⟨_, tbl, obj, hz, hn, hm⟩
  simp only [nilStore, if_true, Option.some.injEq] at hz
  subst hz
  simp only [nilTable] at hn
  split_ifs at hn with h1 h2 h3
  · cases hn; simp at hm
  · cases hn; simp at hm
  · cases hn
    subst h3
    simp only [List.mem_cons, List.mem_singleton, List.not_mem_nil, or_false] at hm
    rcases hm with h | h <;> subst h <;> decide

/-- C1, counterexample. In `shadowStore` the zone "Trust" is acyclic and holds
a group named "any" with the members "Server1" and "Server2", which resolve to
10.0.0.1/32 and 10.0.0.2/32; `Objects.Lookup` answers the wildcard entry for
the name "any" without reading the table, not the two entries of the members.
In `nilStore` the zone is acyclic too, and the group "G" has a member without
address: the deduplication loop dereferences the nil address and panics. -/
theorem lookup_group_shadowed_or_nil_member :
    (Acyclic shadowStore "Trust" ∧
      shadowTable "any" = some ⟨none, ["Server1", "Server2"]⟩ ∧
      Objects.Lookup dottedDecimalEnv 1 shadowStore "Trust" "Server1"
        = .ok (["Server1"], [some net10_0_0_1]) ∧
      Objects.Lookup dottedDecimalEnv 1 shadowStore "Trust" "Server2"
        = .ok (["Server2"], [some net10_0_0_2]) ∧
      dedupSpec [("Server1", some net10_0_0_1), ("Server2", some net10_0_0_2)]
        = [("Server1", some net10_0_0_1), ("Server2", some net10_0_0_2)] ∧
      ∀ fuel, Objects.Lookup dottedDecimalEnv fuel shadowStore "Trust" "any"
        = .ok (["any"], [some ⟨IPv4zero, IPv4zero⟩])) ∧
    (Acyclic nilStore "Trust" ∧
      nilTable "G" = some ⟨none, ["empty", "Server1"]⟩ ∧
      ∀ fuel, Objects.Lookup dottedDecimalEnv (fuel + 1) nilStore "Trust" "G"
        = .panic nilDeref) := by
  refine ⟨⟨shadowStore_acyclic, rfl, by decide, by decide, by decide, ?_⟩,
    nilStore_acyclic, rfl, ?_⟩
  · intro fuel
    cases fuel <;> rfl
  · intro fuel
    cases fuel <;> rfl

/-- Witness of the amended C1 on `demoStore`, whose group "Servers" lists "Server1" twice. -/
theorem lookup_group_is_dedup_concat_witness :
    ∃ rs : List LookupResult,
      List.Forall₂ (fun m r => Returns dottedDecimalEnv demoStore "Trust" m r)
        ["Server1", "Server2", "Server1"] rs ∧
      Returns dottedDecimalEnv demoStore "Trust" "Servers"
        (LookupResult.ofEntries (dedupSpec (rs.flatMap LookupResult.entries))) :=
  lookup_group_is_dedup_concat dottedDecimalEnv demoStore "Trust" "Servers" demoTable
    ⟨none, ["Server1", "Server2", "Server1"]⟩
    (demoStore_acyclic "Trust") demoStore_plain (by decide) rfl rfl (by decide)

/-! ## Zone-wide policies (C9) -/

theorem Policy.isValid_nonempty (p : Policy) (h : p.IsValid = true) :
    p.Sources ≠ [] ∧ p.Destinations ≠ [] ∧ p.Services ≠ [] := by
  simp only [Policy.IsValid, Bool.and_eq_true, decide_eq_true_eq] at h
  obtain ⟨⟨⟨⟨⟨⟨⟨_, _⟩, _⟩, hs⟩, hd⟩, hv⟩, _⟩, _⟩ := h
  exact ⟨List.length_pos.mp hs, List.length_pos.mp hd, List.length_pos.mp hv⟩

/-- C9, counterexample. A policy that satisfies the invariants, whose source
list is the wildcard followed by a further name, is reported as a zone-wide
policy although its source list is not the single wildcard name. -/
theorem isZonePolicy_ignores_further_names :
    wildcardPlusPolicy.IsValid = true ∧ wildcardPlusPolicy.IsZonePolicy = .ok true ∧
      wildcardPlusPolicy.Sources = ["any", "Server1"] ∧
      ¬ ∃ s, wildcardPlusPolicy.Sources = [s] := by
  refine ⟨by decide, by decide, rfl, ?_⟩
  rintro ⟨s, hs⟩
  simp [wildcardPlusPolicy] at hs

/-- C9, amended. For a policy satisfying the invariants, `IsZonePolicy` returns,
and returns true exactly when the first source name and the first destination
name are the wildcard (compared without regard to case) and the action is
reject or deny; names after the first are not examined. -/
theorem isZonePolicy_iff_first_names (p : Policy) (hvalid : p.IsValid = true) :
    ∃ s0 ss d0 ds, p.Sources = s0 :: ss ∧ p.Destinations = d0 :: ds ∧
      p.IsZonePolicy = .ok (decide (toLower s0 = "any" ∧ toLower d0 = "any" ∧
        (p.Action = ActionReject ∨ p.Action = ActionDeny))) := by
  obtain ⟨hs, hd, _⟩ := Policy.isValid_nonempty p hvalid
  cases hS : p.Sources with
  | nil => exact absurd hS hs
  | cons s0 ss =>
    cases hD : p.Destinations with
    | nil => exact absurd hD hd
    | cons d0 ds =>
      refine ⟨s0, ss, d0, ds, rfl, rfl, ?_⟩
      simp only [Policy.IsZonePolicy, hS, hD]
      by_cases h : toLower s0 = "any"
      · simp only [h, if_true, true_and]
        congr 1
        rw [Bool.eq_iff_iff]
        simp
      · simp [h]

/-- Witness of the amended C9 on `wildcardPlusPolicy`. -/
theorem isZonePolicy_iff_first_names_witness :
    ∃ s0 ss d0 ds, wildcardPlusPolicy.Sources = s0 :: ss ∧
      wildcardPlusPolicy.Destinations = d0 :: ds ∧
      wildcardPlusPolicy.IsZonePolicy = .ok (decide (toLower s0 = "any" ∧ toLower d0 = "any" ∧
        (wildcardPlusPolicy.Action = ActionReject ∨ wildcardPlusPolicy.Action = ActionDeny))) :=
  isZonePolicy_iff_first_names wildcardPlusPolicy (by decide)

/-! ## Port fields (C4) -/

/-- C4, the code at the failing input. For the built-in "H.323", whose tcp
definitions have the destination ranges 1720-1720, 1731-1731 and 1024-65535,
the tcp rule lists only the first two in `dst-port=`: a range that ends at
65535 is dropped although it is not the full range 0-65535. The same happens
to the range 1024-65535 of the built-in "TFTP". -/
theorem h323_rule_drops_range_up_to_65535 :
    defaultServices "H.323" = some [⟨"udp", 0, 0, 65535, 1719, 1719⟩, ⟨"tcp", 0, 0, 65535, 1720, 1720⟩,
        ⟨"tcp", 0, 0, 65535, 1731, 1731⟩, ⟨"tcp", 0, 0, 65535, 1024, 65535⟩] ∧
      mikrotikRuleFields (simplePolicy 1 "Server1" "any" "H.323") "Trust__Untrust"
          ⟨"Server1", some net10_0_0_1, "", "any", some ⟨IPv4zero, IPv4zero⟩, "", "tcp",
            (defaultServices "H.323").getD []⟩
        = .ok ["add chain=Trust__Untrust", " src-address=10.0.0.1/32", " protocol=tcp",
            " dst-port=1720-1720,1731-1731", " action=accept",
            " comment=\"ID: 1 - Server1 -> any\"\n"] ∧
      dstPorts "udp" ((defaultServices "TFTP").getD []) = ["69-69"] := by
  refine ⟨by decide, by decide, by decide⟩

/-! ## The HTTPS scenario (C5) -/

theorem scenario_parse (net : NetEnv) (id : Nat) (name : String) (log : Bool)
    (haddr : net.ParseIP "10.0.0.1" = IPv4 10 0 0 1)
    (hmask : net.ParseIP "255.255.255.255" = IPv4 255 255 255 255)
    (hid0 : 0 < id) (hid : id < 2 ^ 63) :
    parse net (scenarioInput id name log)
      = .ok ([scenarioPolicy id name log], scenarioStore, defaultServices) := by
  have h1 : ("255.255.255.255" : String) ≠ "" := by decide
  have h2 : IPv4 10 0 0 1 ≠ [] := by decide
  have h3 : IPv4 255 255 255 255 ≠ [] := by decide
  have hv : (scenarioPolicy id name log).IsValid = true := by
    have : (0 : Int) < Int.ofNat id := Int.ofNat_pos.mpr hid0
    simp only [Policy.IsValid, scenarioPolicy, gt_iff_lt, this, decide_True, Bool.true_and]
    rfl
  simp only [scenarioPolicy] at hv
  simp only [parse, scenarioInput, foldRes, parseDirective, h1, if_false, haddr, hmask, h2, h3,
    or_self, atoi, hid, if_true, hv, Bool.not_true]
  rfl

theorem scenario_lookup_source (net : NetEnv) (fuel : Nat) :
    Objects.Lookup net fuel scenarioStore "Trust" "Server1"
      = .ok (["Server1"], [some net10_0_0_1]) := by
  cases fuel <;> rfl

theorem scenario_lookup_destination (net : NetEnv) (fuel : Nat) :
    Objects.Lookup net fuel scenarioStore "Untrust" "any"
      = .ok (["any"], [some ⟨IPv4zero, IPv4zero⟩]) := by
  cases fuel <;> rfl

theorem allProtocols_single (ord : MapOrder) (s : Service) :
    ServiceList.AllProtocols ord [s] = [s.Protocol] := by
  have h := ord.perm [s.Protocol]
  simpa [ServiceList.AllProtocols] using List.perm_singleton.mp h

theorem scenario_filter (net : NetEnv) (ord : MapOrder) (fuel : Nat) (id : Nat) (name : String)
    (log : Bool) :
    filterSection net ord fuel [scenarioPolicy id name log] scenarioStore defaultServices
      = .ok [⟨(scenarioPolicy id name log).String, [scenarioFields id name log]⟩] := by
  have hz : (scenarioPolicy id name log).IsZonePolicy = .ok false := rfl
  have hsvc : defaultServices "HTTPS" = some [⟨"tcp", 0, 0, 65535, 443, 443⟩] := by decide
  have hne : ("HTTPS" : String) ≠ "ANY" := by decide
  have hcalls : serviceCalls net ord fuel (scenarioPolicy id name log) scenarioStore
      defaultServices "HTTPS"
      = .ok [⟨"Server1", some net10_0_0_1, "", "any", some ⟨IPv4zero, IPv4zero⟩, "", "tcp",
          [⟨"tcp", 0, 0, 65535, 443, 443⟩]⟩] := by
    simp only [serviceCalls, scenarioPolicy, foldRes, classifyReference, scenario_lookup_source,
      scenario_lookup_destination, hsvc, hne, if_false, allProtocols_single]
    rfl
  have hsrc : srcField (some net10_0_0_1) "" = .ok [" src-address=10.0.0.1/32"] := by decide
  have hdst : dstField (some ⟨IPv4zero, IPv4zero⟩) "" = .ok [] := by decide
  have hproto : protoFields "tcp" [⟨"tcp", 0, 0, 65535, 443, 443⟩]
      = [" protocol=tcp", " dst-port=443-443"] := by decide
  have haction : actionField (scenarioPolicy id name log) = [" action=accept"] := rfl
  have hrule : mikrotikRuleFields (scenarioPolicy id name log) "Trust__Untrust"
      ⟨"Server1", some net10_0_0_1, "", "any", some ⟨IPv4zero, IPv4zero⟩, "", "tcp",
        [⟨"tcp", 0, 0, 65535, 443, 443⟩]⟩ = .ok (scenarioFields id name log) := by
    simp only [mikrotikRuleFields, hsrc, hdst, hproto, haction, logField, scenarioFields]
    cases log <;> rfl
  have hchain : (scenarioPolicy id name log).From ++ "__" ++ (scenarioPolicy id name log).To
      = "Trust__Untrust" := rfl
  have hrules : serviceRules net ord fuel (scenarioPolicy id name log) scenarioStore
      defaultServices "HTTPS" = .ok [scenarioFields id name log] := by
    simp only [serviceRules, hcalls, mapRes, hchain, hrule]
  have hsv : (scenarioPolicy id name log).Services = ["HTTPS"] := rfl
  have hd : (scenarioPolicy id name log).Disabled = false := rfl
  simp only [filterSection, foldRes, filterPolicy, hd, hz, hsv, mapRes, hrules]
  rfl

set_option maxRecDepth 100000 in
/-- C5, counterexample. On the parsed model of the scenario (policy ID 1, no
name, no logging) the filter section is one rule whose port field is
`dst-port=443-443`; the token `dst-port=443` is not among its fields, so the
scenario as worded does not hold. -/
theorem scenario_port_token_is_range :
    parseThenFilter dottedDecimalEnv MapOrder.asListed 0 (scenarioInput 1 "" false)
        = .ok [⟨"ID: 1 Name:  Disabled: false From: Trust To: Untrust Sources: [Server1] " ++
              "Destinations: [any] Services: [HTTPS] Application:  NAT:  NATAddress:  " ++
              "NATPort: 0 Action: permit Log: false LogInit: false",
            [["add chain=Trust__Untrust", " src-address=10.0.0.1/32", " protocol=tcp",
              " dst-port=443-443", " action=accept", " comment=\"ID: 1 - Server1 -> any\"\n"]]⟩] ∧
      ¬ ScenarioHolds " dst-port=443"
          (parseThenFilter dottedDecimalEnv MapOrder.asListed 0 (scenarioInput 1 "" false)) := by
  have h : parseThenFilter dottedDecimalEnv MapOrder.asListed 0 (scenarioInput 1 "" false)
      = .ok [⟨"ID: 1 Name:  Disabled: false From: Trust To: Untrust Sources: [Server1] " ++
              "Destinations: [any] Services: [HTTPS] Application:  NAT:  NATAddress:  " ++
              "NATPort: 0 Action: permit Log: false LogInit: false",
            [["add chain=Trust__Untrust", " src-address=10.0.0.1/32", " protocol=tcp",
              " dst-port=443-443", " action=accept", " comment=\"ID: 1 - Server1 -> any\"\n"]]⟩] := by
    decide
  refine ⟨h, ?_⟩
  rintro ⟨header, fields, hr, _, _, _, hport, _⟩
  rw [h] at hr
  simp only [Res.ok.injEq, List.cons.injEq, PolicyBlock.mk.injEq, and_true] at hr
  obtain ⟨_, hf⟩ := hr
  subst hf
  revert hport
  decide

/-! ## Telling the fields of a rule apart -/

/-- A text that begins with `a` does not begin with `p` when neither of `a`
and `p` begins with the other. -/
theorem startsWith_append_false (a p x : String)
    (h : (p.data.isPrefixOf a.data || a.data.isPrefixOf p.data) = false) :
    startsWith (a ++ x) p = false := by
  rw [Bool.or_eq_false_iff] at h
  cases hsw : startsWith (a ++ x) p with
  | false => rfl
  | true =>
    exfalso
    have h1 : p.data <+: a.data ++ x.data := by
      have := List.isPrefixOf_iff_prefix.mp hsw
      simpa [String.data_append] using this
    have h2 : a.data <+: a.data ++ x.data := List.prefix_append _ _
    rcases List.prefix_or_prefix_of_prefix h1 h2 with h3 | h3
    · have := List.isPrefixOf_iff_prefix.mpr h3
      rw [h.1] at this
      exact Bool.false_ne_true this
    · have := List.isPrefixOf_iff_prefix.mpr h3
      rw [h.2] at this
      exact Bool.false_ne_true this

theorem commentField_startsWith (p : Policy) (a : RuleArgs) (q : String)
    (h : (q.data.isPrefixOf (" comment=\"ID: " : String).data ||
      (" comment=\"ID: " : String).data.isPrefixOf q.data) = false) :
    startsWith (commentField p a) q = false := by
  simp only [commentField, String.append_assoc]
  exact startsWith_append_false _ _ _ h

/-- C5, amended. For every input made of the address directive for "Server1"
and one permit policy from "Trust" to "Untrust" with source "Server1",
destination "any" and service "HTTPS" (any ID that `parse` accepts, any name,
logging or not), the filter section on the parsed model is exactly one rule,
which carries `src-address=10.0.0.1/32`, no `dst-address=` and no
`dst-address-list=` field, `protocol=tcp`, the port field `dst-port=443-443`
(a single port is written as a range), and `action=accept`. -/
theorem scenario_single_rule (net : NetEnv) (ord : MapOrder) (fuel : Nat) (id : Nat)
    (name : String) (log : Bool)
    (haddr : net.ParseIP "10.0.0.1" = IPv4 10 0 0 1)
    (hmask : net.ParseIP "255.255.255.255" = IPv4 255 255 255 255)
    (hid0 : 0 < id) (hid : id < 2 ^ 63) :
    ScenarioHolds " dst-port=443-443" (parseThenFilter net ord fuel (scenarioInput id name log)) := by
  refine ⟨(scenarioPolicy id name log).String, scenarioFields id name log, ?_, ?_, ?_, ?_, ?_, ?_⟩
  · simp only [parseThenFilter, scenario_parse net id name log haddr hmask hid0 hid,
      scenario_filter]
  · simp [scenarioFields]
  · unfold scenarioFields
    refine List.forall_mem_append.mpr ⟨List.forall_mem_append.mpr ⟨by decide, ?_⟩, ?_⟩
    · cases log <;> decide
    · intro f hf
      rw [List.mem_singleton] at hf
      subst hf
      exact ⟨commentField_startsWith _ _ _ (by decide), commentField_startsWith _ _ _ (by decide)⟩
  · simp [scenarioFields]
  · simp [scenarioFields]
  · simp [scenarioFields]

/-- Witness of the amended C5: policy ID 12, name "web", with logging. -/
theorem scenario_single_rule_witness :
    ScenarioHolds " dst-port=443-443"
      (parseThenFilter dottedDecimalEnv MapOrder.reversed 3 (scenarioInput 12 "web" true)) :=
  scenario_single_rule dottedDecimalEnv MapOrder.reversed 3 12 "web" true
    (by decide) (by decide) (by decide) (by decide)

/-! ## Disabled and zone-wide policies (C10) -/

theorem foldRes_filter_skipped {σ α : Type} (f : σ → α → Res σ) (keep : α → Bool)
    (h : ∀ s a, keep a = false → f s a = .ok s) :
    ∀ (l : List α) (s : σ), foldRes f s (l.filter keep) = foldRes f s l := by
  intro l
  induction l with
  | nil => intro s; rfl
  | cons a rest ih =>
    intro s
    cases hk : keep a with
    | false =>
      rw [List.filter_cons_of_neg (by simp [hk])]
      simp only [foldRes, h s a hk]
      exact ih s
    | true =>
      rw [List.filter_cons_of_pos hk]
      simp only [foldRes]
      cases f s a with
      | ok s1 => exact ih s1
      | panic m => rfl
      | outOfFuel => rfl

theorem addressListPolicy_skipped (net : NetEnv) (fuel : Nat) (o : Objects) (st : ListState)
    (p : Policy) (h : (!p.skipped) = false) : addressListPolicy net fuel o st p = .ok st := by
  have h : p.skipped = true := by simpa using h
  simp only [Policy.skipped, Bool.or_eq_true, beq_iff_eq] at h
  unfold addressListPolicy
  rcases h with h | h
  · simp [h]
  · simp [h]

theorem filterPolicy_skipped (net : NetEnv) (ord : MapOrder) (fuel : Nat) (o : Objects)
    (services : Services) (blocks : List PolicyBlock) (p : Policy) (h : (!p.skipped) = false) :
    filterPolicy net ord fuel o services blocks p = .ok blocks := by
  have h : p.skipped = true := by simpa using h
  simp only [Policy.skipped, Bool.or_eq_true, beq_iff_eq] at h
  unfold filterPolicy
  rcases h with h | h
  · simp [h]
  · simp [h]

/-- C10. For every policy list, store and catalog, `buildMikrotik` gives the
same result (the same text, the same panic or the same exhausted budget) on the
list and on the list with every disabled or zone-wide policy removed; and a
list holding only one policy whose sources and destinations are the single
wildcard name and whose action is deny yields no address-list statement and no
policy block, hence no filter rule. -/
theorem buildMikrotik_ignores_skipped (net : NetEnv) (ord : MapOrder) (fuel : Nat)
    (ps : List Policy) (o : Objects) (services : Services) :
    buildMikrotik net ord fuel ps o services
        = buildMikrotik net ord fuel (ps.filter fun p => !p.skipped) o services ∧
      ∀ p : Policy, p.Sources = ["any"] → p.Destinations = ["any"] → p.Action = ActionDeny →
        addressListSection net fuel [p] o = .ok [] ∧
        filterSection net ord fuel [p] o services = .ok [] ∧
        buildMikrotik net ord fuel [p] o services
          = .ok "/ip firewall address-list\n\n\n/ip firewall filter\n" := by
  constructor
  · unfold buildMikrotik addressListSection filterSection
    rw [foldRes_filter_skipped _ _ (fun s a h => addressListPolicy_skipped net fuel o s a h),
      foldRes_filter_skipped _ _ (fun s a h => filterPolicy_skipped net ord fuel o services s a h)]
  · intro p hs hd ha
    have hz : p.IsZonePolicy = .ok true := by
      simp only [Policy.IsZonePolicy, hs, hd, ha]
      decide
    have h1 : addressListSection net fuel [p] o = .ok [] := by
      simp only [addressListSection, foldRes, addressListPolicy, hz]
      cases p.Disabled <;> rfl
    have h2 : filterSection net ord fuel [p] o services = .ok [] := by
      simp only [filterSection, foldRes, filterPolicy, hz]
      cases p.Disabled <;> rfl
    refine ⟨h1, h2, ?_⟩
    simp only [buildMikrotik, h1, h2]
    rfl

/-- Witness of C10 on the list holding only `wildcardDenyPolicy`. -/
theorem buildMikrotik_ignores_skipped_witness :
    addressListSection dottedDecimalEnv 0 [wildcardDenyPolicy] demoStore = .ok [] ∧
      filterSection dottedDecimalEnv MapOrder.asListed 0 [wildcardDenyPolicy] demoStore
        defaultServices = .ok [] ∧
      buildMikrotik dottedDecimalEnv MapOrder.asListed 0 [wildcardDenyPolicy] demoStore
        defaultServices = .ok "/ip firewall address-list\n\n\n/ip firewall filter\n" :=
  (buildMikrotik_ignores_skipped dottedDecimalEnv MapOrder.asListed 0 [wildcardDenyPolicy]
    demoStore defaultServices).2 wildcardDenyPolicy rfl rfl rfl

/-! ## The address-list section: the loop bodies and the invariant of a list name (C8) -/

theorem dedupLoop_lengths (names : List String) :
    ∀ (rest : List (Option IPNet)) (idx : Nat) (dedup : List (Option IPNet))
      (dedupNames : List String) (r : LookupResult),
      dedupLoop names rest idx dedup dedupNames = .ok r →
      dedupNames.length = dedup.length → r.1.length = r.2.length := by
  intro rest
  induction rest with
  | nil =>
    intro idx dedup dedupNames r h hl
    simp only [dedupLoop, Res.ok.injEq] at h
    subst h
    exact hl
  | cons ip rest ih =>
    intro idx dedup dedupNames r h hl
    simp only [dedupLoop] at h
    cases hf : dedupFound ip dedup false with
    | ok found =>
      rw [hf] at h
      cases found with
      | true => exact ih _ _ _ _ h hl
      | false =>
        simp only [Bool.not_false, if_true] at h
        cases hn : names[idx]? with
        | none => rw [hn] at h; cases h
        | some n =>
          rw [hn] at h
          exact ih _ _ _ _ h (by simp [hl])
    | panic m => rw [hf] at h; cases h
    | outOfFuel => rw [hf] at h; cases h

/-- The two sequences that `Objects.Lookup` returns have the same length. -/
theorem lookup_lengths (net : NetEnv) (fuel : Nat) (o : Objects) (zone name : String)
    (r : LookupResult) (h : Objects.Lookup net fuel o zone name = .ok r) :
    r.1.length = r.2.length := by
  rw [Lookup_eq] at h
  unfold lookupBody at h
  split at h
  · cases h; rfl
  split at h
  · cases h; rfl
  split at h
  · cases h; rfl
  split at h
  · cases h; rfl
  · split at h
    · cases h; rfl
    · split at h
      · split at h
        · exact dedupLoop_lengths _ _ _ _ _ _ h rfl
        · cases h
        · cases h
      · cases h; rfl

theorem listBlock_eq (listName : String) (names : List String) :
    ∀ (addrs : List (Option IPNet)) (idx : Nat), idx + addrs.length ≤ names.length →
      listBlock listName names addrs idx
        = .ok (List.zipWith (fun n a => ⟨listName, ipNetString a, n⟩) (names.drop idx) addrs) := by
  intro addrs
  induction addrs with
  | nil => intro idx _; simp [listBlock]
  | cons a rest ih =>
    intro idx h
    simp only [List.length_cons] at h
    have hidx : idx < names.length := by omega
    have hget : names[idx]? = some names[idx] := List.getElem?_eq_getElem hidx
    have hdrop : names.drop idx = names[idx] :: names.drop (idx + 1) :=
      List.drop_eq_getElem_cons hidx
    simp only [listBlock, hget, ih (idx + 1) (by omega), hdrop, List.zipWith_cons_cons]

theorem listBlock_of_lookup (zone name : String) (r : LookupResult)
    (hl : r.1.length = r.2.length) :
    listBlock (zone ++ "__" ++ name) r.1 r.2 0 = .ok (listStatements zone name r) := by
  rw [listBlock_eq _ _ _ 0 (by omega)]
  rfl

/-- What the body of the loop over the sources does for a reference that
resolves to more than one address. -/
theorem addressListSource_many (net : NetEnv) (fuel : Nat) (o : Objects) (p : Policy)
    (st : ListState) (name : String) (r : LookupResult)
    (hr : Objects.Lookup net fuel o p.From name = .ok r) (hk : r.2.length > 1) :
    addressListSource net fuel o p st name
      = .ok (if st.iplists.contains (p.From ++ "__" ++ name) then st
          else ⟨(p.From ++ "__" ++ name) :: st.iplists, st.out ++ listStatements p.From name r⟩) := by
  have hl := lookup_lengths net fuel o p.From name r hr
  obtain ⟨names, addrs⟩ := r
  have h0 : addrs.length ≠ 0 := by simp at hk; omega
  simp only [addressListSource, hr, h0, if_false]
  cases hc : st.iplists.contains (p.From ++ "__" ++ name) with
  | true => simp
  | false =>
    have hk2 : decide (addrs.length > 1) = true := by simpa using hk
    simp only [Bool.not_false, hk2, Bool.and_self, if_true,
      listBlock_of_lookup p.From name (names, addrs) hl]
    rfl

/-- What the body of the loop over the destinations does for a reference that
resolves to more than one address. -/
theorem addressListDestination_many (net : NetEnv) (fuel : Nat) (o : Objects) (p : Policy)
    (st : ListState) (name : String) (r : LookupResult)
    (hr : Objects.Lookup net fuel o p.To name = .ok r) (hk : r.2.length > 1) :
    addressListDestination net fuel o p st name
      = .ok (if st.iplists.contains (p.To ++ "__" ++ name)
          then ⟨(p.To ++ "__" ++ name) :: st.iplists, st.out⟩
          else ⟨(p.To ++ "__" ++ name) :: st.iplists, st.out ++ listStatements p.To name r⟩) := by
  have hl := lookup_lengths net fuel o p.To name r hr
  obtain ⟨names, addrs⟩ := r
  have h0 : addrs.length ≠ 0 := by simp at hk; omega
  simp only [addressListDestination, hr, h0, if_false]
  cases hc : st.iplists.contains (p.To ++ "__" ++ name) with
  | true => simp
  | false =>
    have hk2 : decide (addrs.length > 1) = true := by simpa using hk
    simp only [Bool.not_false, hk2, Bool.and_self, if_true,
      listBlock_of_lookup p.To name (names, addrs) hl]
    rfl

theorem getElem?_zipWith_of_lt {α β γ : Type} (f : α → β → γ) :
    ∀ (l1 : List α) (l2 : List β) (i : Nat) (h1 : i < l1.length) (h2 : i < l2.length),
      (List.zipWith f l1 l2)[i]? = some (f l1[i] l2[i]) := by
  intro l1
  induction l1 with
  | nil => intro l2 i h1; simp at h1
  | cons a l1 ih =>
    intro l2 i h1 h2
    cases l2 with
    | nil => simp at h2
    | cons b l2 =>
      cases i with
      | zero => simp
      | succ i =>
        simp only [List.zipWith_cons_cons, List.getElem?_cons_succ, List.getElem_cons_succ]
        exact ih l2 i (by simpa using h1) (by simpa using h2)

theorem listStatements_isBlockOf (zone name : String) (r : LookupResult)
    (hl : r.1.length = r.2.length) : IsBlockOf zone name r (listStatements zone name r) := by
  constructor
  · simp [listStatements, hl]
  · intro i h1 h2
    simp only [listStatements, getElem?_zipWith_of_lt _ _ _ i h1 h2, Option.map_some',
      AddressListEntry.text, String.append_assoc]

/-- One step of the address-list loops. For a policy `p` (the loop bodies below
run for the enabled, non-zone-wide policies, whose sources are processed
before their destinations) and a source or destination reference whose resolution `r` has more than one
address: when the list name is not yet in `iplists`, the loop body appends to
the output a block of exactly as many statements as `r` has addresses, the
statement at index `i` being
`add list=<zone>__<name> address=<r.2[i]> comment="<r.1[i]>"`, in resolution
order; when the list name is already in `iplists` it appends nothing. -/
theorem addressList_block_of_reference (net : NetEnv) (fuel : Nat) (o : Objects) (p : Policy)
    (st : ListState) (name : String) (r : LookupResult) (hk : r.2.length > 1) :
    (p.Disabled = false → p.IsZonePolicy = .ok false →
      addressListPolicy net fuel o st p
        = (foldRes (addressListSource net fuel o p) st p.Sources).bind
            (fun st1 => foldRes (addressListDestination net fuel o p) st1 p.Destinations)) ∧
    (Objects.Lookup net fuel o p.From name = .ok r →
      ∃ block, IsBlockOf p.From name r block ∧
        addressListSource net fuel o p st name
          = .ok (if st.iplists.contains (p.From ++ "__" ++ name) then st
              else ⟨(p.From ++ "__" ++ name) :: st.iplists, st.out ++ block⟩)) ∧
    (Objects.Lookup net fuel o p.To name = .ok r →
      ∃ block, IsBlockOf p.To name r block ∧
        addressListDestination net fuel o p st name
          = .ok (if st.iplists.contains (p.To ++ "__" ++ name)
              then ⟨(p.To ++ "__" ++ name) :: st.iplists, st.out⟩
              else ⟨(p.To ++ "__" ++ name) :: st.iplists, st.out ++ block⟩)) := by
  refine ⟨?_, ?_, ?_⟩
  · intro hd hz
    simp only [addressListPolicy, hd, hz, Res.bind]
    cases foldRes (addressListSource net fuel o p) st p.Sources <;> rfl
  · intro hr
    exact ⟨listStatements p.From name r,
      listStatements_isBlockOf _ _ r (lookup_lengths net fuel o p.From name r hr),
      addressListSource_many net fuel o p st name r hr hk⟩
  · intro hr
    exact ⟨listStatements p.To name r,
      listStatements_isBlockOf _ _ r (lookup_lengths net fuel o p.To name r hr),
      addressListDestination_many net fuel o p st name r hr hk⟩

/-- The step of the source loop for the group "Servers" of `demoStore` as a
source of `groupPolicy`, from the empty state. -/
theorem addressList_block_of_reference_witness :
    ∃ block, IsBlockOf "Trust" "Servers" (["Server1", "Server2"], [some net10_0_0_1, some net10_0_0_2])
        block ∧
      addressListSource dottedDecimalEnv 1 demoStore groupPolicy ⟨[], []⟩ "Servers"
        = .ok (if ([] : List String).contains ("Trust" ++ "__" ++ "Servers") then ⟨[], []⟩
            else ⟨("Trust" ++ "__" ++ "Servers") :: [], [] ++ block⟩) :=
  (addressList_block_of_reference dottedDecimalEnv 1 demoStore groupPolicy ⟨[], []⟩ "Servers"
    (["Server1", "Server2"], [some net10_0_0_1, some net10_0_0_2]) (by decide)).2.1 (by decide)

theorem statementsOf_listStatements_same (zone name : String) (r : LookupResult) :
    statementsOf (zone ++ "__" ++ name) (listStatements zone name r) = listStatements zone name r := by
  unfold statementsOf
  rw [List.filter_eq_self]
  intro e he
  simp only [listStatements, List.mem_iff_getElem?] at he
  obtain ⟨i, hi⟩ := he
  have hlt : i < (List.zipWith (fun n a => (⟨zone ++ "__" ++ name, ipNetString a, n⟩ : AddressListEntry))
      r.1 r.2).length := by
    by_contra hge
    rw [List.getElem?_eq_none (by omega)] at hi
    cases hi
  simp only [List.length_zipWith, lt_min_iff] at hlt
  rw [getElem?_zipWith_of_lt _ _ _ i hlt.1 hlt.2] at hi
  cases hi
  simp

theorem statementsOf_listStatements_other (zone name listName : String) (r : LookupResult)
    (h : zone ++ "__" ++ name ≠ listName) :
    statementsOf listName (listStatements zone name r) = [] := by
  unfold statementsOf
  rw [List.filter_eq_nil_iff]
  intro e he
  simp only [listStatements, List.mem_iff_getElem?] at he
  obtain ⟨i, hi⟩ := he
  have hlt : i < (List.zipWith (fun n a => (⟨zone ++ "__" ++ name, ipNetString a, n⟩ : AddressListEntry))
      r.1 r.2).length := by
    by_contra hge
    rw [List.getElem?_eq_none (by omega)] at hi
    cases hi
  simp only [List.length_zipWith, lt_min_iff] at hlt
  rw [getElem?_zipWith_of_lt _ _ _ i hlt.1 hlt.2] at hi
  cases hi
  simpa using h

theorem listInv_append_block (zone name : String) (r : LookupResult) (st : ListState)
    (z n : String) (r1 : LookupResult)
    (hclash : z ++ "__" ++ n = zone ++ "__" ++ name → (z, n) = (zone, name) ∧ r1 = r)
    (hnew : z ++ "__" ++ n ∉ st.iplists) (hinv : ListInv zone name r st) :
    ListInv zone name r ⟨(z ++ "__" ++ n) :: st.iplists, st.out ++ listStatements z n r1⟩ := by
  by_cases heq : z ++ "__" ++ n = zone ++ "__" ++ name
  · obtain ⟨hp, hr⟩ := hclash heq
    have hz : z = zone := (Prod.mk.inj hp).1
    have hn : n = name := (Prod.mk.inj hp).2
    subst hz hn hr
    constructor
    · intro _
      simp only [statementsOf, List.filter_append]
      have h1 := hinv.2 hnew
      have h2 := statementsOf_listStatements_same z n r1
      simp only [statementsOf] at h1 h2
      rw [h1, h2, List.nil_append]
    · intro h
      exact absurd (List.mem_cons_self _ _) h
  · constructor
    · intro hmem
      have hmem2 : zone ++ "__" ++ name ∈ st.iplists := by
        rcases List.mem_cons.mp hmem with h | h
        · exact absurd h.symm heq
        · exact h
      have h1 := hinv.1 hmem2
      have h2 := statementsOf_listStatements_other z n (zone ++ "__" ++ name) r1 heq
      simp only [statementsOf] at h1 h2 ⊢
      rw [List.filter_append, h1, h2, List.append_nil]
    · intro hmem
      have hmem2 : zone ++ "__" ++ name ∉ st.iplists := fun h => hmem (List.mem_cons_of_mem _ h)
      have h1 := hinv.2 hmem2
      have h2 := statementsOf_listStatements_other z n (zone ++ "__" ++ name) r1 heq
      simp only [statementsOf] at h1 h2 ⊢
      rw [List.filter_append, h1, h2, List.append_nil]

theorem listInv_mark (zone name : String) (r : LookupResult) (st : ListState) (listName : String)
    (h : listName = zone ++ "__" ++ name → zone ++ "__" ++ name ∈ st.iplists)
    (hinv : ListInv zone name r st) :
    ListInv zone name r ⟨listName :: st.iplists, st.out⟩ := by
  constructor
  · intro hmem
    apply hinv.1
    rcases List.mem_cons.mp hmem with h1 | h1
    · exact h h1.symm
    · exact h1
  · intro hmem
    exact hinv.2 (fun h1 => hmem (List.mem_cons_of_mem _ h1))

theorem addressListSource_keeps (net : NetEnv) (fuel : Nat) (o : Objects) (p : Policy)
    (zone name : String) (r : LookupResult)
    (hr : Objects.Lookup net fuel o zone name = .ok r) (hk : r.2.length > 1) :
    StepKeeps zone name r p.From (addressListSource net fuel o p) := by
  intro st st1 n hclash hinv hstep
  have hsame : p.From ++ "__" ++ n = zone ++ "__" ++ name →
      Objects.Lookup net fuel o p.From n = .ok r := by
    intro h
    have := hclash h
    rw [(Prod.mk.inj this).1, (Prod.mk.inj this).2]
    exact hr
  cases hl : Objects.Lookup net fuel o p.From n with
  | ok r1 =>
    by_cases hmany : r1.2.length > 1
    · rw [addressListSource_many net fuel o p st n r1 hl hmany] at hstep
      cases hc : st.iplists.contains (p.From ++ "__" ++ n) with
      | true =>
        simp only [hc, if_true, Res.ok.injEq] at hstep
        subst hstep
        refine ⟨hinv, fun h => h, fun h => ?_⟩
        rw [← h]
        simpa using hc
      | false =>
        simp only [hc, Bool.false_eq_true, if_false, Res.ok.injEq] at hstep
        subst hstep
        refine ⟨listInv_append_block zone name r st p.From n r1 ?_ (by simpa using hc) hinv,
          fun h => List.mem_cons_of_mem _ h, fun h => ?_⟩
        · intro h
          refine ⟨hclash h, ?_⟩
          have := hsame h
          rw [hl] at this
          exact Res.ok.inj this
        · rw [← h]
          exact List.mem_cons_self _ _
    · have hst : st1 = st := by
        obtain ⟨names, addrs⟩ := r1
        simp only [addressListSource, hl] at hstep
        have hd : decide (addrs.length > 1) = false := by simpa using hmany
        split at hstep
        · exact (Res.ok.inj hstep).symm
        · simp only [hd, Bool.and_false, Bool.false_eq_true, if_false] at hstep
          exact (Res.ok.inj hstep).symm
      subst hst
      refine ⟨hinv, fun h => h, fun h => ?_⟩
      have := hsame h
      rw [hl] at this
      cases this
      exact absurd hk hmany
  | panic m =>
    simp only [addressListSource, hl] at hstep
    cases hstep
  | outOfFuel =>
    simp only [addressListSource, hl] at hstep
    cases hstep

theorem addressListDestination_keeps (net : NetEnv) (fuel : Nat) (o : Objects) (p : Policy)
    (zone name : String) (r : LookupResult)
    (hr : Objects.Lookup net fuel o zone name = .ok r) (hk : r.2.length > 1) :
    StepKeeps zone name r p.To (addressListDestination net fuel o p) := by
  intro st st1 n hclash hinv hstep
  have hsame : p.To ++ "__" ++ n = zone ++ "__" ++ name →
      Objects.Lookup net fuel o p.To n = .ok r := by
    intro h
    have := hclash h
    rw [(Prod.mk.inj this).1, (Prod.mk.inj this).2]
    exact hr
  cases hl : Objects.Lookup net fuel o p.To n with
  | ok r1 =>
    by_cases hmany : r1.2.length > 1
    · rw [addressListDestination_many net fuel o p st n r1 hl hmany] at hstep
      cases hc : st.iplists.contains (p.To ++ "__" ++ n) with
      | true =>
        simp only [hc, if_true, Res.ok.injEq] at hstep
        subst hstep
        have hmem : p.To ++ "__" ++ n ∈ st.iplists := by simpa using hc
        refine ⟨listInv_mark zone name r st _ (fun h => by rw [← h]; exact hmem) hinv,
          fun h => List.mem_cons_of_mem _ h, fun h => ?_⟩
        rw [← h]
        exact List.mem_cons_self _ _
      | false =>
        simp only [hc, Bool.false_eq_true, if_false, Res.ok.injEq] at hstep
        subst hstep
        refine ⟨listInv_append_block zone name r st p.To n r1 ?_ (by simpa using hc) hinv,
          fun h => List.mem_cons_of_mem _ h, fun h => ?_⟩
        · intro h
          refine ⟨hclash h, ?_⟩
          have := hsame h
          rw [hl] at this
          exact Res.ok.inj this
        · rw [← h]
          exact List.mem_cons_self _ _
    · have hne : p.To ++ "__" ++ n ≠ zone ++ "__" ++ name := by
        intro h
        have := hsame h
        rw [hl] at this
        cases this
        exact absurd hk hmany
      have hst : st1 = st ∨ st1 = ⟨(p.To ++ "__" ++ n) :: st.iplists, st.out⟩ := by
        obtain ⟨names, addrs⟩ := r1
        simp only [addressListDestination, hl] at hstep
        have hd : decide (addrs.length > 1) = false := by simpa using hmany
        split at hstep
        · exact Or.inl (Res.ok.inj hstep).symm
        · simp only [hd, Bool.and_false, Bool.false_eq_true, if_false] at hstep
          exact Or.inr (Res.ok.inj hstep).symm
      rcases hst with hst | hst
      · subst hst
        exact ⟨hinv, fun h => h, fun h => absurd h hne⟩
      · subst hst
        exact ⟨listInv_mark zone name r st _ (fun h => absurd h hne) hinv,
          fun h => List.mem_cons_of_mem _ h, fun h => absurd h hne⟩
  | panic m =>
    simp only [addressListDestination, hl] at hstep
    cases hstep
  | outOfFuel =>
    simp only [addressListDestination, hl] at hstep
    cases hstep

theorem foldRes_keeps {σ α : Type} (f : σ → α → Res σ) (Inv K : σ → Prop) (E good : α → Prop)
    (hstep : ∀ s s1 a, good a → Inv s → f s a = .ok s1 → Inv s1 ∧ (K s → K s1) ∧ (E a → K s1)) :
    ∀ (l : List α) (s s1 : σ), (∀ a ∈ l, good a) → Inv s → foldRes f s l = .ok s1 →
      Inv s1 ∧ (K s → K s1) ∧ ((∃ a ∈ l, E a) → K s1) := by
  intro l
  induction l with
  | nil =>
    intro s s1 _ hinv h
    simp only [foldRes, Res.ok.injEq] at h
    subst h
    exact ⟨hinv, fun h => h, fun ⟨a, ha, _⟩ => absurd ha (List.not_mem_nil a)⟩
  | cons a rest ih =>
    intro s s1 hgood hinv h
    simp only [foldRes] at h
    cases hfa : f s a with
    | ok s2 =>
      rw [hfa] at h
      obtain ⟨h1, h2, h3⟩ := hstep s s2 a (hgood a (List.mem_cons_self _ _)) hinv hfa
      obtain ⟨g1, g2, g3⟩ := ih s2 s1 (fun b hb => hgood b (List.mem_cons_of_mem _ hb)) h1 h
      refine ⟨g1, fun hk => g2 (h2 hk), ?_⟩
      rintro ⟨b, hb, hE⟩
      rcases List.mem_cons.mp hb with hb | hb
      · subst hb
        exact g2 (h3 hE)
      · exact g3 ⟨b, hb, hE⟩
    | panic m => rw [hfa] at h; cases h
    | outOfFuel => rw [hfa] at h; cases h

theorem addressListPolicy_keeps (net : NetEnv) (fuel : Nat) (o : Objects)
    (zone name : String) (r : LookupResult)
    (hr : Objects.Lookup net fuel o zone name = .ok r) (hk : r.2.length > 1)
    (st st1 : ListState) (p : Policy) (hgood : NoClash zone name p)
    (hinv : ListInv zone name r st) (h : addressListPolicy net fuel o st p = .ok st1) :
    ListInv zone name r st1 ∧
      (zone ++ "__" ++ name ∈ st.iplists → zone ++ "__" ++ name ∈ st1.iplists) ∧
      (RefersTo zone name p → zone ++ "__" ++ name ∈ st1.iplists) := by
  by_cases hskip : p.skipped = true
  · rw [addressListPolicy_skipped net fuel o st p (by simp [hskip])] at h
    cases h
    refine ⟨hinv, fun h => h, fun h => ?_⟩
    rw [h.1] at hskip
    cases hskip
  · have hskip : p.skipped = false := by simpa using hskip
    obtain ⟨hgs, hgd⟩ := hgood hskip
    have hdz : p.Disabled = false ∧ p.IsZonePolicy = .ok false := by
      simp only [Policy.skipped, Bool.or_eq_false_iff, beq_eq_false_iff_ne] at hskip
      refine ⟨hskip.1, ?_⟩
      unfold addressListPolicy at h
      simp only [hskip.1, Bool.false_eq_true, if_false] at h
      cases hz : p.IsZonePolicy with
      | ok b =>
        cases b with
        | true => exact absurd hz hskip.2
        | false => rfl
      | panic m => rw [hz] at h; cases h
      | outOfFuel => rw [hz] at h; cases h
    simp only [addressListPolicy, hdz.1, hdz.2, Bool.false_eq_true, if_false] at h
    cases hsrc : foldRes (addressListSource net fuel o p) st p.Sources with
    | ok st2 =>
      rw [hsrc] at h
      obtain ⟨a1, a2, a3⟩ := foldRes_keeps (addressListSource net fuel o p)
        (ListInv zone name r) (fun s => zone ++ "__" ++ name ∈ s.iplists)
        (fun n => p.From ++ "__" ++ n = zone ++ "__" ++ name)
        (fun n => p.From ++ "__" ++ n = zone ++ "__" ++ name → (p.From, n) = (zone, name))
        (fun s s1 n hg hi hs => addressListSource_keeps net fuel o p zone name r hr hk s s1 n hg hi hs)
        p.Sources st st2 hgs hinv hsrc
      obtain ⟨b1, b2, b3⟩ := foldRes_keeps (addressListDestination net fuel o p)
        (ListInv zone name r) (fun s => zone ++ "__" ++ name ∈ s.iplists)
        (fun n => p.To ++ "__" ++ n = zone ++ "__" ++ name)
        (fun n => p.To ++ "__" ++ n = zone ++ "__" ++ name → (p.To, n) = (zone, name))
        (fun s s1 n hg hi hs =>
          addressListDestination_keeps net fuel o p zone name r hr hk s s1 n hg hi hs)
        p.Destinations st2 st1 hgd a1 h
      refine ⟨b1, fun hm => b2 (a2 hm), ?_⟩
      rintro ⟨_, hs | hd⟩
      · exact b2 (a3 hs)
      · exact b3 hd
    | panic m => rw [hsrc] at h; cases h
    | outOfFuel => rw [hsrc] at h; cases h

set_option maxRecDepth 100000 in
/-- C8, counterexample. `buildMikrotik` succeeds on `clashPolicy` and
`clashStore`; the destination ("Trust__", "x") is referenced by the enabled
policy and resolves to the two addresses 10.0.0.3 and 10.0.0.4, but the
address-list section holds only the two statements of the source
("Trust", "__x"), which was referenced before it and has the same list name:
the statements of ("Trust__", "x") are emitted zero times. -/
theorem addressList_clash_drops_list :
    (buildMikrotik dottedDecimalEnv MapOrder.asListed 1 [clashPolicy] clashStore
        defaultServices).isOk = true ∧
      ("Trust__", "x") ∈ references [clashPolicy] ∧
      Objects.Lookup dottedDecimalEnv 1 clashStore "Trust__" "x"
        = .ok (["h3", "h4"], [some ⟨IPv4 10 0 0 3, IPv4 255 255 255 255⟩,
            some ⟨IPv4 10 0 0 4, IPv4 255 255 255 255⟩]) ∧
      addressListSection dottedDecimalEnv 1 [clashPolicy] clashStore
        = .ok [⟨"Trust____x", "10.0.0.1/32", "h1"⟩, ⟨"Trust____x", "10.0.0.2/32", "h2"⟩] ∧
      ∀ e ∈ [(⟨"Trust____x", "10.0.0.1/32", "h1"⟩ : AddressListEntry),
          ⟨"Trust____x", "10.0.0.2/32", "h2"⟩],
        e ∉ listStatements "Trust__" "x" (["h3", "h4"],
          [some ⟨IPv4 10 0 0 3, IPv4 255 255 255 255⟩, some ⟨IPv4 10 0 0 4, IPv4 255 255 255 255⟩]) := by
  refine ⟨by decide, by decide, by decide, by decide, by decide⟩

theorem mem_references_source (ps : List Policy) (p : Policy) (n : String) (hp : p ∈ ps)
    (hskip : p.skipped = false) (hn : n ∈ p.Sources) : (p.From, n) ∈ references ps := by
  simp only [references, List.mem_flatMap]
  refine ⟨p, hp, ?_⟩
  simp only [hskip, Bool.false_eq_true, if_false, List.mem_append, List.mem_map]
  exact Or.inl ⟨n, hn, rfl⟩

theorem mem_references_destination (ps : List Policy) (p : Policy) (n : String) (hp : p ∈ ps)
    (hskip : p.skipped = false) (hn : n ∈ p.Destinations) : (p.To, n) ∈ references ps := by
  simp only [references, List.mem_flatMap]
  refine ⟨p, hp, ?_⟩
  simp only [hskip, Bool.false_eq_true, if_false, List.mem_append, List.mem_map]
  exact Or.inr ⟨n, hn, rfl⟩

theorem refersTo_of_mem_references (ps : List Policy) (zone name : String)
    (h : (zone, name) ∈ references ps) : ∃ p ∈ ps, RefersTo zone name p := by
  simp only [references, List.mem_flatMap] at h
  obtain ⟨p, hp, hmem⟩ := h
  refine ⟨p, hp, ?_⟩
  cases hskip : p.skipped with
  | true => simp [hskip] at hmem
  | false =>
    simp only [hskip, Bool.false_eq_true, if_false, List.mem_append, List.mem_map,
      Prod.mk.injEq] at hmem
    refine ⟨hskip, ?_⟩
    rcases hmem with ⟨n, hn, hz, hnn⟩ | ⟨n, hn, hz, hnn⟩
    · exact Or.inl ⟨n, hn, by rw [hz, hnn]⟩
    · exact Or.inr ⟨n, hn, by rw [hz, hnn]⟩

/-- C8, amended. When the address-list section is produced, every pair
`(zone, name)` that is referenced as a source or destination by a policy not
passed over, that resolves to more than one address, and whose list name
`zone__name` is the list name of no other referenced pair, has its statements
in the section exactly once: the statements of the section that carry its list
name are one copy of its block, however many policies reference it. -/
theorem addressList_once_per_list_name (net : NetEnv) (fuel : Nat) (ps : List Policy)
    (o : Objects) (out : List AddressListEntry)
    (hout : addressListSection net fuel ps o = .ok out)
    (zone name : String) (r : LookupResult)
    (href : (zone, name) ∈ references ps)
    (hr : Objects.Lookup net fuel o zone name = .ok r) (hk : r.2.length > 1)
    (hclash : ∀ z n, (z, n) ∈ references ps → z ++ "__" ++ n = zone ++ "__" ++ name →
      (z, n) = (zone, name)) :
    statementsOf (zone ++ "__" ++ name) out = listStatements zone name r := by
  unfold addressListSection at hout
  cases hfold : foldRes (addressListPolicy net fuel o) ⟨[], []⟩ ps with
  | ok st =>
    rw [hfold] at hout
    cases hout
    have hgood : ∀ p ∈ ps, NoClash zone name p := by
      intro p hp hskip
      exact ⟨fun n hn h => hclash _ _ (mem_references_source ps p n hp hskip hn) h,
        fun n hn h => hclash _ _ (mem_references_destination ps p n hp hskip hn) h⟩
    have hinit : ListInv zone name r ⟨[], []⟩ := by
      constructor
      · intro h; simp at h
      · intro _; rfl
    obtain ⟨h1, _, h3⟩ := foldRes_keeps (addressListPolicy net fuel o)
      (ListInv zone name r) (fun s => zone ++ "__" ++ name ∈ s.iplists)
      (RefersTo zone name) (NoClash zone name)
      (fun s s1 p hg hi hs => addressListPolicy_keeps net fuel o zone name r hr hk s s1 p hg hi hs)
      ps ⟨[], []⟩ st hgood hinit hfold
    exact h1.1 (h3 (refersTo_of_mem_references ps zone name href))
  | panic m => rw [hfold] at hout; cases hout
  | outOfFuel => rw [hfold] at hout; cases hout

set_option maxRecDepth 100000 in
/-- Witness of the amended C8: the group "Servers" of `demoStore` is a source
and a destination of `groupPolicy`, and its statements appear once. -/
theorem addressList_once_per_list_name_witness :
    statementsOf ("Trust" ++ "__" ++ "Servers")
        [⟨"Trust__Servers", "10.0.0.1/32", "Server1"⟩, ⟨"Trust__Servers", "10.0.0.2/32", "Server2"⟩]
      = listStatements "Trust" "Servers"
          (["Server1", "Server2"], [some net10_0_0_1, some net10_0_0_2]) :=
  addressList_once_per_list_name dottedDecimalEnv 1 [groupPolicy, groupPolicy] demoStore
    [⟨"Trust__Servers", "10.0.0.1/32", "Server1"⟩, ⟨"Trust__Servers", "10.0.0.2/32", "Server2"⟩]
    (by decide) "Trust" "Servers" (["Server1", "Server2"], [some net10_0_0_1, some net10_0_0_2])
    (by decide) (by decide) (by decide)
    (by
      intro z n h hname
      have hrefs : references [groupPolicy, groupPolicy]
          = [("Trust", "Servers"), ("Trust", "Servers"), ("Trust", "Server2"),
             ("Trust", "Servers"), ("Trust", "Servers"), ("Trust", "Server2")] := by decide
      rw [hrefs] at h
      simp only [List.mem_cons, Prod.mk.injEq, List.mem_singleton, List.not_mem_nil,
        or_false] at h
      rcases h with ⟨rfl, rfl⟩ | ⟨rfl, rfl⟩ | ⟨rfl, rfl⟩ | ⟨rfl, rfl⟩ | ⟨rfl, rfl⟩ | ⟨rfl, rfl⟩
      · rfl
      · rfl
      · exact absurd hname (by decide)
      · rfl
      · rfl
      · exact absurd hname (by decide))

/-! ## The rules of one service (C2) -/

theorem classifyReference_eq (net : NetEnv) (fuel : Nat) (o : Objects) (zone : String)
    (e : Endpoints) (name : String) (r : LookupResult)
    (h : Objects.Lookup net fuel o zone name = .ok r) :
    classifyReference net fuel o zone e name
      = .ok ⟨e.singles ++ singlesOf net fuel o zone name, e.lists ++ listsOf net fuel o zone name⟩ := by
  obtain ⟨names, lookup⟩ := r
  simp only [classifyReference, singlesOf, listsOf, h]
  by_cases h1 : lookup.length > 1
  · have h2 : lookup.length ≠ 1 := by omega
    simp [h1, h2]
  · by_cases h2 : lookup.length = 1
    · simp [h1, h2]
    · simp [h1, h2]

theorem classifyReference_ok (net : NetEnv) (fuel : Nat) (o : Objects) (zone : String)
    (e e1 : Endpoints) (name : String) (h : classifyReference net fuel o zone e name = .ok e1) :
    ∃ r, Objects.Lookup net fuel o zone name = .ok r := by
  unfold classifyReference at h
  cases hl : Objects.Lookup net fuel o zone name with
  | ok r => exact ⟨r, rfl⟩
  | panic m => rw [hl] at h; cases h
  | outOfFuel => rw [hl] at h; cases h

theorem classify_fold_eq (net : NetEnv) (fuel : Nat) (o : Objects) (zone : String) :
    ∀ (names : List String) (e : Endpoints),
      (∀ n ∈ names, ∃ r, Objects.Lookup net fuel o zone n = .ok r) →
      foldRes (classifyReference net fuel o zone) e names
        = .ok ⟨e.singles ++ names.flatMap (singlesOf net fuel o zone),
            e.lists ++ names.flatMap (listsOf net fuel o zone)⟩ := by
  intro names
  induction names with
  | nil => intro e _; simp [foldRes]
  | cons n rest ih =>
    intro e h
    obtain ⟨r, hr⟩ := h n (List.mem_cons_self _ _)
    simp only [foldRes, classifyReference_eq net fuel o zone e n r hr,
      ih _ (fun m hm => h m (List.mem_cons_of_mem _ hm)), List.flatMap_cons, List.append_assoc]

theorem classify_fold_ok (net : NetEnv) (fuel : Nat) (o : Objects) (zone : String) :
    ∀ (names : List String) (e e1 : Endpoints),
      foldRes (classifyReference net fuel o zone) e names = .ok e1 →
      ∀ n ∈ names, ∃ r, Objects.Lookup net fuel o zone n = .ok r := by
  intro names
  induction names with
  | nil => intro e e1 _ n hn; simp at hn
  | cons m rest ih =>
    intro e e1 h n hn
    simp only [foldRes] at h
    cases hc : classifyReference net fuel o zone e m with
    | ok e2 =>
      rw [hc] at h
      rcases List.mem_cons.mp hn with hn | hn
      · subst hn
        exact classifyReference_ok net fuel o zone e e2 n hc
      · exact ih e2 e1 h n hn
    | panic msg => rw [hc] at h; cases h
    | outOfFuel => rw [hc] at h; cases h

theorem singlesOf_ok (net : NetEnv) (fuel : Nat) (o : Objects) (zone name : String)
    (r : LookupResult) (h : Objects.Lookup net fuel o zone name = .ok r) :
    singlesOf net fuel o zone name = if r.2.length = 1 then r.2.map (fun l => (name, l)) else [] := by
  simp only [singlesOf, h]

theorem listsOf_ok (net : NetEnv) (fuel : Nat) (o : Objects) (zone name : String)
    (r : LookupResult) (h : Objects.Lookup net fuel o zone name = .ok r) :
    listsOf net fuel o zone name = if r.2.length > 1 then [zone ++ "__" ++ name] else [] := by
  simp only [listsOf, h]

theorem resolvedCount_ok (net : NetEnv) (fuel : Nat) (o : Objects) (zone name : String)
    (r : LookupResult) (h : Objects.Lookup net fuel o zone name = .ok r) :
    resolvedCount net fuel o zone name = r.2.length := by
  simp only [resolvedCount, h]

theorem not_ok_defaults (net : NetEnv) (fuel : Nat) (o : Objects) (zone name : String)
    (h : ¬ ∃ r, Objects.Lookup net fuel o zone name = .ok r) :
    singlesOf net fuel o zone name = [] ∧ listsOf net fuel o zone name = [] ∧
      resolvedCount net fuel o zone name = 0 := by
  unfold singlesOf listsOf resolvedCount
  refine ⟨?_, ?_, ?_⟩ <;> split
  · rename_i r hr; exact absurd ⟨r, hr⟩ h
  · rfl
  · rename_i r hr; exact absurd ⟨r, hr⟩ h
  · rfl
  · rename_i r hr; exact absurd ⟨r, hr⟩ h
  · rfl

theorem length_singlesOf (net : NetEnv) (fuel : Nat) (o : Objects) (zone name : String) :
    (singlesOf net fuel o zone name).length
      = if resolvedCount net fuel o zone name == 1 then 1 else 0 := by
  by_cases hok : ∃ r, Objects.Lookup net fuel o zone name = .ok r
  · obtain ⟨r, hr⟩ := hok
    rw [singlesOf_ok net fuel o zone name r hr, resolvedCount_ok net fuel o zone name r hr]
    by_cases h : r.2.length = 1
    · simp [h]
    · simp [h]
  · obtain ⟨h1, _, h3⟩ := not_ok_defaults net fuel o zone name hok
    rw [h1, h3]
    rfl

theorem length_listsOf (net : NetEnv) (fuel : Nat) (o : Objects) (zone name : String) :
    (listsOf net fuel o zone name).length
      = if decide (1 < resolvedCount net fuel o zone name) then 1 else 0 := by
  by_cases hok : ∃ r, Objects.Lookup net fuel o zone name = .ok r
  · obtain ⟨r, hr⟩ := hok
    rw [listsOf_ok net fuel o zone name r hr, resolvedCount_ok net fuel o zone name r hr]
    by_cases h : r.2.length > 1
    · simp [h]
    · simp [h]
  · obtain ⟨_, h2, h3⟩ := not_ok_defaults net fuel o zone name hok
    rw [h2, h3]
    rfl

theorem length_flatMap_singlesOf (net : NetEnv) (fuel : Nat) (o : Objects) (zone : String)
    (names : List String) :
    (names.flatMap (singlesOf net fuel o zone)).length = singleCount net fuel o zone names := by
  induction names with
  | nil => rfl
  | cons n rest ih =>
    simp only [List.flatMap_cons, List.length_append, ih, singleCount, List.countP_cons,
      length_singlesOf]
    rw [Nat.add_comm]

theorem length_flatMap_listsOf (net : NetEnv) (fuel : Nat) (o : Objects) (zone : String)
    (names : List String) :
    (names.flatMap (listsOf net fuel o zone)).length = listCount net fuel o zone names := by
  induction names with
  | nil => rfl
  | cons n rest ih =>
    simp only [List.flatMap_cons, List.length_append, ih, listCount, List.countP_cons,
      length_listsOf]
    rw [Nat.add_comm]

theorem length_flatMap_const {α β : Type} (f : α → List β) (c : Nat) :
    ∀ l : List α, (∀ x ∈ l, (f x).length = c) → (l.flatMap f).length = l.length * c := by
  intro l
  induction l with
  | nil => intro _; simp
  | cons a rest ih =>
    intro h
    simp only [List.flatMap_cons, List.length_append, List.length_cons,
      h a (List.mem_cons_self _ _), ih (fun x hx => h x (List.mem_cons_of_mem _ hx))]
    ring

theorem length_ruleArgs (src dst : Endpoints) (proto : String) (svc : ServiceList) :
    (ruleArgs src dst proto svc).length
      = src.singles.length * dst.singles.length + src.singles.length * dst.lists.length +
        src.lists.length * dst.singles.length + src.lists.length * dst.lists.length := by
  unfold ruleArgs
  rw [List.length_append,
    length_flatMap_const _ (dst.singles.length + dst.lists.length) _ (by intro x _; simp),
    length_flatMap_const _ (dst.singles.length + dst.lists.length) _ (by intro x _; simp)]
  ring

theorem mapRes_length {α β : Type} (f : α → Res β) :
    ∀ (l : List α) (bs : List β), mapRes f l = .ok bs → bs.length = l.length := by
  intro l
  induction l with
  | nil => intro bs h; simp only [mapRes, Res.ok.injEq] at h; subst h; rfl
  | cons a rest ih =>
    intro bs h
    simp only [mapRes] at h
    cases hfa : f a with
    | ok b =>
      rw [hfa] at h
      cases hr : mapRes f rest with
      | ok bs1 =>
        rw [hr] at h
        simp only [Res.ok.injEq] at h
        subst h
        simp [ih bs1 hr]
      | panic m => rw [hr] at h; cases h
      | outOfFuel => rw [hr] at h; cases h
    | panic m => rw [hfa] at h; cases h
    | outOfFuel => rw [hfa] at h; cases h

theorem length_allProtocols (ord : MapOrder) (svc : ServiceList) :
    (ServiceList.AllProtocols ord svc).length = distinctProtocols svc :=
  (ord.perm _).length_eq

theorem classify_fold_endpoints (net : NetEnv) (fuel : Nat) (o : Objects) (zone : String)
    (names : List String) (h : ∀ n ∈ names, ∃ r, Objects.Lookup net fuel o zone n = .ok r) :
    foldRes (classifyReference net fuel o zone) ⟨[], []⟩ names
      = .ok (endpointsOf net fuel o zone names) := by
  rw [classify_fold_eq net fuel o zone names ⟨[], []⟩ h]
  simp [endpointsOf]

theorem serviceCalls_eq (net : NetEnv) (ord : MapOrder) (fuel : Nat) (p : Policy) (o : Objects)
    (services : Services) (serviceName : String)
    (hs : ∀ n ∈ p.Sources, ∃ r, Objects.Lookup net fuel o p.From n = .ok r)
    (hd : ∀ n ∈ p.Destinations, ∃ r, Objects.Lookup net fuel o p.To n = .ok r) :
    serviceCalls net ord fuel p o services serviceName
      = callsFor ord services serviceName (endpointsOf net fuel o p.From p.Sources)
          (endpointsOf net fuel o p.To p.Destinations) := by
  simp only [serviceCalls, classify_fold_endpoints net fuel o p.From p.Sources hs,
    classify_fold_endpoints net fuel o p.To p.Destinations hd, callsFor]

theorem serviceCalls_ok (net : NetEnv) (ord : MapOrder) (fuel : Nat) (p : Policy) (o : Objects)
    (services : Services) (serviceName : String) (calls : List RuleArgs)
    (h : serviceCalls net ord fuel p o services serviceName = .ok calls) :
    (∀ n ∈ p.Sources, ∃ r, Objects.Lookup net fuel o p.From n = .ok r) ∧
      (∀ n ∈ p.Destinations, ∃ r, Objects.Lookup net fuel o p.To n = .ok r) := by
  unfold serviceCalls at h
  cases hs : foldRes (classifyReference net fuel o p.From) ⟨[], []⟩ p.Sources with
  | ok src =>
    rw [hs] at h
    cases hd : foldRes (classifyReference net fuel o p.To) ⟨[], []⟩ p.Destinations with
    | ok dst =>
      exact ⟨classify_fold_ok net fuel o p.From _ _ _ hs, classify_fold_ok net fuel o p.To _ _ _ hd⟩
    | panic m => rw [hd] at h; cases h
    | outOfFuel => rw [hd] at h; cases h
  | panic m => rw [hs] at h; cases h
  | outOfFuel => rw [hs] at h; cases h

theorem length_ruleArgs_endpoints (net : NetEnv) (fuel : Nat) (p : Policy) (o : Objects)
    (proto : String) (svc : ServiceList) :
    (ruleArgs (endpointsOf net fuel o p.From p.Sources) (endpointsOf net fuel o p.To p.Destinations)
        proto svc).length = combinations net fuel p o := by
  rw [length_ruleArgs]
  simp only [endpointsOf, length_flatMap_singlesOf, length_flatMap_listsOf, combinations]

theorem listName_ne_empty (zone name : String) : zone ++ "__" ++ name ≠ "" := by
  intro h
  have := congrArg String.data h
  simp [String.data_append] at this

theorem mapRes_ok {α β : Type} (f : α → Res β) :
    ∀ l : List α, (∀ a ∈ l, ∃ b, f a = .ok b) → ∃ bs, mapRes f l = .ok bs := by
  intro l
  induction l with
  | nil => intro _; exact ⟨[], rfl⟩
  | cons a rest ih =>
    intro h
    obtain ⟨b, hb⟩ := h a (List.mem_cons_self _ _)
    obtain ⟨bs, hbs⟩ := ih (fun x hx => h x (List.mem_cons_of_mem _ hx))
    exact ⟨b :: bs, by simp only [mapRes, hb, hbs]⟩

theorem mikrotikRuleFields_ok (p : Policy) (chain : String) (a : RuleArgs)
    (hs : a.srcList = "" → a.src ≠ none) (hd : a.dstList = "" → a.dst ≠ none) :
    ∃ fields, mikrotikRuleFields p chain a = .ok fields := by
  have h1 : ∃ sf, srcField a.src a.srcList = .ok sf := by
    unfold srcField
    by_cases h : a.srcList = ""
    · cases hsrc : a.src with
      | none => exact absurd hsrc (hs h)
      | some n =>
        simp only [h, if_true]
        split <;> exact ⟨_, rfl⟩
    · simp only [h, if_false]
      exact ⟨_, rfl⟩
  have h2 : ∃ df, dstField a.dst a.dstList = .ok df := by
    unfold dstField
    by_cases h : a.dstList = ""
    · cases hdst : a.dst with
      | none => exact absurd hdst (hd h)
      | some n =>
        simp only [h, if_true]
        split <;> exact ⟨_, rfl⟩
    · simp only [h, if_false]
      exact ⟨_, rfl⟩
  obtain ⟨sf, hsf⟩ := h1
  obtain ⟨df, hdf⟩ := h2
  refine ⟨["add chain=" ++ chain] ++ sf ++ df ++ protoFields a.proto a.svc ++ actionField p ++
    logField p ++ [commentField p a], ?_⟩
  simp only [mikrotikRuleFields, hsf, hdf]

theorem goodEndpoints_endpointsOf (net : NetEnv) (fuel : Nat) (o : Objects) (zone : String)
    (names : List String) (h : Resolves net fuel o zone names) :
    GoodEndpoints (endpointsOf net fuel o zone names) := by
  constructor
  · intro s hs
    simp only [endpointsOf, List.mem_flatMap] at hs
    obtain ⟨n, hn, hmem⟩ := hs
    obtain ⟨r, hr, hgood⟩ := h n hn
    rw [singlesOf_ok net fuel o zone n r hr] at hmem
    split at hmem
    · obtain ⟨l, hl, rfl⟩ := List.mem_map.mp hmem
      exact hgood l hl
    · simp at hmem
  · intro l hl
    simp only [endpointsOf, List.mem_flatMap] at hl
    obtain ⟨n, hn, hmem⟩ := hl
    obtain ⟨r, hr, _⟩ := h n hn
    rw [listsOf_ok net fuel o zone n r hr] at hmem
    split at hmem
    · simp only [List.mem_singleton] at hmem
      subst hmem
      exact listName_ne_empty zone n
    · simp at hmem

theorem ruleArgs_good (src dst : Endpoints) (proto : String) (svc : ServiceList)
    (hs : GoodEndpoints src) (hd : GoodEndpoints dst) :
    ∀ a ∈ ruleArgs src dst proto svc,
      (a.srcList = "" → a.src ≠ none) ∧ (a.dstList = "" → a.dst ≠ none) := by
  intro a ha
  simp only [ruleArgs, List.mem_append, List.mem_flatMap, List.mem_map] at ha
  rcases ha with ⟨s, hsm, ⟨d, hdm, rfl⟩ | ⟨dl, hdl, rfl⟩⟩ | ⟨sl, hsl, ⟨d, hdm, rfl⟩ | ⟨dl, hdl, rfl⟩⟩
  · exact ⟨fun _ => hs.1 s hsm, fun _ => hd.1 d hdm⟩
  · exact ⟨fun _ => hs.1 s hsm, fun h => absurd h (hd.2 dl hdl)⟩
  · exact ⟨fun h => absurd h (hs.2 sl hsl), fun _ => hd.1 d hdm⟩
  · exact ⟨fun h => absurd h (hs.2 sl hsl), fun h => absurd h (hd.2 dl hdl)⟩

theorem length_callsFor (net : NetEnv) (ord : MapOrder) (fuel : Nat) (p : Policy) (o : Objects)
    (services : Services) (serviceName : String) (calls : List RuleArgs)
    (h : callsFor ord services serviceName (endpointsOf net fuel o p.From p.Sources)
      (endpointsOf net fuel o p.To p.Destinations) = .ok calls) :
    calls.length = combinations net fuel p o * protocolPasses services serviceName := by
  unfold callsFor at h
  unfold protocolPasses
  by_cases hany : serviceName = "ANY"
  · simp only [hany, if_true, Res.ok.injEq] at h ⊢
    subst h
    rw [length_ruleArgs_endpoints, Nat.mul_one]
  · simp only [hany, if_false] at h ⊢
    cases hsvc : services serviceName with
    | none => rw [hsvc] at h; cases h
    | some svc =>
      rw [hsvc] at h
      simp only [Res.ok.injEq] at h
      subst h
      rw [length_flatMap_const _ (combinations net fuel p o) _
        (fun proto _ => length_ruleArgs_endpoints net fuel p o proto svc),
        length_allProtocols, Option.getD_some, Nat.mul_comm]

/-- The rules of a service name that is "ANY" or in the catalog are produced
when every reference of the policy resolves without a nil address. -/
theorem serviceRules_returns (net : NetEnv) (ord : MapOrder) (fuel : Nat) (p : Policy) (o : Objects)
    (services : Services) (serviceName : String)
    (hsvc : serviceName = "ANY" ∨ ∃ svc, services serviceName = some svc)
    (hs : Resolves net fuel o p.From p.Sources) (hd : Resolves net fuel o p.To p.Destinations) :
    ∃ rules, serviceRules net ord fuel p o services serviceName = .ok rules := by
  have hs1 : ∀ n ∈ p.Sources, ∃ r, Objects.Lookup net fuel o p.From n = .ok r :=
    fun n hn => (hs n hn).imp fun _ h => h.1
  have hd1 : ∀ n ∈ p.Destinations, ∃ r, Objects.Lookup net fuel o p.To n = .ok r :=
    fun n hn => (hd n hn).imp fun _ h => h.1
  have gs := goodEndpoints_endpointsOf net fuel o p.From p.Sources hs
  have gd := goodEndpoints_endpointsOf net fuel o p.To p.Destinations hd
  have hcalls : ∃ calls, callsFor ord services serviceName
      (endpointsOf net fuel o p.From p.Sources) (endpointsOf net fuel o p.To p.Destinations)
        = .ok calls ∧
      ∀ a ∈ calls, (a.srcList = "" → a.src ≠ none) ∧ (a.dstList = "" → a.dst ≠ none) := by
    unfold callsFor
    by_cases hany : serviceName = "ANY"
    · simp only [hany, if_true]
      exact ⟨_, rfl, ruleArgs_good _ _ _ _ gs gd⟩
    · simp only [hany, if_false]
      rcases hsvc with h | ⟨svc, h⟩
      · exact absurd h hany
      · simp only [h]
        refine ⟨_, rfl, ?_⟩
        intro a ha
        obtain ⟨proto, _, hmem⟩ := List.mem_flatMap.mp ha
        exact ruleArgs_good _ _ _ _ gs gd a hmem
  obtain ⟨calls, hc, hgood⟩ := hcalls
  unfold serviceRules
  rw [serviceCalls_eq net ord fuel p o services serviceName hs1 hd1, hc]
  exact mapRes_ok _ calls
    (fun a ha => mikrotikRuleFields_ok p _ a (hgood a ha).1 (hgood a ha).2)

set_option maxRecDepth 100000 in
/-- C2, counterexample. The built-in "MS-AD" has an empty definition list.
For the permit policy with the single source "Server1", the destination "any"
and the service "MS-AD", `N = M = 1`, `S = D = 0` and `P = 0`, so
`(N*M + N*D + S*M + S*D) * max(P,1) = 1`, but no rule is emitted for that
service. -/
theorem empty_service_emits_no_rule :
    defaultServices "MS-AD" = some [] ∧
      serviceRules dottedDecimalEnv MapOrder.asListed 0 (simplePolicy 1 "Server1" "any" "MS-AD")
        demoStore defaultServices "MS-AD" = .ok [] ∧
      singleCount dottedDecimalEnv 0 demoStore "Trust" ["Server1"] = 1 ∧
      singleCount dottedDecimalEnv 0 demoStore "Untrust" ["any"] = 1 ∧
      combinations dottedDecimalEnv 0 (simplePolicy 1 "Server1" "any" "MS-AD") demoStore
        * max (distinctProtocols ((defaultServices "MS-AD").getD [])) 1 = 1 := by
  refine ⟨by decide, by decide, by decide, by decide, by decide⟩

/-- C2, amended. For a policy (the filter loop runs this for the enabled,
non-zone-wide ones) and a service name it references that is the sentinel
"ANY" or a key of the catalog, with `N`, `M` the numbers of source and
destination references that resolve to exactly one address and `S`, `D` the
numbers that resolve to more than one: whenever the rules of that service are
produced, their number is `N*M + N*D + S*M + S*D` for "ANY" and
`(N*M + N*D + S*M + S*D) * P` for a catalog name, `P` being the number of
distinct protocols of its definitions (so a name with an empty definition list
yields no rule); and the rules are produced when every reference resolves
without a nil address. -/
theorem serviceRules_count (net : NetEnv) (ord : MapOrder) (fuel : Nat) (p : Policy) (o : Objects)
    (services : Services) (serviceName : String)
    (hsvc : serviceName = "ANY" ∨ ∃ svc, services serviceName = some svc) :
    (∀ rules, serviceRules net ord fuel p o services serviceName = .ok rules →
        rules.length = combinations net fuel p o * protocolPasses services serviceName) ∧
      (Resolves net fuel o p.From p.Sources → Resolves net fuel o p.To p.Destinations →
        ∃ rules, serviceRules net ord fuel p o services serviceName = .ok rules) := by
  constructor
  · intro rules h
    unfold serviceRules at h
    cases hc : serviceCalls net ord fuel p o services serviceName with
    | ok calls =>
      rw [hc] at h
      obtain ⟨hs, hd⟩ := serviceCalls_ok net ord fuel p o services serviceName calls hc
      rw [serviceCalls_eq net ord fuel p o services serviceName hs hd] at hc
      rw [mapRes_length _ _ _ h]
      exact length_callsFor net ord fuel p o services serviceName calls hc
    | panic m => rw [hc] at h; cases h
    | outOfFuel => rw [hc] at h; cases h
  · intro hs hd
    exact serviceRules_returns net ord fuel p o services serviceName hsvc hs hd

set_option maxRecDepth 100000 in
/-- Witness of the amended C2: the built-in "DNS" (tcp and udp) for a policy
with one single source and one single destination gives two rules. -/
theorem serviceRules_count_witness :
    ∃ rules, serviceRules dottedDecimalEnv MapOrder.asListed 0
          (simplePolicy 1 "Server1" "any" "DNS") demoStore defaultServices "DNS" = .ok rules ∧
        rules.length = combinations dottedDecimalEnv 0 (simplePolicy 1 "Server1" "any" "DNS")
          demoStore * protocolPasses defaultServices "DNS" ∧
        rules.length = 2 := by
  have h := serviceRules_count dottedDecimalEnv MapOrder.asListed 0
    (simplePolicy 1 "Server1" "any" "DNS") demoStore defaultServices "DNS"
    (Or.inr ⟨[⟨"tcp", 0, 0, 65535, 53, 53⟩, ⟨"udp", 0, 0, 65535, 53, 53⟩], by decide⟩)
  have hs : Resolves dottedDecimalEnv 0 demoStore (simplePolicy 1 "Server1" "any" "DNS").From
      (simplePolicy 1 "Server1" "any" "DNS").Sources := by
    intro n hn
    simp only [simplePolicy, List.mem_singleton] at hn
    subst hn
    exact ⟨(["Server1"], [some net10_0_0_1]), by decide, by decide⟩
  have hd : Resolves dottedDecimalEnv 0 demoStore (simplePolicy 1 "Server1" "any" "DNS").To
      (simplePolicy 1 "Server1" "any" "DNS").Destinations := by
    intro n hn
    simp only [simplePolicy, List.mem_singleton] at hn
    subst hn
    exact ⟨(["any"], [some ⟨IPv4zero, IPv4zero⟩]), by decide, by decide⟩
  obtain ⟨rules, hr⟩ := h.2 hs hd
  have hlen := h.1 rules hr
  refine ⟨rules, hr, hlen, ?_⟩
  rw [hlen]
  decide

/-! ## The address fields of a rule -/

theorem append_not_address (a x : String)
    (h : ∀ kind ∈ addressKinds, (kind.data.isPrefixOf a.data || a.data.isPrefixOf kind.data) = false) :
    ∀ kind ∈ addressKinds, startsWith (a ++ x) kind = false :=
  fun kind hk => startsWith_append_false a kind x (h kind hk)

theorem protoFields_not_address (proto : String) (svc : ServiceList) :
    ∀ f ∈ protoFields proto svc, ∀ kind ∈ addressKinds, startsWith f kind = false := by
  intro f hf
  unfold protoFields at hf
  rcases List.mem_append.mp hf with h | h
  · split at h
    · rw [List.mem_singleton] at h
      subst h
      exact append_not_address _ _ (by decide)
    · simp at h
  · split at h
    · rcases List.mem_append.mp h with h1 | h1
      · split at h1
        · rw [List.mem_singleton] at h1
          subst h1
          exact append_not_address _ _ (by decide)
        · simp at h1
      · split at h1
        · rw [List.mem_singleton] at h1
          subst h1
          exact append_not_address _ _ (by decide)
        · simp at h1
    · split at h
      · rw [List.mem_singleton] at h
        subst h
        decide
      · simp at h

theorem actionField_not_address (p : Policy) :
    ∀ f ∈ actionField p, ∀ kind ∈ addressKinds, startsWith f kind = false := by
  intro f hf
  unfold actionField at hf
  split at hf
  · rw [List.mem_singleton] at hf; subst hf; decide
  · split at hf
    · rw [List.mem_singleton] at hf; subst hf; decide
    · split at hf
      · rw [List.mem_singleton] at hf; subst hf; decide
      · simp at hf

theorem logField_not_address (p : Policy) :
    ∀ f ∈ logField p, ∀ kind ∈ addressKinds, startsWith f kind = false := by
  intro f hf
  unfold logField at hf
  split at hf
  · rw [List.mem_singleton] at hf; subst hf; decide
  · simp at hf

theorem commentField_not_address (p : Policy) (a : RuleArgs) :
    ∀ kind ∈ addressKinds, startsWith (commentField p a) kind = false := by
  intro kind hk
  apply commentField_startsWith
  revert kind
  decide

/-- The fields of a rule, split into the source field, the destination field and the others. -/
theorem mikrotikRuleFields_split (p : Policy) (chain : String) (a : RuleArgs)
    (fields : List String) (h : mikrotikRuleFields p chain a = .ok fields) :
    ∃ sf df rest : List String,
      srcField a.src a.srcList = .ok sf ∧ dstField a.dst a.dstList = .ok df ∧
      (∀ f, f ∈ fields ↔ f ∈ sf ∨ f ∈ df ∨ f ∈ rest) ∧
      ∀ f ∈ rest, ∀ kind ∈ addressKinds, startsWith f kind = false := by
  unfold mikrotikRuleFields at h
  cases hs : srcField a.src a.srcList with
  | ok sf =>
    rw [hs] at h
    cases hd : dstField a.dst a.dstList with
    | ok df =>
      rw [hd] at h
      simp only [Res.ok.injEq] at h
      subst h
      refine ⟨sf, df, (["add chain=" ++ chain] ++ protoFields a.proto a.svc ++ actionField p ++
        logField p ++ [commentField p a] : List String), rfl, rfl, ?_, ?_⟩
      · intro f
        simp only [List.mem_append, List.mem_singleton]
        tauto
      · intro f hf
        simp only [List.mem_append, List.mem_singleton] at hf
        rcases hf with (((hf | hf) | hf) | hf) | hf
        · subst hf
          exact append_not_address _ _ (by decide)
        · exact protoFields_not_address _ _ f hf
        · exact actionField_not_address p f hf
        · exact logField_not_address p f hf
        · subst hf
          exact commentField_not_address p a
    | panic m => rw [hd] at h; cases h
    | outOfFuel => rw [hd] at h; cases h
  | panic m => rw [hs] at h; cases h
  | outOfFuel => rw [hs] at h; cases h

theorem srcField_cases (src : Option IPNet) (srcList : String) (sf : List String)
    (h : srcField src srcList = .ok sf) :
    (srcList ≠ "" ∧ sf = [" src-address-list=" ++ srcList]) ∨
      (srcList = "" ∧ ∃ n, src = some n ∧
        sf = if ipEqual n.IP IPv4zero then [] else [" src-address=" ++ n.String]) := by
  unfold srcField at h
  by_cases hl : srcList = ""
  · simp only [hl, if_true] at h
    cases src with
    | none => cases h
    | some n =>
      refine Or.inr ⟨hl, n, rfl, ?_⟩
      cases hz : ipEqual n.IP IPv4zero <;> simp only [hz] at h ⊢ <;> cases h <;> rfl
  · simp only [hl, if_false, Res.ok.injEq] at h
    exact Or.inl ⟨hl, h.symm⟩

theorem dstField_cases (dst : Option IPNet) (dstList : String) (df : List String)
    (h : dstField dst dstList = .ok df) :
    (dstList ≠ "" ∧ df = [" dst-address-list=" ++ dstList]) ∨
      (dstList = "" ∧ ∃ n, dst = some n ∧
        df = if ipEqual n.IP IPv4zero then [] else [" dst-address=" ++ n.String]) := by
  unfold dstField at h
  by_cases hl : dstList = ""
  · simp only [hl, if_true] at h
    cases dst with
    | none => cases h
    | some n =>
      refine Or.inr ⟨hl, n, rfl, ?_⟩
      cases hz : ipEqual n.IP IPv4zero <;> simp only [hz] at h ⊢ <;> cases h <;> rfl
  · simp only [hl, if_false, Res.ok.injEq] at h
    exact Or.inl ⟨hl, h.symm⟩

theorem srcField_not_dst (src : Option IPNet) (srcList : String) (sf : List String)
    (h : srcField src srcList = .ok sf) :
    ∀ f ∈ sf, startsWith f " dst-address=" = false ∧ startsWith f " dst-address-list=" = false := by
  intro f hf
  rcases srcField_cases src srcList sf h with ⟨_, rfl⟩ | ⟨_, n, _, rfl⟩
  · rw [List.mem_singleton] at hf
    subst hf
    exact ⟨startsWith_append_false _ _ _ (by decide), startsWith_append_false _ _ _ (by decide)⟩
  · split at hf
    · simp at hf
    · rw [List.mem_singleton] at hf
      subst hf
      exact ⟨startsWith_append_false _ _ _ (by decide), startsWith_append_false _ _ _ (by decide)⟩

theorem dstField_not_src (dst : Option IPNet) (dstList : String) (df : List String)
    (h : dstField dst dstList = .ok df) :
    ∀ f ∈ df, startsWith f " src-address=" = false ∧ startsWith f " src-address-list=" = false := by
  intro f hf
  rcases dstField_cases dst dstList df h with ⟨_, rfl⟩ | ⟨_, n, _, rfl⟩
  · rw [List.mem_singleton] at hf
    subst hf
    exact ⟨startsWith_append_false _ _ _ (by decide), startsWith_append_false _ _ _ (by decide)⟩
  · split at hf
    · simp at hf
    · rw [List.mem_singleton] at hf
      subst hf
      exact ⟨startsWith_append_false _ _ _ (by decide), startsWith_append_false _ _ _ (by decide)⟩

/-- The source fields of the rule written by one call of `mikrotikRule`. -/
theorem source_fields_of_call (p : Policy) (chain : String) (a : RuleArgs) (fields : List String)
    (h : mikrotikRuleFields p chain a = .ok fields) :
    (a.srcList ≠ "" →
        " src-address-list=" ++ a.srcList ∈ fields ∧ NoField " src-address=" fields) ∧
      (a.srcList = "" → ∃ n, a.src = some n ∧
        (if ipEqual n.IP IPv4zero then
          NoField " src-address=" fields ∧ NoField " src-address-list=" fields
        else " src-address=" ++ n.String ∈ fields ∧ NoField " src-address-list=" fields)) := by
  obtain ⟨sf, df, rest, hs, hd, hmem, hrest⟩ := mikrotikRuleFields_split p chain a fields h
  have hdf := dstField_not_src a.dst a.dstList df hd
  have hr1 : ∀ f ∈ rest, startsWith f " src-address=" = false :=
    fun f hf => hrest f hf _ (by decide)
  have hr2 : ∀ f ∈ rest, startsWith f " src-address-list=" = false :=
    fun f hf => hrest f hf _ (by decide)
  rcases srcField_cases a.src a.srcList sf hs with ⟨hne, rfl⟩ | ⟨he, n, hn, rfl⟩
  · refine ⟨fun _ => ⟨(hmem _).mpr (Or.inl (List.mem_singleton.mpr rfl)), ?_⟩,
      fun h1 => absurd h1 hne⟩
    intro f hf
    rcases (hmem f).mp hf with h1 | h1 | h1
    · rw [List.mem_singleton] at h1
      subst h1
      exact startsWith_append_false _ _ _ (by decide)
    · exact (hdf f h1).1
    · exact hr1 f h1
  · refine ⟨fun h1 => absurd he h1, fun _ => ⟨n, hn, ?_⟩⟩
    cases hz : ipEqual n.IP IPv4zero with
    | true =>
      simp only [hz, if_true, List.not_mem_nil, false_or] at hmem ⊢
      exact ⟨fun f hf => ((hmem f).mp hf).elim (fun h1 => (hdf f h1).1) (hr1 f),
        fun f hf => ((hmem f).mp hf).elim (fun h1 => (hdf f h1).2) (hr2 f)⟩
    | false =>
      simp only [hz, Bool.false_eq_true, if_false] at hmem ⊢
      refine ⟨(hmem _).mpr (Or.inl (List.mem_singleton.mpr rfl)), ?_⟩
      intro f hf
      rcases (hmem f).mp hf with h1 | h1 | h1
      · rw [List.mem_singleton] at h1
        subst h1
        exact startsWith_append_false _ _ _ (by decide)
      · exact (hdf f h1).2
      · exact hr2 f h1

/-- The destination fields of the rule written by one call of `mikrotikRule`. -/
theorem destination_fields_of_call (p : Policy) (chain : String) (a : RuleArgs)
    (fields : List String) (h : mikrotikRuleFields p chain a = .ok fields) :
    (a.dstList ≠ "" →
        " dst-address-list=" ++ a.dstList ∈ fields ∧ NoField " dst-address=" fields) ∧
      (a.dstList = "" → ∃ n, a.dst = some n ∧
        (if ipEqual n.IP IPv4zero then
          NoField " dst-address=" fields ∧ NoField " dst-address-list=" fields
        else " dst-address=" ++ n.String ∈ fields ∧ NoField " dst-address-list=" fields)) := by
  obtain ⟨sf, df, rest, hs, hd, hmem, hrest⟩ := mikrotikRuleFields_split p chain a fields h
  have hsf := srcField_not_dst a.src a.srcList sf hs
  have hr1 : ∀ f ∈ rest, startsWith f " dst-address=" = false :=
    fun f hf => hrest f hf _ (by decide)
  have hr2 : ∀ f ∈ rest, startsWith f " dst-address-list=" = false :=
    fun f hf => hrest f hf _ (by decide)
  rcases dstField_cases a.dst a.dstList df hd with ⟨hne, rfl⟩ | ⟨he, n, hn, rfl⟩
  · refine ⟨fun _ => ⟨(hmem _).mpr (Or.inr (Or.inl (List.mem_singleton.mpr rfl))), ?_⟩,
      fun h1 => absurd h1 hne⟩
    intro f hf
    rcases (hmem f).mp hf with h1 | h1 | h1
    · exact (hsf f h1).1
    · rw [List.mem_singleton] at h1
      subst h1
      exact startsWith_append_false _ _ _ (by decide)
    · exact hr1 f h1
  · refine ⟨fun h1 => absurd he h1, fun _ => ⟨n, hn, ?_⟩⟩
    cases hz : ipEqual n.IP IPv4zero with
    | true =>
      simp only [hz, if_true, List.not_mem_nil, false_or] at hmem ⊢
      exact ⟨fun f hf => ((hmem f).mp hf).elim (fun h1 => (hsf f h1).1) (hr1 f),
        fun f hf => ((hmem f).mp hf).elim (fun h1 => (hsf f h1).2) (hr2 f)⟩
    | false =>
      simp only [hz, Bool.false_eq_true, if_false] at hmem ⊢
      refine ⟨(hmem _).mpr (Or.inr (Or.inl (List.mem_singleton.mpr rfl))), ?_⟩
      intro f hf
      rcases (hmem f).mp hf with h1 | h1 | h1
      · exact (hsf f h1).2
      · rw [List.mem_singleton] at h1
        subst h1
        exact startsWith_append_false _ _ _ (by decide)
      · exact hr2 f h1

theorem mapRes_mem {α β : Type} (f : α → Res β) :
    ∀ (l : List α) (bs : List β), mapRes f l = .ok bs → ∀ b ∈ bs, ∃ a ∈ l, f a = .ok b := by
  intro l
  induction l with
  | nil =>
    intro bs h b hb
    simp only [mapRes, Res.ok.injEq] at h
    subst h
    simp at hb
  | cons a rest ih =>
    intro bs h b hb
    simp only [mapRes] at h
    cases hfa : f a with
    | ok b1 =>
      rw [hfa] at h
      cases hr : mapRes f rest with
      | ok bs1 =>
        rw [hr] at h
        simp only [Res.ok.injEq] at h
        subst h
        rcases List.mem_cons.mp hb with hb | hb
        · subst hb
          exact ⟨a, List.mem_cons_self _ _, hfa⟩
        · obtain ⟨x, hx, hfx⟩ := ih bs1 hr b hb
          exact ⟨x, List.mem_cons_of_mem _ hx, hfx⟩
      | panic m => rw [hr] at h; cases h
      | outOfFuel => rw [hr] at h; cases h
    | panic m => rw [hfa] at h; cases h
    | outOfFuel => rw [hfa] at h; cases h

theorem mem_callsFor (ord : MapOrder) (services : Services) (serviceName : String)
    (src dst : Endpoints) (calls : List RuleArgs)
    (h : callsFor ord services serviceName src dst = .ok calls) :
    ∀ a ∈ calls, ∃ proto svc, a ∈ ruleArgs src dst proto svc := by
  intro a ha
  unfold callsFor at h
  split at h
  · cases h
    exact ⟨_, _, ha⟩
  · split at h
    · cases h
    · cases h
      obtain ⟨proto, _, hmem⟩ := List.mem_flatMap.mp ha
      exact ⟨proto, _, hmem⟩

theorem ruleArgs_source_shape (src dst : Endpoints) (proto : String) (svc : ServiceList)
    (a : RuleArgs) (ha : a ∈ ruleArgs src dst proto svc) :
    (∃ s ∈ src.singles, a.srcName = s.1 ∧ a.src = s.2 ∧ a.srcList = "") ∨
      (∃ sl ∈ src.lists, a.srcList = sl) := by
  simp only [ruleArgs, List.mem_append, List.mem_flatMap, List.mem_map] at ha
  rcases ha with ⟨s, hsm, ⟨d, hdm, rfl⟩ | ⟨dl, hdl, rfl⟩⟩ | ⟨sl, hsl, ⟨d, hdm, rfl⟩ | ⟨dl, hdl, rfl⟩⟩
  · exact Or.inl ⟨s, hsm, rfl, rfl, rfl⟩
  · exact Or.inl ⟨s, hsm, rfl, rfl, rfl⟩
  · exact Or.inr ⟨sl, hsl, rfl⟩
  · exact Or.inr ⟨sl, hsl, rfl⟩

theorem ruleArgs_destination_shape (src dst : Endpoints) (proto : String) (svc : ServiceList)
    (a : RuleArgs) (ha : a ∈ ruleArgs src dst proto svc) :
    (∃ d ∈ dst.singles, a.dstName = d.1 ∧ a.dst = d.2 ∧ a.dstList = "") ∨
      (∃ dl ∈ dst.lists, a.dstList = dl) := by
  simp only [ruleArgs, List.mem_append, List.mem_flatMap, List.mem_map] at ha
  rcases ha with ⟨s, hsm, ⟨d, hdm, rfl⟩ | ⟨dl, hdl, rfl⟩⟩ | ⟨sl, hsl, ⟨d, hdm, rfl⟩ | ⟨dl, hdl, rfl⟩⟩
  · exact Or.inl ⟨d, hdm, rfl, rfl, rfl⟩
  · exact Or.inr ⟨dl, hdl, rfl⟩
  · exact Or.inl ⟨d, hdm, rfl, rfl, rfl⟩
  · exact Or.inr ⟨dl, hdl, rfl⟩

theorem mem_singles_endpointsOf (net : NetEnv) (fuel : Nat) (o : Objects) (zone : String)
    (names : List String) (s : String × Option IPNet)
    (h : s ∈ (endpointsOf net fuel o zone names).singles) :
    s.1 ∈ names ∧ ∃ r, Objects.Lookup net fuel o zone s.1 = .ok r ∧ r.2 = [s.2] := by
  simp only [endpointsOf, List.mem_flatMap] at h
  obtain ⟨n, hn, hmem⟩ := h
  by_cases hok : ∃ r, Objects.Lookup net fuel o zone n = .ok r
  · obtain ⟨r, hr⟩ := hok
    rw [singlesOf_ok net fuel o zone n r hr] at hmem
    split at hmem
    · rename_i hlen
      obtain ⟨l, hl, rfl⟩ := List.mem_map.mp hmem
      obtain ⟨x, hx⟩ := List.length_eq_one.mp hlen
      rw [hx] at hl
      rw [List.mem_singleton] at hl
      subst hl
      exact ⟨hn, r, hr, hx⟩
    · simp at hmem
  · rw [(not_ok_defaults net fuel o zone n hok).1] at hmem
    simp at hmem

theorem mem_lists_endpointsOf (net : NetEnv) (fuel : Nat) (o : Objects) (zone : String)
    (names : List String) (sl : String) (h : sl ∈ (endpointsOf net fuel o zone names).lists) :
    ∃ n ∈ names, ∃ r, Objects.Lookup net fuel o zone n = .ok r ∧ 1 < r.2.length ∧
      sl = zone ++ "__" ++ n := by
  simp only [endpointsOf, List.mem_flatMap] at h
  obtain ⟨n, hn, hmem⟩ := h
  by_cases hok : ∃ r, Objects.Lookup net fuel o zone n = .ok r
  · obtain ⟨r, hr⟩ := hok
    rw [listsOf_ok net fuel o zone n r hr] at hmem
    split at hmem
    · rename_i hlen
      rw [List.mem_singleton] at hmem
      exact ⟨n, hn, r, hr, hlen, hmem⟩
    · simp at hmem
  · rw [(not_ok_defaults net fuel o zone n hok).2.1] at hmem
    simp at hmem

theorem listName_inj (zone n m : String) (h : zone ++ "__" ++ n = zone ++ "__" ++ m) : n = m := by
  have := congrArg String.data h
  simp only [String.data_append, List.append_assoc, List.append_cancel_left_eq] at this
  exact String.ext this

theorem source_fields_for_reference (net : NetEnv) (fuel : Nat) (o : Objects) (p : Policy)
    (dst : Endpoints) (proto : String) (svc : ServiceList) (a : RuleArgs) (fields : List String)
    (ha : a ∈ ruleArgs (endpointsOf net fuel o p.From p.Sources) dst proto svc)
    (hf : mikrotikRuleFields p (p.From ++ "__" ++ p.To) a = .ok fields) :
    (∃ s ∈ p.Sources, ForSource p s a) ∧
      ∀ s ∈ p.Sources, ForSource p s a →
        ∃ r, Objects.Lookup net fuel o p.From s = .ok r ∧ SourceFields p s r fields := by
  obtain ⟨hlist, hsingle⟩ := source_fields_of_call p _ a fields hf
  rcases ruleArgs_source_shape _ _ _ _ a ha with ⟨s1, hs1, hname, hsrc, hl⟩ | ⟨sl, hsl, hl⟩
  · obtain ⟨hmem, r, hr, hr2⟩ := mem_singles_endpointsOf net fuel o p.From p.Sources s1 hs1
    refine ⟨⟨s1.1, hmem, Or.inl ⟨hl, hname⟩⟩, ?_⟩
    rintro s _ (⟨_, hs⟩ | hs)
    · rw [hname] at hs
      subst hs
      obtain ⟨n, hn, hprop⟩ := hsingle hl
      refine ⟨r, hr, Or.inr ⟨n, ?_, hprop⟩⟩
      rw [hr2, ← hsrc, hn]
    · rw [hl] at hs
      exact absurd hs.symm (listName_ne_empty _ _)
  · obtain ⟨n1, hn1, r, hr, hlen, hsl2⟩ := mem_lists_endpointsOf net fuel o p.From p.Sources sl hsl
    have hne : a.srcList ≠ "" := by
      rw [hl, hsl2]
      exact listName_ne_empty _ _
    refine ⟨⟨n1, hn1, Or.inr (by rw [hl, hsl2])⟩, ?_⟩
    rintro s _ (⟨he, _⟩ | hs)
    · exact absurd he hne
    · rw [hl, hsl2] at hs
      have := listName_inj _ _ _ hs
      subst this
      obtain ⟨h1, h2⟩ := hlist hne
      refine ⟨r, hr, Or.inl ⟨hlen, ?_, h2⟩⟩
      rw [← hsl2, ← hl]
      exact h1

theorem destination_fields_for_reference (net : NetEnv) (fuel : Nat) (o : Objects) (p : Policy)
    (src : Endpoints) (proto : String) (svc : ServiceList) (a : RuleArgs) (fields : List String)
    (ha : a ∈ ruleArgs src (endpointsOf net fuel o p.To p.Destinations) proto svc)
    (hf : mikrotikRuleFields p (p.From ++ "__" ++ p.To) a = .ok fields) :
    (∃ d ∈ p.Destinations, ForDestination p d a) ∧
      ∀ d ∈ p.Destinations, ForDestination p d a →
        ∃ r, Objects.Lookup net fuel o p.To d = .ok r ∧ DestinationFields p d r fields := by
  obtain ⟨hlist, hsingle⟩ := destination_fields_of_call p _ a fields hf
  rcases ruleArgs_destination_shape _ _ _ _ a ha with ⟨s1, hs1, hname, hsrc, hl⟩ | ⟨sl, hsl, hl⟩
  · obtain ⟨hmem, r, hr, hr2⟩ := mem_singles_endpointsOf net fuel o p.To p.Destinations s1 hs1
    refine ⟨⟨s1.1, hmem, Or.inl ⟨hl, hname⟩⟩, ?_⟩
    rintro s _ (⟨_, hs⟩ | hs)
    · rw [hname] at hs
      subst hs
      obtain ⟨n, hn, hprop⟩ := hsingle hl
      refine ⟨r, hr, Or.inr ⟨n, ?_, hprop⟩⟩
      rw [hr2, ← hsrc, hn]
    · rw [hl] at hs
      exact absurd hs.symm (listName_ne_empty _ _)
  · obtain ⟨n1, hn1, r, hr, hlen, hsl2⟩ :=
      mem_lists_endpointsOf net fuel o p.To p.Destinations sl hsl
    have hne : a.dstList ≠ "" := by
      rw [hl, hsl2]
      exact listName_ne_empty _ _
    refine ⟨⟨n1, hn1, Or.inr (by rw [hl, hsl2])⟩, ?_⟩
    rintro s _ (⟨he, _⟩ | hs)
    · exact absurd he hne
    · rw [hl, hsl2] at hs
      have := listName_inj _ _ _ hs
      subst this
      obtain ⟨h1, h2⟩ := hlist hne
      refine ⟨r, hr, Or.inl ⟨hlen, ?_, h2⟩⟩
      rw [← hsl2, ← hl]
      exact h1

/-- The address pieces of a rule, as `mikrotikRule` writes them one after the
other. For a policy (the filter loop runs this for the enabled, non-zone-wide
ones) and a service name: every rule emitted is written by a call of
`mikrotikRule` made for some source reference and some destination reference
of the policy; and for every source reference `s` the call was made for, the
resolution of `s` returns, and either it has more than one address and the
rule carries `src-address-list=<from-zone>__<s>` and no `src-address=` field,
or it is exactly one address and the rule carries `src-address=<that address>`
and no `src-address-list=` field, or neither field when the address is
0.0.0.0. A reference that resolves to nothing is therefore one no rule is
emitted for. The same holds for the destinations with the to-zone and the
`dst-` fields. -/
theorem rule_address_fields (net : NetEnv) (ord : MapOrder) (fuel : Nat) (p : Policy) (o : Objects)
    (services : Services) (serviceName : String) (rules : List (List String))
    (hrules : serviceRules net ord fuel p o services serviceName = .ok rules)
    (fields : List String) (hmem : fields ∈ rules) :
    ∃ a : RuleArgs, mikrotikRuleFields p (p.From ++ "__" ++ p.To) a = .ok fields ∧
      (∃ s ∈ p.Sources, ForSource p s a) ∧ (∃ d ∈ p.Destinations, ForDestination p d a) ∧
      (∀ s ∈ p.Sources, ForSource p s a →
        ∃ r, Objects.Lookup net fuel o p.From s = .ok r ∧ SourceFields p s r fields) ∧
      (∀ d ∈ p.Destinations, ForDestination p d a →
        ∃ r, Objects.Lookup net fuel o p.To d = .ok r ∧ DestinationFields p d r fields) := by
  unfold serviceRules at hrules
  cases hc : serviceCalls net ord fuel p o services serviceName with
  | ok calls =>
    rw [hc] at hrules
    obtain ⟨a, ha, hf⟩ := mapRes_mem _ calls rules hrules fields hmem
    obtain ⟨hs, hd⟩ := serviceCalls_ok net ord fuel p o services serviceName calls hc
    rw [serviceCalls_eq net ord fuel p o services serviceName hs hd] at hc
    obtain ⟨proto, svc, hargs⟩ := mem_callsFor ord services serviceName _ _ calls hc a ha
    obtain ⟨s1, s2⟩ := source_fields_for_reference net fuel o p _ proto svc a fields hargs hf
    obtain ⟨d1, d2⟩ := destination_fields_for_reference net fuel o p _ proto svc a fields hargs hf
    exact ⟨a, hf, s1, d1, s2, d2⟩
  | panic m => rw [hc] at hrules; cases hrules
  | outOfFuel => rw [hc] at hrules; cases hrules

set_option maxRecDepth 100000 in
/-- The address pieces of a rule of the policy `groupPolicy` on `demoStore`, whose source
"Servers" resolves to two addresses and whose destination "Server2" to one;
the rule is the first of the two emitted for the service "ANY". -/
theorem rule_address_fields_witness :
    ∃ a : RuleArgs, mikrotikRuleFields groupPolicy (groupPolicy.From ++ "__" ++ groupPolicy.To) a
        = .ok ["add chain=Trust__Trust", " src-address-list=Trust__Servers",
            " dst-address=10.0.0.2/32", " action=accept",
            " comment=\"ID: 3 - Trust__Servers -> Server2\"\n"] ∧
      (∃ s ∈ groupPolicy.Sources, ForSource groupPolicy s a) ∧
      (∃ d ∈ groupPolicy.Destinations, ForDestination groupPolicy d a) ∧
      (∀ s ∈ groupPolicy.Sources, ForSource groupPolicy s a →
        ∃ r, Objects.Lookup dottedDecimalEnv 1 demoStore groupPolicy.From s = .ok r ∧
          SourceFields groupPolicy s r ["add chain=Trust__Trust", " src-address-list=Trust__Servers",
            " dst-address=10.0.0.2/32", " action=accept",
            " comment=\"ID: 3 - Trust__Servers -> Server2\"\n"]) ∧
      (∀ d ∈ groupPolicy.Destinations, ForDestination groupPolicy d a →
        ∃ r, Objects.Lookup dottedDecimalEnv 1 demoStore groupPolicy.To d = .ok r ∧
          DestinationFields groupPolicy d r ["add chain=Trust__Trust",
            " src-address-list=Trust__Servers", " dst-address=10.0.0.2/32", " action=accept",
            " comment=\"ID: 3 - Trust__Servers -> Server2\"\n"]) :=
  rule_address_fields dottedDecimalEnv MapOrder.asListed 1 groupPolicy demoStore defaultServices
    "ANY"
    [["add chain=Trust__Trust", " src-address-list=Trust__Servers", " dst-address=10.0.0.2/32",
        " action=accept", " comment=\"ID: 3 - Trust__Servers -> Server2\"\n"],
      ["add chain=Trust__Trust", " src-address-list=Trust__Servers",
        " dst-address-list=Trust__Servers", " action=accept",
        " comment=\"ID: 3 - Trust__Servers -> Trust__Servers\"\n"]]
    (by decide) _ (by decide)

/-! ## When generation aborts (C3) -/

theorem foldRes_ok {σ α : Type} (f : σ → α → Res σ) :
    ∀ (l : List α) (s : σ), (∀ s, ∀ a ∈ l, ∃ s1, f s a = .ok s1) → ∃ s1, foldRes f s l = .ok s1 := by
  intro l
  induction l with
  | nil => intro s _; exact ⟨s, rfl⟩
  | cons a rest ih =>
    intro s h
    obtain ⟨s1, hs1⟩ := h s a (List.mem_cons_self _ _)
    obtain ⟨s2, hs2⟩ := ih s1 (fun s b hb => h s b (List.mem_cons_of_mem _ hb))
    exact ⟨s2, by simp only [foldRes, hs1, hs2]⟩

/-- A loop whose body, on each element, either returns or panics depending on
the element alone: the loop panics exactly when some element makes the body
panic, and returns otherwise. -/
theorem foldRes_ok_or_panic {σ α : Type} (f : σ → α → Res σ) (bad : α → Prop) :
    ∀ (l : List α) (s : σ),
      (∀ s, ∀ a ∈ l, bad a → ∃ m, f s a = .panic m) →
      (∀ s, ∀ a ∈ l, ¬ bad a → ∃ s1, f s a = .ok s1) →
      ((∃ a ∈ l, bad a) → ∃ m, foldRes f s l = .panic m) ∧
      ((¬ ∃ a ∈ l, bad a) → ∃ s1, foldRes f s l = .ok s1) := by
  intro l
  induction l with
  | nil =>
    intro s _ _
    exact ⟨fun ⟨a, ha, _⟩ => absurd ha (List.not_mem_nil a), fun _ => ⟨s, rfl⟩⟩
  | cons a rest ih =>
    intro s hbad hgood
    by_cases ha : bad a
    · obtain ⟨m, hm⟩ := hbad s a (List.mem_cons_self _ _) ha
      refine ⟨fun _ => ⟨m, by simp only [foldRes, hm]⟩, fun h => ?_⟩
      exact absurd ⟨a, List.mem_cons_self _ _, ha⟩ h
    · obtain ⟨s1, hs1⟩ := hgood s a (List.mem_cons_self _ _) ha
      obtain ⟨i1, i2⟩ := ih s1 (fun s b hb => hbad s b (List.mem_cons_of_mem _ hb))
        (fun s b hb => hgood s b (List.mem_cons_of_mem _ hb))
      constructor
      · rintro ⟨b, hb, hbb⟩
        rcases List.mem_cons.mp hb with hb | hb
        · subst hb; exact absurd hbb ha
        · obtain ⟨m, hm⟩ := i1 ⟨b, hb, hbb⟩
          exact ⟨m, by simp only [foldRes, hs1, hm]⟩
      · intro h
        obtain ⟨s2, hs2⟩ := i2 (fun ⟨b, hb, hbb⟩ => h ⟨b, List.mem_cons_of_mem _ hb, hbb⟩)
        exact ⟨s2, by simp only [foldRes, hs1, hs2]⟩

theorem mapRes_ok_or_panic {α β : Type} (f : α → Res β) (bad : α → Prop) :
    ∀ l : List α,
      (∀ a ∈ l, bad a → ∃ m, f a = .panic m) →
      (∀ a ∈ l, ¬ bad a → ∃ b, f a = .ok b) →
      ((∃ a ∈ l, bad a) → ∃ m, mapRes f l = .panic m) ∧
      ((¬ ∃ a ∈ l, bad a) → ∃ bs, mapRes f l = .ok bs) := by
  intro l
  induction l with
  | nil => intro _ _; exact ⟨fun ⟨a, ha, _⟩ => absurd ha (List.not_mem_nil a), fun _ => ⟨[], rfl⟩⟩
  | cons a rest ih =>
    intro hbad hgood
    obtain ⟨i1, i2⟩ := ih (fun b hb => hbad b (List.mem_cons_of_mem _ hb))
      (fun b hb => hgood b (List.mem_cons_of_mem _ hb))
    by_cases ha : bad a
    · obtain ⟨m, hm⟩ := hbad a (List.mem_cons_self _ _) ha
      refine ⟨fun _ => ⟨m, by simp only [mapRes, hm]⟩, fun h => ?_⟩
      exact absurd ⟨a, List.mem_cons_self _ _, ha⟩ h
    · obtain ⟨b, hb⟩ := hgood a (List.mem_cons_self _ _) ha
      constructor
      · rintro ⟨x, hx, hxb⟩
        rcases List.mem_cons.mp hx with hx | hx
        · subst hx; exact absurd hxb ha
        · obtain ⟨m, hm⟩ := i1 ⟨x, hx, hxb⟩
          exact ⟨m, by simp only [mapRes, hb, hm]⟩
      · intro h
        obtain ⟨bs, hbs⟩ := i2 (fun ⟨x, hx, hxb⟩ => h ⟨x, List.mem_cons_of_mem _ hx, hxb⟩)
        exact ⟨b :: bs, by simp only [mapRes, hb, hbs]⟩

theorem isZonePolicy_returns (p : Policy) (hvalid : p.IsValid = true) :
    ∃ b, p.IsZonePolicy = .ok b := by
  obtain ⟨hs, hd, _⟩ := Policy.isValid_nonempty p hvalid
  cases hS : p.Sources with
  | nil => exact absurd hS hs
  | cons s0 ss =>
    cases hD : p.Destinations with
    | nil => exact absurd hD hd
    | cons d0 ds =>
      simp only [Policy.IsZonePolicy, hS, hD]
      split <;> exact ⟨_, rfl⟩

theorem serviceRules_unknown (net : NetEnv) (ord : MapOrder) (fuel : Nat) (p : Policy)
    (o : Objects) (services : Services) (serviceName : String)
    (hs : Resolves net fuel o p.From p.Sources) (hd : Resolves net fuel o p.To p.Destinations)
    (hany : serviceName ≠ "ANY") (hnone : services serviceName = none) :
    serviceRules net ord fuel p o services serviceName
      = .panic ("services not found: " ++ serviceName) := by
  have hs1 : ∀ n ∈ p.Sources, ∃ r, Objects.Lookup net fuel o p.From n = .ok r :=
    fun n hn => (hs n hn).imp fun _ h => h.1
  have hd1 : ∀ n ∈ p.Destinations, ∃ r, Objects.Lookup net fuel o p.To n = .ok r :=
    fun n hn => (hd n hn).imp fun _ h => h.1
  simp only [serviceRules, serviceCalls_eq net ord fuel p o services serviceName hs1 hd1,
    callsFor, hany, if_false, hnone]

theorem addressListSource_ok (net : NetEnv) (fuel : Nat) (o : Objects) (p : Policy)
    (st : ListState) (name : String) (r : LookupResult)
    (hr : Objects.Lookup net fuel o p.From name = .ok r) :
    ∃ st1, addressListSource net fuel o p st name = .ok st1 := by
  by_cases hmany : r.2.length > 1
  · exact ⟨_, addressListSource_many net fuel o p st name r hr hmany⟩
  · obtain ⟨names, addrs⟩ := r
    have hd : decide (addrs.length > 1) = false := by simpa using hmany
    simp only [addressListSource, hr, hd, Bool.and_false, Bool.false_eq_true, if_false]
    split <;> exact ⟨_, rfl⟩

theorem addressListDestination_ok (net : NetEnv) (fuel : Nat) (o : Objects) (p : Policy)
    (st : ListState) (name : String) (r : LookupResult)
    (hr : Objects.Lookup net fuel o p.To name = .ok r) :
    ∃ st1, addressListDestination net fuel o p st name = .ok st1 := by
  by_cases hmany : r.2.length > 1
  · exact ⟨_, addressListDestination_many net fuel o p st name r hr hmany⟩
  · obtain ⟨names, addrs⟩ := r
    have hd : decide (addrs.length > 1) = false := by simpa using hmany
    simp only [addressListDestination, hr, hd, Bool.and_false, Bool.false_eq_true, if_false]
    split <;> exact ⟨_, rfl⟩

theorem addressListPolicy_ok (net : NetEnv) (fuel : Nat) (o : Objects) (p : Policy)
    (hvalid : p.IsValid = true)
    (hs : Resolves net fuel o p.From p.Sources) (hd : Resolves net fuel o p.To p.Destinations)
    (st : ListState) : ∃ st1, addressListPolicy net fuel o st p = .ok st1 := by
  unfold addressListPolicy
  cases p.Disabled with
  | true => exact ⟨st, rfl⟩
  | false =>
    obtain ⟨b, hb⟩ := isZonePolicy_returns p hvalid
    cases b with
    | true => exact ⟨st, by simp only [hb, Bool.false_eq_true, if_false]⟩
    | false =>
      simp only [hb, Bool.false_eq_true, if_false]
      obtain ⟨st1, h1⟩ := foldRes_ok (addressListSource net fuel o p) p.Sources st
        (fun s n hn => by
          obtain ⟨r, hr, _⟩ := hs n hn
          exact addressListSource_ok net fuel o p s n r hr)
      obtain ⟨st2, h2⟩ := foldRes_ok (addressListDestination net fuel o p) p.Destinations st1
        (fun s n hn => by
          obtain ⟨r, hr, _⟩ := hd n hn
          exact addressListDestination_ok net fuel o p s n r hr)
      exact ⟨st2, by simp only [h1, h2]⟩

theorem filterPolicy_ok_or_panic (net : NetEnv) (ord : MapOrder) (fuel : Nat) (o : Objects)
    (services : Services) (p : Policy) (hvalid : p.IsValid = true)
    (hs : Resolves net fuel o p.From p.Sources) (hd : Resolves net fuel o p.To p.Destinations)
    (blocks : List PolicyBlock) :
    (BadPolicy services p → ∃ m, filterPolicy net ord fuel o services blocks p = .panic m) ∧
      (¬ BadPolicy services p → ∃ b1, filterPolicy net ord fuel o services blocks p = .ok b1) := by
  have hmap := mapRes_ok_or_panic (serviceRules net ord fuel p o services)
    (fun s => s ≠ "ANY" ∧ services s = none) p.Services
    (fun s _ hb => ⟨_, serviceRules_unknown net ord fuel p o services s hs hd hb.1 hb.2⟩)
    (fun s _ hb => by
      apply serviceRules_returns net ord fuel p o services s _ hs hd
      by_cases hany : s = "ANY"
      · exact Or.inl hany
      · cases hsv : services s with
        | none => exact absurd ⟨hany, hsv⟩ hb
        | some svc => exact Or.inr ⟨svc, rfl⟩)
  unfold filterPolicy BadPolicy
  cases hdis : p.Disabled with
  | true =>
    refine ⟨fun h => ?_, fun _ => ⟨blocks, by simp⟩⟩
    cases h.1
  | false =>
    obtain ⟨b, hb⟩ := isZonePolicy_returns p hvalid
    cases b with
    | true =>
      refine ⟨fun h => ?_, fun _ => ⟨blocks, by simp [hb]⟩⟩
      rw [hb] at h
      cases h.2.1
    | false =>
      simp only [hb, Bool.false_eq_true, if_false, true_and]
      constructor
      · intro h
        obtain ⟨m, hm⟩ := hmap.1 h
        exact ⟨m, by simp only [hm]⟩
      · intro h
        obtain ⟨rules, hrules⟩ := hmap.2 h
        refine ⟨blocks ++ [⟨p.String, rules.flatten⟩], ?_⟩
        simp only [hrules]

theorem resolves_eventually (net : NetEnv) (o : Objects) (hplain : PlainHaveAddress o)
    (hacyc : ∀ zone, Acyclic o zone) (zone : String) :
    ∀ names : List String, ∃ N, ∀ fuel, N ≤ fuel → Resolves net fuel o zone names := by
  intro names
  induction names with
  | nil => exact ⟨0, fun _ _ n hn => absurd hn (List.not_mem_nil n)⟩
  | cons n rest ih =>
    obtain ⟨N, hN⟩ := ih
    obtain ⟨r, ⟨M, hM⟩, hgood⟩ := lookup_total net o zone (hacyc zone) hplain n
    refine ⟨max M N, fun fuel hf m hm => ?_⟩
    rcases List.mem_cons.mp hm with hm | hm
    · subst hm
      exact ⟨r, hM fuel (le_trans (le_max_left _ _) hf), hgood.2⟩
    · exact hN fuel (le_trans (le_max_right _ _) hf) m hm

theorem policies_resolve_eventually (net : NetEnv) (o : Objects) (hplain : PlainHaveAddress o)
    (hacyc : ∀ zone, Acyclic o zone) :
    ∀ ps : List Policy, ∃ N, ∀ fuel, N ≤ fuel → ∀ p ∈ ps,
      Resolves net fuel o p.From p.Sources ∧ Resolves net fuel o p.To p.Destinations := by
  intro ps
  induction ps with
  | nil => exact ⟨0, fun _ _ p hp => absurd hp (List.not_mem_nil p)⟩
  | cons p rest ih =>
    obtain ⟨N, hN⟩ := ih
    obtain ⟨N1, h1⟩ := resolves_eventually net o hplain hacyc p.From p.Sources
    obtain ⟨N2, h2⟩ := resolves_eventually net o hplain hacyc p.To p.Destinations
    refine ⟨max N (max N1 N2), fun fuel hf q hq => ?_⟩
    have hf0 : N ≤ fuel := le_trans (le_max_left _ _) hf
    have hf1 : N1 ≤ fuel := le_trans (le_trans (le_max_left _ _) (le_max_right _ _)) hf
    have hf2 : N2 ≤ fuel := le_trans (le_trans (le_max_right _ _) (le_max_right _ _)) hf
    rcases List.mem_cons.mp hq with hq | hq
    · subst hq
      exact ⟨h1 fuel hf1, h2 fuel hf2⟩
    · exact hN fuel hf0 q hq

theorem loopStore_lookup_never_returns (net : NetEnv) :
    ∀ fuel, Objects.Lookup net fuel loopStore "Trust" "G" = .outOfFuel := by
  have h1 : toLower "G" ≠ "any" := by decide
  have h2 : startsWith "G" "MIP(" = false := by decide
  have h3 : startsWith "G" "VIP(" = false := by decide
  have hz : loopStore "Trust" = some loopTable := rfl
  have hn : loopTable "G" = some ⟨some net10_0_0_1, ["G"]⟩ := rfl
  have step : ∀ rec : String → Res LookupResult, rec "G" = .outOfFuel →
      lookupBody net loopStore "Trust" rec "G" = .outOfFuel := by
    intro rec h
    simp only [lookupBody, h1, h2, h3, hz, hn, if_false, List.length_singleton, gt_iff_lt,
      Nat.lt_one_iff, Nat.zero_lt_one, if_true, lookupMembers, h, Bool.false_eq_true]
  intro fuel
  induction fuel with
  | zero => exact step _ rfl
  | succ n ih => exact step _ ih

/-- C3, counterexample. The policy is valid, every object of the store
carries a non-nil address and the only service referenced is the sentinel
"ANY", so no unknown service is referenced; but the source is a group that is
its own member, the resolution recurses without end, and `buildMikrotik`
returns for no recursion budget: generation aborts without an unknown service
name. -/
theorem cyclic_group_aborts_generation :
    (∀ p ∈ [simplePolicy 1 "G" "any" "ANY"], p.IsValid = true) ∧
      (∀ zone tbl name obj, loopStore zone = some tbl → tbl name = some obj →
        obj.Address ≠ none) ∧
      ¬ UnknownService defaultServices [simplePolicy 1 "G" "any" "ANY"] ∧
      ∀ fuel, buildMikrotik dottedDecimalEnv MapOrder.asListed fuel
        [simplePolicy 1 "G" "any" "ANY"] loopStore defaultServices = .outOfFuel := by
  refine ⟨by decide, ?_, ?_, ?_⟩
  · intro zone tbl name obj hz hn
    simp only [loopStore] at hz
    split at hz
    · cases hz
      simp only [loopTable] at hn
      split at hn
      · cases hn; simp
      · cases hn
    · cases hz
  · rintro ⟨p, hp, _, _, s, hs, hany, _⟩
    rw [List.mem_singleton] at hp
    subst hp
    simp only [simplePolicy, List.mem_singleton] at hs
    exact hany hs
  · intro fuel
    have hz : (simplePolicy 1 "G" "any" "ANY").IsZonePolicy = .ok false := by decide
    have hl : Objects.Lookup dottedDecimalEnv fuel loopStore
        (simplePolicy 1 "G" "any" "ANY").From "G" = .outOfFuel :=
      loopStore_lookup_never_returns dottedDecimalEnv fuel
    have hsrc : (simplePolicy 1 "G" "any" "ANY").Sources = ["G"] := rfl
    have hd : (simplePolicy 1 "G" "any" "ANY").Disabled = false := rfl
    simp only [buildMikrotik, addressListSection, foldRes, addressListPolicy, hd, hz, hsrc,
      addressListSource, hl, Bool.false_eq_true, if_false]

/-- C3, amended. For every list of policies that each satisfy the Policy
invariants, every store whose member-less objects carry a non-nil address and
whose groups are acyclic in every zone, and every catalog: once the recursion
budget is large enough, `buildMikrotik` panics if and only if some enabled,
non-zone-wide policy references a service name that is neither "ANY" nor a key
of the catalog, and returns the script otherwise; an address reference that
resolves to nothing, and a catalog name whose definition list is empty, do not
make it panic. -/
theorem buildMikrotik_panics_iff_unknown_service (net : NetEnv) (ord : MapOrder)
    (ps : List Policy) (o : Objects) (services : Services)
    (hvalid : ∀ p ∈ ps, p.IsValid = true) (hplain : PlainHaveAddress o)
    (hacyc : ∀ zone, Acyclic o zone) :
    ∃ N, ∀ fuel, N ≤ fuel →
      ((buildMikrotik net ord fuel ps o services).isPanic = true ↔ UnknownService services ps) ∧
      ((buildMikrotik net ord fuel ps o services).isOk = true ↔ ¬ UnknownService services ps) := by
  obtain ⟨N, hN⟩ := policies_resolve_eventually net o hplain hacyc ps
  refine ⟨N, fun fuel hf => ?_⟩
  have hres := hN fuel hf
  obtain ⟨st, hst⟩ := foldRes_ok (addressListPolicy net fuel o) ps ⟨[], []⟩
    (fun s p hp => addressListPolicy_ok net fuel o p (hvalid p hp) (hres p hp).1 (hres p hp).2 s)
  obtain ⟨f1, f2⟩ := foldRes_ok_or_panic (filterPolicy net ord fuel o services)
    (BadPolicy services) ps []
    (fun s p hp => (filterPolicy_ok_or_panic net ord fuel o services p (hvalid p hp)
      (hres p hp).1 (hres p hp).2 s).1)
    (fun s p hp => (filterPolicy_ok_or_panic net ord fuel o services p (hvalid p hp)
      (hres p hp).1 (hres p hp).2 s).2)
  by_cases hU : UnknownService services ps
  · obtain ⟨m, hm⟩ := f1 hU
    have hb : buildMikrotik net ord fuel ps o services = .panic m := by
      simp only [buildMikrotik, addressListSection, hst, filterSection, hm]
    rw [hb]
    simp [Res.isPanic, Res.isOk, hU]
  · obtain ⟨blocks, hblocks⟩ := f2 hU
    have hb : ∃ out, buildMikrotik net ord fuel ps o services = .ok out := by
      refine ⟨"/ip firewall address-list\n" ++ String.join (st.out.map AddressListEntry.text) ++
        "\n\n/ip firewall filter\n" ++ String.join (blocks.map PolicyBlock.text), ?_⟩
      simp only [buildMikrotik, addressListSection, hst, filterSection, hblocks]
    obtain ⟨out, hout⟩ := hb
    rw [hout]
    simp [Res.isPanic, Res.isOk, hU]

/-- Witness of the amended C3 on `demoStore` with a policy whose source is the
group "Servers" and whose service "NOPE" is not in the catalog. -/
theorem buildMikrotik_panics_iff_unknown_service_witness :
    ∃ N, ∀ fuel, N ≤ fuel →
      ((buildMikrotik dottedDecimalEnv MapOrder.asListed fuel [simplePolicy 1 "Servers" "any" "NOPE"]
          demoStore defaultServices).isPanic = true ↔
        UnknownService defaultServices [simplePolicy 1 "Servers" "any" "NOPE"]) ∧
      ((buildMikrotik dottedDecimalEnv MapOrder.asListed fuel [simplePolicy 1 "Servers" "any" "NOPE"]
          demoStore defaultServices).isOk = true ↔
        ¬ UnknownService defaultServices [simplePolicy 1 "Servers" "any" "NOPE"]) :=
  buildMikrotik_panics_iff_unknown_service dottedDecimalEnv MapOrder.asListed
    [simplePolicy 1 "Servers" "any" "NOPE"] demoStore defaultServices (by decide)
    demoStore_plain demoStore_acyclic

/-! ## Reserved and unknown names (C12, C13) -/

/-- C12. For every store, every zone (in the store or not), every recursion
budget and every spelling of the wildcard name (a name whose lower-case form
is "any"), `Objects.Lookup` returns exactly one entry: the queried name paired
with the network of IP 0.0.0.0 and zero mask, printed `0.0.0.0/0`; the table
of the zone is not read, so an object or group of that name changes nothing. -/
theorem lookup_wildcard (net : NetEnv) (fuel : Nat) (o : Objects) (zone name : String)
    (h : toLower name = "any") :
    Objects.Lookup net fuel o zone name = .ok ([name], [some ⟨IPv4zero, IPv4zero⟩]) ∧
      ipNetString (some ⟨IPv4zero, IPv4zero⟩) = "0.0.0.0/0" := by
  refine ⟨?_, by decide⟩
  rw [Lookup_eq]
  simp only [lookupBody, h, if_true]

/-- Witness of C12: the spelling "ANY" in `shadowStore`, whose zone "Trust"
holds a group named "any". -/
theorem lookup_wildcard_witness :
    Objects.Lookup dottedDecimalEnv 0 shadowStore "Trust" "ANY"
        = .ok (["ANY"], [some ⟨IPv4zero, IPv4zero⟩]) ∧
      ipNetString (some ⟨IPv4zero, IPv4zero⟩) = "0.0.0.0/0" :=
  lookup_wildcard dottedDecimalEnv 0 shadowStore "Trust" "ANY" (by decide)

/-- C13. For every store and every name that is not the wildcard and does not
start with "MIP(" or "VIP(": if the zone is not in the store, or the name is
not in the table of the zone, `Objects.Lookup` returns two empty sequences. -/
theorem lookup_unknown_is_empty (net : NetEnv) (fuel : Nat) (o : Objects) (zone name : String)
    (hres : isReserved name = false)
    (h : o zone = none ∨ ∃ tbl, o zone = some tbl ∧ tbl name = none) :
    Objects.Lookup net fuel o zone name = .ok ([], []) := by
  obtain ⟨h1, h2, h3⟩ := isReserved_false hres
  rw [Lookup_eq]
  rcases h with hz | ⟨tbl, hz, hn⟩
  · simp only [lookupBody, h1, h2, h3, hz, if_false, Bool.false_eq_true]
  · simp only [lookupBody, h1, h2, h3, hz, hn, if_false, Bool.false_eq_true]

/-- Witness of C13: the name "Server9", which `demoStore` does not define in zone "Trust". -/
theorem lookup_unknown_is_empty_witness :
    Objects.Lookup dottedDecimalEnv 3 demoStore "Trust" "Server9" = .ok ([], []) :=
  lookup_unknown_is_empty dottedDecimalEnv 3 demoStore "Trust" "Server9" (by decide)
    (Or.inr ⟨demoTable, rfl, by decide⟩)

/-! ## The parallel sequences of a resolution (C11) -/

theorem dedupFound_ne_outOfFuel (ip : Option IPNet) :
    ∀ (dedup : List (Option IPNet)) (found : Bool), dedupFound ip dedup found ≠ .outOfFuel := by
  intro dedup
  induction dedup with
  | nil => intro found; simp [dedupFound]
  | cons newip rest ih =>
    intro found
    cases ip with
    | none => simp [dedupFound]
    | some a =>
      cases newip with
      | none => simp [dedupFound]
      | some b => simp only [dedupFound]; exact ih _

theorem dedupLoop_ne_outOfFuel (names : List String) :
    ∀ (rest : List (Option IPNet)) (idx : Nat) (dedup : List (Option IPNet))
      (dedupNames : List String), dedupLoop names rest idx dedup dedupNames ≠ .outOfFuel := by
  intro rest
  induction rest with
  | nil => intro idx dedup dedupNames; simp [dedupLoop]
  | cons ip rest ih =>
    intro idx dedup dedupNames
    simp only [dedupLoop]
    cases hf : dedupFound ip dedup false with
    | ok found =>
      cases found with
      | true => simpa using ih _ _ _
      | false =>
        cases hn : names[idx]? with
        | none => simp
        | some n => simpa using ih _ _ _
    | panic m => simp
    | outOfFuel => exact absurd hf (dedupFound_ne_outOfFuel _ _ _)

theorem lookupMembers_stable (net : NetEnv) (o : Objects) (zone : String) :
    ∀ (ms : List String) (names : List String) (ret : List (Option IPNet)),
      (∀ m ∈ ms, Terminates net o zone m) →
      ∃ (N : Nat) (res : Res LookupResult), res ≠ .outOfFuel ∧
        ∀ fuel, N ≤ fuel →
          lookupMembers (fun m => Objects.Lookup net fuel o zone m) ms names ret = res := by
  intro ms
  induction ms with
  | nil => intro names ret _; exact ⟨0, .ok (names, ret), by simp, fun _ _ => rfl⟩
  | cons m ms ih =>
    intro names ret h
    obtain ⟨M, res, hres, hM⟩ := h m (List.mem_cons_self _ _)
    cases res with
    | ok r =>
      obtain ⟨n, a⟩ := r
      obtain ⟨N, res2, hres2, hN⟩ := ih (names ++ n) (ret ++ a)
        (fun x hx => h x (List.mem_cons_of_mem _ hx))
      refine ⟨max M N, res2, hres2, fun fuel hf => ?_⟩
      simp only [lookupMembers, hM fuel (le_trans (le_max_left _ _) hf)]
      exact hN fuel (le_trans (le_max_right _ _) hf)
    | panic msg =>
      refine ⟨M, .panic msg, by simp, fun fuel hf => ?_⟩
      simp only [lookupMembers, hM fuel hf]
    | outOfFuel => exact absurd rfl hres

theorem terminates_const (net : NetEnv) (o : Objects) (zone name : String) (r : LookupResult)
    (h : ∀ rec, lookupBody net o zone rec name = .ok r) : Terminates net o zone name :=
  ⟨0, .ok r, by simp, fun fuel _ => by rw [Lookup_eq]; exact h _⟩

/-- On a store with acyclic groups `Objects.Lookup` terminates for every name. -/
theorem lookup_terminates (net : NetEnv) (o : Objects) (zone : String) (hacyc : Acyclic o zone) :
    ∀ name, Terminates net o zone name := by
  intro name
  induction name using hacyc.induction with
  | _ name ih =>
  by_cases h1 : toLower name = "any"
  · exact terminates_const net o zone name ([name], [some ⟨IPv4zero, IPv4zero⟩])
      (fun rec => by simp [lookupBody, h1])
  by_cases h2 : startsWith name "MIP(" = true
  · exact terminates_const net o zone name
      ([name], [some ⟨net.ParseIP (replaceAll (replaceAll name ")" "") "MIP(" ""), IPv4bcast⟩])
      (fun rec => by simp [lookupBody, h1, h2])
  by_cases h3 : startsWith name "VIP(" = true
  · exact terminates_const net o zone name
      ([name], [some ⟨net.ParseIP (replaceAll (replaceAll name ")" "") "VIP(" ""), IPv4bcast⟩])
      (fun rec => by simp [lookupBody, h1, h2, h3])
  have h2f : startsWith name "MIP(" = false := by simpa using h2
  have h3f : startsWith name "VIP(" = false := by simpa using h3
  cases hz : o zone with
  | none =>
    exact terminates_const net o zone name ([], [])
      (fun rec => by simp [lookupBody, h1, h2f, h3f, hz])
  | some tbl =>
    cases hn : tbl name with
    | none =>
      exact terminates_const net o zone name ([], [])
        (fun rec => by simp [lookupBody, h1, h2f, h3f, hz, hn])
    | some obj =>
      by_cases hm : obj.GroupMembers.length > 0
      · have hmem : ∀ m ∈ obj.GroupMembers, Terminates net o zone m := fun m hmm =>
          ih m ⟨isReserved_of_not h1 h2f h3f, tbl, obj, hz, hn, hmm⟩
        obtain ⟨N, res, hres, hN⟩ := lookupMembers_stable net o zone obj.GroupMembers [] [] hmem
        cases res with
        | ok r =>
          obtain ⟨names, ret⟩ := r
          refine ⟨N + 1, dedupLoop names ret 0 [] [], dedupLoop_ne_outOfFuel _ _ _ _ _,
            fun fuel hf => ?_⟩
          obtain ⟨k, rfl⟩ : ∃ k, fuel = k + 1 := ⟨fuel - 1, by omega⟩
          have hk := hN k (by omega)
          simp only [Objects.Lookup, lookupBody, h1, h2f, h3f, hz, hn, hm, if_true, if_false, hk,
            Bool.false_eq_true]
        | panic msg =>
          refine ⟨N + 1, .panic msg, by simp, fun fuel hf => ?_⟩
          obtain ⟨k, rfl⟩ : ∃ k, fuel = k + 1 := ⟨fuel - 1, by omega⟩
          have hk := hN k (by omega)
          simp only [Objects.Lookup, lookupBody, h1, h2f, h3f, hz, hn, hm, if_true, if_false, hk,
            Bool.false_eq_true]
        | outOfFuel => exact absurd rfl hres
      · exact terminates_const net o zone name ([name], [obj.Address])
          (fun rec => by simp [lookupBody, h1, h2f, h3f, hz, hn, hm])

theorem dedupLoop_entries (names : List String) :
    ∀ (rest : List (Option IPNet)) (idx : Nat) (dedup : List (Option IPNet))
      (dedupNames : List String) (r : LookupResult),
      dedupLoop names rest idx dedup dedupNames = .ok r →
      dedupNames.length = dedup.length →
      ∀ e ∈ r.1.zip r.2, e ∈ dedupNames.zip dedup ∨ e ∈ (names.drop idx).zip rest := by
  intro rest
  induction rest with
  | nil =>
    intro idx dedup dedupNames r h _ e he
    simp only [dedupLoop, Res.ok.injEq] at h
    subst h
    exact Or.inl he
  | cons ip rest ih =>
    intro idx dedup dedupNames r h hl e he
    simp only [dedupLoop] at h
    cases hf : dedupFound ip dedup false with
    | ok found =>
      rw [hf] at h
      have hstep : e ∈ (names.drop (idx + 1)).zip rest → e ∈ (names.drop idx).zip (ip :: rest) := by
        intro hmem
        by_cases hi : idx < names.length
        · rw [List.drop_eq_getElem_cons hi, List.zip_cons_cons]
          exact List.mem_cons_of_mem _ hmem
        · rw [List.drop_eq_nil_of_le (by omega)] at hmem
          simp at hmem
      cases found with
      | true =>
        rcases ih _ _ _ _ h hl e he with h1 | h1
        · exact Or.inl h1
        · exact Or.inr (hstep h1)
      | false =>
        simp only [Bool.not_false, if_true] at h
        cases hn : names[idx]? with
        | none => rw [hn] at h; cases h
        | some n =>
          rw [hn] at h
          rcases ih _ _ _ _ h (by simp [hl]) e he with h1 | h1
          · rw [List.zip_append hl] at h1
            rcases List.mem_append.mp h1 with h2 | h2
            · exact Or.inl h2
            · right
              obtain ⟨hi, hget⟩ := List.getElem?_eq_some_iff.mp hn
              rw [List.drop_eq_getElem_cons hi, List.zip_cons_cons, hget]
              simp only [List.zip_cons_cons, List.zip_nil_right, List.mem_singleton] at h2
              rw [h2]
              exact List.mem_cons_self _ _
          · exact Or.inr (hstep h1)
    | panic m => rw [hf] at h; cases h
    | outOfFuel => rw [hf] at h; cases h

theorem lookupMembers_entries (rec : String → Res LookupResult)
    (Q : String × Option IPNet → Prop) :
    ∀ (ms : List String) (names : List String) (ret : List (Option IPNet)) (r : LookupResult),
      (∀ m ∈ ms, ∀ x, rec m = .ok x → x.1.length = x.2.length ∧ ∀ e ∈ x.1.zip x.2, Q e) →
      lookupMembers rec ms names ret = .ok r →
      names.length = ret.length → (∀ e ∈ names.zip ret, Q e) →
      r.1.length = r.2.length ∧ ∀ e ∈ r.1.zip r.2, Q e := by
  intro ms
  induction ms with
  | nil =>
    intro names ret r _ h hl hQ
    simp only [lookupMembers, Res.ok.injEq] at h
    subst h
    exact ⟨hl, hQ⟩
  | cons m ms ih =>
    intro names ret r hrec h hl hQ
    simp only [lookupMembers] at h
    cases hm : rec m with
    | ok x =>
      obtain ⟨n, a⟩ := x
      rw [hm] at h
      obtain ⟨hxl, hxQ⟩ := hrec m (List.mem_cons_self _ _) (n, a) hm
      refine ih (names ++ n) (ret ++ a) r (fun y hy => hrec y (List.mem_cons_of_mem _ hy)) h
        (by simp only [List.length_append, hl]; exact congrArg _ hxl) ?_
      intro e he
      rw [List.zip_append hl] at he
      rcases List.mem_append.mp he with h1 | h1
      · exact hQ e h1
      · exact hxQ e h1
    | panic msg => rw [hm] at h; cases h
    | outOfFuel => rw [hm] at h; cases h

theorem resolvesAlone_const (net : NetEnv) (o : Objects) (zone name : String) (a : Option IPNet)
    (h : ∀ rec, lookupBody net o zone rec name = .ok ([name], [a])) :
    ResolvesAlone net o zone name a :=
  fun fuel => by rw [Lookup_eq]; exact h _

theorem lookupBody_entries (net : NetEnv) (o : Objects) (zone : String)
    (rec : String → Res LookupResult)
    (hrec : ∀ m x, rec m = .ok x → x.1.length = x.2.length ∧
      ∀ e ∈ x.1.zip x.2, ResolvesAlone net o zone e.1 e.2 ∧ ReachedFrom o zone m e.1)
    (name : String) (r : LookupResult) (h : lookupBody net o zone rec name = .ok r) :
    ∀ e ∈ r.1.zip r.2, ResolvesAlone net o zone e.1 e.2 ∧ ReachedFrom o zone name e.1 := by
  have single : ∀ a : Option IPNet, (∀ rec, lookupBody net o zone rec name = .ok ([name], [a])) →
      r = ([name], [a]) →
      ∀ e ∈ r.1.zip r.2, ResolvesAlone net o zone e.1 e.2 ∧ ReachedFrom o zone name e.1 := by
    intro a ha hr e he
    subst hr
    simp only [List.zip_cons_cons, List.zip_nil_right, List.mem_singleton] at he
    subst he
    exact ⟨resolvesAlone_const net o zone name a ha, Relation.ReflTransGen.refl⟩
  by_cases h1 : toLower name = "any"
  · refine single (some ⟨IPv4zero, IPv4zero⟩) (fun rec => by simp [lookupBody, h1]) ?_
    simpa [lookupBody, h1] using h.symm
  by_cases h2 : startsWith name "MIP(" = true
  · refine single (some ⟨net.ParseIP (replaceAll (replaceAll name ")" "") "MIP(" ""), IPv4bcast⟩)
      (fun rec => by simp [lookupBody, h1, h2]) ?_
    simpa [lookupBody, h1, h2] using h.symm
  by_cases h3 : startsWith name "VIP(" = true
  · refine single (some ⟨net.ParseIP (replaceAll (replaceAll name ")" "") "VIP(" ""), IPv4bcast⟩)
      (fun rec => by simp [lookupBody, h1, h2, h3]) ?_
    simpa [lookupBody, h1, h2, h3] using h.symm
  have h2f : startsWith name "MIP(" = false := by simpa using h2
  have h3f : startsWith name "VIP(" = false := by simpa using h3
  cases hz : o zone with
  | none =>
    have hr : r = ([], []) := by simpa [lookupBody, h1, h2f, h3f, hz] using h.symm
    subst hr
    intro e he
    simp at he
  | some tbl =>
    cases hn : tbl name with
    | none =>
      have hr : r = ([], []) := by simpa [lookupBody, h1, h2f, h3f, hz, hn] using h.symm
      subst hr
      intro e he
      simp at he
    | some obj =>
      by_cases hm : obj.GroupMembers.length > 0
      · simp only [lookupBody, h1, h2f, h3f, hz, hn, hm, if_true, if_false,
          Bool.false_eq_true] at h
        cases hmem : lookupMembers rec obj.GroupMembers [] [] with
        | ok x =>
          obtain ⟨names, ret⟩ := x
          rw [hmem] at h
          simp only at h
          have hQ := lookupMembers_entries rec
            (fun e => ResolvesAlone net o zone e.1 e.2 ∧ ReachedFrom o zone name e.1)
            obj.GroupMembers [] [] (names, ret)
            (fun m hmm x hx => ⟨(hrec m x hx).1, fun e he =>
              ⟨((hrec m x hx).2 e he).1, Relation.ReflTransGen.tail ((hrec m x hx).2 e he).2
                ⟨isReserved_of_not h1 h2f h3f, tbl, obj, hz, hn, hmm⟩⟩⟩)
            hmem rfl (by simp)
          intro e he
          rcases dedupLoop_entries names ret 0 [] [] r h rfl e he with h4 | h4
          · simp at h4
          · exact hQ.2 e (by simpa using h4)
        | panic msg => rw [hmem] at h; cases h
        | outOfFuel => rw [hmem] at h; cases h
      · refine single obj.Address (fun rec => by simp [lookupBody, h1, h2f, h3f, hz, hn, hm]) ?_
        simpa [lookupBody, h1, h2f, h3f, hz, hn, hm] using h.symm

/-- Every entry of a resolution pairs a name that `name` reaches with the
address that this name resolves to by itself. -/
theorem lookup_entries (net : NetEnv) (o : Objects) (zone : String) :
    ∀ (fuel : Nat) (name : String) (r : LookupResult),
      Objects.Lookup net fuel o zone name = .ok r →
      ∀ e ∈ r.1.zip r.2, ResolvesAlone net o zone e.1 e.2 ∧ ReachedFrom o zone name e.1 := by
  intro fuel
  induction fuel with
  | zero =>
    intro name r h
    rw [Lookup_eq] at h
    exact lookupBody_entries net o zone _ (fun m x hx => by simp [lookupRec] at hx) name r h
  | succ k ih =>
    intro name r h
    rw [Lookup_eq] at h
    exact lookupBody_entries net o zone _
      (fun m x hx => ⟨lookup_lengths net k o zone m x hx, ih m x hx⟩) name r h

/-- C11. On a store whose groups are acyclic in the zone, `Objects.Lookup`
terminates for every name (and returns when the member-less objects carry an
address); whenever it returns, the two sequences have the same length and, at
every index i, the name at i is a name reached from the queried one whose own
resolution is the single entry made of that name and the address at i. -/
theorem lookup_parallel_sequences (net : NetEnv) (o : Objects) (zone : String)
    (hacyc : Acyclic o zone) (name : String) :
    Terminates net o zone name ∧
      (PlainHaveAddress o → ∃ r, Returns net o zone name r) ∧
      ∀ fuel r, Objects.Lookup net fuel o zone name = .ok r →
        r.1.length = r.2.length ∧
        ∀ (i : Nat) (n : String) (a : Option IPNet), r.1[i]? = some n → r.2[i]? = some a →
          ResolvesAlone net o zone n a ∧ ReachedFrom o zone name n := by
  refine ⟨lookup_terminates net o zone hacyc name, fun hplain => ?_, fun fuel r h => ?_⟩
  · obtain ⟨r, hr, _⟩ := lookup_total net o zone hacyc hplain name
    exact ⟨r, hr⟩
  · refine ⟨lookup_lengths net fuel o zone name r h, fun i n a hn ha => ?_⟩
    have hz : (r.1.zip r.2)[i]? = some (n, a) := by
      rw [List.getElem?_zip_eq_some]
      exact ⟨hn, ha⟩
    exact lookup_entries net o zone fuel name r h (n, a) (List.mem_iff_getElem?.mpr ⟨i, hz⟩)

/-- Witness of C11: the group "Servers" of `demoStore`, whose resolution is
("Server1", 10.0.0.1/32), ("Server2", 10.0.0.2/32). -/
theorem lookup_parallel_sequences_witness :
    Objects.Lookup dottedDecimalEnv 1 demoStore "Trust" "Servers"
        = .ok (["Server1", "Server2"], [some net10_0_0_1, some net10_0_0_2]) ∧
      ResolvesAlone dottedDecimalEnv demoStore "Trust" "Server2" (some net10_0_0_2) ∧
      ReachedFrom demoStore "Trust" "Servers" "Server2" :=
  ⟨by decide,
    ((lookup_parallel_sequences dottedDecimalEnv demoStore "Trust" (demoStore_acyclic "Trust")
      "Servers").2.2 1 (["Server1", "Server2"], [some net10_0_0_1, some net10_0_0_2])
      (by decide)).2 1 "Server2" (some net10_0_0_2) rfl rfl⟩

/-! ## The port, action and log fields of a rule -/

/-- The fields of a rule: those written before the protocol, each beginning
with `add chain=`, ` src-address` or ` dst-address`, then the protocol fields,
the action, the log flag and the comment. -/
theorem mikrotikRuleFields_eq (p : Policy) (chain : String) (a : RuleArgs)
    (fields : List String) (h : mikrotikRuleFields p chain a = .ok fields) :
    ∃ pre : List String,
      fields = pre ++ protoFields a.proto a.svc ++ actionField p ++ logField p ++ [commentField p a] ∧
      ∀ f ∈ pre, ∃ k x : String, k ∈ ["add chain=", " src-address", " dst-address"] ∧ f = k ++ x := by
  unfold mikrotikRuleFields at h
  cases hs : srcField a.src a.srcList with
  | ok sf =>
    rw [hs] at h
    cases hd : dstField a.dst a.dstList with
    | ok df =>
      rw [hd] at h
      simp only [Res.ok.injEq] at h
      subst h
      refine ⟨["add chain=" ++ chain] ++ sf ++ df, rfl, fun f hf => ?_⟩
      rcases List.mem_append.mp hf with hf | hf
      · rcases List.mem_append.mp hf with hf | hf
        · rw [List.mem_singleton] at hf
          exact ⟨"add chain=", chain, by simp, hf⟩
        · rcases srcField_cases _ _ _ hs with ⟨_, rfl⟩ | ⟨_, n, _, rfl⟩
          · rw [List.mem_singleton] at hf
            exact ⟨" src-address", "-list=" ++ a.srcList, by simp,
              by rw [hf, ← String.append_assoc]; rfl⟩
          · split at hf
            · simp at hf
            · rw [List.mem_singleton] at hf
              exact ⟨" src-address", "=" ++ n.String, by simp,
                by rw [hf, ← String.append_assoc]; rfl⟩
      · rcases dstField_cases _ _ _ hd with ⟨_, rfl⟩ | ⟨_, n, _, rfl⟩
        · rw [List.mem_singleton] at hf
          exact ⟨" dst-address", "-list=" ++ a.dstList, by simp,
            by rw [hf, ← String.append_assoc]; rfl⟩
        · split at hf
          · simp at hf
          · rw [List.mem_singleton] at hf
            exact ⟨" dst-address", "=" ++ n.String, by simp,
              by rw [hf, ← String.append_assoc]; rfl⟩
    | panic m => rw [hd] at h; cases h
    | outOfFuel => rw [hd] at h; cases h
  | panic m => rw [hs] at h; cases h
  | outOfFuel => rw [hs] at h; cases h

/-- The forms of a protocol field. -/
theorem protoFields_cases (proto : String) (svc : ServiceList) :
    ∀ f ∈ protoFields proto svc,
      f = " protocol=" ++ proto ∨ f = " src-port=" ++ join (srcPorts proto svc) "," ∨
        f = " dst-port=" ++ join (dstPorts proto svc) "," ∨ f = " icmp-options=8:0-255" := by
  intro f hf
  unfold protoFields at hf
  rcases List.mem_append.mp hf with h | h
  · split at h
    · rw [List.mem_singleton] at h; exact Or.inl h
    · simp at h
  · split at h
    · rcases List.mem_append.mp h with h1 | h1
      · split at h1
        · rw [List.mem_singleton] at h1; exact Or.inr (Or.inl h1)
        · simp at h1
      · split at h1
        · rw [List.mem_singleton] at h1; exact Or.inr (Or.inr (Or.inl h1))
        · simp at h1
    · split at h
      · rw [List.mem_singleton] at h; exact Or.inr (Or.inr (Or.inr h))
      · simp at h

/-- The forms of an action field. -/
theorem actionField_cases (p : Policy) :
    ∀ f ∈ actionField p, f = " action=accept" ∨ f = " action=reject" ∨ f = " action=drop" := by
  intro f hf
  unfold actionField at hf
  split at hf
  · rw [List.mem_singleton] at hf; exact Or.inl hf
  · split at hf
    · rw [List.mem_singleton] at hf; exact Or.inr (Or.inl hf)
    · split at hf
      · rw [List.mem_singleton] at hf; exact Or.inr (Or.inr hf)
      · simp at hf

theorem natDigits_head (fuel : Nat) :
    ∀ n, 0 < n → n < fuel → ∃ c cs, natDigits fuel n = c :: cs ∧ c ≠ '0' := by
  induction fuel with
  | zero => intro n _ h; omega
  | succ k ih =>
    intro n hpos hlt
    by_cases h10 : n < 10
    · refine ⟨Char.ofNat (48 + n), [], by simp [natDigits, h10], ?_⟩
      interval_cases n <;> decide
    · obtain ⟨c, cs, hcs, hc⟩ := ih (n / 10) (by omega) (by omega)
      exact ⟨c, cs ++ [Char.ofNat (48 + n % 10)], by simp [natDigits, h10, hcs], hc⟩

/-- The decimal text of a number other than zero does not begin with the digit 0. -/
theorem itoa_head (i : Int) (h : i ≠ 0) : ∃ c cs, (itoa i).data = c :: cs ∧ c ≠ '0' := by
  cases i with
  | ofNat n =>
    have hn : 0 < n := by
      rcases Nat.eq_zero_or_pos n with h0 | h0
      · subst h0; exact absurd rfl h
      · exact h0
    obtain ⟨c, cs, hcs, hc⟩ := natDigits_head (n + 1) n hn (by omega)
    exact ⟨c, cs, by simp [itoa, hcs], hc⟩
  | negSucc n => exact ⟨'-', natDigits (n + 2) (n + 1), by simp [itoa], by decide⟩

/-- A range that does not start at port 0 is not the text `0-65535`. -/
theorem range_ne_full (a b : Int) (h : a ≠ 0) : itoa a ++ "-" ++ itoa b ≠ "0-65535" := by
  obtain ⟨c, cs, hcs, hc⟩ := itoa_head a h
  intro heq
  have := congrArg String.data heq
  simp only [String.data_append, hcs, List.cons_append] at this
  exact hc (List.cons.inj this).1

theorem pre_startsWith_false (q : String)
    (hq : ∀ k ∈ ["add chain=", " src-address", " dst-address"],
      (q.data.isPrefixOf k.data || k.data.isPrefixOf q.data) = false)
    (pre : List String)
    (hpre : ∀ f ∈ pre, ∃ k x : String, k ∈ ["add chain=", " src-address", " dst-address"] ∧ f = k ++ x) :
    ∀ f ∈ pre, startsWith f q = false := by
  intro f hf
  obtain ⟨k, x, hk, rfl⟩ := hpre f hf
  exact startsWith_append_false k q x (hq k hk)

theorem srcPorts_mem (proto : String) (svc : ServiceList) :
    ∀ r ∈ srcPorts proto svc, ∃ s ∈ svc, s.Protocol = proto ∧ s.SrcPortStart ≠ 0 ∧
      s.SrcPortEnd ≠ 65535 ∧ r = itoa s.SrcPortStart ++ "-" ++ itoa s.SrcPortEnd := by
  intro r hr
  simp only [srcPorts, List.mem_filterMap] at hr
  obtain ⟨s, hs, hr⟩ := hr
  split at hr
  · rename_i hc
    simp only [Option.some.injEq] at hr
    exact ⟨s, hs, hc.1, hc.2.1, hc.2.2, hr.symm⟩
  · cases hr

theorem dstPorts_mem (proto : String) (svc : ServiceList) :
    ∀ r ∈ dstPorts proto svc, ∃ s ∈ svc, s.Protocol = proto ∧ s.DstPortStart ≠ 0 ∧
      s.DstPortEnd ≠ 65535 ∧ r = itoa s.DstPortStart ++ "-" ++ itoa s.DstPortEnd := by
  intro r hr
  simp only [dstPorts, List.mem_filterMap] at hr
  obtain ⟨s, hs, hr⟩ := hr
  split at hr
  · rename_i hc
    simp only [Option.some.injEq] at hr
    exact ⟨s, hs, hc.1, hc.2.1, hc.2.2, hr.symm⟩
  · cases hr

/-- The port pieces of a rule, as `mikrotikRule` writes them one after the
other (any policy, chain, addresses, protocol and service list): a piece beginning with ` src-port=` is that text
followed by the comma-separated ranges `srcPorts` collected for the protocol,
and likewise ` dst-port=` with `dstPorts`; every range so listed comes from a
definition of the service list for that protocol whose start is not 0 and whose
end is not 65535, and none of them is the range `0-65535`. -/
theorem rule_ports_never_full_range (p : Policy) (chain : String) (a : RuleArgs)
    (fields : List String) (h : mikrotikRuleFields p chain a = .ok fields) :
    (∀ f ∈ fields, startsWith f " src-port=" = true →
        f = " src-port=" ++ join (srcPorts a.proto a.svc) ",") ∧
      (∀ f ∈ fields, startsWith f " dst-port=" = true →
        f = " dst-port=" ++ join (dstPorts a.proto a.svc) ",") ∧
      (∀ r ∈ srcPorts a.proto a.svc, r ≠ "0-65535" ∧
        ∃ s ∈ a.svc, s.Protocol = a.proto ∧ s.SrcPortStart ≠ 0 ∧ s.SrcPortEnd ≠ 65535 ∧
          r = itoa s.SrcPortStart ++ "-" ++ itoa s.SrcPortEnd) ∧
      (∀ r ∈ dstPorts a.proto a.svc, r ≠ "0-65535" ∧
        ∃ s ∈ a.svc, s.Protocol = a.proto ∧ s.DstPortStart ≠ 0 ∧ s.DstPortEnd ≠ 65535 ∧
          r = itoa s.DstPortStart ++ "-" ++ itoa s.DstPortEnd) := by
  obtain ⟨pre, rfl, hpre⟩ := mikrotikRuleFields_eq p chain a fields h
  have key : ∀ q : String, (q = " src-port=" ∨ q = " dst-port=") →
      ∀ f ∈ pre ++ protoFields a.proto a.svc ++ actionField p ++ logField p ++ [commentField p a],
        startsWith f q = true → f ∈ protoFields a.proto a.svc := by
    intro q hq f hf hsw
    have hq1 : ∀ k ∈ ["add chain=", " src-address", " dst-address"],
        (q.data.isPrefixOf k.data || k.data.isPrefixOf q.data) = false := by
      rcases hq with rfl | rfl <;> decide
    simp only [List.mem_append, List.mem_singleton] at hf
    rcases hf with (((hf | hf) | hf) | hf) | hf
    · rw [pre_startsWith_false q hq1 pre hpre f hf] at hsw
      cases hsw
    · exact hf
    · exfalso
      rcases actionField_cases p f hf with rfl | rfl | rfl <;> rcases hq with rfl | rfl <;>
        exact absurd hsw (by decide)
    · exfalso
      unfold logField at hf
      split at hf
      · rw [List.mem_singleton] at hf
        subst hf
        rcases hq with rfl | rfl <;> exact absurd hsw (by decide)
      · simp at hf
    · exfalso
      subst hf
      rw [commentField_startsWith p a q (by rcases hq with rfl | rfl <;> decide)] at hsw
      cases hsw
  refine ⟨fun f hf hsw => ?_, fun f hf hsw => ?_, fun r hr => ?_, fun r hr => ?_⟩
  · rcases protoFields_cases _ _ f (key _ (Or.inl rfl) f hf hsw) with rfl | rfl | rfl | rfl
    · rw [startsWith_append_false _ _ _ (by decide)] at hsw; cases hsw
    · rfl
    · rw [startsWith_append_false _ _ _ (by decide)] at hsw; cases hsw
    · exact absurd hsw (by decide)
  · rcases protoFields_cases _ _ f (key _ (Or.inr rfl) f hf hsw) with rfl | rfl | rfl | rfl
    · rw [startsWith_append_false _ _ _ (by decide)] at hsw; cases hsw
    · rw [startsWith_append_false _ _ _ (by decide)] at hsw; cases hsw
    · rfl
    · exact absurd hsw (by decide)
  · obtain ⟨s, hs, h1, h2, h3, rfl⟩ := srcPorts_mem _ _ r hr
    exact ⟨range_ne_full _ _ h2, s, hs, h1, h2, h3, rfl⟩
  · obtain ⟨s, hs, h1, h2, h3, rfl⟩ := dstPorts_mem _ _ r hr
    exact ⟨range_ne_full _ _ h2, s, hs, h1, h2, h3, rfl⟩

set_option maxRecDepth 100000 in
/-- The port pieces of the tcp rule of `portsArgs`, whose service list has the
definitions 1024-2000 → 443-443 and 0-65535 → 0-65535; only the ranges of the
first are listed. -/
theorem rule_ports_never_full_range_witness :
    mikrotikRuleFields (simplePolicy 1 "Server1" "any" "WEB") "Trust__Untrust" portsArgs
      = .ok ["add chain=Trust__Untrust", " src-address=10.0.0.1/32", " protocol=tcp",
          " src-port=1024-2000", " dst-port=443-443", " action=accept",
          " comment=\"ID: 1 - Server1 -> any\"\n"] ∧
      ∀ r ∈ dstPorts portsArgs.proto portsArgs.svc, r ≠ "0-65535" :=
  ⟨by decide, fun r hr =>
    ((rule_ports_never_full_range (simplePolicy 1 "Server1" "any" "WEB") "Trust__Untrust" portsArgs
      ["add chain=Trust__Untrust", " src-address=10.0.0.1/32", " protocol=tcp",
        " src-port=1024-2000", " dst-port=443-443", " action=accept",
        " comment=\"ID: 1 - Server1 -> any\"\n"] (by decide)).2.2.2 r hr).1⟩

theorem filter_startsWith_nil (q : String) (l : List String)
    (h : ∀ f ∈ l, startsWith f q = false) : l.filter (fun f => startsWith f q) = [] := by
  rw [List.filter_eq_nil_iff]
  intro f hf
  simp [h f hf]

/-- The fields of a rule that begin with `q`, for a `q` that no address,
protocol, port or comment field begins with: those of the action and log fields. -/
theorem filter_fields (p : Policy) (chain : String) (a : RuleArgs) (fields : List String)
    (h : mikrotikRuleFields p chain a = .ok fields) (q : String)
    (hq : ∀ k ∈ ["add chain=", " src-address", " dst-address", " protocol=", " src-port=",
        " dst-port=", " icmp-options=", " comment=\"ID: "],
      (q.data.isPrefixOf k.data || k.data.isPrefixOf q.data) = false) :
    fields.filter (fun f => startsWith f q)
      = (actionField p).filter (fun f => startsWith f q)
        ++ (logField p).filter (fun f => startsWith f q) := by
  obtain ⟨pre, rfl, hpre⟩ := mikrotikRuleFields_eq p chain a fields h
  have h1 := filter_startsWith_nil q pre
    (pre_startsWith_false q (fun k hk => hq k (by
      simp only [List.mem_cons, List.mem_singleton, List.not_mem_nil, or_false] at hk ⊢
      tauto)) pre hpre)
  have h2 := filter_startsWith_nil q (protoFields a.proto a.svc) (by
    intro f hf
    rcases protoFields_cases _ _ f hf with rfl | rfl | rfl | rfl
    · exact startsWith_append_false _ _ _ (hq _ (by simp))
    · exact startsWith_append_false _ _ _ (hq _ (by simp))
    · exact startsWith_append_false _ _ _ (hq _ (by simp))
    · exact startsWith_append_false " icmp-options=" q "8:0-255" (hq _ (by simp)))
  have h3 : startsWith (commentField p a) q = false :=
    commentField_startsWith p a q (hq _ (by simp))
  simp only [List.filter_append, h1, h2, List.nil_append, List.filter_cons, h3, List.filter_nil,
    Bool.false_eq_true, if_false, List.append_nil]

/-- The action and log pieces of a rule, as `mikrotikRule` writes them one
after the other. For every policy satisfying the invariants and every rule
`mikrotikRule` writes for it: the action of the policy is permit, reject or
deny, and the fields of the rule that begin with ` action=` are exactly one,
` action=accept` for permit, ` action=reject` for reject and ` action=drop`
for deny; the rule has the field ` log=yes` if and only if the log flag of the
policy is set, and has no other field beginning with ` log=`. -/
theorem rule_action_and_log (p : Policy) (chain : String) (a : RuleArgs) (fields : List String)
    (hv : p.IsValid = true) (h : mikrotikRuleFields p chain a = .ok fields) :
    (p.Action = ActionPermit ∨ p.Action = ActionReject ∨ p.Action = ActionDeny) ∧
      (p.Action = ActionPermit →
        fields.filter (fun f => startsWith f " action=") = [" action=accept"]) ∧
      (p.Action = ActionReject →
        fields.filter (fun f => startsWith f " action=") = [" action=reject"]) ∧
      (p.Action = ActionDeny →
        fields.filter (fun f => startsWith f " action=") = [" action=drop"]) ∧
      (" log=yes" ∈ fields ↔ p.Log = true) ∧
      fields.filter (fun f => startsWith f " log=") = if p.Log then [" log=yes"] else [] := by
  have hact : p.Action = ActionPermit ∨ p.Action = ActionReject ∨ p.Action = ActionDeny := by
    simp only [Policy.IsValid, Bool.and_eq_true, Bool.or_eq_true, beq_iff_eq] at hv
    rcases hv.1.2 with (h1 | h1) | h1
    · exact Or.inl h1
    · exact Or.inr (Or.inl h1)
    · exact Or.inr (Or.inr h1)
  have hA := filter_fields p chain a fields h " action=" (by decide)
  have hL := filter_fields p chain a fields h " log=" (by decide)
  have hlogA : (logField p).filter (fun f => startsWith f " action=") = [] := by
    unfold logField; split <;> decide
  have hactL : (actionField p).filter (fun f => startsWith f " log=") = [] := by
    unfold actionField; split_ifs <;> decide
  have hlogL : (logField p).filter (fun f => startsWith f " log=")
      = if p.Log then [" log=yes"] else [] := by
    unfold logField
    split
    · decide
    · rfl
  rw [hlogA, List.append_nil] at hA
  rw [hactL, List.nil_append, hlogL] at hL
  refine ⟨hact, fun h1 => ?_, fun h1 => ?_, fun h1 => ?_, ?_, hL⟩
  · rw [hA]; simp only [actionField, h1, if_true]; decide
  · rw [hA]
    have hne : ActionReject ≠ ActionPermit := by decide
    simp only [actionField, h1, hne, if_true, if_false]; decide
  · rw [hA]
    have hne1 : ActionDeny ≠ ActionPermit := by decide
    have hne2 : ActionDeny ≠ ActionReject := by decide
    simp only [actionField, h1, hne1, hne2, if_true, if_false]; decide
  · have hmem : " log=yes" ∈ fields ↔
        " log=yes" ∈ fields.filter (fun f => startsWith f " log=") := by
      rw [List.mem_filter]
      exact ⟨fun hm => ⟨hm, by decide⟩, fun hm => hm.1⟩
    rw [hmem, hL]
    cases p.Log <;> simp

set_option maxRecDepth 100000 in
/-- The action and log pieces of a rule written for the deny policy `wildcardDenyPolicy`. -/
theorem rule_action_and_log_witness :
    mikrotikRuleFields wildcardDenyPolicy "Trust__Untrust" portsArgs
        = .ok ["add chain=Trust__Untrust", " src-address=10.0.0.1/32", " protocol=tcp",
          " src-port=1024-2000", " dst-port=443-443", " action=drop",
          " comment=\"ID: 9 - default - Server1 -> any\"\n"] ∧
      (["add chain=Trust__Untrust", " src-address=10.0.0.1/32", " protocol=tcp",
          " src-port=1024-2000", " dst-port=443-443", " action=drop",
          " comment=\"ID: 9 - default - Server1 -> any\"\n"].filter
            (fun f => startsWith f " action=") = [" action=drop"]) :=
  ⟨by decide,
    (rule_action_and_log wildcardDenyPolicy "Trust__Untrust" portsArgs
      ["add chain=Trust__Untrust", " src-address=10.0.0.1/32", " protocol=tcp",
        " src-port=1024-2000", " dst-port=443-443", " action=drop",
        " comment=\"ID: 9 - default - Server1 -> any\"\n"] (by decide) (by decide)).2.2.2.1
      (by decide)⟩

/-! ## The parser: general facts -/

theorem foldRes_append {σ α : Type} (f : σ → α → Res σ) :
    ∀ (l1 l2 : List α) (s : σ),
      foldRes f s (l1 ++ l2) = (foldRes f s l1).bind (fun s1 => foldRes f s1 l2) := by
  intro l1
  induction l1 with
  | nil => intro l2 s; rfl
  | cons a rest ih =>
    intro l2 s
    simp only [List.cons_append, foldRes]
    cases f s a with
    | ok s1 => exact ih l2 s1
    | panic m => rfl
    | outOfFuel => rfl

theorem foldRes_ne_outOfFuel {σ α : Type} (f : σ → α → Res σ)
    (hf : ∀ s a, f s a ≠ .outOfFuel) :
    ∀ (l : List α) (s : σ), foldRes f s l ≠ .outOfFuel := by
  intro l
  induction l with
  | nil => intro s; simp [foldRes]
  | cons a rest ih =>
    intro s
    simp only [foldRes]
    cases h : f s a with
    | ok s1 => exact ih s1
    | panic m => simp
    | outOfFuel => exact absurd h (hf s a)

/-- A loop whose body never exhausts a budget panics when it has an element on
which the body panics in every state. -/
theorem foldRes_panic_of_mem {σ α : Type} (f : σ → α → Res σ)
    (hf : ∀ s a, f s a ≠ .outOfFuel) (a : α) (ha : ∀ s, ∃ m, f s a = .panic m) :
    ∀ (l : List α) (s : σ), a ∈ l → ∃ m, foldRes f s l = .panic m := by
  intro l
  induction l with
  | nil => intro s h; exact absurd h (List.not_mem_nil a)
  | cons b rest ih =>
    intro s h
    simp only [foldRes]
    cases hb : f s b with
    | ok s1 =>
      rcases List.mem_cons.mp h with h1 | h1
      · subst h1
        obtain ⟨m, hm⟩ := ha s
        rw [hm] at hb
        cases hb
      · exact ih s1 h1
    | panic m => exact ⟨m, rfl⟩
    | outOfFuel => exact absurd hb (hf s b)

theorem atoi_ok {n : Nat} {i : Int} (h : atoi n = .ok i) : n < 2 ^ 63 ∧ i = Int.ofNat n := by
  unfold atoi at h
  split at h
  · rename_i hn
    simp only [Res.ok.injEq] at h
    exact ⟨hn, h.symm⟩
  · cases h

theorem atoi_of_lt {n : Nat} (h : n < 2 ^ 63) : atoi n = .ok (Int.ofNat n) := by
  simp only [atoi, h, if_true]

theorem atoi_ne_outOfFuel (n : Nat) : atoi n ≠ .outOfFuel := by
  unfold atoi
  split <;> simp

theorem atoi_cases (n : Nat) :
    (n < 2 ^ 63 ∧ atoi n = .ok (Int.ofNat n)) ∨ ∃ m, atoi n = .panic m := by
  by_cases h : n < 2 ^ 63
  · exact Or.inl ⟨h, atoi_of_lt h⟩
  · exact Or.inr ⟨"strconv.Atoi: value out of range", by simp only [atoi, h, if_false]⟩

theorem serviceOf_cases (proto : String) (a b c e : Nat) :
    (a < 2 ^ 63 ∧ b < 2 ^ 63 ∧ c < 2 ^ 63 ∧ e < 2 ^ 63 ∧
        serviceOf proto a b c e
          = .ok ⟨proto, 0, Int.ofNat a, Int.ofNat b, Int.ofNat c, Int.ofNat e⟩) ∨
      ∃ m, serviceOf proto a b c e = .panic m := by
  unfold serviceOf mustInt
  rcases atoi_cases a with ⟨ha, ha1⟩ | ⟨m, hm⟩
  · rcases atoi_cases b with ⟨hb, hb1⟩ | ⟨m, hm⟩
    · rcases atoi_cases c with ⟨hc, hc1⟩ | ⟨m, hm⟩
      · rcases atoi_cases e with ⟨he, he1⟩ | ⟨m, hm⟩
        · exact Or.inl ⟨ha, hb, hc, he, by simp only [ha1, hb1, hc1, he1]⟩
        · exact Or.inr ⟨m, by simp only [ha1, hb1, hc1, hm]⟩
      · exact Or.inr ⟨m, by simp only [ha1, hb1, hm]⟩
    · exact Or.inr ⟨m, by simp only [ha1, hm]⟩
  · exact Or.inr ⟨m, by simp only [hm]⟩

/-- A line of a policy block: an accepted line updates the policy of the
block, any other line panics. -/
theorem parseBlockLine_eq (policy : Nat) (ps : List Policy) (l : BlockLine) :
    (l.accepted = true ∧ parseBlockLine policy ps l = .ok (updatePolicy (lineEffect l) ps policy)) ∨
      (l.accepted = false ∧ ∃ m, parseBlockLine policy ps l = .panic m) := by
  cases l with
  | service name => exact Or.inl ⟨rfl, rfl⟩
  | srcAddress name => exact Or.inl ⟨rfl, rfl⟩
  | dstAddress name => exact Or.inl ⟨rfl, rfl⟩
  | log option =>
    by_cases h : option = "session-init"
    · subst h
      exact Or.inl ⟨rfl, rfl⟩
    · exact Or.inr ⟨by simp [BlockLine.accepted, h], "set log " ++ option,
        by simp only [parseBlockLine, h, if_false]⟩
  | other line => exact Or.inr ⟨rfl, line, rfl⟩

theorem updatePolicy_self (ps : List Policy) : ∀ idx, updatePolicy (fun p => p) ps idx = ps := by
  induction ps with
  | nil => intro idx; rfl
  | cons p rest ih =>
    intro idx
    cases idx with
    | zero => rfl
    | succ k => simp only [updatePolicy, ih k]

theorem updatePolicy_comp (f g : Policy → Policy) (ps : List Policy) :
    ∀ idx, updatePolicy f (updatePolicy g ps idx) idx = updatePolicy (fun p => f (g p)) ps idx := by
  induction ps with
  | nil => intro idx; rfl
  | cons p rest ih =>
    intro idx
    cases idx with
    | zero => rfl
    | succ k => simp only [updatePolicy, ih k]

/-- The lines of a policy block: when all are accepted, the policy of the
block receives their effects in line order; otherwise the block panics. -/
theorem block_fold (policy : Nat) :
    ∀ (body : List BlockLine) (ps : List Policy),
      (body.all BlockLine.accepted = true ∧
        foldRes (parseBlockLine policy) ps body
          = .ok (updatePolicy (fun p => body.foldl (fun q l => lineEffect l q) p) ps policy)) ∨
      (body.all BlockLine.accepted = false ∧
        ∃ m, foldRes (parseBlockLine policy) ps body = .panic m) := by
  intro body
  induction body with
  | nil =>
    intro ps
    exact Or.inl ⟨rfl, by simp only [foldRes, List.foldl_nil, updatePolicy_self]⟩
  | cons l rest ih =>
    intro ps
    rcases parseBlockLine_eq policy ps l with ⟨hl, hok⟩ | ⟨hl, m, hm⟩
    · rcases ih (updatePolicy (lineEffect l) ps policy) with ⟨hall, hfold⟩ | ⟨hall, m, hm⟩
      · refine Or.inl ⟨by simp only [List.all_cons, hl, hall, Bool.and_self], ?_⟩
        simp only [foldRes, hok, hfold, updatePolicy_comp, List.foldl_cons]
      · exact Or.inr ⟨by simp only [List.all_cons, hl, hall, Bool.and_false],
          m, by simp only [foldRes, hok, hm]⟩
    · exact Or.inr ⟨by simp only [List.all_cons, hl, Bool.false_and], m, by simp only [foldRes, hm]⟩

theorem lineEffect_ID (l : BlockLine) (p : Policy) : (lineEffect l p).ID = p.ID := by
  cases l <;> rfl

theorem lineEffect_valid (l : BlockLine) (p : Policy) (h : p.IsValid = true) :
    (lineEffect l p).IsValid = true := by
  simp only [Policy.IsValid, Bool.and_eq_true, decide_eq_true_eq] at h ⊢
  obtain ⟨⟨⟨⟨⟨⟨⟨h1, h2⟩, h3⟩, h4⟩, h5⟩, h6⟩, h7⟩, h8⟩ := h
  cases l with
  | service name =>
    exact ⟨⟨⟨⟨⟨⟨⟨h1, h2⟩, h3⟩, h4⟩, h5⟩, by simp [lineEffect]⟩, h7⟩, h8⟩
  | srcAddress name =>
    exact ⟨⟨⟨⟨⟨⟨⟨h1, h2⟩, h3⟩, by simp [lineEffect]⟩, h5⟩, h6⟩, h7⟩, h8⟩
  | dstAddress name =>
    exact ⟨⟨⟨⟨⟨⟨⟨h1, h2⟩, h3⟩, h4⟩, by simp [lineEffect]⟩, h6⟩, h7⟩, h8⟩
  | log option => exact ⟨⟨⟨⟨⟨⟨⟨h1, h2⟩, h3⟩, h4⟩, h5⟩, h6⟩, h7⟩, h8⟩
  | other line => exact ⟨⟨⟨⟨⟨⟨⟨h1, h2⟩, h3⟩, h4⟩, h5⟩, h6⟩, h7⟩, h8⟩

theorem foldl_lineEffect_ID (body : List BlockLine) :
    ∀ p : Policy, (body.foldl (fun q l => lineEffect l q) p).ID = p.ID := by
  induction body with
  | nil => intro p; rfl
  | cons l rest ih => intro p; simp only [List.foldl_cons, ih, lineEffect_ID]

theorem foldl_lineEffect_valid (body : List BlockLine) :
    ∀ p : Policy, p.IsValid = true → (body.foldl (fun q l => lineEffect l q) p).IsValid = true := by
  induction body with
  | nil => intro p h; exact h
  | cons l rest ih => intro p h; exact ih _ (lineEffect_valid l p h)

/-- One directive either panics, or appends the policy it creates, which
satisfies the invariants and whose ID converts, or updates one policy in
place without changing its ID or breaking its invariants. -/
theorem parseDirective_cases (net : NetEnv) (st : ParseState) (d : Directive) :
    (∃ m, parseDirective net st d = .panic m) ∨
      ∃ st1, parseDirective net st d = .ok st1 ∧
        ((∃ (id : Nat) (name zoneFrom zoneTo src dst service nat natAddress : String)
            (natPort : Option Nat) (action : String) (log : Bool),
            d = .policyCreate id name zoneFrom zoneTo src dst service nat natAddress natPort action log ∧
            id < 2 ^ 63 ∧
            (createdPolicy id name zoneFrom zoneTo src dst service nat natAddress natPort action
              log).IsValid = true ∧
            st1.policies = st.policies ++
              [createdPolicy id name zoneFrom zoneTo src dst service nat natAddress natPort action log]) ∨
          (d.createdID = none ∧ ∃ (idx : Nat) (g : Policy → Policy),
            (∀ p, (g p).ID = p.ID) ∧ (∀ p, p.IsValid = true → (g p).IsValid = true) ∧
            st1.policies = updatePolicy g st.policies idx)) := by
  have same : ∀ st1 : ParseState, st1.policies = st.policies → d.createdID = none →
      parseDirective net st d = .ok st1 →
      (∃ m, parseDirective net st d = .panic m) ∨
      ∃ st1, parseDirective net st d = .ok st1 ∧
        ((∃ (id : Nat) (name zoneFrom zoneTo src dst service nat natAddress : String)
            (natPort : Option Nat) (action : String) (log : Bool),
            d = .policyCreate id name zoneFrom zoneTo src dst service nat natAddress natPort action log ∧
            id < 2 ^ 63 ∧
            (createdPolicy id name zoneFrom zoneTo src dst service nat natAddress natPort action
              log).IsValid = true ∧
            st1.policies = st.policies ++
              [createdPolicy id name zoneFrom zoneTo src dst service nat natAddress natPort action log]) ∨
          (d.createdID = none ∧ ∃ (idx : Nat) (g : Policy → Policy),
            (∀ p, (g p).ID = p.ID) ∧ (∀ p, p.IsValid = true → (g p).IsValid = true) ∧
            st1.policies = updatePolicy g st.policies idx)) := by
    intro st1 hp hc h
    exact Or.inr ⟨st1, h, Or.inr ⟨hc, 0, fun p => p, fun _ => rfl, fun _ hv => hv,
      by rw [updatePolicy_self]; exact hp⟩⟩
  cases d with
  | serviceContinue name proto a b c e =>
    rcases serviceOf_cases proto a b c e with ⟨_, _, _, _, h⟩ | ⟨m, hm⟩
    · exact same
        { st with
          services := Services.Add st.services st.lastService (Service.mk proto 0 a b c e) }
        rfl rfl (by simp only [parseDirective, h]; rfl)
    · exact Or.inl ⟨m, by simp only [parseDirective, hm]⟩
  | serviceDefine name proto a b c e =>
    rcases serviceOf_cases proto a b c e with ⟨_, _, _, _, h⟩ | ⟨m, hm⟩
    · exact same
        { st with
          lastService := name,
          services := Services.Add st.services name (Service.mk proto 0 a b c e) }
        rfl rfl (by simp only [parseDirective, h]; rfl)
    · exact Or.inl ⟨m, by simp only [parseDirective, hm]⟩
  | serviceTimeout => exact same st rfl rfl rfl
  | serviceMalformed line => exact Or.inl ⟨line, rfl⟩
  | address zone name addr mask =>
    by_cases hmask : mask = ""
    · cases hr : net.ResolveIPAddr addr with
      | none => exact same st rfl rfl (by simp only [parseDirective, hmask, if_true, hr])
      | some ip =>
        by_cases hip : ip = []
        · exact Or.inl ⟨"set address", by simp only [parseDirective, hmask, if_true, hr, hip]⟩
        · exact same { st with objects := st.objects.Add zone name (some ⟨ip, IPv4bcast⟩) } rfl rfl
            (by simp only [parseDirective, hmask, if_true, hr, hip, if_false])
    · by_cases hnil : net.ParseIP addr = [] ∨ net.ParseIP mask = []
      · exact Or.inl ⟨"set address", by simp only [parseDirective, hmask, if_false, hnil, if_true]⟩
      · exact same { st with
            objects := st.objects.Add zone name (some ⟨net.ParseIP addr, net.ParseIP mask⟩) } rfl rfl
          (by simp only [parseDirective, hmask, if_false, hnil])
  | addressMalformed line => exact Or.inl ⟨line, rfl⟩
  | groupAdd zone group member =>
    exact same { st with objects := st.objects.AddToGroup zone group member } rfl rfl rfl
  | groupCreate => exact same st rfl rfl rfl
  | groupMalformed line => exact Or.inl ⟨line, rfl⟩
  | policyCreate id name zoneFrom zoneTo src dst service nat natAddress natPort action log =>
    rcases atoi_cases id with ⟨hid, hid1⟩ | ⟨m, hm⟩
    · clear same
      have hport : (∃ m : String, (match natPort with
            | none => Res.ok (0 : Int)
            | some n => atoi n) = .panic m) ∨
          (match natPort with
            | none => Res.ok (0 : Int)
            | some n => atoi n) = .ok (natPortOf natPort) := by
        cases natPort with
        | none => exact Or.inr rfl
        | some n =>
          rcases atoi_cases n with ⟨_, hn⟩ | ⟨m, hm⟩
          · exact Or.inr hn
          · exact Or.inl ⟨m, hm⟩
      rcases hport with ⟨m, hm⟩ | hport
      · exact Or.inl ⟨m, by simp only [parseDirective, hid1, hm]⟩
      · cases hv : (createdPolicy id name zoneFrom zoneTo src dst service nat natAddress natPort
            action log).IsValid with
        | false =>
          refine Or.inl ⟨"not valid", ?_⟩
          simp only [createdPolicy] at hv
          simp only [parseDirective, hid1, hport, hv, Bool.not_false, if_true]
        | true =>
          refine Or.inr ⟨{ st with policies := st.policies ++ [createdPolicy id name zoneFrom zoneTo
            src dst service nat natAddress natPort action log] }, ?_,
            Or.inl ⟨id, name, zoneFrom, zoneTo, src, dst, service, nat, natAddress, natPort, action,
              log, rfl, hid, hv, rfl⟩⟩
          simp only [createdPolicy] at hv
          simp only [parseDirective, hid1, hport, hv, Bool.not_true, Bool.false_eq_true, if_false]
          rfl
    · exact Or.inl ⟨m, by simp only [parseDirective, hm]⟩
  | policyBlock id body =>
    rcases atoi_cases id with ⟨hid, hid1⟩ | ⟨m, hm⟩
    · cases hfind : findPolicy (Int.ofNat id) st.policies 0 none with
      | none => exact Or.inl ⟨"policy not found", by simp only [parseDirective, hid1, hfind]⟩
      | some idx =>
        rcases block_fold idx body st.policies with ⟨_, hfold⟩ | ⟨_, m, hm⟩
        · exact Or.inr ⟨
            { st with
              policies :=
                updatePolicy (fun p => body.foldl (fun q l => lineEffect l q) p) st.policies idx },
            by simp only [parseDirective, hid1, hfind, hfold],
            Or.inr ⟨rfl, idx, fun p => body.foldl (fun q l => lineEffect l q) p,
              foldl_lineEffect_ID body, foldl_lineEffect_valid body, rfl⟩⟩
        · exact Or.inl ⟨m, by simp only [parseDirective, hid1, hfind, hm]⟩
    · exact Or.inl ⟨m, by simp only [parseDirective, hm]⟩
  | policyFlag id flag value =>
    rcases atoi_cases id with ⟨hid, hid1⟩ | ⟨m, hm⟩
    · cases hfind : findPolicy (Int.ofNat id) st.policies 0 none with
      | none => exact Or.inl ⟨"policy not found", by simp only [parseDirective, hid1, hfind]⟩
      | some idx =>
        by_cases h1 : flag = "disable"
        · exact Or.inr ⟨
            { st with
              policies := updatePolicy (fun p => { p with Disabled := true }) st.policies idx },
            by simp only [parseDirective, hid1, hfind, h1, if_true],
            Or.inr ⟨rfl, idx, fun p => { p with Disabled := true }, fun _ => rfl,
              fun _ hv => hv, rfl⟩⟩
        · by_cases h2 : flag = "application"
          · exact Or.inr ⟨
              { st with
                policies := updatePolicy (fun p => { p with Application := value }) st.policies idx },
              by simp only [parseDirective, hid1, hfind, h2,
                (by decide : ¬ ("application" : String) = "disable"), if_true, if_false],
              Or.inr ⟨rfl, idx, fun p => { p with Application := value }, fun _ => rfl,
                fun _ hv => hv, rfl⟩⟩
          · exact Or.inl ⟨"set policy id",
              by simp only [parseDirective, hid1, hfind, h1, h2, if_false]⟩
    · exact Or.inl ⟨m, by simp only [parseDirective, hm]⟩
  | policyMalformed line => exact Or.inl ⟨line, rfl⟩
  | ignored => exact same st rfl rfl rfl

theorem updatePolicy_forall (P : Policy → Prop) (g : Policy → Policy) (hg : ∀ p, P p → P (g p)) :
    ∀ (ps : List Policy) (idx : Nat), (∀ p ∈ ps, P p) → ∀ p ∈ updatePolicy g ps idx, P p := by
  intro ps
  induction ps with
  | nil => intro idx _ p hp; simp [updatePolicy] at hp
  | cons q rest ih =>
    intro idx h p hp
    cases idx with
    | zero =>
      simp only [updatePolicy, List.mem_cons] at hp
      rcases hp with rfl | hp
      · exact hg q (h q (List.mem_cons_self _ _))
      · exact h p (List.mem_cons_of_mem _ hp)
    | succ k =>
      simp only [updatePolicy, List.mem_cons] at hp
      rcases hp with rfl | hp
      · exact h p (List.mem_cons_self _ _)
      · exact ih k (fun x hx => h x (List.mem_cons_of_mem _ hx)) p hp

theorem updatePolicy_map_ID (g : Policy → Policy) (hg : ∀ p, (g p).ID = p.ID) :
    ∀ (ps : List Policy) (idx : Nat),
      (updatePolicy g ps idx).map (fun p => p.ID) = ps.map (fun p => p.ID) := by
  intro ps
  induction ps with
  | nil => intro idx; rfl
  | cons q rest ih =>
    intro idx
    cases idx with
    | zero => simp only [updatePolicy, List.map_cons, hg]
    | succ k => simp only [updatePolicy, List.map_cons, ih k]

theorem parseDirective_ne_outOfFuel (net : NetEnv) (st : ParseState) (d : Directive) :
    parseDirective net st d ≠ .outOfFuel := by
  rcases parseDirective_cases net st d with ⟨m, hm⟩ | ⟨st1, h, _⟩
  · rw [hm]; simp
  · rw [h]; simp

/-- What a run of the parser loop keeps: the invariants of the policies, and
the IDs of the policies, which are those of the creation directives in input
order, each below 2^63. -/
theorem parse_loop_inv (net : NetEnv) :
    ∀ (input : List Directive) (st st1 : ParseState),
      foldRes (parseDirective net) st input = .ok st1 →
      ((∀ p ∈ st.policies, p.IsValid = true) → ∀ p ∈ st1.policies, p.IsValid = true) ∧
        st1.policies.map (fun p => p.ID)
          = st.policies.map (fun p => p.ID) ++ (createdIDs input).map Int.ofNat ∧
        ∀ n ∈ createdIDs input, n < 2 ^ 63 := by
  intro input
  induction input with
  | nil =>
    intro st st1 h
    simp only [foldRes, Res.ok.injEq] at h
    subst h
    exact ⟨fun hv => hv, by simp [createdIDs], by simp [createdIDs]⟩
  | cons d rest ih =>
    intro st st1 h
    simp only [foldRes] at h
    rcases parseDirective_cases net st d with ⟨m, hm⟩ | ⟨st2, h2, hcase⟩
    · rw [hm] at h; cases h
    · rw [h2] at h
      obtain ⟨iv, iid, ilt⟩ := ih st2 st1 h
      rcases hcase with ⟨id, name, zoneFrom, zoneTo, src, dst, service, nat, natAddress, natPort,
          action, log, rfl, hid, hv, hps⟩ | ⟨hnone, idx, g, hgid, hgv, hps⟩
      · refine ⟨fun hvalid => iv ?_, ?_, ?_⟩
        · intro p hp
          rw [hps] at hp
          rcases List.mem_append.mp hp with hp | hp
          · exact hvalid p hp
          · rw [List.mem_singleton] at hp
            rw [hp]
            exact hv
        · rw [iid, hps]
          simp [createdIDs, Directive.createdID, createdPolicy]
        · intro n hn
          simp only [createdIDs, List.filterMap_cons, Directive.createdID, List.mem_cons] at hn
          rcases hn with rfl | hn
          · exact hid
          · exact ilt n hn
      · refine ⟨fun hvalid => iv ?_, ?_, ?_⟩
        · rw [hps]
          exact updatePolicy_forall (fun p => p.IsValid = true) g hgv st.policies idx hvalid
        · rw [iid, hps, updatePolicy_map_ID g hgid]
          simp only [createdIDs, List.filterMap_cons, hnone]
        · intro n hn
          simp only [createdIDs, List.filterMap_cons, hnone] at hn
          exact ilt n hn

theorem parse_eq (net : NetEnv) (input : List Directive) :
    parse net input
      = (parseState net input).bind (fun st => .ok (st.policies, st.objects, st.services)) := by
  unfold parse parseState ParseState.initial
  cases foldRes (parseDirective net) ⟨[], GoMap.empty, defaultServices, ""⟩ input <;> rfl

theorem parse_ok (net : NetEnv) (input : List Directive) (ps : List Policy) (o : Objects)
    (s : Services) (h : parse net input = .ok (ps, o, s)) :
    ∃ st, parseState net input = .ok st ∧ st.policies = ps ∧ st.objects = o ∧ st.services = s := by
  rw [parse_eq] at h
  cases hst : parseState net input with
  | ok st =>
    rw [hst] at h
    simp only [Res.bind, Res.ok.injEq, Prod.mk.injEq] at h
    exact ⟨st, rfl, h.1, h.2.1, h.2.2⟩
  | panic m => rw [hst] at h; cases h
  | outOfFuel => rw [hst] at h; cases h

/-! ## The policies that the parser returns (C16, C17) -/

/-- The creation directive of a policy that breaks the invariants panics in every state. -/
theorem parseDirective_invalid_create (net : NetEnv) (st : ParseState) (id : Nat)
    (name zoneFrom zoneTo src dst service nat natAddress : String) (natPort : Option Nat)
    (action : String) (log : Bool)
    (hv : (createdPolicy id name zoneFrom zoneTo src dst service nat natAddress natPort action
      log).IsValid = false) :
    ∃ m, parseDirective net st
      (.policyCreate id name zoneFrom zoneTo src dst service nat natAddress natPort action log)
        = .panic m := by
  rcases parseDirective_cases net st
    (.policyCreate id name zoneFrom zoneTo src dst service nat natAddress natPort action log)
    with hp | ⟨st1, _, hcase⟩
  · exact hp
  · rcases hcase with ⟨id1, name1, zoneFrom1, zoneTo1, src1, dst1, service1, nat1, natAddress1,
        natPort1, action1, log1, heq, _, hv1, _⟩ | ⟨hnone, _⟩
    · cases heq
      rw [hv] at hv1
      cases hv1
    · cases hnone

theorem blockInput_parse (net : NetEnv) :
    parse net blockInput = .ok (blockPolicies, GoMap.empty, defaultServices) := by
  rfl

/-- C16. For every input: when `parse` returns, every policy of the returned
list satisfies `Policy.IsValid` (block and flag directives that changed it
included); and when the input has a policy-creation directive whose policy
breaks the invariants, `parse` panics. -/
theorem parse_policies_valid (net : NetEnv) (input : List Directive) :
    (∀ ps o s, parse net input = .ok (ps, o, s) → ∀ p ∈ ps, p.IsValid = true) ∧
      ∀ (id : Nat) (name zoneFrom zoneTo src dst service nat natAddress : String)
        (natPort : Option Nat) (action : String) (log : Bool),
        Directive.policyCreate id name zoneFrom zoneTo src dst service nat natAddress natPort
            action log ∈ input →
        (createdPolicy id name zoneFrom zoneTo src dst service nat natAddress natPort action
          log).IsValid = false →
        ∃ m, parse net input = .panic m := by
  constructor
  · intro ps o s h
    obtain ⟨st, hst, rfl, _, _⟩ := parse_ok net input ps o s h
    exact (parse_loop_inv net input ParseState.initial st hst).1
      (fun p hp => absurd hp (List.not_mem_nil p))
  · intro id name zoneFrom zoneTo src dst service nat natAddress natPort action log hmem hv
    obtain ⟨m, hm⟩ := foldRes_panic_of_mem (parseDirective net) (parseDirective_ne_outOfFuel net) _
      (fun st => parseDirective_invalid_create net st id name zoneFrom zoneTo src dst service nat
        natAddress natPort action log hv) input ParseState.initial hmem
    refine ⟨m, ?_⟩
    rw [parse_eq]
    unfold parseState
    rw [hm]
    rfl

/-- Witness of C16: the policies returned for `blockInput`, the first changed
by a block and the second by a flag line, satisfy the invariants; and an input
whose only line creates a policy with ID 0 makes `parse` panic. -/
theorem parse_policies_valid_witness :
    (∀ p ∈ blockPolicies, p.IsValid = true) ∧
      ∃ m, parse dottedDecimalEnv
        [.policyCreate 0 "web" "Trust" "Untrust" "Server1" "any" "HTTP" "" "" none "permit" true]
          = .panic m :=
  ⟨(parse_policies_valid dottedDecimalEnv blockInput).1 blockPolicies GoMap.empty defaultServices
      rfl,
    (parse_policies_valid dottedDecimalEnv
      [.policyCreate 0 "web" "Trust" "Untrust" "Server1" "any" "HTTP" "" "" none "permit" true]).2
      0 "web" "Trust" "Untrust" "Server1" "any" "HTTP" "" "" none "permit" true
      (List.mem_singleton.mpr rfl) (by decide)⟩

/-- C17, counterexample. An input whose two policy-creation directives carry
the ID 5 is parsed without a panic, and the returned list has two records
with the ID 5. -/
theorem parse_keeps_repeated_ID :
    ∃ ps o s, parse dottedDecimalEnv repeatedIDInput = .ok (ps, o, s) ∧
      ps.map (fun p => p.ID) = [5, 5] ∧ ¬ (ps.map (fun p => p.ID)).Nodup :=
  ⟨[createdPolicy 5 "web" "Trust" "Untrust" "Server1" "any" "HTTP" "" "" none "permit" true,
      createdPolicy 5 "" "Trust" "Untrust" "any" "any" "ANY" "" "" none "deny" false],
    GoMap.empty, defaultServices, rfl, rfl, by decide⟩

/-- C17, amended. For every input on which `parse` returns, the IDs of the
returned policies are, in order, the IDs of the policy-creation directives of
the input; they are pairwise distinct exactly when no two creation directives
carry the same ID. -/
theorem parse_IDs_are_created_IDs (net : NetEnv) (input : List Directive) (ps : List Policy)
    (o : Objects) (s : Services) (h : parse net input = .ok (ps, o, s)) :
    ps.map (fun p => p.ID) = (createdIDs input).map Int.ofNat ∧
      ((ps.map (fun p => p.ID)).Nodup ↔ (createdIDs input).Nodup) := by
  obtain ⟨st, hst, rfl, _, _⟩ := parse_ok net input ps o s h
  have hid := (parse_loop_inv net input ParseState.initial st hst).2.1
  simp only [ParseState.initial, List.map_nil, List.nil_append] at hid
  refine ⟨hid, ?_⟩
  rw [hid]
  exact List.nodup_map_iff (fun a b hab => Int.ofNat.inj hab)

/-- Witness of C17, amended: the policies returned for `blockInput` have the IDs 5 and 6. -/
theorem parse_IDs_are_created_IDs_witness :
    blockPolicies.map (fun p => p.ID) = (createdIDs blockInput).map Int.ofNat ∧
      ((blockPolicies.map (fun p => p.ID)).Nodup ↔ (createdIDs blockInput).Nodup) :=
  parse_IDs_are_created_IDs dottedDecimalEnv blockInput blockPolicies GoMap.empty defaultServices
    rfl

/-! ## Block and flag lines that name a policy (C18) -/

theorem findPolicy_none_iff (id : Int) :
    ∀ (ps : List Policy) (idx : Nat) (found : Option Nat),
      findPolicy id ps idx found = none ↔ found = none ∧ ∀ p ∈ ps, p.ID ≠ id := by
  intro ps
  induction ps with
  | nil => intro idx found; simp [findPolicy]
  | cons q rest ih =>
    intro idx found
    simp only [findPolicy, ih, List.mem_cons, forall_eq_or_imp]
    by_cases hq : q.ID = id
    · simp [hq]
    · simp [hq]

theorem mem_IDs_iff (ps : List Policy) (ids : List Nat)
    (h : ps.map (fun p => p.ID) = ids.map Int.ofNat) (n : Nat) :
    (∃ p ∈ ps, p.ID = Int.ofNat n) ↔ n ∈ ids := by
  constructor
  · rintro ⟨p, hp, hid⟩
    have : Int.ofNat n ∈ ps.map (fun p => p.ID) := List.mem_map.mpr ⟨p, hp, hid⟩
    rw [h] at this
    obtain ⟨k, hk, hkn⟩ := List.mem_map.mp this
    rw [← Int.ofNat.inj hkn]
    exact hk
  · intro hn
    have : Int.ofNat n ∈ ps.map (fun p => p.ID) := by
      rw [h]
      exact List.mem_map.mpr ⟨n, hn, rfl⟩
    obtain ⟨p, hp, hid⟩ := List.mem_map.mp this
    exact ⟨p, hp, hid⟩

/-- A block or flag line that names an ID no policy of the list has panics. -/
theorem parseDirective_unknown (net : NetEnv) (st : ParseState) (N : Nat)
    (h : ¬ ∃ p ∈ st.policies, p.ID = Int.ofNat N) :
    (∀ body, ∃ m, parseDirective net st (.policyBlock N body) = .panic m) ∧
      ∀ flag value, ∃ m, parseDirective net st (.policyFlag N flag value) = .panic m := by
  have hfind : findPolicy (Int.ofNat N) st.policies 0 none = none :=
    (findPolicy_none_iff _ _ _ _).mpr ⟨rfl, fun p hp hid => h ⟨p, hp, hid⟩⟩
  rcases atoi_cases N with ⟨_, hN⟩ | ⟨m, hm⟩
  · exact ⟨fun body => ⟨"policy not found", by simp only [parseDirective, hN, hfind]⟩,
      fun flag value => ⟨"policy not found", by simp only [parseDirective, hN, hfind]⟩⟩
  · exact ⟨fun body => ⟨m, by simp only [parseDirective, hm]⟩,
      fun flag value => ⟨m, by simp only [parseDirective, hm]⟩⟩

/-- A block of accepted lines, or a flag line, that names the ID of a policy
of the list returns. -/
theorem parseDirective_known (net : NetEnv) (st : ParseState) (N : Nat) (hN : N < 2 ^ 63)
    (h : ∃ p ∈ st.policies, p.ID = Int.ofNat N) :
    (∀ body, body.all BlockLine.accepted = true →
        ∃ st1, parseDirective net st (.policyBlock N body) = .ok st1) ∧
      ∀ value, (∃ st1, parseDirective net st (.policyFlag N "disable" value) = .ok st1) ∧
        ∃ st1, parseDirective net st (.policyFlag N "application" value) = .ok st1 := by
  have hatoi := atoi_of_lt hN
  cases hfind : findPolicy (Int.ofNat N) st.policies 0 none with
  | none =>
    obtain ⟨p, hp, hid⟩ := h
    exact absurd hid (((findPolicy_none_iff _ _ _ _).mp hfind).2 p hp)
  | some idx =>
    refine ⟨fun body hall => ?_, fun value => ⟨?_, ?_⟩⟩
    · rcases block_fold idx body st.policies with ⟨_, hfold⟩ | ⟨hbad, _⟩
      · exact ⟨_, by simp only [parseDirective, hatoi, hfind, hfold]; rfl⟩
      · rw [hall] at hbad
        cases hbad
    · exact ⟨_, by simp only [parseDirective, hatoi, hfind, if_true]; rfl⟩
    · exact ⟨_, by simp only [parseDirective, hatoi, hfind,
        (by decide : ¬ ("application" : String) = "disable"), if_true, if_false]; rfl⟩

theorem parseState_snoc (net : NetEnv) (pre : List Directive) (d : Directive) (st : ParseState)
    (h : parseState net pre = .ok st) :
    parseState net (pre ++ [d]) = parseDirective net st d := by
  unfold parseState at h ⊢
  rw [foldRes_append, h]
  simp only [Res.bind, foldRes]
  cases parseDirective net st d <;> rfl

theorem parse_panics_at (net : NetEnv) (pre post : List Directive) (d : Directive)
    (h : ∀ st, parseState net pre = .ok st → ∃ m, parseDirective net st d = .panic m) :
    ∃ m, parse net (pre ++ d :: post) = .panic m := by
  rw [parse_eq]
  unfold parseState at h ⊢
  rw [foldRes_append]
  cases hpre : foldRes (parseDirective net) ParseState.initial pre with
  | ok st =>
    obtain ⟨m, hm⟩ := h st hpre
    exact ⟨m, by simp only [Res.bind, foldRes, hm]⟩
  | panic m => exact ⟨m, rfl⟩
  | outOfFuel =>
    exact absurd hpre (foldRes_ne_outOfFuel _ (parseDirective_ne_outOfFuel net) _ _)

/-- C18. For every input `pre` and every ID N. When no creation directive of
`pre` has the ID N, an input that continues `pre` with the block line
`set policy id N` (whatever its lines) or with a flag line for N makes `parse`
panic, so no model is returned. When `pre` is parsed without a panic and has a
creation directive with the ID N, continuing it with the block for N (its
lines being accepted ones) or with the flag line `disable` or `application`
for N is parsed without a panic. -/
theorem policy_line_needs_created_ID (net : NetEnv) (pre : List Directive) (N : Nat) :
    (N ∉ createdIDs pre → ∀ (post : List Directive) (body : List BlockLine) (flag value : String),
        (∃ m, parse net (pre ++ .policyBlock N body :: post) = .panic m) ∧
        (∃ m, parse net (pre ++ .policyFlag N flag value :: post) = .panic m)) ∧
      (N ∈ createdIDs pre → ∀ st, parseState net pre = .ok st →
        ∀ (body : List BlockLine) (value : String),
          (body.all BlockLine.accepted = true →
            ∃ st1, parseState net (pre ++ [.policyBlock N body]) = .ok st1) ∧
          (∃ st1, parseState net (pre ++ [.policyFlag N "disable" value]) = .ok st1) ∧
          (∃ st1, parseState net (pre ++ [.policyFlag N "application" value]) = .ok st1)) := by
  have hids : ∀ st, parseState net pre = .ok st →
      ((∃ p ∈ st.policies, p.ID = Int.ofNat N) ↔ N ∈ createdIDs pre) := by
    intro st hst
    have hid := (parse_loop_inv net pre ParseState.initial st hst).2.1
    simp only [ParseState.initial, List.map_nil, List.nil_append] at hid
    exact mem_IDs_iff st.policies (createdIDs pre) hid N
  constructor
  · intro hN post body flag value
    constructor
    · exact parse_panics_at net pre post _ (fun st hst =>
        (parseDirective_unknown net st N (fun h => hN ((hids st hst).mp h))).1 body)
    · exact parse_panics_at net pre post _ (fun st hst =>
        (parseDirective_unknown net st N (fun h => hN ((hids st hst).mp h))).2 flag value)
  · intro hN st hst body value
    have hlt : N < 2 ^ 63 := (parse_loop_inv net pre ParseState.initial st hst).2.2 N hN
    obtain ⟨h1, h2⟩ := parseDirective_known net st N hlt ((hids st hst).mpr hN)
    rw [parseState_snoc net pre _ st hst, parseState_snoc net pre _ st hst,
      parseState_snoc net pre _ st hst]
    exact ⟨h1 body, (h2 value).1, (h2 value).2⟩

/-- Witness of C18: after `createInput`, which creates the policies 5 and 6,
a block line for the ID 7 makes `parse` panic, and the flag line `disable` for
the ID 6 is parsed. -/
theorem policy_line_needs_created_ID_witness :
    (∃ m, parse dottedDecimalEnv (createInput ++ .policyBlock 7 [.service "SSH"] :: []) = .panic m) ∧
      ∃ st1, parseState dottedDecimalEnv (createInput ++ [.policyFlag 6 "disable" ""]) = .ok st1 :=
  ⟨((policy_line_needs_created_ID dottedDecimalEnv createInput 7).1 (by decide) []
      [.service "SSH"] "" "").1,
    ((policy_line_needs_created_ID dottedDecimalEnv createInput 6).2 (by decide) createState rfl
      [] "").2.1⟩

/-! ## The effect of a policy block (C19) -/

theorem findPolicy_some (id : Int) :
    ∀ (ps : List Policy) (k : Nat) (found : Option Nat) (idx : Nat),
      findPolicy id ps k found = some idx →
      (found = some idx ∧ ∀ p ∈ ps, p.ID ≠ id) ∨
        (k ≤ idx ∧ ∃ p, ps[idx - k]? = some p ∧ p.ID = id) := by
  intro ps
  induction ps with
  | nil =>
    intro k found idx h
    simp only [findPolicy] at h
    exact Or.inl ⟨h, fun p hp => absurd hp (List.not_mem_nil p)⟩
  | cons q rest ih =>
    intro k found idx h
    simp only [findPolicy] at h
    rcases ih (k + 1) _ idx h with ⟨hf, hall⟩ | ⟨hk, p, hp, hid⟩
    · by_cases hq : q.ID = id
      · simp only [hq, if_true, Option.some.injEq] at hf
        subst hf
        exact Or.inr ⟨le_refl _, q, by simp, hq⟩
      · simp only [hq, if_false] at hf
        refine Or.inl ⟨hf, fun p hp => ?_⟩
        rcases List.mem_cons.mp hp with rfl | hp
        · exact hq
        · exact hall p hp
    · refine Or.inr ⟨by omega, p, ?_, hid⟩
      have : idx - k = (idx - (k + 1)) + 1 := by omega
      rw [this, List.getElem?_cons_succ]
      exact hp

theorem updatePolicy_eq_map (g : Policy → Policy) (id : Int) :
    ∀ (ps : List Policy) (idx : Nat) (q : Policy),
      (ps.map (fun p => p.ID)).Nodup → ps[idx]? = some q → q.ID = id →
      updatePolicy g ps idx = ps.map (fun p => if p.ID = id then g p else p) := by
  intro ps
  induction ps with
  | nil => intro idx q _ h; simp at h
  | cons p rest ih =>
    intro idx q hnd hq hid
    simp only [List.map_cons, List.nodup_cons, List.mem_map, not_exists, not_and] at hnd
    obtain ⟨hp, hrest⟩ := hnd
    cases idx with
    | zero =>
      simp only [List.getElem?_cons_zero, Option.some.injEq] at hq
      subst hq
      have hmap : rest.map (fun r => if r.ID = id then g r else r) = rest := by
        conv_rhs => rw [← List.map_id rest]
        apply List.map_congr_left
        intro r hr
        have : r.ID ≠ id := fun h => hp r hr (by rw [h, hid])
        simp [this]
      simp only [updatePolicy, List.map_cons, hid, if_true, hmap]
    | succ k =>
      simp only [List.getElem?_cons_succ] at hq
      have hne : p.ID ≠ id := by
        intro h
        exact hp q (List.mem_iff_getElem?.mpr ⟨k, hq⟩) (by rw [h, hid])
      simp only [updatePolicy, List.map_cons, hne, if_false, ih k q hrest hq hid]

theorem blockEffect_foldl :
    ∀ (body : List BlockLine) (p : Policy), body.all BlockLine.accepted = true →
      body.foldl (fun q l => lineEffect l q) p = blockEffect body p := by
  intro body
  induction body with
  | nil =>
    intro p _
    simp [blockEffect, srcNames, dstNames, serviceNames, sessionInit]
  | cons l rest ih =>
    intro p h
    simp only [List.all_cons, Bool.and_eq_true] at h
    rw [List.foldl_cons, ih _ h.2]
    cases l with
    | service name =>
      simp [blockEffect, lineEffect, srcNames, dstNames, serviceNames, sessionInit]
    | srcAddress name =>
      simp [blockEffect, lineEffect, srcNames, dstNames, serviceNames, sessionInit]
    | dstAddress name =>
      simp [blockEffect, lineEffect, srcNames, dstNames, serviceNames, sessionInit]
    | log option =>
      have ho : option = "session-init" := by simpa [BlockLine.accepted] using h.1
      subst ho
      simp [blockEffect, lineEffect, srcNames, dstNames, serviceNames, sessionInit]
    | other line => exact absurd h.1 (by simp [BlockLine.accepted])

/-- C19. For every input `pre` that is parsed without a panic, whose creation
directives carry pairwise distinct IDs, one of them N: continuing `pre` with
the block `set policy id N` … `exit` whose lines are accepted ones leaves the
parser with the same object store, service catalog and last service name, and
with the same policies except that the policy with ID N has the names of the
`set src-address`, `set dst-address` and `set service` lines appended, in line
order, to its Sources, Destinations and Services, has LogInit set when a
`set log session-init` line occurs, and has its other fields unchanged
(`blockEffect`). A block with a line that is not accepted panics. -/
theorem block_appends_to_its_policy (net : NetEnv) (pre : List Directive) (st : ParseState)
    (N : Nat) (body : List BlockLine) (hst : parseState net pre = .ok st)
    (hnodup : (createdIDs pre).Nodup) (hN : N ∈ createdIDs pre) :
    (body.all BlockLine.accepted = true →
        parseState net (pre ++ [.policyBlock N body])
          = .ok { st with
              policies :=
                st.policies.map (fun p => if p.ID = Int.ofNat N then blockEffect body p else p) }) ∧
      (body.all BlockLine.accepted = false →
        ∃ m, parseState net (pre ++ [.policyBlock N body]) = .panic m) := by
  obtain ⟨_, hid, hlt⟩ := parse_loop_inv net pre ParseState.initial st hst
  simp only [ParseState.initial, List.map_nil, List.nil_append] at hid
  have hnd : (st.policies.map (fun p => p.ID)).Nodup := by
    rw [hid]
    exact (List.nodup_map_iff (fun a b hab => Int.ofNat.inj hab)).mpr hnodup
  have hatoi := atoi_of_lt (hlt N hN)
  rw [parseState_snoc net pre _ st hst]
  cases hfind : findPolicy (Int.ofNat N) st.policies 0 none with
  | none =>
    obtain ⟨p, hp, hpid⟩ := (mem_IDs_iff st.policies (createdIDs pre) hid N).mpr hN
    exact absurd hpid (((findPolicy_none_iff _ _ _ _).mp hfind).2 p hp)
  | some idx =>
    rcases findPolicy_some _ _ _ _ _ hfind with ⟨hf, _⟩ | ⟨_, q, hq, hqid⟩
    · cases hf
    · rw [Nat.sub_zero] at hq
      rcases block_fold idx body st.policies with ⟨hall, hfold⟩ | ⟨hall, m, hm⟩
      · refine ⟨fun _ => ?_, fun hbad => ?_⟩
        · have hfun : (fun p : Policy => if p.ID = Int.ofNat N
              then body.foldl (fun q l => lineEffect l q) p else p)
              = fun p => if p.ID = Int.ofNat N then blockEffect body p else p := by
            funext p
            rw [blockEffect_foldl body p hall]
          simp only [parseDirective, hatoi, hfind, hfold,
            updatePolicy_eq_map _ (Int.ofNat N) st.policies idx q hnd hq hqid, hfun]
        · rw [hall] at hbad
          cases hbad
      · refine ⟨fun hgood => ?_, fun _ => ⟨m, ?_⟩⟩
        · rw [hall] at hgood
          cases hgood
        · simp only [parseDirective, hatoi, hfind, hm]

/-- Witness of C19: after `createInput`, the block for the policy 5 of
`blockInput` changes that policy alone. -/
theorem block_appends_to_its_policy_witness :
    parseState dottedDecimalEnv (createInput ++ [.policyBlock 5 [.srcAddress "Server2",
        .service "HTTPS", .log "session-init", .dstAddress "Server3", .service "SSH"]])
      = .ok { createState with
          policies :=
            createState.policies.map (fun p => if p.ID = Int.ofNat 5
              then blockEffect [.srcAddress "Server2", .service "HTTPS", .log "session-init",
                .dstAddress "Server3", .service "SSH"] p else p) } :=
  (block_appends_to_its_policy dottedDecimalEnv createInput createState 5
    [.srcAddress "Server2", .service "HTTPS", .log "session-init", .dstAddress "Server3",
      .service "SSH"] rfl (by decide) (by decide)).1 (by decide)

/-! ## Service definitions for a name already in the catalog (C20) -/

/-- C20, counterexample. The input whose only line defines "HTTP" as tcp with
the destination port 8080 leaves the catalog entry "HTTP" with two tuples, the
built-in one for port 80 followed by the new one: the definition extends the
entry and does not replace it. -/
theorem service_define_keeps_previous :
    ∃ ps o s, parse dottedDecimalEnv [.serviceDefine "HTTP" "tcp" 0 65535 8080 8080] = .ok (ps, o, s) ∧
      s "HTTP" = some [⟨"tcp", 0, 0, 65535, 80, 80⟩, ⟨"tcp", 0, 0, 65535, 8080, 8080⟩] ∧
      s "HTTP" ≠ some [⟨"tcp", 0, 0, 65535, 8080, 8080⟩] :=
  ⟨[], GoMap.empty, Services.Add defaultServices "HTTP" ⟨"tcp", 0, 0, 65535, 8080, 8080⟩, rfl,
    by decide, by decide⟩

/-- C20, amended. For every state of the parser in which the catalog has an
entry for NAME, and every service-definition directive for NAME whose four
port numbers convert: the directive returns; afterwards the entry for NAME is
the previous definitions followed by the tuple of the directive, every other
entry of the catalog is unchanged, NAME is the name that continuation
directives extend, and the policies and the object store are unchanged. -/
theorem service_define_appends (net : NetEnv) (st : ParseState) (name proto : String)
    (a b c e : Nat) (previous : ServiceList) (hprev : st.services name = some previous)
    (ha : a < 2 ^ 63) (hb : b < 2 ^ 63) (hc : c < 2 ^ 63) (he : e < 2 ^ 63) :
    ∃ st1, parseDirective net st (.serviceDefine name proto a b c e) = .ok st1 ∧
      st1.services name
        = some (previous ++ [⟨proto, 0, Int.ofNat a, Int.ofNat b, Int.ofNat c, Int.ofNat e⟩]) ∧
      (∀ other, other ≠ name → st1.services other = st.services other) ∧
      st1.lastService = name ∧ st1.policies = st.policies ∧ st1.objects = st.objects := by
  rcases serviceOf_cases proto a b c e with ⟨_, _, _, _, h⟩ | ⟨m, hm⟩
  · refine ⟨{ st with
        lastService := name,
        services := Services.Add st.services name (Service.mk proto 0 a b c e) },
      by simp only [parseDirective, h]; rfl, ?_, ?_, rfl, rfl, rfl⟩
    · simp only [Services.Add, hprev, GoMap.set, if_true]
      rfl
    · intro other hne
      simp only [Services.Add, hprev, GoMap.set, hne, if_false]
  · exfalso
    simp only [serviceOf, mustInt, atoi_of_lt ha, atoi_of_lt hb, atoi_of_lt hc, atoi_of_lt he] at hm
    cases hm

/-- Witness of C20, amended: the definition of "HTTP" as tcp with the
destination port 8080, in the initial state of the parser. -/
theorem service_define_appends_witness :
    ∃ st1, parseDirective dottedDecimalEnv ParseState.initial
        (.serviceDefine "HTTP" "tcp" 0 65535 8080 8080) = .ok st1 ∧
      st1.services "HTTP"
        = some ([⟨"tcp", 0, 0, 65535, 80, 80⟩] ++
            [⟨"tcp", 0, Int.ofNat 0, Int.ofNat 65535, Int.ofNat 8080, Int.ofNat 8080⟩]) ∧
      (∀ other, other ≠ "HTTP" → st1.services other = ParseState.initial.services other) ∧
      st1.lastService = "HTTP" ∧ st1.policies = ParseState.initial.policies ∧
      st1.objects = ParseState.initial.objects :=
  service_define_appends dottedDecimalEnv ParseState.initial "HTTP" "tcp" 0 65535 8080 8080
    [⟨"tcp", 0, 0, 65535, 80, 80⟩] (by decide) (by decide) (by decide) (by decide) (by decide)

/-! ## Service continuations (C21) -/

theorem services_add_some (s : Services) (name : String) (svc : Service) :
    ∃ l, Services.Add s name svc name = some l := by
  unfold Services.Add
  cases s name with
  | none => exact ⟨[svc], by simp [GoMap.set]⟩
  | some l => exact ⟨l ++ [svc], by simp [GoMap.set]⟩

theorem services_add_other (s : Services) (name other : String) (svc : Service)
    (h : other ≠ name) : Services.Add s name svc other = s other := by
  unfold Services.Add
  cases s name <;> simp [GoMap.set, h]

/-- What one directive does to the catalog and to the last service name. -/
theorem parseDirective_services (net : NetEnv) (st st1 : ParseState) (d : Directive)
    (h : parseDirective net st d = .ok st1) :
    (∃ name proto a b c e svc, d = .serviceDefine name proto a b c e ∧ st1.lastService = name ∧
        st1.services = st.services.Add name svc) ∨
      (∃ name proto a b c e svc, d = .serviceContinue name proto a b c e ∧
        st1.lastService = st.lastService ∧ st1.services = st.services.Add st.lastService svc) ∨
      ((∀ acc rest, lastDefinedFrom acc (d :: rest) = lastDefinedFrom acc rest) ∧
        st1.lastService = st.lastService ∧ st1.services = st.services) := by
  cases d with
  | serviceContinue name proto a b c e =>
    simp only [parseDirective] at h
    split at h
    · rename_i svc _
      simp only [Res.ok.injEq] at h
      subst h
      exact Or.inr (Or.inl ⟨name, proto, a, b, c, e, svc, rfl, rfl, rfl⟩)
    · cases h
    · cases h
  | serviceDefine name proto a b c e =>
    simp only [parseDirective] at h
    split at h
    · rename_i svc _
      simp only [Res.ok.injEq] at h
      subst h
      exact Or.inl ⟨name, proto, a, b, c, e, svc, rfl, rfl, rfl⟩
    · cases h
    · cases h
  | serviceTimeout => cases h; exact Or.inr (Or.inr ⟨fun _ _ => rfl, rfl, rfl⟩)
  | serviceMalformed line => cases h
  | address zone name addr mask =>
    refine Or.inr (Or.inr ⟨fun _ _ => rfl, ?_⟩)
    simp only [parseDirective] at h
    split at h
    · split at h
      · cases h; exact ⟨rfl, rfl⟩
      · split at h
        · cases h
        · cases h; exact ⟨rfl, rfl⟩
    · split at h
      · cases h
      · cases h; exact ⟨rfl, rfl⟩
  | addressMalformed line => cases h
  | groupAdd zone group member => cases h; exact Or.inr (Or.inr ⟨fun _ _ => rfl, rfl, rfl⟩)
  | groupCreate => cases h; exact Or.inr (Or.inr ⟨fun _ _ => rfl, rfl, rfl⟩)
  | groupMalformed line => cases h
  | policyCreate id name zoneFrom zoneTo src dst service nat natAddress natPort action log =>
    refine Or.inr (Or.inr ⟨fun _ _ => rfl, ?_⟩)
    simp only [parseDirective] at h
    split at h
    · split at h
      · split at h
        · cases h
        · cases h; exact ⟨rfl, rfl⟩
      · cases h
      · cases h
    · cases h
    · cases h
  | policyBlock id body =>
    refine Or.inr (Or.inr ⟨fun _ _ => rfl, ?_⟩)
    simp only [parseDirective] at h
    split at h
    · split at h
      · cases h
      · split at h
        · cases h; exact ⟨rfl, rfl⟩
        · cases h
        · cases h
    · cases h
    · cases h
  | policyFlag id flag value =>
    refine Or.inr (Or.inr ⟨fun _ _ => rfl, ?_⟩)
    simp only [parseDirective] at h
    split at h
    · split at h
      · cases h
      · split at h
        · cases h; exact ⟨rfl, rfl⟩
        · split at h
          · cases h; exact ⟨rfl, rfl⟩
          · cases h
    · cases h
    · cases h
  | policyMalformed line => cases h
  | ignored => cases h; exact Or.inr (Or.inr ⟨fun _ _ => rfl, rfl, rfl⟩)

/-- What a run of the parser loop keeps: the last service name is the name of
the most recent service-definition directive, and that name has an entry in
the catalog. -/
theorem parse_loop_last_service (net : NetEnv) :
    ∀ (input : List Directive) (st st1 : ParseState) (acc : Option String),
      foldRes (parseDirective net) st input = .ok st1 →
      st.lastService = acc.getD "" →
      (∀ name, acc = some name → ∃ l, st.services name = some l) →
      st1.lastService = (lastDefinedFrom acc input).getD "" ∧
        ∀ name, lastDefinedFrom acc input = some name → ∃ l, st1.services name = some l := by
  intro input
  induction input with
  | nil =>
    intro st st1 acc h hl hs
    simp only [foldRes, Res.ok.injEq] at h
    subst h
    exact ⟨hl, hs⟩
  | cons d rest ih =>
    intro st st1 acc h hl hs
    simp only [foldRes] at h
    cases h2 : parseDirective net st d with
    | ok st2 =>
      rw [h2] at h
      rcases parseDirective_services net st st2 d h2 with
        ⟨name, proto, a, b, c, e, svc, rfl, hlast, hsvc⟩ |
        ⟨name, proto, a, b, c, e, svc, rfl, hlast, hsvc⟩ | ⟨hframe, hlast, hsvc⟩
      · refine ih st2 st1 (some name) h (by simp [hlast]) ?_
        intro n hn
        simp only [Option.some.injEq] at hn
        subst hn
        rw [hsvc]
        exact services_add_some _ _ _
      · refine ih st2 st1 acc h (by rw [hlast, hl]) ?_
        intro n hn
        rw [hsvc]
        by_cases hsame : n = st.lastService
        · rw [hsame]
          exact services_add_some _ _ _
        · rw [services_add_other _ _ _ _ hsame]
          exact hs n hn
      · rw [hframe]
        exact ih st2 st1 acc h (by rw [hlast, hl]) (by rw [hsvc]; exact hs)
    | panic m => rw [h2] at h; cases h
    | outOfFuel => rw [h2] at h; cases h

/-- C21. For every input `pre` that is parsed without a panic and has a
service-definition directive, the most recent one naming NAME: a continuation
directive `set service "X" + proto src-port a-b dst-port c-d` (port numbers
that convert) after `pre` is parsed; the catalog had an entry for NAME, and
afterwards that entry is the previous list followed by the tuple
(proto, a-b, c-d), whatever X is; every other entry of the catalog, the
policies, the object store and the last service name are unchanged. -/
theorem continuation_extends_last_defined (net : NetEnv) (pre : List Directive)
    (st : ParseState) (name X proto : String) (a b c e : Nat)
    (hst : parseState net pre = .ok st) (hlast : lastDefined pre = some name)
    (ha : a < 2 ^ 63) (hb : b < 2 ^ 63) (hc : c < 2 ^ 63) (he : e < 2 ^ 63) :
    ∃ previous st1, st.services name = some previous ∧
      parseState net (pre ++ [.serviceContinue X proto a b c e]) = .ok st1 ∧
      st1.services name
        = some (previous ++ [⟨proto, 0, Int.ofNat a, Int.ofNat b, Int.ofNat c, Int.ofNat e⟩]) ∧
      (∀ other, other ≠ name → st1.services other = st.services other) ∧
      st1.policies = st.policies ∧ st1.objects = st.objects ∧ st1.lastService = name := by
  obtain ⟨hl, hs⟩ := parse_loop_last_service net pre ParseState.initial st none hst rfl
    (fun _ h => by cases h)
  have hl2 : st.lastService = name := by
    rw [hl]
    unfold lastDefined at hlast
    rw [hlast]
    rfl
  obtain ⟨previous, hprev⟩ := hs name hlast
  rcases serviceOf_cases proto a b c e with ⟨_, _, _, _, h⟩ | ⟨m, hm⟩
  · refine ⟨previous,
      { st with
        services := Services.Add st.services st.lastService (Service.mk proto 0 a b c e) },
      hprev, ?_, ?_, ?_, rfl, rfl, hl2⟩
    · rw [parseState_snoc net pre _ st hst]
      simp only [parseDirective, h]
      rfl
    · simp only [hl2, Services.Add, hprev, GoMap.set, if_true]
      rfl
    · intro other hne
      simp only [hl2]
      exact services_add_other _ _ _ _ hne
  · exfalso
    simp only [serviceOf, mustInt, atoi_of_lt ha, atoi_of_lt hb, atoi_of_lt hc, atoi_of_lt he] at hm
    cases hm

/-- Witness of C21: after `webInput`, which defines "WEB", a continuation
line that carries the name "OTHER" extends the entry "WEB". -/
theorem continuation_extends_last_defined_witness :
    ∃ previous st1, webState.services "WEB" = some previous ∧
      parseState dottedDecimalEnv (webInput ++ [.serviceContinue "OTHER" "udp" 0 65535 53 53])
        = .ok st1 ∧
      st1.services "WEB"
        = some (previous ++
            [⟨"udp", 0, Int.ofNat 0, Int.ofNat 65535, Int.ofNat 53, Int.ofNat 53⟩]) ∧
      (∀ other, other ≠ "WEB" → st1.services other = webState.services other) ∧
      st1.policies = webState.policies ∧ st1.objects = webState.objects ∧
      st1.lastService = "WEB" :=
  continuation_extends_last_defined dottedDecimalEnv webInput webState "WEB" "OTHER" "udp"
    0 65535 53 53 rfl rfl (by decide) (by decide) (by decide) (by decide)

/-! ## Address definitions (C23) -/

theorem add_entry_same (o : Objects) (zone name : String) (a : Option IPNet) :
    (Objects.Add o zone name a).entry zone name = some ⟨a, []⟩ := by
  unfold Objects.Add Objects.entry
  cases o zone <;> simp [GoMap.set]

theorem add_entry_other (o : Objects) (zone name : String) (a : Option IPNet) (z n : String)
    (h : z ≠ zone ∨ n ≠ name) :
    (Objects.Add o zone name a).entry z n = o.entry z n := by
  unfold Objects.Add Objects.entry
  by_cases hz : z = zone
  · subst hz
    have hn : n ≠ name := by
      rcases h with h | h
      · exact absurd rfl h
      · exact h
    cases hoz : o z <;> simp [GoMap.set, GoMap.empty, hn, hoz]
  · cases hoz : o zone <;> simp [GoMap.set, hz]

/-- A name that is not reserved and whose table entry has no members resolves
to the single entry made of the name and the address of the entry. -/
theorem lookup_of_plain_entry (net : NetEnv) (fuel : Nat) (o : Objects) (zone name : String)
    (a : Option IPNet) (hres : isReserved name = false)
    (h : o.entry zone name = some ⟨a, []⟩) :
    Objects.Lookup net fuel o zone name = .ok ([name], [a]) := by
  obtain ⟨h1, h2, h3⟩ := isReserved_false hres
  rw [Lookup_eq]
  unfold Objects.entry at h
  cases hz : o zone with
  | none => rw [hz] at h; cases h
  | some tbl =>
    rw [hz] at h
    simp only at h
    simp [lookupBody, h1, h2, h3, hz, h]

/-- C23. For every store, zone, address `a` and name that is not the wildcard
and does not start with "MIP(" or "VIP(": after `Objects.Add` for
`(zone, name)` with `a`, `Objects.Lookup(zone, name)` returns exactly the
single entry `(name, a)`, whatever the store held for the pair before; the
table entry of the pair is the address `a` without members, and the table
entry of every other pair is unchanged. -/
theorem add_then_lookup (net : NetEnv) (fuel : Nat) (o : Objects) (zone name : String)
    (a : Option IPNet) (hres : isReserved name = false) :
    Objects.Lookup net fuel (Objects.Add o zone name a) zone name = .ok ([name], [a]) ∧
      (Objects.Add o zone name a).entry zone name = some ⟨a, []⟩ ∧
      ∀ z n, (z ≠ zone ∨ n ≠ name) → (Objects.Add o zone name a).entry z n = o.entry z n :=
  ⟨lookup_of_plain_entry net fuel _ zone name a hres (add_entry_same o zone name a),
    add_entry_same o zone name a, add_entry_other o zone name a⟩

/-- Witness of C23: in `demoStore`, where "Servers" is a group of three
members, an address definition for "Servers" makes it a plain object. -/
theorem add_then_lookup_witness :
    Objects.Lookup dottedDecimalEnv 0 (Objects.Add demoStore "Trust" "Servers" (some net10_0_0_2))
        "Trust" "Servers" = .ok (["Servers"], [some net10_0_0_2]) ∧
      (Objects.Add demoStore "Trust" "Servers" (some net10_0_0_2)).entry "Trust" "Servers"
        = some ⟨some net10_0_0_2, []⟩ ∧
      ∀ z n, (z ≠ "Trust" ∨ n ≠ "Servers") →
        (Objects.Add demoStore "Trust" "Servers" (some net10_0_0_2)).entry z n
          = demoStore.entry z n :=
  add_then_lookup dottedDecimalEnv 0 demoStore "Trust" "Servers" (some net10_0_0_2) (by decide)

/-! ## Recursion through group members (C25) -/

theorem lookupMembers_ok_members (rec : String → Res LookupResult) :
    ∀ (ms : List String) (names : List String) (ret : List (Option IPNet)) (r : LookupResult),
      lookupMembers rec ms names ret = .ok r → ∀ m ∈ ms, ∃ x, rec m = .ok x := by
  intro ms
  induction ms with
  | nil => intro _ _ _ _ m hm; exact absurd hm (List.not_mem_nil m)
  | cons q rest ih =>
    intro names ret r h m hm
    simp only [lookupMembers] at h
    cases hq : rec q with
    | ok x =>
      rw [hq] at h
      rcases List.mem_cons.mp hm with rfl | hm
      · exact ⟨x, hq⟩
      · exact ih _ _ r h m hm
    | panic msg => rw [hq] at h; cases h
    | outOfFuel => rw [hq] at h; cases h

/-- A group that reaches itself through its members is resolved for no recursion budget. -/
theorem cyclic_never_returns (net : NetEnv) (o : Objects) (zone : String) :
    ∀ (fuel : Nat) (g : String), Relation.TransGen (memberOf o zone) g g →
      ∀ r, Objects.Lookup net fuel o zone g ≠ .ok r := by
  intro fuel
  induction fuel with
  | zero =>
    intro g hg r h
    obtain ⟨m, _, hres, tbl, obj, hz, hn, hm⟩ := Relation.TransGen.tail'_iff.mp hg
    obtain ⟨h1, h2, h3⟩ := isReserved_false hres
    have hlen : obj.GroupMembers.length > 0 := List.length_pos.mpr (List.ne_nil_of_mem hm)
    rw [Lookup_eq] at h
    simp only [lookupBody, h1, h2, h3, hz, hn, hlen, if_true, if_false, Bool.false_eq_true] at h
    cases hmem : lookupMembers (lookupRec net o zone 0) obj.GroupMembers [] [] with
    | ok x =>
      obtain ⟨y, hy⟩ := lookupMembers_ok_members _ _ _ _ x hmem m hm
      simp [lookupRec] at hy
    | panic msg => rw [hmem] at h; cases h
    | outOfFuel => rw [hmem] at h; cases h
  | succ k ih =>
    intro g hg r h
    obtain ⟨m, hgm, hmg⟩ := Relation.TransGen.tail'_iff.mp hg
    have hcyc : Relation.TransGen (memberOf o zone) m m := Relation.TransGen.head' hmg hgm
    obtain ⟨hres, tbl, obj, hz, hn, hm⟩ := hmg
    obtain ⟨h1, h2, h3⟩ := isReserved_false hres
    have hlen : obj.GroupMembers.length > 0 := List.length_pos.mpr (List.ne_nil_of_mem hm)
    rw [Lookup_eq] at h
    simp only [lookupBody, h1, h2, h3, hz, hn, hlen, if_true, if_false, Bool.false_eq_true] at h
    cases hmem : lookupMembers (lookupRec net o zone (k + 1)) obj.GroupMembers [] [] with
    | ok x =>
      obtain ⟨y, hy⟩ := lookupMembers_ok_members _ _ _ _ x hmem m hm
      exact ih m hcyc y hy
    | panic msg => rw [hmem] at h; cases h
    | outOfFuel => rw [hmem] at h; cases h

theorem lookupMembers_good_or_fuel (rec : String → Res LookupResult)
    (hrec : ∀ m, (∃ r, rec m = .ok r ∧ GoodResult r) ∨ rec m = .outOfFuel) :
    ∀ ms : List String,
      (∃ rs, List.Forall₂ (fun m r => rec m = .ok r) ms rs ∧ ∀ r ∈ rs, GoodResult r) ∨
        ∀ names ret, lookupMembers rec ms names ret = .outOfFuel := by
  intro ms
  induction ms with
  | nil => exact Or.inl ⟨[], List.Forall₂.nil, fun r hr => absurd hr (List.not_mem_nil r)⟩
  | cons m ms ih =>
    rcases hrec m with ⟨r, hr, hgood⟩ | hfuel
    · rcases ih with ⟨rs, hrs, hgoods⟩ | hrest
      · refine Or.inl ⟨r :: rs, List.Forall₂.cons hr hrs, fun x hx => ?_⟩
        rcases List.mem_cons.mp hx with rfl | hx
        · exact hgood
        · exact hgoods x hx
      · refine Or.inr (fun names ret => ?_)
        obtain ⟨n, a⟩ := r
        simp only [lookupMembers, hr, hrest]
    · exact Or.inr (fun names ret => by simp only [lookupMembers, hfuel])

/-- On a store whose member-less objects carry an address, `Objects.Lookup`
never panics: it returns, or the recursion budget is exhausted. -/
theorem lookup_good_or_fuel (net : NetEnv) (o : Objects) (zone : String)
    (hplain : PlainHaveAddress o) :
    ∀ (fuel : Nat) (name : String),
      (∃ r, Objects.Lookup net fuel o zone name = .ok r ∧ GoodResult r) ∨
        Objects.Lookup net fuel o zone name = .outOfFuel := by
  have body : ∀ rec : String → Res LookupResult,
      (∀ m, (∃ r, rec m = .ok r ∧ GoodResult r) ∨ rec m = .outOfFuel) →
      ∀ name, (∃ r, lookupBody net o zone rec name = .ok r ∧ GoodResult r) ∨
        lookupBody net o zone rec name = .outOfFuel := by
    intro rec hrec name
    by_cases h1 : toLower name = "any"
    · exact Or.inl ⟨([name], [some ⟨IPv4zero, IPv4zero⟩]), by simp [lookupBody, h1],
        by simp [GoodResult]⟩
    by_cases h2 : startsWith name "MIP(" = true
    · exact Or.inl ⟨([name],
          [some ⟨net.ParseIP (replaceAll (replaceAll name ")" "") "MIP(" ""), IPv4bcast⟩]),
        by simp [lookupBody, h1, h2], by simp [GoodResult]⟩
    by_cases h3 : startsWith name "VIP(" = true
    · exact Or.inl ⟨([name],
          [some ⟨net.ParseIP (replaceAll (replaceAll name ")" "") "VIP(" ""), IPv4bcast⟩]),
        by simp [lookupBody, h1, h2, h3], by simp [GoodResult]⟩
    have h2f : startsWith name "MIP(" = false := by simpa using h2
    have h3f : startsWith name "VIP(" = false := by simpa using h3
    cases hz : o zone with
    | none => exact Or.inl ⟨([], []), by simp [lookupBody, h1, h2f, h3f, hz], by simp [GoodResult]⟩
    | some tbl =>
      cases hn : tbl name with
      | none =>
        exact Or.inl ⟨([], []), by simp [lookupBody, h1, h2f, h3f, hz, hn], by simp [GoodResult]⟩
      | some obj =>
        by_cases hmem : obj.GroupMembers = []
        · refine Or.inl ⟨([name], [obj.Address]),
            by simp [lookupBody, h1, h2f, h3f, hz, hn, hmem], rfl, ?_⟩
          intro a ha
          simp only [List.mem_singleton] at ha
          subst ha
          exact hplain zone tbl name obj hz hn hmem
        · rcases lookupMembers_good_or_fuel rec hrec obj.GroupMembers with
            ⟨rs, hrs, hgood⟩ | hfuel
          · exact Or.inl ⟨_, lookupBody_group net o zone name rec tbl obj rs
              (isReserved_of_not h1 h2f h3f) hz hn hmem hrs hgood,
              goodResult_ofEntries_dedupSpec _ (entries_flatMap_good rs hgood)⟩
          · have hlen : obj.GroupMembers.length > 0 := List.length_pos.mpr hmem
            exact Or.inr (by
              simp only [lookupBody, h1, h2f, h3f, hz, hn, hlen, if_true, if_false, hfuel,
                Bool.false_eq_true])
  intro fuel
  induction fuel with
  | zero =>
    intro name
    rw [Lookup_eq]
    exact body _ (fun _ => Or.inr rfl) name
  | succ k ih =>
    intro name
    rw [Lookup_eq]
    exact body _ (fun m => ih m) name

/-- C25. `Objects.Lookup` recurses on the members of a group and has no guard
against a cycle. For every store and zone: when the membership relation of the
zone is well-founded, `Objects.Lookup` terminates on every name; and for every
group that reaches itself through its members, `Objects.Lookup` returns for no
recursion budget, and, the member-less objects carrying an address, every
budget is exhausted, however large. -/
theorem lookup_recursion_has_no_guard (net : NetEnv) (o : Objects) (zone : String) :
    (Acyclic o zone → ∀ name, Terminates net o zone name) ∧
      ∀ g, Relation.TransGen (memberOf o zone) g g →
        (∀ fuel r, Objects.Lookup net fuel o zone g ≠ .ok r) ∧
        (PlainHaveAddress o → ∀ fuel, Objects.Lookup net fuel o zone g = .outOfFuel) := by
  refine ⟨fun hacyc => lookup_terminates net o zone hacyc, fun g hg => ⟨fun fuel r =>
    cyclic_never_returns net o zone fuel g hg r, fun hplain fuel => ?_⟩⟩
  rcases lookup_good_or_fuel net o zone hplain fuel g with ⟨r, hr, _⟩ | hfuel
  · exact absurd hr (cyclic_never_returns net o zone fuel g hg r)
  · exact hfuel

/-- Witness of C25: `Objects.Lookup` terminates on the group "Servers" of the
acyclic `demoStore`, and exhausts every budget on the group "G" of `loopStore`,
which lists its own name. -/
theorem lookup_recursion_has_no_guard_witness :
    Terminates dottedDecimalEnv demoStore "Trust" "Servers" ∧
      ∀ fuel r, Objects.Lookup dottedDecimalEnv fuel loopStore "Trust" "G" ≠ .ok r :=
  ⟨(lookup_recursion_has_no_guard dottedDecimalEnv demoStore "Trust").1
      (demoStore_acyclic "Trust") "Servers",
    ((lookup_recursion_has_no_guard dottedDecimalEnv loopStore "Trust").2 "G"
      (Relation.TransGen.single
        ⟨by decide, loopTable, ⟨some net10_0_0_1, ["G"]⟩, rfl, rfl, by simp⟩)).1⟩

/-! ## The order of the per-protocol groups (C24) -/

/-- The protocols that `ServiceList.AllProtocols` returns are the distinct
protocols of the list, each exactly once, whatever the order of the map
iteration; two orders give permutations of each other. -/
theorem allProtocols_perm (ord ord1 : MapOrder) (sl : ServiceList) :
    (ServiceList.AllProtocols ord sl).Nodup ∧
      (∀ proto, proto ∈ ServiceList.AllProtocols ord sl ↔ ∃ s ∈ sl, s.Protocol = proto) ∧
      (ServiceList.AllProtocols ord sl).Perm (ServiceList.AllProtocols ord1 sl) := by
  unfold ServiceList.AllProtocols
  refine ⟨(ord.perm _).nodup_iff.mpr (List.nodup_dedup _), fun proto => ?_,
    (ord.perm _).trans (ord1.perm _).symm⟩
  rw [(ord.perm _).mem_iff, List.mem_dedup, List.mem_map]

set_option maxRecDepth 100000 in
/-- C24, counterexample. The built-in "DNS" has a tcp and a udp
definition. `ServiceList.AllProtocols` ranges over a Go map, whose iteration
order is not fixed: with the order that visits the keys as listed it returns
tcp, udp and the tcp rule of the policy is written before the udp rule; with
the reverse order it returns udp, tcp and the udp rule comes first. The two
texts that `buildMikrotik` returns differ, for the same policy list, store and
catalog. -/
theorem dns_rule_order_follows_map_order :
    defaultServices "DNS" = some [⟨"tcp", 0, 0, 65535, 53, 53⟩, ⟨"udp", 0, 0, 65535, 53, 53⟩] ∧
      ServiceList.AllProtocols MapOrder.asListed ((defaultServices "DNS").getD [])
        = ["tcp", "udp"] ∧
      ServiceList.AllProtocols MapOrder.reversed ((defaultServices "DNS").getD [])
        = ["udp", "tcp"] ∧
      serviceRules dottedDecimalEnv MapOrder.asListed 0 dnsPolicy demoStore defaultServices "DNS"
        = .ok [dnsTcpRule, dnsUdpRule] ∧
      serviceRules dottedDecimalEnv MapOrder.reversed 0 dnsPolicy demoStore defaultServices "DNS"
        = .ok [dnsUdpRule, dnsTcpRule] ∧
      (buildMikrotik dottedDecimalEnv MapOrder.asListed 0 [dnsPolicy] demoStore
          defaultServices).isOk = true ∧
      (buildMikrotik dottedDecimalEnv MapOrder.reversed 0 [dnsPolicy] demoStore
          defaultServices).isOk = true ∧
      buildMikrotik dottedDecimalEnv MapOrder.asListed 0 [dnsPolicy] demoStore defaultServices
        ≠ buildMikrotik dottedDecimalEnv MapOrder.reversed 0 [dnsPolicy] demoStore
            defaultServices := by
  refine ⟨by decide, by decide, by decide, by decide, by decide, by decide, by decide, by decide⟩

/-! ## Whitespace around the lines of the input (C22) -/

theorem dropWhile_pad (p : Char → Bool) :
    ∀ (ws cs : List Char), (∀ c ∈ ws, p c = true) → (ws ++ cs).dropWhile p = cs.dropWhile p := by
  intro ws
  induction ws with
  | nil => intro cs _; rfl
  | cons w ws ih =>
    intro cs h
    simp only [List.cons_append, List.dropWhile_cons, h w (List.mem_cons_self _ _), if_true]
    exact ih cs (fun c hc => h c (List.mem_cons_of_mem _ hc))

theorem dropWhile_append_pad (p : Char → Bool) (ws : List Char) (hws : ∀ c ∈ ws, p c = true) :
    ∀ cs : List Char, (cs ++ ws).dropWhile p = cs.dropWhile p ++ ws ∨
      ((cs ++ ws).dropWhile p = [] ∧ cs.dropWhile p = []) := by
  intro cs
  induction cs with
  | nil =>
    right
    refine ⟨?_, rfl⟩
    have := dropWhile_pad p ws [] hws
    simpa using this
  | cons c cs ih =>
    cases hc : p c with
    | true => simpa [List.dropWhile_cons, hc] using ih
    | false => left; simp [List.dropWhile_cons, hc]

/-- The outer loop reads a line through `strings.TrimSpace`: white space added
before and after a line does not change what is classified. -/
theorem trimSpace_pad (ws1 ws2 : List Char) (s : String)
    (h1 : ∀ c ∈ ws1, isSpace c = true) (h2 : ∀ c ∈ ws2, isSpace c = true) :
    trimSpace (⟨ws1⟩ ++ s ++ ⟨ws2⟩) = trimSpace s := by
  unfold trimSpace
  congr 2
  simp only [String.data_append, List.append_assoc]
  rw [dropWhile_pad isSpace ws1 _ h1]
  rcases dropWhile_append_pad isSpace ws2 h2 s.data with h | ⟨h, h0⟩
  · rw [h, List.reverse_append, dropWhile_pad isSpace ws2.reverse _
      (fun c hc => h2 c (List.mem_reverse.mp hc))]
  · rw [h, h0]

/-- White space added around a line that the outer loop reads leaves the
directives of the input, and so the result of `parse`, unchanged. -/
theorem parseText_outer_pad (net : NetEnv) (classify : String → Directive)
    (ws1 ws2 : List Char) (raw : String) (rest : List String)
    (h1 : ∀ c ∈ ws1, isSpace c = true) (h2 : ∀ c ∈ ws2, isSpace c = true) :
    parseText net classify ((⟨ws1⟩ ++ raw ++ ⟨ws2⟩) :: rest)
      = parseText net classify (raw :: rest) := by
  unfold parseText
  simp only [directivesOf, trimSpace_pad ws1 ws2 raw h1 h2]

theorem stripStart_eq :
    ∀ (p cs rest : List Char), stripStart p cs = some rest → cs = p ++ rest := by
  intro p
  induction p with
  | nil => intro cs rest h; simp only [stripStart, Option.some.injEq] at h; simp [h]
  | cons a p ih =>
    intro cs rest h
    cases cs with
    | nil => simp [stripStart] at h
    | cons c cs =>
      simp only [stripStart] at h
      split at h
      · rename_i hac
        rw [hac, ih cs rest h]
        rfl
      · cases h

theorem quotedName_last (rest : List Char) (n : String) (h : quotedName rest = some n) :
    ∃ cs, rest = cs ++ ['"'] := by
  unfold quotedName at h
  split at h
  · rename_i r
    split at h
    · rename_i revName heq
      have hr : r = revName.reverse ++ ['"'] := by
        have := congrArg List.reverse heq
        simpa using this
      exact ⟨'"' :: revName.reverse, by rw [hr]; rfl⟩
    · cases h
  · cases h

theorem quotedName_none_of_last (c : Char) (cs : List Char) (hc : c ≠ '"') :
    quotedName (cs ++ [c]) = none := by
  cases hq : quotedName (cs ++ [c]) with
  | none => rfl
  | some n =>
    obtain ⟨cs1, h1⟩ := quotedName_last _ n hq
    have := (List.append_inj' h1 rfl).2
    simp only [List.cons.injEq, and_true] at this
    exact absurd this hc

theorem matchKind_none_of_first (kind raw : String) (c : Char) (cs : List Char)
    (hc : c ≠ 's') (h : raw.data = c :: cs) : matchKind kind raw = none := by
  have hp : ("set " ++ kind ++ " ").data = 's' :: (['e', 't', ' '] ++ kind.data ++ [' ']) := by
    simp only [String.data_append]
    rfl
  simp only [matchKind, hp, h, stripStart, hc.symm, if_false]

theorem matchKind_none_of_last (kind raw : String) (c : Char) (cs : List Char)
    (hc : c ≠ '"') (h : raw.data = cs ++ [c]) : matchKind kind raw = none := by
  unfold matchKind
  cases hs : stripStart ("set " ++ kind ++ " ").data raw.data with
  | none => rfl
  | some rest =>
    simp only
    have heq := stripStart_eq _ _ _ hs
    rcases List.eq_nil_or_concat rest with rfl | ⟨r, b, rfl⟩
    · rfl
    · rw [List.concat_eq_append] at heq ⊢
      rw [h, ← List.append_assoc] at heq
      have hb := (List.append_inj' heq rfl).2
      simp only [List.cons.injEq, and_true] at hb
      subst hb
      exact quotedName_none_of_last c r hc

/-- Inside a policy block a line that begins or ends with a white-space
character is not the terminator `exit` and is not accepted by the inner
`switch`: the block panics at it. -/
theorem padded_block_line_rejected (raw : String) (c : Char) (cs : List Char)
    (hc : isSpace c = true) (h : raw.data = c :: cs ∨ raw.data = cs ++ [c]) :
    raw ≠ "exit" ∧ (classifyBlockText raw).accepted = false := by
  have hs : c ≠ 's' := by rintro rfl; exact absurd hc (by decide)
  have he : c ≠ 'e' := by rintro rfl; exact absurd hc (by decide)
  have ht : c ≠ 't' := by rintro rfl; exact absurd hc (by decide)
  have hq : c ≠ '"' := by rintro rfl; exact absurd hc (by decide)
  rcases h with h | h
  · constructor
    · intro hraw
      rw [hraw] at h
      exact he (List.cons.inj h).1.symm
    · have hlog : stripStart ("set log " : String).data raw.data = none := by
        rw [h]
        simp only [stripStart, hs.symm, if_false]
      simp only [classifyBlockText, matchKind_none_of_first _ raw c cs hs h, hlog]
      rfl
  · constructor
    · intro hraw
      rw [hraw] at h
      have h2 : ("exit" : String).data = ['e', 'x', 'i'] ++ ['t'] := rfl
      rw [h2] at h
      have := (List.append_inj' h rfl).2
      simp only [List.cons.injEq, and_true] at this
      exact ht this.symm
    · simp only [classifyBlockText, matchKind_none_of_last _ raw c cs hq h]
      cases hlog : stripStart ("set log " : String).data raw.data with
      | none => rfl
      | some opt =>
        simp only [BlockLine.accepted, decide_eq_false_iff_not]
        intro hopt
        have hdata : opt = ("session-ini" : String).data ++ ['t'] := by
          have := congrArg String.data hopt
          simpa using this
        have heq := stripStart_eq _ _ _ hlog
        rw [h, hdata, ← List.append_assoc] at heq
        have := (List.append_inj' heq rfl).2
        simp only [List.cons.injEq, and_true] at this
        exact ht this

/-- C22, the code at the failing input. The sample input creates the policy 5
and opens its block with the line `set service "HTTPS"`, ended by `exit`:
`parse` returns the policy with the services HTTP and HTTPS. White space
around the two outer lines changes nothing, these lines being trimmed. The
lines of the block are read as they are: with a space before or after
`set service "HTTPS"`, or after `exit`, no expression of the inner `switch`
matches and `parse` panics with the line. -/
theorem block_lines_are_not_trimmed :
    parseText dottedDecimalEnv sampleClassify (sampleLines "set service \"HTTPS\"" "exit")
        = .ok ([{ createdPolicy 5 "" "Trust" "Untrust" "Server1" "any" "HTTP" "" "" none
              "permit" false with Services := ["HTTP", "HTTPS"] }], GoMap.empty,
            defaultServices) ∧
      parseText dottedDecimalEnv sampleClassify
          ["  " ++ sampleCreateLine ++ " ", "\tset policy id 5 ", "set service \"HTTPS\"", "exit"]
        = parseText dottedDecimalEnv sampleClassify (sampleLines "set service \"HTTPS\"" "exit") ∧
      parseText dottedDecimalEnv sampleClassify (sampleLines " set service \"HTTPS\"" "exit")
        = .panic " set service \"HTTPS\"" ∧
      parseText dottedDecimalEnv sampleClassify (sampleLines "set service \"HTTPS\" " "exit")
        = .panic "set service \"HTTPS\" " ∧
      parseText dottedDecimalEnv sampleClassify (sampleLines "set service \"HTTPS\"" "exit ")
        = .panic "exit " :=
  ⟨rfl, rfl, rfl, rfl, rfl⟩

theorem allProtocols_eq_of_single (ord ord1 : MapOrder) (sl : ServiceList)
    (h : distinctProtocols sl ≤ 1) :
    ServiceList.AllProtocols ord sl = ServiceList.AllProtocols ord1 sl := by
  have hperm := (allProtocols_perm ord ord1 sl).2.2
  have hlen := length_allProtocols ord1 sl
  cases h1 : ServiceList.AllProtocols ord1 sl with
  | nil =>
    rw [h1] at hperm
    exact List.perm_nil.mp hperm
  | cons a rest =>
    rw [h1] at hperm hlen
    cases rest with
    | nil => exact List.perm_singleton.mp hperm
    | cons b rest =>
      simp only [List.length_cons] at hlen
      omega

theorem mapRes_congr {α β : Type} (f g : α → Res β) :
    ∀ l : List α, (∀ a ∈ l, f a = g a) → mapRes f l = mapRes g l := by
  intro l
  induction l with
  | nil => intro _; rfl
  | cons a rest ih =>
    intro h
    simp only [mapRes, h a (List.mem_cons_self _ _),
      ih (fun b hb => h b (List.mem_cons_of_mem _ hb))]

theorem foldRes_congr {σ α : Type} (f g : σ → α → Res σ) :
    ∀ (l : List α) (s : σ), (∀ s, ∀ a ∈ l, f s a = g s a) → foldRes f s l = foldRes g s l := by
  intro l
  induction l with
  | nil => intro s _; rfl
  | cons a rest ih =>
    intro s h
    simp only [foldRes, h s a (List.mem_cons_self _ _)]
    cases g s a with
    | ok s1 => exact ih s1 (fun s b hb => h s b (List.mem_cons_of_mem _ hb))
    | panic m => rfl
    | outOfFuel => rfl

theorem serviceRules_congr (net : NetEnv) (ord ord1 : MapOrder) (fuel : Nat) (p : Policy)
    (o : Objects) (services : Services) (serviceName : String)
    (h : ∀ sl, services serviceName = some sl → distinctProtocols sl ≤ 1) :
    serviceRules net ord fuel p o services serviceName
      = serviceRules net ord1 fuel p o services serviceName := by
  have hcalls : serviceCalls net ord fuel p o services serviceName
      = serviceCalls net ord1 fuel p o services serviceName := by
    unfold serviceCalls
    cases hsvc : services serviceName with
    | none => rfl
    | some sl => simp only [allProtocols_eq_of_single ord ord1 sl (h sl hsvc)]
  unfold serviceRules
  rw [hcalls]

theorem filterSection_congr (net : NetEnv) (ord ord1 : MapOrder) (fuel : Nat)
    (policies : List Policy) (o : Objects) (services : Services)
    (h : ∀ p ∈ policies, ∀ name ∈ p.Services, ∀ sl, services name = some sl →
      distinctProtocols sl ≤ 1) :
    filterSection net ord fuel policies o services
      = filterSection net ord1 fuel policies o services := by
  unfold filterSection
  apply foldRes_congr
  intro blocks p hp
  unfold filterPolicy
  rw [mapRes_congr _ _ p.Services (fun name hn =>
    serviceRules_congr net ord ord1 fuel p o services name (h p hp name hn))]

/-- C24, amended. `ServiceList.AllProtocols` returns each distinct protocol of
the list exactly once, in the order of a Go map iteration, which the inputs do
not fix: for two iteration orders the results are permutations of each other.
The text that `buildMikrotik` returns is fixed by the policy list, the store,
the catalog and that order; when every service that the policies reference has
definitions of at most one protocol, it is the same text for every iteration
order. -/
theorem output_fixed_up_to_map_order (net : NetEnv) (ord ord1 : MapOrder) (fuel : Nat)
    (policies : List Policy) (o : Objects) (services : Services) :
    (∀ sl : ServiceList, (ServiceList.AllProtocols ord sl).Nodup ∧
        (∀ proto, proto ∈ ServiceList.AllProtocols ord sl ↔ ∃ s ∈ sl, s.Protocol = proto) ∧
        (ServiceList.AllProtocols ord sl).Perm (ServiceList.AllProtocols ord1 sl)) ∧
      ((∀ p ∈ policies, ∀ name ∈ p.Services, ∀ sl, services name = some sl →
          distinctProtocols sl ≤ 1) →
        buildMikrotik net ord fuel policies o services
          = buildMikrotik net ord1 fuel policies o services) := by
  refine ⟨fun sl => allProtocols_perm ord ord1 sl, fun h => ?_⟩
  unfold buildMikrotik
  rw [filterSection_congr net ord ord1 fuel policies o services h]

/-- Witness of C24, amended: a policy for the built-in "HTTPS", whose only
definition is for tcp, gives the same text for the two iteration orders. -/
theorem output_fixed_up_to_map_order_witness :
    buildMikrotik dottedDecimalEnv MapOrder.asListed 0 [simplePolicy 1 "Server1" "any" "HTTPS"]
        demoStore defaultServices
      = buildMikrotik dottedDecimalEnv MapOrder.reversed 0
          [simplePolicy 1 "Server1" "any" "HTTPS"] demoStore defaultServices :=
  (output_fixed_up_to_map_order dottedDecimalEnv MapOrder.asListed MapOrder.reversed 0
    [simplePolicy 1 "Server1" "any" "HTTPS"] demoStore defaultServices).2 (by
      intro p hp name hn sl hsl
      rw [List.mem_singleton] at hp
      subst hp
      simp only [simplePolicy, List.mem_singleton] at hn
      subst hn
      have hdef : defaultServices "HTTPS" = some [⟨"tcp", 0, 0, 65535, 443, 443⟩] := by decide
      rw [hdef] at hsl
      cases hsl
      decide)

/-! ## The text of a rule and its tokens -/

theorem splitOnChar_cons_ne (sep c : Char) (hc : c ≠ sep) (l f : List Char)
    (fs : List (List Char)) (h : splitOnChar sep l = f :: fs) :
    splitOnChar sep (c :: l) = (c :: f) :: fs := by
  simp only [splitOnChar, hc, if_false, h]

theorem splitOnChar_append_sep (sep : Char) :
    ∀ (t xs : List Char), sep ∉ t →
      splitOnChar sep (t ++ sep :: xs) = t :: splitOnChar sep xs := by
  intro t
  induction t with
  | nil => intro xs _; simp [splitOnChar]
  | cons c t ih =>
    intro xs h
    simp only [List.mem_cons, not_or] at h
    exact splitOnChar_cons_ne sep c (fun e => h.1 e.symm) _ _ _ (ih xs h.2)

theorem splitOnChar_piece (sep : Char) :
    ∀ t : List Char, sep ∉ t → splitOnChar sep t = [t] := by
  intro t
  induction t with
  | nil => intro _; rfl
  | cons c t ih =>
    intro h
    simp only [List.mem_cons, not_or] at h
    exact splitOnChar_cons_ne sep c (fun e => h.1 e.symm) _ _ _ (ih h.2)

/-- Cutting at the separator gives back the pieces that were joined, when no
piece holds the separator. -/
theorem splitOnChar_joinWith (sep : Char) :
    ∀ ts : List (List Char), ts ≠ [] → (∀ t ∈ ts, sep ∉ t) →
      splitOnChar sep (joinWith sep ts) = ts := by
  intro ts
  induction ts with
  | nil => intro h; exact absurd rfl h
  | cons t rest ih =>
    intro _ h
    cases rest with
    | nil => exact splitOnChar_piece sep t (h t (List.mem_cons_self _ _))
    | cons t1 rest =>
      have hj : joinWith sep (t :: t1 :: rest) = t ++ sep :: joinWith sep (t1 :: rest) := rfl
      rw [hj, splitOnChar_append_sep sep t _ (h t (List.mem_cons_self _ _)),
        ih (List.cons_ne_nil _ _) (fun x hx => h x (List.mem_cons_of_mem _ hx))]

theorem joinWith_cons (sep : Char) (t : List Char) (ts : List (List Char)) (h : ts ≠ []) :
    joinWith sep (t :: ts) = t ++ sep :: joinWith sep ts := by
  cases ts with
  | nil => exact absurd rfl h
  | cons t1 rest => rfl

theorem joinWith_concat (sep : Char) :
    ∀ (ts : List (List Char)) (b : List Char), ts ≠ [] →
      joinWith sep (ts ++ [b]) = joinWith sep ts ++ sep :: b := by
  intro ts
  induction ts with
  | nil => intro b h; exact absurd rfl h
  | cons t rest ih =>
    intro b _
    cases rest with
    | nil => rfl
    | cons t1 rest =>
      have h1 : (t :: t1 :: rest) ++ [b] = t :: ((t1 :: rest) ++ [b]) := rfl
      rw [h1, joinWith_cons sep t _ (by simp), ih b (List.cons_ne_nil _ _),
        joinWith_cons sep t _ (List.cons_ne_nil _ _), List.append_assoc]
      rfl

theorem beforeComment_cons_ne (c : Char) (l : List Char) (hc : c ≠ ' ') :
    beforeComment (c :: l) = c :: beforeComment l := by
  simp only [beforeComment, hc, false_and, if_false]

theorem beforeComment_piece :
    ∀ (t ys : List Char), ' ' ∉ t → beforeComment (t ++ ys) = t ++ beforeComment ys := by
  intro t
  induction t with
  | nil => intro ys _; rfl
  | cons c t ih =>
    intro ys h
    simp only [List.mem_cons, not_or] at h
    have h1 : (c :: t) ++ ys = c :: (t ++ ys) := rfl
    rw [h1, beforeComment_cons_ne c _ (fun e => h.1 e.symm), ih ys h.2]
    rfl

/-- The text before the comment: when the tokens hold no space and none
begins like the comment, the text before the first ` comment="` is the tokens. -/
theorem beforeComment_joinWith :
    ∀ (ts : List (List Char)) (rest : List Char), ts ≠ [] →
      (∀ t ∈ ts, ' ' ∉ t ∧ ∀ xs, commentStart.isPrefixOf (t ++ xs) = false) →
      beforeComment (joinWith ' ' ts ++ (' ' :: commentStart ++ rest)) = joinWith ' ' ts := by
  intro ts
  induction ts with
  | nil => intro rest h; exact absurd rfl h
  | cons t more ih =>
    intro rest _ h
    have hend : beforeComment (' ' :: commentStart ++ rest) = [] := by
      have hp : commentStart.isPrefixOf (commentStart ++ rest) = true :=
        List.isPrefixOf_iff_prefix.mpr (List.prefix_append _ _)
      have h1 : ' ' :: commentStart ++ rest = ' ' :: (commentStart ++ rest) := rfl
      rw [h1]
      simp only [beforeComment, hp, and_self, if_true]
    cases more with
    | nil =>
      have hj : joinWith ' ' [t] = t := rfl
      rw [hj, beforeComment_piece t _ (h t (List.mem_cons_self _ _)).1, hend, List.append_nil]
    | cons t1 more =>
      have ih1 := ih rest (List.cons_ne_nil _ _) (fun x hx => h x (List.mem_cons_of_mem _ hx))
      obtain ⟨zs, hzs⟩ : ∃ zs, joinWith ' ' (t1 :: more) = t1 ++ zs := by
        cases more with
        | nil => exact ⟨[], (List.append_nil _).symm⟩
        | cons t2 more => exact ⟨' ' :: joinWith ' ' (t2 :: more), rfl⟩
      have hq := (h t1 (List.mem_cons_of_mem _ (List.mem_cons_self _ _))).2
      rw [joinWith_cons ' ' t _ (List.cons_ne_nil _ _), List.append_assoc,
        beforeComment_piece t _ (h t (List.mem_cons_self _ _)).1]
      have hstep : beforeComment (' ' :: joinWith ' ' (t1 :: more) ++ (' ' :: commentStart ++ rest))
          = ' ' :: beforeComment (joinWith ' ' (t1 :: more) ++ (' ' :: commentStart ++ rest)) := by
        have h1 : ' ' :: joinWith ' ' (t1 :: more) ++ (' ' :: commentStart ++ rest)
            = ' ' :: (joinWith ' ' (t1 :: more) ++ (' ' :: commentStart ++ rest)) := rfl
        have hpre : commentStart.isPrefixOf
            (joinWith ' ' (t1 :: more) ++ (' ' :: commentStart ++ rest)) = false := by
          rw [hzs, List.append_assoc]
          exact hq _
        rw [h1]
        simp only [beforeComment, hpre, Bool.false_eq_true, and_false, if_false]
      rw [hstep, ih1]

/-! ## Texts without a space -/

theorem noSpace_append (a b : String) : NoSpace (a ++ b) ↔ NoSpace a ∧ NoSpace b := by
  simp only [NoSpace, String.data_append, List.mem_append, not_or]

theorem digit_ne_space (k : Nat) (h : k < 10) : Char.ofNat (48 + k) ≠ ' ' := by
  interval_cases k <;> decide

theorem hexDigit_ne_space (n : Nat) (h : n < 16) : hexDigit n ≠ ' ' := by
  unfold hexDigit
  interval_cases n <;> decide

theorem natDigits_noSpace : ∀ fuel n : Nat, ' ' ∉ natDigits fuel n := by
  intro fuel
  induction fuel with
  | zero => intro n; simp [natDigits]
  | succ k ih =>
    intro n
    by_cases h : n < 10
    · simp only [natDigits, h, if_true, List.mem_singleton]
      exact fun e => digit_ne_space n h e.symm
    · simp only [natDigits, h, if_false, List.mem_append, List.mem_singleton, not_or]
      exact ⟨ih _, fun e => digit_ne_space (n % 10) (Nat.mod_lt _ (by decide)) e.symm⟩

theorem itoa_noSpace (i : Int) : NoSpace (itoa i) := by
  cases i with
  | ofNat n => exact natDigits_noSpace _ _
  | negSucc n =>
    simp only [NoSpace, itoa, List.mem_cons, not_or]
    exact ⟨by decide, natDigits_noSpace _ _⟩

theorem hexString_noSpace (b : List Nat) : NoSpace (hexString b) := by
  simp only [NoSpace, hexString, List.mem_flatMap, not_exists, not_and]
  intro v _ hmem
  simp only [List.mem_cons, List.mem_singleton, List.not_mem_nil, or_false] at hmem
  rcases hmem with h | h
  · exact hexDigit_ne_space _ (Nat.mod_lt _ (by decide)) h.symm
  · exact hexDigit_ne_space _ (Nat.mod_lt _ (by decide)) h.symm

theorem maskString_noSpace (m : IPMask) : NoSpace (maskString m) := by
  unfold maskString
  split
  · decide
  · exact hexString_noSpace m

theorem hexGroup_noSpace (g : Nat) : ' ' ∉ hexGroup g := by
  unfold hexGroup
  have h16 : ∀ x, hexDigit (x % 16) ≠ ' ' := fun x => hexDigit_ne_space _ (Nat.mod_lt _ (by decide))
  split
  · simp only [List.mem_cons, List.mem_singleton, List.not_mem_nil, or_false, not_or]
    exact ⟨fun e => h16 _ e.symm, fun e => h16 _ e.symm, fun e => h16 _ e.symm, fun e => h16 _ e.symm⟩
  · split
    · simp only [List.mem_cons, List.mem_singleton, List.not_mem_nil, or_false, not_or]
      exact ⟨fun e => h16 _ e.symm, fun e => h16 _ e.symm, fun e => h16 _ e.symm⟩
    · split
      · simp only [List.mem_cons, List.mem_singleton, List.not_mem_nil, or_false, not_or]
        exact ⟨fun e => h16 _ e.symm, fun e => h16 _ e.symm⟩
      · rename_i h1 h2 h3
        simp only [List.mem_singleton]
        exact fun e => hexDigit_ne_space g (by omega) e.symm

theorem render6_noSpace (gs : List Nat) (zs ze : Nat) :
    ∀ fuel i : Nat, ' ' ∉ render6 gs zs ze fuel i := by
  intro fuel
  induction fuel with
  | zero => intro i; simp [render6]
  | succ k ih =>
    intro i
    simp only [render6]
    split
    · simp
    · split
      · simp only [List.mem_cons, not_or]
        refine ⟨by decide, by decide, ?_⟩
        split
        · simp
        · simp only [List.mem_append, not_or]
          exact ⟨hexGroup_noSpace _, ih _⟩
      · simp only [List.mem_append, not_or]
        refine ⟨⟨?_, hexGroup_noSpace _⟩, ih _⟩
        split
        · simp only [List.mem_singleton]; decide
        · simp

theorem ipString_noSpace (ip : IP) : NoSpace (ipString ip) := by
  unfold ipString
  split
  · decide
  · split
    · exact (noSpace_append _ _).mpr ⟨by decide, hexString_noSpace ip⟩
    · split
      · simp only [noSpace_append]
        exact ⟨⟨⟨⟨⟨⟨itoa_noSpace _, by decide⟩, itoa_noSpace _⟩, by decide⟩, itoa_noSpace _⟩,
          by decide⟩, itoa_noSpace _⟩
      · exact render6_noSpace _ _ _ _ _

theorem ipNetString_noSpace (n : IPNet) : NoSpace n.String := by
  unfold IPNet.String
  split
  · decide
  · split
    · simp only [noSpace_append]
      exact ⟨⟨ipString_noSpace _, by decide⟩, maskString_noSpace _⟩
    · simp only [noSpace_append]
      exact ⟨⟨ipString_noSpace _, by decide⟩, itoa_noSpace _⟩

theorem foldl_append_data (l : List String) :
    ∀ acc : String, (l.foldl (fun r s => r ++ s) acc).data = acc.data ++ l.flatMap String.data := by
  induction l with
  | nil => intro acc; simp
  | cons a rest ih =>
    intro acc
    simp only [List.foldl_cons, ih, String.data_append, List.flatMap_cons, List.append_assoc]

/-- The characters of Go's concatenation of the written pieces. -/
theorem join_pieces_data (l : List String) : (String.join l).data = l.flatMap String.data := by
  unfold String.join
  rw [foldl_append_data]
  rfl

theorem intercalate_go_data (s : String) :
    ∀ (l : List String) (acc : String),
      (String.intercalate.go acc s l).data = acc.data ++ l.flatMap (fun a => s.data ++ a.data) := by
  intro l
  induction l with
  | nil => intro acc; simp [String.intercalate.go]
  | cons a rest ih =>
    intro acc
    simp only [String.intercalate.go, ih, String.data_append, List.flatMap_cons, List.append_assoc]

theorem joinWith_eq_flatMap (sep : Char) (t : List Char) :
    ∀ ts : List (List Char), joinWith sep (t :: ts) = t ++ ts.flatMap (fun b => sep :: b) := by
  intro ts
  induction ts generalizing t with
  | nil => simp [joinWith]
  | cons t1 rest ih =>
    rw [joinWith_cons sep t _ (List.cons_ne_nil _ _), ih t1]
    simp

/-- The characters of Go `strings.Join` with a separator of one character. -/
theorem join_data (xs : List String) (c : Char) (hx : xs ≠ []) :
    (join xs ⟨[c]⟩).data = joinWith c (xs.map String.data) := by
  cases xs with
  | nil => exact absurd rfl hx
  | cons a rest =>
    simp only [join, String.intercalate, intercalate_go_data, List.map_cons, joinWith_eq_flatMap,
      List.flatMap_map]
    rfl

theorem joinWith_not_mem (sep c : Char) (hc : c ≠ sep) :
    ∀ ts : List (List Char), (∀ t ∈ ts, c ∉ t) → c ∉ joinWith sep ts := by
  intro ts
  induction ts with
  | nil => intro _; simp [joinWith]
  | cons t rest ih =>
    intro h
    cases rest with
    | nil => exact h t (List.mem_cons_self _ _)
    | cons t1 rest =>
      rw [joinWith_cons sep t _ (List.cons_ne_nil _ _)]
      simp only [List.mem_append, List.mem_cons, not_or]
      exact ⟨h t (List.mem_cons_self _ _), hc,
        ih (fun x hx => h x (List.mem_cons_of_mem _ hx))⟩

theorem range_noSpace (a b : Int) : NoSpace (itoa a ++ "-" ++ itoa b) := by
  simp only [noSpace_append]
  exact ⟨⟨itoa_noSpace a, by decide⟩, itoa_noSpace b⟩

theorem ports_noSpace (ranges : List String) (h : ∀ r ∈ ranges, NoSpace r) (hne : ranges ≠ []) :
    NoSpace (join ranges ",") := by
  have hd := join_data ranges ',' hne
  unfold NoSpace
  have hsep : ("," : String) = ⟨[',']⟩ := rfl
  rw [hsep, hd]
  apply joinWith_not_mem ',' ' ' (by decide)
  intro t ht
  obtain ⟨r, hr, rfl⟩ := List.mem_map.mp ht
  exact h r hr

theorem isPrefixOf_append_false (k q : List Char)
    (h : (q.isPrefixOf k || k.isPrefixOf q) = false) :
    ∀ xs : List Char, q.isPrefixOf (k ++ xs) = false := by
  intro xs
  have := startsWith_append_false ⟨k⟩ ⟨q⟩ ⟨xs⟩ h
  simpa [startsWith, String.data_append] using this

/-- The fields between the chain and the comment: each is a space followed by
a body that begins with one of `bodyKinds`, and the body has no space when the
list names and the protocol have none. -/
theorem rule_mid_bodies (p : Policy) (a : RuleArgs) (sf df : List String)
    (hsf : srcField a.src a.srcList = .ok sf) (hdf : dstField a.dst a.dstList = .ok df)
    (hs : NoSpace a.srcList) (hd : NoSpace a.dstList) (hp : NoSpace a.proto) :
    ∀ f ∈ sf ++ df ++ protoFields a.proto a.svc ++ actionField p ++ logField p,
      ∃ b : String, f = " " ++ b ∧ NoSpace b ∧ ∃ k x : String, k ∈ bodyKinds ∧ b = k ++ x := by
  intro f hf
  simp only [List.mem_append] at hf
  rcases hf with (((hf | hf) | hf) | hf) | hf
  · rcases srcField_cases _ _ _ hsf with ⟨_, rfl⟩ | ⟨_, n, _, rfl⟩
    · rw [List.mem_singleton] at hf
      exact ⟨"src-address-list=" ++ a.srcList, by rw [hf, ← String.append_assoc]; rfl,
        (noSpace_append _ _).mpr ⟨by decide, hs⟩, "src-address", "-list=" ++ a.srcList,
        by simp [bodyKinds], by rw [← String.append_assoc]; rfl⟩
    · split at hf
      · simp at hf
      · rw [List.mem_singleton] at hf
        exact ⟨"src-address=" ++ n.String, by rw [hf, ← String.append_assoc]; rfl,
          (noSpace_append _ _).mpr ⟨by decide, ipNetString_noSpace n⟩, "src-address",
          "=" ++ n.String, by simp [bodyKinds], by rw [← String.append_assoc]; rfl⟩
  · rcases dstField_cases _ _ _ hdf with ⟨_, rfl⟩ | ⟨_, n, _, rfl⟩
    · rw [List.mem_singleton] at hf
      exact ⟨"dst-address-list=" ++ a.dstList, by rw [hf, ← String.append_assoc]; rfl,
        (noSpace_append _ _).mpr ⟨by decide, hd⟩, "dst-address", "-list=" ++ a.dstList,
        by simp [bodyKinds], by rw [← String.append_assoc]; rfl⟩
    · split at hf
      · simp at hf
      · rw [List.mem_singleton] at hf
        exact ⟨"dst-address=" ++ n.String, by rw [hf, ← String.append_assoc]; rfl,
          (noSpace_append _ _).mpr ⟨by decide, ipNetString_noSpace n⟩, "dst-address",
          "=" ++ n.String, by simp [bodyKinds], by rw [← String.append_assoc]; rfl⟩
  · unfold protoFields at hf
    rcases List.mem_append.mp hf with h | h
    · split at h
      · rw [List.mem_singleton] at h
        exact ⟨"protocol=" ++ a.proto, by rw [h, ← String.append_assoc]; rfl,
          (noSpace_append _ _).mpr ⟨by decide, hp⟩, "protocol=", a.proto,
          by simp [bodyKinds], rfl⟩
      · simp at h
    · split at h
      · rcases List.mem_append.mp h with h1 | h1
        · split at h1
          · rename_i hlen
            rw [List.mem_singleton] at h1
            refine ⟨"src-port=" ++ join (srcPorts a.proto a.svc) ",",
              by rw [h1, ← String.append_assoc]; rfl,
              (noSpace_append _ _).mpr ⟨by decide, ports_noSpace _ ?_
                (List.ne_nil_of_length_pos hlen)⟩,
              "src-port=", _, by simp [bodyKinds], rfl⟩
            intro r hr
            obtain ⟨s, _, _, _, _, rfl⟩ := srcPorts_mem _ _ r hr
            exact range_noSpace _ _
          · simp at h1
        · split at h1
          · rename_i hlen
            rw [List.mem_singleton] at h1
            refine ⟨"dst-port=" ++ join (dstPorts a.proto a.svc) ",",
              by rw [h1, ← String.append_assoc]; rfl,
              (noSpace_append _ _).mpr ⟨by decide, ports_noSpace _ ?_
                (List.ne_nil_of_length_pos hlen)⟩,
              "dst-port=", _, by simp [bodyKinds], rfl⟩
            intro r hr
            obtain ⟨s, _, _, _, _, rfl⟩ := dstPorts_mem _ _ r hr
            exact range_noSpace _ _
          · simp at h1
      · split at h
        · rw [List.mem_singleton] at h
          exact ⟨"icmp-options=8:0-255", by rw [h]; rfl, by decide, "icmp-options=", "8:0-255",
            by simp [bodyKinds], rfl⟩
        · simp at h
  · rcases actionField_cases p f hf with rfl | rfl | rfl
    · exact ⟨"action=accept", rfl, by decide, "action=", "accept", by simp [bodyKinds], rfl⟩
    · exact ⟨"action=reject", rfl, by decide, "action=", "reject", by simp [bodyKinds], rfl⟩
    · exact ⟨"action=drop", rfl, by decide, "action=", "drop", by simp [bodyKinds], rfl⟩
  · unfold logField at hf
    split at hf
    · rw [List.mem_singleton] at hf
      exact ⟨"log=yes", by rw [hf]; rfl, by decide, "log=", "yes", by simp [bodyKinds], rfl⟩
    · simp at hf

theorem exists_bodies (P : String → Prop) :
    ∀ l : List String, (∀ f ∈ l, ∃ b : String, f = " " ++ b ∧ P b) →
      ∃ mid : List String, mid.map (fun b => " " ++ b) = l ∧ ∀ b ∈ mid, P b := by
  intro l
  induction l with
  | nil => intro _; exact ⟨[], rfl, fun b hb => absurd hb (List.not_mem_nil b)⟩
  | cons f rest ih =>
    intro h
    obtain ⟨b, hb, hP⟩ := h f (List.mem_cons_self _ _)
    obtain ⟨mid, hmid, hall⟩ := ih (fun x hx => h x (List.mem_cons_of_mem _ hx))
    refine ⟨b :: mid, by rw [List.map_cons, hmid, hb], fun x hx => ?_⟩
    rcases List.mem_cons.mp hx with rfl | hx
    · exact hP
    · exact hall x hx

theorem commentField_data (p : Policy) (a : RuleArgs) :
    ∃ rest, (commentField p a).data = ' ' :: commentStart ++ rest := by
  refine ⟨("ID: " ++ itoa p.ID ++
    (if p.Name.length > 0 then " - " ++ replaceAll p.Name "\"" "" else "") ++
    " - " ++ (if a.srcName.length > 0 then a.srcName else a.srcList) ++
    " -> " ++ (if a.dstName.length > 0 then a.dstName else a.dstList) ++ "\"\n").data, ?_⟩
  simp only [commentField, String.data_append, List.append_assoc]
  rfl

/-- The tokens of a rule whose chain, list names and protocol have no space:
`add`, `chain=<chain>`, and the bodies of the fields written up to the comment. -/
theorem ruleTokens_of_rule (p : Policy) (chain : String) (a : RuleArgs) (text : String)
    (h : mikrotikRule p chain a = .ok text) (hc : NoSpace chain) (hs : NoSpace a.srcList)
    (hd : NoSpace a.dstList) (hp : NoSpace a.proto) :
    ∃ mid : List String,
      mikrotikRuleFields p chain a
        = .ok (("add chain=" ++ chain) :: mid.map (fun b => " " ++ b) ++ [commentField p a]) ∧
      (∀ b ∈ mid, ∃ k x : String, k ∈ bodyKinds ∧ b = k ++ x) ∧
      ruleTokens text = "add" :: ("chain=" ++ chain) :: mid := by
  unfold mikrotikRule at h
  cases hf : mikrotikRuleFields p chain a with
  | ok fields =>
    rw [hf] at h
    simp only [Res.ok.injEq] at h
    subst h
    have hf0 := hf
    unfold mikrotikRuleFields at hf
    cases hsf : srcField a.src a.srcList with
    | ok sf =>
      rw [hsf] at hf
      cases hdf : dstField a.dst a.dstList with
      | ok df =>
        rw [hdf] at hf
        simp only [Res.ok.injEq] at hf
        subst hf
        obtain ⟨mid, hmid, hall⟩ := exists_bodies
          (fun b => NoSpace b ∧ ∃ k x : String, k ∈ bodyKinds ∧ b = k ++ x) _
          (rule_mid_bodies p a sf df hsf hdf hs hd hp)
        have hfields : ["add chain=" ++ chain] ++ sf ++ df ++ protoFields a.proto a.svc ++
            actionField p ++ logField p ++ [commentField p a]
            = ("add chain=" ++ chain) :: mid.map (fun b => " " ++ b) ++ [commentField p a] := by
          rw [hmid]
          simp only [List.singleton_append, List.cons_append, List.append_assoc, List.nil_append]
        refine ⟨mid, by rw [← hfields], fun b hb => (hall b hb).2, ?_⟩
        rw [hfields]
        obtain ⟨rest, hrest⟩ := commentField_data p a
        have hdata : (String.join (("add chain=" ++ chain) :: mid.map (fun b => " " ++ b) ++
              [commentField p a])).data
            = joinWith ' ' (("add" : String).data :: ("chain=" ++ chain).data :: mid.map String.data)
                ++ (' ' :: commentStart ++ rest) := by
          rw [join_pieces_data, joinWith_eq_flatMap, ← hrest]
          simp only [List.cons_append, List.flatMap_cons, List.flatMap_append, List.flatMap_map,
            String.data_append, List.flatMap_nil, List.append_nil, List.append_assoc,
            List.flatMap_singleton]
          rfl
        have htok : ∀ t ∈ ("add" : String).data :: ("chain=" ++ chain).data :: mid.map String.data,
            ' ' ∉ t ∧ ∀ xs, commentStart.isPrefixOf (t ++ xs) = false := by
          intro t ht
          simp only [List.mem_cons, List.mem_map] at ht
          rcases ht with rfl | rfl | ⟨b, hb, rfl⟩
          · exact ⟨by decide, isPrefixOf_append_false _ _ (by decide)⟩
          · refine ⟨(noSpace_append _ _).mpr ⟨by decide, hc⟩, fun xs => ?_⟩
            rw [String.data_append, List.append_assoc]
            exact isPrefixOf_append_false _ _ (by decide) _
          · obtain ⟨hns, k, x, hk, rfl⟩ := hall b hb
            refine ⟨hns, fun xs => ?_⟩
            rw [String.data_append, List.append_assoc]
            have hk1 : ∀ k ∈ bodyKinds,
                (commentStart.isPrefixOf k.data || k.data.isPrefixOf commentStart) = false := by
              decide
            exact isPrefixOf_append_false _ _ (hk1 k hk) _
        unfold ruleTokens
        rw [hdata, beforeComment_joinWith _ rest (List.cons_ne_nil _ _) htok,
          splitOnChar_joinWith ' ' _ (List.cons_ne_nil _ _) (fun t ht => (htok t ht).1)]
        simp only [List.map_cons, List.map_map]
        congr 2
        exact List.map_id _
      | panic m => rw [hdf] at hf; cases hf
      | outOfFuel => rw [hdf] at hf; cases hf
    | panic m => rw [hsf] at hf; cases hf
    | outOfFuel => rw [hsf] at hf; cases hf
  | panic m => rw [hf] at h; cases h
  | outOfFuel => rw [hf] at h; cases h

theorem startsWith_space (b q : String) : startsWith (" " ++ b) (" " ++ q) = startsWith b q := by
  simp only [startsWith, String.data_append]
  show (' ' :: q.data).isPrefixOf (' ' :: b.data) = q.data.isPrefixOf b.data
  simp [List.isPrefixOf]

theorem space_append_inj (a b : String) (h : " " ++ a = " " ++ b) : a = b := by
  have := congrArg String.data h
  simp only [String.data_append, List.append_cancel_left_eq] at this
  exact String.ext this

theorem map_space_inj : ∀ l1 l2 : List String,
    l1.map (fun b => " " ++ b) = l2.map (fun b => " " ++ b) → l1 = l2 := by
  intro l1
  induction l1 with
  | nil =>
    intro l2 h
    cases l2 with
    | nil => rfl
    | cons b l2 => simp at h
  | cons a l1 ih =>
    intro l2 h
    cases l2 with
    | nil => simp at h
    | cons b l2 =>
      simp only [List.map_cons, List.cons.injEq] at h
      rw [space_append_inj a b h.1, ih l2 h.2]

/-- The tokens that begin with `q` are the bodies of the fields that begin
with a space and `q`, for a `q` with which neither `add`, `chain=`, the first
field nor the comment begins. -/
theorem filter_tokens (p : Policy) (chain : String) (a : RuleArgs) (mid : List String)
    (q : String) (h1 : startsWith "add" q = false)
    (h2 : (q.data.isPrefixOf ("chain=" : String).data ||
      ("chain=" : String).data.isPrefixOf q.data) = false)
    (h3 : ((" " ++ q).data.isPrefixOf ("add chain=" : String).data ||
      ("add chain=" : String).data.isPrefixOf (" " ++ q).data) = false)
    (h4 : ((" " ++ q).data.isPrefixOf (" comment=\"ID: " : String).data ||
      (" comment=\"ID: " : String).data.isPrefixOf (" " ++ q).data) = false) :
    ((("add" : String) :: ("chain=" ++ chain) :: mid).filter (fun t => startsWith t q)).map
        (fun b => " " ++ b)
      = (("add chain=" ++ chain) :: mid.map (fun b => " " ++ b) ++ [commentField p a]).filter
          (fun f => startsWith f (" " ++ q)) := by
  have e1 : startsWith ("chain=" ++ chain) q = false := startsWith_append_false _ _ _ h2
  have e2 : startsWith ("add chain=" ++ chain) (" " ++ q) = false :=
    startsWith_append_false _ _ _ h3
  have e3 : startsWith (commentField p a) (" " ++ q) = false := commentField_startsWith p a _ h4
  have hmid : ∀ l : List String, (l.filter (fun t => startsWith t q)).map (fun b => " " ++ b)
      = (l.map (fun b => " " ++ b)).filter (fun f => startsWith f (" " ++ q)) := by
    intro l
    induction l with
    | nil => rfl
    | cons b l ih =>
      simp only [List.filter_cons, List.map_cons, startsWith_space]
      split
      · simp only [List.map_cons, ih]
      · exact ih
  simp only [List.cons_append, List.filter_cons, h1, e1, e2, Bool.false_eq_true, if_false,
    List.filter_append, e3, List.filter_nil, List.append_nil]
  exact hmid mid

/-- C15, amended. For every policy satisfying the invariants and every rule
that `mikrotikRule` writes for it with a chain, list names and a protocol
that hold no space: the action of the policy is permit, reject or deny, and
the rule has exactly one token beginning with `action=`, which is
`action=accept` for permit, `action=reject` for reject and `action=drop` for
deny; the rule has the token `log=yes` if and only if the log flag of the
policy is set, and no other token beginning with `log=`. -/
theorem rule_text_action_and_log (p : Policy) (chain : String) (a : RuleArgs) (text : String)
    (hv : p.IsValid = true) (h : mikrotikRule p chain a = .ok text)
    (hc : NoSpace chain) (hs : NoSpace a.srcList) (hd : NoSpace a.dstList)
    (hp : NoSpace a.proto) :
    (p.Action = ActionPermit ∨ p.Action = ActionReject ∨ p.Action = ActionDeny) ∧
      (p.Action = ActionPermit →
        (ruleTokens text).filter (fun t => startsWith t "action=") = ["action=accept"]) ∧
      (p.Action = ActionReject →
        (ruleTokens text).filter (fun t => startsWith t "action=") = ["action=reject"]) ∧
      (p.Action = ActionDeny →
        (ruleTokens text).filter (fun t => startsWith t "action=") = ["action=drop"]) ∧
      ("log=yes" ∈ ruleTokens text ↔ p.Log = true) ∧
      (ruleTokens text).filter (fun t => startsWith t "log=")
        = if p.Log then ["log=yes"] else [] := by
  obtain ⟨mid, hfields, _, htok⟩ := ruleTokens_of_rule p chain a text h hc hs hd hp
  obtain ⟨hact, hA1, hA2, hA3, _, hL⟩ := rule_action_and_log p chain a _ hv hfields
  have hFA := filter_tokens p chain a mid "action=" (by decide) (by decide) (by decide) (by decide)
  have hFL := filter_tokens p chain a mid "log=" (by decide) (by decide) (by decide) (by decide)
  have e1 : (" " ++ "action=" : String) = " action=" := rfl
  have e2 : (" " ++ "log=" : String) = " log=" := rfl
  rw [e1] at hFA
  rw [e2] at hFL
  rw [htok]
  have hlog : (("add" : String) :: ("chain=" ++ chain) :: mid).filter
      (fun t => startsWith t "log=") = if p.Log then ["log=yes"] else [] := by
    apply map_space_inj
    rw [hFL, hL]
    split <;> rfl
  refine ⟨hact, fun ha => ?_, fun ha => ?_, fun ha => ?_, ?_, hlog⟩
  · apply map_space_inj
    rw [hFA, hA1 ha]
    rfl
  · apply map_space_inj
    rw [hFA, hA2 ha]
    rfl
  · apply map_space_inj
    rw [hFA, hA3 ha]
    rfl
  · have hmem : "log=yes" ∈ ("add" : String) :: ("chain=" ++ chain) :: mid ↔
        "log=yes" ∈ (("add" : String) :: ("chain=" ++ chain) :: mid).filter
          (fun t => startsWith t "log=") := by
      rw [List.mem_filter]
      exact ⟨fun hm => ⟨hm, by decide⟩, fun hm => hm.1⟩
    rw [hmem, hlog]
    cases p.Log <;> simp

set_option maxRecDepth 100000 in
/-- C15, counterexample. The policy `injectPolicy` satisfies the invariants,
is what `parse` returns for its creation directive, has the action permit and
no log flag; its to-zone holds spaces. The one rule written for it has the
chain written as it is, so that the rule has two tokens beginning with
`action=`, `action=drop` and `action=accept`, and the token `log=yes`. -/
theorem rule_text_injected_action_and_log :
    injectPolicy.IsValid = true ∧ injectPolicy.Action = ActionPermit ∧ injectPolicy.Log = false ∧
      parse dottedDecimalEnv
          [.policyCreate 8 "" "Trust" injectZone "Servers" "any" "HTTPS" "" "" none "permit" false]
        = .ok ([injectPolicy], GoMap.empty, defaultServices) ∧
      serviceRules dottedDecimalEnv MapOrder.asListed 1 injectPolicy demoStore defaultServices
          "HTTPS" = .ok [injectFields] ∧
      mikrotikRule injectPolicy (injectPolicy.From ++ "__" ++ injectPolicy.To) injectArgs
        = .ok (String.join injectFields) ∧
      (ruleTokens (String.join injectFields)).filter (fun t => startsWith t "action=")
        = ["action=drop", "action=accept"] ∧
      "log=yes" ∈ ruleTokens (String.join injectFields) := by
  refine ⟨by decide, by decide, by decide, rfl, by decide, by decide, by decide, by decide⟩

set_option maxRecDepth 100000 in
/-- Witness of C15, amended: the rule written for the deny policy
`wildcardDenyPolicy` with the arguments `portsArgs` has the one action token
`action=drop`. -/
theorem rule_text_action_and_log_witness :
    mikrotikRule wildcardDenyPolicy "Trust__Untrust" portsArgs = .ok portsRuleText ∧
      (ruleTokens portsRuleText).filter (fun t => startsWith t "action=") = ["action=drop"] :=
  ⟨by decide,
    (rule_text_action_and_log wildcardDenyPolicy "Trust__Untrust" portsArgs portsRuleText
      (by decide) (by decide) (by decide) (by decide) (by decide) (by decide)).2.2.2.1
      (by decide)⟩

theorem token_of_field (fields tokens : List String) (q : String)
    (hF : (tokens.filter (fun t => startsWith t q)).map (fun b => " " ++ b)
      = fields.filter (fun f => startsWith f (" " ++ q)))
    (x : String) (hx : " " ++ x ∈ fields) (hsw : startsWith x q = true) : x ∈ tokens := by
  have hmem : " " ++ x ∈ fields.filter (fun f => startsWith f (" " ++ q)) :=
    List.mem_filter.mpr ⟨hx, by rw [startsWith_space]; exact hsw⟩
  rw [← hF] at hmem
  obtain ⟨t, ht, heq⟩ := List.mem_map.mp hmem
  rw [← space_append_inj _ _ heq]
  exact (List.mem_filter.mp ht).1

theorem noToken_of_noField (fields tokens : List String) (q : String)
    (hF : (tokens.filter (fun t => startsWith t q)).map (fun b => " " ++ b)
      = fields.filter (fun f => startsWith f (" " ++ q)))
    (h : NoField (" " ++ q) fields) : NoToken q tokens := by
  intro t ht
  cases hsw : startsWith t q with
  | false => rfl
  | true =>
    have hmem : " " ++ t ∈ (tokens.filter (fun t => startsWith t q)).map (fun b => " " ++ b) :=
      List.mem_map.mpr ⟨t, List.mem_filter.mpr ⟨ht, hsw⟩, rfl⟩
    rw [hF] at hmem
    obtain ⟨hf, hf2⟩ := List.mem_filter.mp hmem
    rw [h _ hf] at hf2
    cases hf2

/-- The protocol of a call made for a service name: none for the sentinel, or
the protocol of a definition of the catalog entry. -/
theorem mem_callsFor_proto (ord : MapOrder) (services : Services) (serviceName : String)
    (src dst : Endpoints) (calls : List RuleArgs)
    (h : callsFor ord services serviceName src dst = .ok calls) :
    ∀ a ∈ calls, a.proto = "" ∨
      ∃ sl svc, services serviceName = some sl ∧ svc ∈ sl ∧ a.proto = svc.Protocol := by
  have hproto : ∀ (proto : String) (svc : ServiceList) (a : RuleArgs),
      a ∈ ruleArgs src dst proto svc → a.proto = proto := by
    intro proto svc a ha
    simp only [ruleArgs, List.mem_append, List.mem_flatMap, List.mem_map] at ha
    rcases ha with ⟨s, _, ⟨d, _, rfl⟩ | ⟨dl, _, rfl⟩⟩ | ⟨sl, _, ⟨d, _, rfl⟩ | ⟨dl, _, rfl⟩⟩ <;> rfl
  intro a ha
  unfold callsFor at h
  split at h
  · cases h
    exact Or.inl (hproto _ _ a ha)
  · split at h
    · cases h
    · rename_i sl hsl
      cases h
      obtain ⟨proto, hp, hmem⟩ := List.mem_flatMap.mp ha
      obtain ⟨svc, hsvc, hsp⟩ := ((allProtocols_perm ord ord sl).2.1 proto).mp hp
      exact Or.inr ⟨sl, svc, hsl, hsvc, by rw [hproto _ _ a hmem, hsp]⟩

theorem sourceTokens_of_fields (p : Policy) (chain : String) (a : RuleArgs) (mid : List String)
    (s : String) (r : LookupResult)
    (h : SourceFields p s r
      (("add chain=" ++ chain) :: mid.map (fun b => " " ++ b) ++ [commentField p a])) :
    SourceTokens p s r ("add" :: ("chain=" ++ chain) :: mid) := by
  have hF1 := filter_tokens p chain a mid "src-address=" (by decide) (by decide) (by decide)
    (by decide)
  have hF2 := filter_tokens p chain a mid "src-address-list=" (by decide) (by decide)
    (by decide) (by decide)
  have e1 : (" src-address=" : String) = " " ++ "src-address=" := rfl
  have e2 : (" src-address-list=" : String) = " " ++ "src-address-list=" := rfl
  have sw : ∀ (k x : String), startsWith (k ++ x) k = true := by
    intro k x
    simp [startsWith, String.data_append]
  rcases h with ⟨hk, hmem, hno⟩ | ⟨n, hn, hrest⟩
  · refine Or.inl ⟨hk, ?_, noToken_of_noField _ _ _ hF1 (by rw [← e1]; exact hno)⟩
    rw [e2, String.append_assoc] at hmem
    exact token_of_field _ _ _ hF2 _ hmem (sw _ _)
  · refine Or.inr ⟨n, hn, ?_⟩
    split at hrest
    · rename_i hz
      rw [if_pos hz]
      exact ⟨noToken_of_noField _ _ _ hF1 (by rw [← e1]; exact hrest.1),
        noToken_of_noField _ _ _ hF2 (by rw [← e2]; exact hrest.2)⟩
    · rename_i hz
      rw [if_neg hz]
      refine ⟨?_, noToken_of_noField _ _ _ hF2 (by rw [← e2]; exact hrest.2)⟩
      have hmem := hrest.1
      rw [e1, String.append_assoc] at hmem
      exact token_of_field _ _ _ hF1 _ hmem (sw _ _)

theorem destinationTokens_of_fields (p : Policy) (chain : String) (a : RuleArgs)
    (mid : List String) (d : String) (r : LookupResult)
    (h : DestinationFields p d r
      (("add chain=" ++ chain) :: mid.map (fun b => " " ++ b) ++ [commentField p a])) :
    DestinationTokens p d r ("add" :: ("chain=" ++ chain) :: mid) := by
  have hF1 := filter_tokens p chain a mid "dst-address=" (by decide) (by decide) (by decide)
    (by decide)
  have hF2 := filter_tokens p chain a mid "dst-address-list=" (by decide) (by decide)
    (by decide) (by decide)
  have e1 : (" dst-address=" : String) = " " ++ "dst-address=" := rfl
  have e2 : (" dst-address-list=" : String) = " " ++ "dst-address-list=" := rfl
  have sw : ∀ (k x : String), startsWith (k ++ x) k = true := by
    intro k x
    simp [startsWith, String.data_append]
  rcases h with ⟨hk, hmem, hno⟩ | ⟨n, hn, hrest⟩
  · refine Or.inl ⟨hk, ?_, noToken_of_noField _ _ _ hF1 (by rw [← e1]; exact hno)⟩
    rw [e2, String.append_assoc] at hmem
    exact token_of_field _ _ _ hF2 _ hmem (sw _ _)
  · refine Or.inr ⟨n, hn, ?_⟩
    split at hrest
    · rename_i hz
      rw [if_pos hz]
      exact ⟨noToken_of_noField _ _ _ hF1 (by rw [← e1]; exact hrest.1),
        noToken_of_noField _ _ _ hF2 (by rw [← e2]; exact hrest.2)⟩
    · rename_i hz
      rw [if_neg hz]
      refine ⟨?_, noToken_of_noField _ _ _ hF2 (by rw [← e2]; exact hrest.2)⟩
      have hmem := hrest.1
      rw [e1, String.append_assoc] at hmem
      exact token_of_field _ _ _ hF1 _ hmem (sw _ _)

/-- The list name of a call made for a policy holds no space when the zone and
the names of the references resolving to more than one address hold none. -/
theorem list_noSpace_of_call (net : NetEnv) (fuel : Nat) (o : Objects) (zone : String)
    (names : List String) (hz : NoSpace zone)
    (hn : ∀ s ∈ names, ∀ r, Objects.Lookup net fuel o zone s = .ok r → 1 < r.2.length → NoSpace s)
    (l : String) (hl : l = "" ∨ l ∈ (endpointsOf net fuel o zone names).lists) : NoSpace l := by
  rcases hl with rfl | hl
  · decide
  · obtain ⟨n, hmem, r, hr, hk, rfl⟩ := mem_lists_endpointsOf net fuel o zone names l hl
    exact (noSpace_append _ _).mpr ⟨(noSpace_append _ _).mpr ⟨hz, by decide⟩, hn n hmem r hr hk⟩

/-- C6, amended. Take a policy whose zone names hold no space, whose references
resolving to more than one address have names without a space, and a service
name whose catalog protocols hold no space. Every rule written for the service
name is the text `mikrotikRule` returns for a call made for a source reference
and a destination reference of the policy, and the tokens of that text (split
at the spaces, before the trailing comment) are these: for a source resolving
to more than one address, the token `src-address-list=<from-zone>__<name>`
and no token beginning with `src-address=`; for a source resolving to exactly
one address other than 0.0.0.0, the token `src-address=<address>` with that
address and no token beginning with `src-address-list=`; for the address
0.0.0.0, neither token. The reference of a rule resolves to one address or
more, so no rule is written for a reference that resolves to nothing. The same
holds for the destination with the to-zone and the `dst-` tokens. -/
theorem rule_text_address_tokens (net : NetEnv) (ord : MapOrder) (fuel : Nat) (p : Policy)
    (o : Objects) (services : Services) (serviceName : String) (rules : List (List String))
    (hrules : serviceRules net ord fuel p o services serviceName = .ok rules)
    (fields : List String) (hmem : fields ∈ rules)
    (hfrom : NoSpace p.From) (hto : NoSpace p.To)
    (hsrc : ∀ s ∈ p.Sources, ∀ r, Objects.Lookup net fuel o p.From s = .ok r →
      1 < r.2.length → NoSpace s)
    (hdst : ∀ d ∈ p.Destinations, ∀ r, Objects.Lookup net fuel o p.To d = .ok r →
      1 < r.2.length → NoSpace d)
    (hproto : ∀ sl, services serviceName = some sl → ∀ svc ∈ sl, NoSpace svc.Protocol) :
    ∃ (a : RuleArgs) (text : String),
      mikrotikRule p (p.From ++ "__" ++ p.To) a = .ok text ∧ text = String.join fields ∧
      (∃ s ∈ p.Sources, ForSource p s a) ∧ (∃ d ∈ p.Destinations, ForDestination p d a) ∧
      (∀ s ∈ p.Sources, ForSource p s a →
        ∃ r, Objects.Lookup net fuel o p.From s = .ok r ∧ SourceTokens p s r (ruleTokens text)) ∧
      (∀ d ∈ p.Destinations, ForDestination p d a →
        ∃ r, Objects.Lookup net fuel o p.To d = .ok r ∧
          DestinationTokens p d r (ruleTokens text)) := by
  unfold serviceRules at hrules
  cases hc : serviceCalls net ord fuel p o services serviceName with
  | ok calls =>
    rw [hc] at hrules
    obtain ⟨a, ha, hf⟩ := mapRes_mem _ calls rules hrules fields hmem
    obtain ⟨hs, hd⟩ := serviceCalls_ok net ord fuel p o services serviceName calls hc
    rw [serviceCalls_eq net ord fuel p o services serviceName hs hd] at hc
    obtain ⟨proto, svc, hargs⟩ := mem_callsFor ord services serviceName _ _ calls hc a ha
    obtain ⟨s1, s2⟩ := source_fields_for_reference net fuel o p _ proto svc a fields hargs hf
    obtain ⟨d1, d2⟩ := destination_fields_for_reference net fuel o p _ proto svc a fields hargs hf
    have htext : mikrotikRule p (p.From ++ "__" ++ p.To) a = .ok (String.join fields) := by
      unfold mikrotikRule
      rw [hf]
    have hchain : NoSpace (p.From ++ "__" ++ p.To) :=
      (noSpace_append _ _).mpr ⟨(noSpace_append _ _).mpr ⟨hfrom, by decide⟩, hto⟩
    have hsl : NoSpace a.srcList := by
      apply list_noSpace_of_call net fuel o p.From p.Sources hfrom hsrc
      rcases ruleArgs_source_shape _ _ _ _ a hargs with ⟨_, _, _, _, hl⟩ | ⟨sl, hsl, hl⟩
      · exact Or.inl hl
      · exact Or.inr (hl ▸ hsl)
    have hdl : NoSpace a.dstList := by
      apply list_noSpace_of_call net fuel o p.To p.Destinations hto hdst
      rcases ruleArgs_destination_shape _ _ _ _ a hargs with ⟨_, _, _, _, hl⟩ | ⟨dl, hdl, hl⟩
      · exact Or.inl hl
      · exact Or.inr (hl ▸ hdl)
    have hpr : NoSpace a.proto := by
      rcases mem_callsFor_proto ord services serviceName _ _ calls hc a ha with h0 | ⟨sl, sv, h1, h2, h3⟩
      · rw [h0]; decide
      · rw [h3]; exact hproto sl h1 sv h2
    obtain ⟨mid, hfe, _, htok⟩ := ruleTokens_of_rule p _ a _ htext hchain hsl hdl hpr
    rw [hf] at hfe
    have hfields := Res.ok.inj hfe
    refine ⟨a, _, htext, rfl, s1, d1, ?_, ?_⟩
    · intro s hs1 hs2
      obtain ⟨r, hr, hsf⟩ := s2 s hs1 hs2
      refine ⟨r, hr, ?_⟩
      rw [htok]
      rw [hfields] at hsf
      exact sourceTokens_of_fields p _ a mid s r hsf
    · intro d hd1 hd2
      obtain ⟨r, hr, hdf⟩ := d2 d hd1 hd2
      refine ⟨r, hr, ?_⟩
      rw [htok]
      rw [hfields] at hdf
      exact destinationTokens_of_fields p _ a mid d r hdf
  | panic m => rw [hc] at hrules; cases hrules
  | outOfFuel => rw [hc] at hrules; cases hrules

set_option maxRecDepth 100000 in
/-- C6, counterexample. The policy `injectPolicy` satisfies the invariants and
is what `parse` returns for its creation directive; its to-zone holds spaces.
Its source "Servers" resolves to two addresses, and the one rule written for
it is the call made for that source. The chain is written as it is, so the
text of the rule has the token `src-address=6.6.6.6` beside the token
`src-address-list=Trust__Servers`: a rule for a reference with more than one
address that has a `src-address` token. -/
theorem rule_text_injected_address :
    injectPolicy.IsValid = true ∧
      parse dottedDecimalEnv
          [.policyCreate 8 "" "Trust" injectZone "Servers" "any" "HTTPS" "" "" none "permit" false]
        = .ok ([injectPolicy], GoMap.empty, defaultServices) ∧
      serviceRules dottedDecimalEnv MapOrder.asListed 1 injectPolicy demoStore defaultServices
          "HTTPS" = .ok [injectFields] ∧
      mikrotikRule injectPolicy (injectPolicy.From ++ "__" ++ injectPolicy.To) injectArgs
        = .ok (String.join injectFields) ∧
      ForSource injectPolicy "Servers" injectArgs ∧
      Objects.Lookup dottedDecimalEnv 1 demoStore injectPolicy.From "Servers"
        = .ok (["Server1", "Server2"], [some net10_0_0_1, some net10_0_0_2]) ∧
      "src-address-list=Trust__Servers" ∈ ruleTokens (String.join injectFields) ∧
      "src-address=6.6.6.6" ∈ ruleTokens (String.join injectFields) ∧
      ¬ SourceTokens injectPolicy "Servers"
          (["Server1", "Server2"], [some net10_0_0_1, some net10_0_0_2])
          (ruleTokens (String.join injectFields)) := by
  refine ⟨by decide, rfl, by decide, by decide, Or.inr rfl, by decide, by decide, by decide, ?_⟩
  rintro (⟨_, _, hno⟩ | ⟨n, hn, _⟩)
  · exact absurd (hno "src-address=6.6.6.6" (by decide)) (by decide)
  · cases hn

set_option maxRecDepth 100000 in
/-- Witness of C6, amended: the policy `groupPolicy` on `demoStore`, whose
source "Servers" resolves to two addresses and whose destination "Server2" to
one; the rule is the first of the two written for the service "HTTPS". -/
theorem rule_text_address_tokens_witness :
    ∃ (a : RuleArgs) (text : String),
      mikrotikRule groupPolicy (groupPolicy.From ++ "__" ++ groupPolicy.To) a = .ok text ∧
      text = String.join groupFields ∧
      (∃ s ∈ groupPolicy.Sources, ForSource groupPolicy s a) ∧
      (∃ d ∈ groupPolicy.Destinations, ForDestination groupPolicy d a) ∧
      (∀ s ∈ groupPolicy.Sources, ForSource groupPolicy s a →
        ∃ r, Objects.Lookup dottedDecimalEnv 1 demoStore groupPolicy.From s = .ok r ∧
          SourceTokens groupPolicy s r (ruleTokens text)) ∧
      (∀ d ∈ groupPolicy.Destinations, ForDestination groupPolicy d a →
        ∃ r, Objects.Lookup dottedDecimalEnv 1 demoStore groupPolicy.To d = .ok r ∧
          DestinationTokens groupPolicy d r (ruleTokens text)) :=
  rule_text_address_tokens dottedDecimalEnv MapOrder.asListed 1 groupPolicy demoStore
    defaultServices "HTTPS" groupRules (by decide) groupFields (by decide) (by decide) (by decide)
    (fun s hs _ _ _ => (by decide : ∀ s ∈ groupPolicy.Sources, NoSpace s) s hs)
    (fun d hd _ _ _ => (by decide : ∀ d ∈ groupPolicy.Destinations, NoSpace d) d hd)
    (fun sl hsl => by
      have hdef : defaultServices "HTTPS" = some [⟨"tcp", 0, 0, 65535, 443, 443⟩] := by decide
      rw [hdef] at hsl
      cases hsl
      decide)

/-! ## The block of statements of a reference in the address-list section (C7) -/

end Netscreen
